import Mathlib

/-! # Prefix assignment (proto/ospf/pxassign.c)

A shallow embedding of the prefix-assignment core of the OSPFv3 homenet
extension: prefix arithmetic, the candidate chooser, the responsibility
resolver, the assignment executor and the mark-and-sweep run over an area.

Conventions of the embedding:

* an `ip_addr` is the four 32-bit words `addr[0..3]` of the C structure, most
  significant word first;
* machine integers are `Nat`; where the C code relies on the width of a type
  the reduction is written out (`% 2 ^ 32`);
* a C function that can abort (`die`), read outside an array, dereference a
  null pointer or loop for an unknown number of rounds returns in
  `Except Fault`;
* pointers into lists (`self_r_px`, `ifa`) are positions in the list.
-/

namespace Pxassign

/-! ## Addresses and prefixes -/

/-- Four 32-bit words, `addr[0]` first, as in `ip_addr` of the IPv6 build. -/
structure ip_addr where
  a0 : Nat
  a1 : Nat
  a2 : Nat
  a3 : Nat
deriving DecidableEq, Repr

/-- The C `struct prefix`: an address and a length in bits. -/
structure Prefix where
  addr : ip_addr
  len : Nat
deriving DecidableEq, Repr

/-- Reasons for which a run of the C code yields no result. -/
inductive Fault where
  | undefined_access   -- array index out of range or null pointer dereference
  | die                -- the code called die()
  | out_of_fuel        -- the loop bound of the embedding was reached
deriving DecidableEq, Repr

/-- Results in `Except` can be compared when errors and values can. -/
instance instDecidableEqExcept {ε α : Type} [DecidableEq ε] [DecidableEq α] :
    DecidableEq (Except ε α) := fun x y =>
  match x, y with
  | .ok a, .ok b => if h : a = b then isTrue (by rw [h]) else isFalse (fun e => h (by cases e; rfl))
  | .error a, .error b =>
    if h : a = b then isTrue (by rw [h]) else isFalse (fun e => h (by cases e; rfl))
  | .ok _, .error _ => isFalse (fun e => by cases e)
  | .error _, .ok _ => isFalse (fun e => by cases e)

/-- Read of `a.addr[i]`; indices outside `0..3` are outside the array. -/
def ip_addr.get (a : ip_addr) (i : Nat) : Except Fault Nat :=
  match i with
  | 0 => .ok a.a0
  | 1 => .ok a.a1
  | 2 => .ok a.a2
  | 3 => .ok a.a3
  | _ => .error .undefined_access

/-- Write of `a.addr[i] = v` for an index inside the array. -/
def ip_addr.set (a : ip_addr) (i : Nat) (v : Nat) : ip_addr :=
  match i with
  | 0 => { a with a0 := v }
  | 1 => { a with a1 := v }
  | 2 => { a with a2 := v }
  | 3 => { a with a3 := v }
  | _ => a

/-- Modelled from the spec: the all-zero address `IPA_NONE` (lib/ip.h is not
among the sources). -/
def IPA_NONE : ip_addr := ⟨0, 0, 0, 0⟩

/-- Modelled from the spec: `u32_mkmask n`, the 32-bit word whose top `n` bits
are set (lib/bitops.c is not among the sources). -/
def u32_mkmask (n : Nat) : Nat := (2 ^ n - 1) <<< (32 - n)

/-- Modelled from the spec: `ipa_mkmask n`, the address whose top `n` bits are
set, word by word (lib/ipv6.c is not among the sources). -/
def ipa_mkmask (n : Nat) : ip_addr :=
  ⟨u32_mkmask (min n 32), u32_mkmask (min (n - 32) 32),
   u32_mkmask (min (n - 64) 32), u32_mkmask (min (n - 96) 32)⟩

/-- Modelled from the spec: word-wise and (lib/ipv6.h is not among the sources). -/
def ipa_and (a b : ip_addr) : ip_addr :=
  ⟨a.a0 &&& b.a0, a.a1 &&& b.a1, a.a2 &&& b.a2, a.a3 &&& b.a3⟩

/-- Modelled from the spec: word-wise or. -/
def ipa_or (a b : ip_addr) : ip_addr :=
  ⟨a.a0 ||| b.a0, a.a1 ||| b.a1, a.a2 ||| b.a2, a.a3 ||| b.a3⟩

/-- Modelled from the spec: word-wise exclusive or. -/
def ipa_xor (a b : ip_addr) : ip_addr :=
  ⟨a.a0 ^^^ b.a0, a.a1 ^^^ b.a1, a.a2 ^^^ b.a2, a.a3 ^^^ b.a3⟩

/-- Modelled from the spec: word-wise complement of 32-bit words. -/
def ipa_not (a : ip_addr) : ip_addr :=
  ⟨0xFFFFFFFF ^^^ a.a0, 0xFFFFFFFF ^^^ a.a1, 0xFFFFFFFF ^^^ a.a2, 0xFFFFFFFF ^^^ a.a3⟩

/-- Modelled from the spec: equality of addresses. -/
def ipa_equal (a b : ip_addr) : Bool := decide (a = b)

/-- Modelled from the spec: `ipa_compare a b < 0`, the unsigned comparison of
two addresses, most significant word first. -/
def ipa_less (a b : ip_addr) : Bool :=
  decide (a.a0 < b.a0) ||
  (decide (a.a0 = b.a0) && (decide (a.a1 < b.a1) ||
  (decide (a.a1 = b.a1) && (decide (a.a2 < b.a2) ||
  (decide (a.a2 = b.a2) && decide (a.a3 < b.a3))))))

/-- Modelled from the spec: `net_in_net(a, alen, b, blen)`: the prefix
`a/alen` lies inside `b/blen`, that is `alen ≥ blen` and the top `blen` bits of
`a` equal those of `b` (the macro of lib/ip.h is not among the sources). -/
def net_in_net (a : ip_addr) (alen : Nat) (b : ip_addr) (blen : Nat) : Bool :=
  decide (blen ≤ alen) && decide (ipa_and (ipa_xor a b) (ipa_mkmask blen) = IPA_NONE)

/-- The spec's `contains(p, q)`: `q` lies inside `p`. -/
def contains (p q : Prefix) : Bool := net_in_net q.addr q.len p.addr p.len

/-- The spec's `overlaps(p, q)`. -/
def overlaps (p q : Prefix) : Bool := contains p q || contains q p

/-- Strict containment as the code tests it: inside, and not the same pair. -/
def strictly_inside (q p : Prefix) : Bool :=
  net_in_net q.addr q.len p.addr p.len && (!ipa_equal q.addr p.addr || decide (q.len ≠ p.len))

/-! ## Assignment records -/

/-- The C `struct prefix_node` as used in `asp_list` and in the used list. -/
structure prefix_node where
  px : Prefix
  rid : Nat
  my_rid : Nat
  pa_priority : Nat
  valid : Bool
deriving DecidableEq, Repr

/-! ## next_prefix, random_prefix, in_use, choose_prefix -/

/-- The index `(len - 1) / 32` with `len` an `unsigned int`. -/
def word_index (len : Nat) : Nat := ((len + 2 ^ 32 - 1) % 2 ^ 32) / 32

/-- The increment `0x80000000 >> ((len - 1) % 32)` with `len` an `unsigned int`. -/
def word_unit (len : Nat) : Nat := 0x80000000 >>> (((len + 2 ^ 32 - 1) % 2 ^ 32) % 32)

/-- The carry loop `while(i >= 0)` of the first half of next_prefix, entered
after `pxa->addr.addr[i--] = 0`. The argument `k` is the number of words left
of the one just cleared; the index is unsigned, so with `k = 0` the loop
condition still holds and the read `addr[0xFFFFFFFF]` is outside the array. -/
def carry_a (a : ip_addr) : Nat → Except Fault ip_addr
  | 0 => .error .undefined_access
  | k + 1 => do
    let w ← a.get k
    let add := w + 1
    if add < 0xFFFFFFFF then
      .ok (a.set k (add % 2 ^ 32))
    else
      carry_a (a.set k 0) k

/-- The carry loop of the second half of next_prefix: the words are read from
`pxb` and written to `pxa`, and the result is masked to `pxb->len`. -/
def carry_b (a b : ip_addr) (blen : Nat) : Nat → Except Fault ip_addr
  | 0 => .error .undefined_access
  | k + 1 => do
    let w ← b.get k
    let add := w + 1
    if add < 0xFFFFFFFF then
      .ok (ipa_and (a.set k (add % 2 ^ 32)) (ipa_mkmask blen))
    else
      carry_b (a.set k 0) b blen k

/-- The function next_prefix: the address it leaves in `pxa->addr`. -/
def next_prefix_addr (pxa pxb : Prefix) : Except Fault ip_addr :=
  if pxa.len < pxb.len then do
    -- pxa is the covering prefix
    let i := word_index pxa.len
    let w ← pxa.addr.get i
    let add := w + word_unit pxa.len
    if add < 0xFFFFFFFF then
      .ok (pxa.addr.set i (add % 2 ^ 32))
    else
      carry_a (pxa.addr.set i 0) i
  else do
    -- otherwise, pxb is the covering prefix
    let i := word_index pxb.len
    let w ← pxb.addr.get i
    let add := w + word_unit pxb.len
    if add < 0xFFFFFFFF then
      .ok (ipa_and (pxa.addr.set i (add % 2 ^ 32)) (ipa_mkmask pxb.len))
    else
      carry_b (pxa.addr.set i 0) pxb.addr pxb.len i

/-- The function next_prefix: the new value of `*pxa`; the length is not
touched. -/
def next_prefix (pxa pxb : Prefix) : Except Fault Prefix :=
  match next_prefix_addr pxa pxb with
  | .ok a => .ok { pxa with addr := a }
  | .error e => .error e

/-- The digest of random_prefix: MD5 over the interface name, the router id
and the iteration number, copied into an address. MD5 (lib/md5.c) is not among
the sources; the digest is a parameter of the embedding. -/
abbrev Digest := String → Nat → Nat → ip_addr

/-- The function random_prefix: the address stored in `pxsub`. -/
def random_prefix (md5 : Digest) (px : Prefix) (pxsub_len : Nat) (rid : Nat)
    (ifname : String) (i : Nat) : ip_addr :=
  let a := md5 ifname rid i
  -- clean up right part of prefix
  let a := ipa_and a (ipa_mkmask pxsub_len)
  -- clean up left part of prefix
  let a := ipa_and a (ipa_not (ipa_mkmask px.len))
  -- set left part of prefix
  ipa_or a px.addr

/-- The overlap test written twice in the source (in_use and choose_prefix). -/
def collides (px : Prefix) (n : prefix_node) : Bool :=
  net_in_net px.addr px.len n.px.addr n.px.len || net_in_net n.px.addr n.px.len px.addr px.len

/-- The function in_use. -/
def in_use (px : Prefix) (used : List prefix_node) : Bool :=
  used.any (collides px)

/-- Return codes of choose_prefix. -/
inductive pxchoose where
  | PXCHOOSE_SUCCESS
  | PXCHOOSE_FAILURE
deriving DecidableEq, Repr

/-- The ten random attempts of choose_prefix, from iteration `i` on. `none`:
all attempts were in use; the last candidate is then `random_prefix … 9`. -/
def choose_random (md5 : Digest) (pxu : Prefix) (len : Nat) (used : List prefix_node)
    (rid : Nat) (ifname : String) : Nat → Nat → Option Prefix
  | _, 0 => none
  | i, n + 1 =>
    let px : Prefix := ⟨ random_prefix md5 pxu len rid ifname i, len⟩
    if !in_use px used then some px else choose_random md5 pxu len used rid ifname (i + 1) n

/-- The first statement of the loop body of choose_prefix: a candidate outside
the usable prefix is replaced by the lowest prefix of the range and `looped`
is set. -/
def scan_enter (pxu px : Prefix) (looped : Bool) : Prefix × Bool :=
  if !net_in_net px.addr px.len pxu.addr pxu.len then ({ px with addr := pxu.addr }, true)
  else (px, looped)

/-- The last statement of the loop body of choose_prefix: next_prefix is
applied with the first element of `used` that overlaps the candidate. -/
def scan_advance (used : List prefix_node) (px : Prefix) : Except Fault Prefix :=
  match used.find? (collides px) with
  | some n => next_prefix px n.px
  | none => .ok px

/-- The linear scan of choose_prefix (the `while` loop); `fuel` bounds the
number of rounds. -/
def choose_scan (pxu : Prefix) (used : List prefix_node) (start : Prefix) :
    Nat → Prefix → Bool → Except Fault (pxchoose × Prefix)
  | 0, _, _ => .error .out_of_fuel
  | fuel + 1, px, looped =>
    if !looped || ipa_less px.addr start.addr then
      let e := scan_enter pxu px looped
      if !in_use e.1 used then
        .ok (.PXCHOOSE_SUCCESS, e.1)
      else
        match scan_advance used e.1 with
        | .ok px1 => choose_scan pxu used start fuel px1 e.2
        | .error f => .error f
    else
      .ok (.PXCHOOSE_FAILURE, px)

/-- The function choose_prefix: the return code and the final value of `*px`,
whose length `len` is set by the caller. -/
def choose_prefix (md5 : Digest) (fuel : Nat) (pxu : Prefix) (len : Nat)
    (used : List prefix_node) (rid : Nat) (ifname : String) :
    Except Fault (pxchoose × Prefix) :=
  match choose_random md5 pxu len used rid ifname 0 10 with
  | some px => .ok (.PXCHOOSE_SUCCESS, px)
  | none =>
    let px : Prefix := ⟨ random_prefix md5 pxu len rid ifname 9, len⟩
    choose_scan pxu used px fuel px false

/-! ## Interfaces, neighbors and the AC link-state database -/

/-- Modelled from the spec: the default (preferred) length of an assigned
prefix, `L_pref` (the constant is declared in ospf.h, not among the sources). -/
def LSA_AC_ASP_D_PREFIX_LENGTH : Nat := 64

/-- Modelled from the spec: the fallback length of an assigned prefix, `L_fall`. -/
def LSA_AC_ASP_SUB_PREFIX_LENGTH : Nat := 80

/-- Modelled from the spec: the greatest prefix-assignment priority. -/
def PA_PRIORITY_MAX : Nat := 255

/-- Modelled from the spec: the neighbor state Init (Down, Attempt, Init, …). -/
def NEIGHBOR_INIT : Nat := 2

/-- The fields of `struct ospf_neighbor` the algorithm reads or writes. -/
structure ospf_neighbor where
  rid : Nat
  state : Nat
  iface_id : Nat
  pa_priority : Nat
  pa_pxlen : Nat
deriving DecidableEq, Repr

/-- The fields of `struct ospf_iface` the algorithm reads or writes; `oa` is
the identifier of the area the interface belongs to. -/
structure ospf_iface where
  name : String
  oa : Nat
  pa_priority : Nat
  asp_list : List prefix_node
  neigh_list : List ospf_neighbor
deriving DecidableEq, Repr

/-- Modelled from the spec: an IASP TLV with its nested ASP TLVs (the TLV
layout and the PARSE_LSA_AC macros are declared in ospf.h, not among the
sources). -/
structure lsa_iasp where
  id : Nat
  pa_priority : Nat
  pa_pxlen : Nat
  asps : List Prefix
deriving DecidableEq, Repr

/-- Modelled from the spec: one AC-LSA of the area (a `top_hash_entry`):
the advertising router `lsa.rt`, its USP TLVs and its IASP TLVs, each in
the order of the LSA body. -/
structure ac_lsa where
  rt : Nat
  usps : List Prefix
  iasps : List lsa_iasp
deriving DecidableEq, Repr

/-- A call of the kernel address configurator (the `ip -6 addr` command line). -/
inductive kcall where
  | add (ifname : String) (addr : ip_addr) (len : Nat) (my_rid : Nat)
  | del (ifname : String) (addr : ip_addr) (len : Nat) (my_rid : Nat)
deriving DecidableEq, Repr

/-- The fields of `struct proto_ospf` the algorithm reads or writes, with the
sequence of kernel calls issued so far. -/
structure proto_ospf where
  router_id : Nat
  iface_list : List ospf_iface
  klog : List kcall
deriving DecidableEq, Repr

/-- Modelled from the spec: PARSE_LSA_AC_USP_START, the USP TLVs of all AC-LSAs
in LSDB order. -/
def lsdb_usps (db : List ac_lsa) : List Prefix := db.flatMap (fun en => en.usps)

/-- Replace the interface at position `i`. -/
def set_iface (po : proto_ospf) (i : Nat) (ifa : ospf_iface) : proto_ospf :=
  { po with iface_list := po.iface_list.set i ifa }

/-- The function configure_ifa_add_prefix on the interface at position `i`:
the record is appended to `asp_list` with `valid = 1` and the address is
configured. -/
def configure_ifa_add_prefix (addr : ip_addr) (len rid my_rid pa_priority : Nat)
    (po : proto_ospf) (i : Nat) : proto_ospf :=
  match po.iface_list[i]? with
  | none => po
  | some ifa =>
    { set_iface po i { ifa with asp_list := ifa.asp_list ++ [⟨⟨addr, len⟩, rid, my_rid, pa_priority, true⟩] }
      with klog := po.klog ++ [kcall.add ifa.name addr len my_rid] }

/-- The function configure_ifa_del_prefix for the record at position `j` of
the interface at position `i`: the address is removed and the record unlinked. -/
def configure_ifa_del_prefix (po : proto_ospf) (i j : Nat) : proto_ospf :=
  match po.iface_list[i]? with
  | none => po
  | some ifa =>
    match ifa.asp_list[j]? with
    | none => po
    | some pxn =>
      { set_iface po i { ifa with asp_list := ifa.asp_list.eraseIdx j }
        with klog := po.klog ++ [kcall.del ifa.name pxn.px.addr pxn.px.len pxn.my_rid] }

/-- The kernel calls of deleting, in list order, the records of one interface
that satisfy `p`. -/
def del_calls (ifa : ospf_iface) (p : prefix_node → Bool) : List kcall :=
  (ifa.asp_list.filter p).map (fun n => kcall.del ifa.name n.px.addr n.px.len n.my_rid)

/-- The loops `WALK_LIST(ifa2, po->iface_list) if(ifa2->oa == oa)
WALK_LIST_DELSAFE(n, pxn, ifa2->asp_list) if(p n) configure_ifa_del_prefix(n, ifa2)`:
every record of the area that satisfies `p` is deleted, interface by interface
and in list order. -/
def delete_where (oa : Nat) (p : prefix_node → Bool) (po : proto_ospf) : proto_ospf :=
  { po with
    iface_list := po.iface_list.map (fun ifa2 =>
      if ifa2.oa = oa then { ifa2 with asp_list := ifa2.asp_list.filter (fun n => !p n) } else ifa2)
    klog := po.klog ++ po.iface_list.flatMap (fun ifa2 =>
      if ifa2.oa = oa then del_calls ifa2 p else []) }

/-- Some record of the area satisfies `p` (the scans that only set a flag). -/
def area_any (oa : Nat) (p : ospf_iface → prefix_node → Bool) (po : proto_ospf) : Bool :=
  po.iface_list.any (fun ifa2 => decide (ifa2.oa = oa) && ifa2.asp_list.any (p ifa2))

/-- The function assignment_find: the position in `asp_list` of the first
record owned by us that lies inside `usp`. -/
def assignment_find (router_id : Nat) (ifa : ospf_iface) (usp : Prefix) : Option Nat :=
  let j := ifa.asp_list.findIdx
    (fun aspn => decide (aspn.rid = router_id) && net_in_net aspn.px.addr aspn.px.len usp.addr usp.len)
  if j < ifa.asp_list.length then some j else none

/-! ## The responsibility resolver (steps 5.3.0 to 5.3.2) -/

/-- Modelled from the spec: PARSE_LSA_AC_IASP_ROUTER_START restricted by
`iasp->id == neigh->iface_id`: the IASP TLVs the router `neigh->rid` advertises
for the interface it has on this link, in LSDB order. -/
def neighbor_iasps (db : List ac_lsa) (neigh : ospf_neighbor) : List lsa_iasp :=
  ((db.filter (fun en => decide (en.rt = neigh.rid))).flatMap (fun en => en.iasps)).filter
    (fun iasp => decide (iasp.id = neigh.iface_id))

/-- Step 5.3.2a for one neighbor: `neigh->pa_priority` and `neigh->pa_pxlen`
are overwritten by every matching IASP. -/
def refresh_neighbor (db : List ac_lsa) (neigh : ospf_neighbor) : ospf_neighbor :=
  if NEIGHBOR_INIT ≤ neigh.state then
    (neighbor_iasps db neigh).foldl
      (fun n iasp => { n with pa_priority := iasp.pa_priority, pa_pxlen := iasp.pa_pxlen }) neigh
  else neigh

/-- Step 5.3.2a: the greatest priority among the IASPs of the active neighbors
(`highest_link_pa_priority` before it is compared with ours; it starts at 0). -/
def link_pa_priority (db : List ac_lsa) (neighs : List ospf_neighbor) : Nat :=
  neighs.foldl (fun h neigh =>
    if NEIGHBOR_INIT ≤ neigh.state then
      (neighbor_iasps db neigh).foldl (fun h iasp => if iasp.pa_priority > h then iasp.pa_priority else h) h
    else h) 0

/-- The variables `assignment_found`, `neigh_rid`, `neigh_r_addr/len` of 5.3.2c. -/
structure peer_acc where
  assignment_found : Bool
  neigh_rid : Nat
  neigh_r : Prefix
deriving DecidableEq, Repr

/-- Step 5.3.2c, the IASP loop inside one LSA of the neighbor: the first ASP
inside `usp` of a matching IASP is stored; PARSE_LSA_AC_ASP_BREAKIF leaves the
loop after a matching IASP as soon as `assignment_found` is set. -/
def peer_iasps (usp : Prefix) (neigh : ospf_neighbor) : List lsa_iasp → peer_acc → peer_acc
  | [], acc => acc
  | iasp :: rest, acc =>
    if iasp.id = neigh.iface_id then
      let acc := match iasp.asps.find? (fun a => net_in_net a.addr a.len usp.addr usp.len) with
        | some a => { assignment_found := true, neigh_rid := neigh.rid, neigh_r := a }
        | none => acc
      if acc.assignment_found then acc else peer_iasps usp neigh rest acc
    else peer_iasps usp neigh rest acc

/-- Step 5.3.2c, the loop over the LSAs of the neighbor;
PARSE_LSA_AC_IASP_ROUTER_BREAKIF leaves it as soon as `assignment_found` is set. -/
def peer_lsas (usp : Prefix) (neigh : ospf_neighbor) : List ac_lsa → peer_acc → peer_acc
  | [], acc => acc
  | en :: rest, acc =>
    if en.rt = neigh.rid then
      let acc := peer_iasps usp neigh en.iasps acc
      if acc.assignment_found then acc else peer_lsas usp neigh rest acc
    else peer_lsas usp neigh rest acc

/-- Step 5.3.2c: the walk over the neighbor list. -/
def peer_assignment (db : List ac_lsa) (usp : Prefix) (highest : Nat)
    (neighs : List ospf_neighbor) : peer_acc :=
  neighs.foldl (fun acc neigh =>
    if neigh.pa_priority = highest ∧ neigh.rid > acc.neigh_rid ∧ NEIGHBOR_INIT ≤ neigh.state then
      peer_lsas usp neigh db acc
    else acc) ⟨false, 0, ⟨IPA_NONE, 0⟩⟩

/-- The values computed by steps 5.3.2a to 5.3.2d. -/
structure resolution where
  have_highest_link_pa_priority : Bool
  highest_link_pa_priority : Nat
  have_highest_rid : Bool
  assignment_found : Bool
  neigh_rid : Nat
  neigh_r : Prefix
  have_assignment_resp : Bool
  self_r_px : Option Nat
deriving DecidableEq, Repr

/-- Steps 5.3.2a to 5.3.2d on an interface whose neighbors have been refreshed. -/
def resolve (db : List ac_lsa) (router_id : Nat) (ifa : ospf_iface) (usp : Prefix) : resolution :=
  let h := link_pa_priority db ifa.neigh_list
  let have_hlp := decide (h ≤ ifa.pa_priority)
  let highest := if h ≤ ifa.pa_priority then ifa.pa_priority else h
  let have_highest_rid := !ifa.neigh_list.any (fun neigh =>
    decide (NEIGHBOR_INIT ≤ neigh.state) && decide (neigh.pa_priority = ifa.pa_priority)
      && decide (neigh.rid > router_id))
  let peer := peer_assignment db usp highest ifa.neigh_list
  let self_r := if ifa.pa_priority = highest ∧ router_id > peer.neigh_rid then
      assignment_find router_id ifa usp else none
  { have_highest_link_pa_priority := have_hlp
    highest_link_pa_priority := highest
    have_highest_rid := have_highest_rid
    assignment_found := peer.assignment_found
    neigh_rid := peer.neigh_rid
    neigh_r := peer.neigh_r
    have_assignment_resp := self_r.isSome
    self_r_px := self_r }

/-- The test of 5.3.3 under which the function returns at once. -/
def early_exit (r : resolution) : Bool :=
  (!r.have_highest_link_pa_priority || (!r.have_assignment_resp && !r.have_highest_rid))
    && !r.assignment_found

/-- The guard of step 5.3.4. -/
def guard_step4 (r : resolution) : Bool :=
  r.have_highest_link_pa_priority && r.have_assignment_resp

/-- The guard of step 5.3.5. -/
def guard_step5 (r : resolution) : Bool :=
  (!r.have_assignment_resp || !r.have_highest_link_pa_priority) && r.assignment_found

/-- The part of the guard of step 5.3.6 that does not depend on step 5.3.4. -/
def guard_step6 (r : resolution) : Bool :=
  r.have_highest_link_pa_priority && !r.have_assignment_resp && !r.assignment_found
    && r.have_highest_rid

/-! ## The used-set collector (find_used) -/

/-- The output parameters of find_used. -/
structure used_acc where
  used : List prefix_node
  steal : Prefix
  found_steal : Bool
  split : Prefix
  found_split : Bool
  lowest_pa_priority : Nat
deriving DecidableEq, Repr

/-- The body executed by find_used for one collected prefix `px` advertised or
held with priority `prio` by router `rid`. -/
def used_step (ifa_priority : Nat) (acc : used_acc) (e : Prefix × Nat × Nat) : used_acc :=
  let px := e.1
  let prio := e.2.1
  let rid := e.2.2
  -- add prefix to list of used prefixes
  let acc := { acc with used := acc.used ++ [⟨px, rid, 0, prio, false⟩] }
  -- test if assigned prefix is stealable
  let acc := if prio < acc.lowest_pa_priority then
      { acc with steal := ⟨ipa_and px.addr (ipa_mkmask LSA_AC_ASP_D_PREFIX_LENGTH), LSA_AC_ASP_D_PREFIX_LENGTH⟩,
                 lowest_pa_priority := prio, found_steal := true }
    else acc
  -- test if assigned prefix is splittable
  if !acc.found_split && decide (prio = ifa_priority) && decide (px.len = LSA_AC_ASP_D_PREFIX_LENGTH) then
    { acc with split := px, found_split := true }
  else acc

/-- The ASPs inside `usp` advertised by routers other than us, in LSDB order,
each with the priority of its IASP and the advertising router. -/
def lsdb_used (db : List ac_lsa) (router_id : Nat) (usp : Prefix) : List (Prefix × Nat × Nat) :=
  (db.filter (fun en => decide (en.rt ≠ router_id))).flatMap (fun en =>
    en.iasps.flatMap (fun iasp =>
      (iasp.asps.filter (fun a => net_in_net a.addr a.len usp.addr usp.len)).map
        (fun a => (a, iasp.pa_priority, en.rt))))

/-- The test of find_used and try_steal that leaves the record `self_r_px` of
interface `ifa` out of consideration: `!self_r_px || (addresses or lengths
differ) || ifa != ifa2`. -/
def not_self (self_r : Option prefix_node) (same_iface : Bool) (n : prefix_node) : Bool :=
  match self_r with
  | none => true
  | some s => (!ipa_equal s.px.addr n.px.addr || decide (s.px.len ≠ n.px.len)) || !same_iface

/-- The records inside `usp` we own on the interfaces of the area, with the
priority of the interface that holds them. Interfaces are numbered from `k`. -/
def own_used (router_id oa : Nat) (usp : Prefix) (i : Nat) (self_r : Option prefix_node) :
    Nat → List ospf_iface → List (Prefix × Nat × Nat)
  | _, [] => []
  | k, ifa2 :: rest =>
    (if ifa2.oa = oa then
      (ifa2.asp_list.filter (fun n => decide (n.rid = router_id)
          && net_in_net n.px.addr n.px.len usp.addr usp.len
          && not_self self_r (decide (k = i)) n)).map (fun n => (n.px, ifa2.pa_priority, n.rid))
    else []) ++ own_used router_id oa usp i self_r (k + 1) rest

/-- The function find_used for the interface at position `i`. -/
def find_used (db : List ac_lsa) (po : proto_ospf) (i : Nat) (ifa : ospf_iface) (usp : Prefix)
    (self_r : Option prefix_node) : used_acc :=
  (lsdb_used db po.router_id usp ++ own_used po.router_id ifa.oa usp i self_r 0 po.iface_list).foldl
    (used_step ifa.pa_priority)
    ⟨[], ⟨IPA_NONE, 0⟩, false, ⟨IPA_NONE, 0⟩, false, ifa.pa_priority⟩

/-! ## The allocation steps (try_assign_unused, try_steal, try_split) -/

/-- The state threaded through the allocation steps: the protocol instance and
the variables `pxchoose_success` and `change`. -/
structure alloc_state where
  po : proto_ospf
  pxchoose_success : Bool
  change : Bool
deriving DecidableEq, Repr

/-- The function try_reuse (`// FIXME implement`). -/
def try_reuse (st : alloc_state) : alloc_state := st

/-- The function try_assign_unused; `self_r` is the position of `self_r_px`
in the list of the interface, if the pointer is not null. -/
def try_assign_unused (md5 : Digest) (fuel : Nat) (i : Nat) (ifa : ospf_iface) (usp : Prefix)
    (used : List prefix_node) (length : Nat) (self_r : Option Nat) (st : alloc_state) :
    Except Fault alloc_state := do
  let r ← choose_prefix md5 fuel usp length used st.po.router_id ifa.name
  match r.1 with
  | .PXCHOOSE_SUCCESS =>
    let po := match self_r with
      | some j => configure_ifa_del_prefix st.po i j
      | none => st.po
    .ok { po := configure_ifa_add_prefix r.2.addr r.2.len po.router_id po.router_id ifa.pa_priority po i
          pxchoose_success := true
          change := true }
  | .PXCHOOSE_FAILURE => .ok st

/-- Some ASP of an IASP that passes `sel` and is advertised by another router
satisfies `p` (the LSDB scans that only set a flag). -/
def lsdb_any (db : List ac_lsa) (router_id : Nat) (sel : lsa_iasp → Bool)
    (p : ac_lsa → lsa_iasp → Prefix → Bool) : Bool :=
  db.any (fun en => decide (en.rt ≠ router_id) &&
    en.iasps.any (fun iasp => sel iasp && iasp.asps.any (p en iasp)))

/-- The scan of our own records in try_steal, interfaces numbered from `k`. -/
def steal_own_blocked (router_id oa : Nat) (steal : Prefix) (lowest : Nat) (i : Nat)
    (self_r : Option prefix_node) : Nat → List ospf_iface → Bool
  | _, [] => false
  | k, ifa2 :: rest =>
    (decide (ifa2.oa = oa) && ifa2.asp_list.any (fun n => decide (n.rid = router_id)
        && overlaps steal n.px && not_self self_r (decide (k = i)) n
        && decide (ifa2.pa_priority > lowest)))
    || steal_own_blocked router_id oa steal lowest i self_r (k + 1) rest

/-- The records try_steal deletes: those that overlap `steal`, except, when
`self_r_px` is set, the records of ours with the prefix of `self_r_px`. -/
def steal_victim (router_id : Nat) (steal : Prefix) (self_r : Option prefix_node)
    (n : prefix_node) : Bool :=
  overlaps steal n.px && (match self_r with
    | none => true
    | some s => !ipa_equal s.px.addr n.px.addr || decide (s.px.len ≠ n.px.len)
                  || decide (n.rid ≠ router_id))

/-- The function try_steal, called with `found_steal` set. -/
def try_steal (db : List ac_lsa) (i : Nat) (ifa : ospf_iface) (steal : Prefix) (lowest : Nat)
    (self_r : Option Nat) (st : alloc_state) : alloc_state :=
  let po := st.po
  let self_node := self_r.bind (fun j => ifa.asp_list[j]?)
  let found_steal := !lsdb_any db po.router_id (fun iasp => decide (iasp.pa_priority > lowest))
      (fun _ _ a => overlaps steal a)
  let found_steal := found_steal &&
      !steal_own_blocked po.router_id ifa.oa steal lowest i self_node 0 po.iface_list
  if found_steal then
    -- delete colliding assignments from any other interfaces
    let victim := steal_victim po.router_id steal self_node
    let change := st.change || area_any ifa.oa (fun _ n => victim n && decide (n.rid = po.router_id)) po
    let po1 := delete_where ifa.oa victim po
    -- finally, steal the prefix
    let po2 := match self_r with
      | some j => configure_ifa_del_prefix po1 i ((ifa.asp_list.take j).filter (fun n => !victim n)).length
      | none => po1
    { po := configure_ifa_add_prefix steal.addr steal.len po.router_id po.router_id ifa.pa_priority po2 i
      pxchoose_success := true
      change := true || change }
  else st

/-- The function try_split, called with `found_split` set. In the LSDB scan
the assignments `found_split = 0` clear the pointer, which
PARSE_LSA_AC_ASP_BREAKIF then dereferences. -/
def try_split (md5 : Digest) (fuel : Nat) (db : List ac_lsa) (i : Nat) (ifa : ospf_iface)
    (split : Prefix) (length : Nat) (st : alloc_state) : Except Fault alloc_state :=
  let po := st.po
  if lsdb_any db po.router_id (fun iasp => decide (iasp.pa_priority ≥ ifa.pa_priority))
      (fun _ iasp a =>
        (decide (iasp.pa_priority > ifa.pa_priority) && overlaps split a)
        || (decide (iasp.pa_priority = ifa.pa_priority) && strictly_inside a split)) then
    .error .undefined_access
  else
    let blocked := area_any ifa.oa (fun ifa2 n => decide (n.rid = po.router_id) &&
        ((decide (ifa2.pa_priority > ifa.pa_priority) && overlaps split n.px)
         || (decide (ifa2.pa_priority = ifa.pa_priority) && strictly_inside n.px split))) po
    if blocked then .ok st
    else do
      -- delete colliding assignments from any other interfaces
      let change := st.change ||
        area_any ifa.oa (fun _ n => overlaps split n.px && decide (n.rid = po.router_id)) po
      let po1 := delete_where ifa.oa (fun n => overlaps split n.px) po
      -- finally, split the prefix
      let r ← choose_prefix md5 fuel split length [] po.router_id ifa.name
      match r.1 with
      | .PXCHOOSE_SUCCESS =>
        .ok { po := configure_ifa_add_prefix split.addr split.len po.router_id po.router_id
                      ifa.pa_priority po1 i
              pxchoose_success := true
              change := true || change }
      | .PXCHOOSE_FAILURE => .error .die

/-! ## The assignment executor (steps 5.3.4 to 5.3.6) -/

/-- The three cases of 5.3.4 in which the ASP `a`, advertised in `iasp` by the
router of `en`, collides with our assignment `self_r`. -/
def asp_collides (router_id ifa_priority : Nat) (self_r : Prefix)
    (en : ac_lsa) (iasp : lsa_iasp) (a : Prefix) : Bool :=
  (decide (iasp.pa_priority = ifa_priority) && net_in_net a.addr a.len self_r.addr self_r.len
      && (!ipa_equal a.addr self_r.addr || decide (a.len ≠ self_r.len)))
  || (decide (iasp.pa_priority = ifa_priority) && decide (en.rt > router_id)
      && ipa_equal a.addr self_r.addr && decide (a.len = self_r.len))
  || (decide (iasp.pa_priority > ifa_priority) && (net_in_net a.addr a.len self_r.addr self_r.len
      || net_in_net self_r.addr self_r.len a.addr a.len))

/-- The LSDB scan of 5.3.4: the value of `deassigned_prefix` after it. -/
def lsdb_collision (db : List ac_lsa) (router_id ifa_priority : Nat) (self_r : Prefix) : Bool :=
  lsdb_any db router_id (fun iasp => decide (iasp.pa_priority ≥ ifa_priority))
    (asp_collides router_id ifa_priority self_r)

/-- The three cases of 5.3.4 that "should be impossible", for the record `n`
of the interface `ifa2`; `same_iface` is `ifa == ifa2`. -/
def own_collides (ifa_priority : Nat) (self_r : Prefix) (ifa2 : ospf_iface) (same_iface : Bool)
    (n : prefix_node) : Bool :=
  (decide (ifa2.pa_priority = ifa_priority) && net_in_net n.px.addr n.px.len self_r.addr self_r.len
      && (ipa_equal n.px.addr self_r.addr && decide (n.px.len = self_r.len)) && !same_iface)
  || (decide (ifa2.pa_priority = ifa_priority) && net_in_net n.px.addr n.px.len self_r.addr self_r.len
      && (!ipa_equal n.px.addr self_r.addr || decide (n.px.len ≠ self_r.len)))
  || (decide (ifa2.pa_priority > ifa_priority) && (net_in_net n.px.addr n.px.len self_r.addr self_r.len
      || net_in_net self_r.addr self_r.len n.px.addr n.px.len))

/-- The scan of our own records in 5.3.4, interfaces numbered from `k`. The
source tests `ifa->oa == oa`, which always holds, so the interfaces of every
area are scanned. -/
def own_collision (router_id ifa_priority : Nat) (self_r : Prefix) (i : Nat) :
    Nat → List ospf_iface → Bool
  | _, [] => false
  | k, ifa2 :: rest =>
    ifa2.asp_list.any (fun n => decide (n.rid = router_id)
        && own_collides ifa_priority self_r ifa2 (decide (k = i)) n)
    || own_collision router_id ifa_priority self_r i (k + 1) rest

/-- Set `valid = 1` on the record at position `j` of the interface at `i`. -/
def set_valid (po : proto_ospf) (i j : Nat) : proto_ospf :=
  match po.iface_list[i]? with
  | none => po
  | some ifa =>
    match ifa.asp_list[j]? with
    | none => po
    | some n => set_iface po i { ifa with asp_list := ifa.asp_list.set j { n with valid := true } }

/-- The steps 5.3.6a to 5.3.6d run on behalf of the /80 record at position `j`
(the block of 5.3.4 guarded by `self_r_px->px.len == LSA_AC_ASP_SUB_PREFIX_LENGTH`). -/
def upgrade (md5 : Digest) (fuel : Nat) (db : List ac_lsa) (i : Nat) (ifa : ospf_iface)
    (usp : Prefix) (j : Nat) (st : alloc_state) : Except Fault alloc_state := do
  let u := find_used db st.po i ifa usp (ifa.asp_list[j]?)
  let st := try_reuse st
  let st ← try_assign_unused md5 fuel i ifa usp u.used LSA_AC_ASP_D_PREFIX_LENGTH (some j) st
  if !st.pxchoose_success && u.found_steal then
    .ok (try_steal db i ifa u.steal u.lowest_pa_priority (some j) st)
  else .ok st

/-- Step 5.3.4 for the record `self_r_px` at position `j`. Returns the new
state, `change` and `deassigned_prefix`. After a successful upgrade the source
still writes `self_r_px->valid = 1` into the node it has freed; the record is
no longer in the list and the embedding leaves the list alone. -/
def step4 (md5 : Digest) (fuel : Nat) (db : List ac_lsa) (po : proto_ospf) (i : Nat)
    (ifa : ospf_iface) (usp : Prefix) (j : Nat) (self_r : prefix_node) :
    Except Fault (proto_ospf × Bool × Bool) :=
  if lsdb_collision db po.router_id ifa.pa_priority self_r.px then
    .ok ( configure_ifa_del_prefix po i j, true, true)
  else if own_collision po.router_id ifa.pa_priority self_r.px i 0 po.iface_list then
    .error .die
  else if self_r.px.len = LSA_AC_ASP_SUB_PREFIX_LENGTH then do
    let st ← upgrade md5 fuel db i ifa usp j ⟨po, false, false⟩
    if st.pxchoose_success then .ok (st.po, st.change, false)
    else .ok (set_valid st.po i j, st.change, false)
  else
    .ok (set_valid po i j, false, false)

/-- The record `n` is the peer assignment already (the `found` test of 5.3.5). -/
def matches_peer (r : resolution) (n : prefix_node) : Bool :=
  ipa_equal n.px.addr r.neigh_r.addr && decide (n.px.len = r.neigh_r.len)
    && decide (n.rid = r.neigh_rid) && decide (n.pa_priority = r.highest_link_pa_priority)

/-- The record `n` overlaps the peer assignment and wins against it (the test
of 5.3.5 that sets `refused`). -/
def refuses_peer (router_id : Nat) (r : resolution) (n : prefix_node) : Bool :=
  overlaps r.neigh_r n.px &&
  (decide (n.pa_priority > r.highest_link_pa_priority)
   || (decide (n.pa_priority = r.highest_link_pa_priority)
        && net_in_net n.px.addr n.px.len r.neigh_r.addr r.neigh_r.len
        && (!ipa_equal r.neigh_r.addr n.px.addr || decide (r.neigh_r.len ≠ n.px.len)))
   || (decide (n.pa_priority = r.highest_link_pa_priority)
        && (ipa_equal r.neigh_r.addr n.px.addr && decide (r.neigh_r.len = n.px.len))
        && decide (router_id > r.neigh_rid)))

/-- Step 5.3.5. Returns the new state and the new value of `change`. -/
def step5 (po : proto_ospf) (i : Nat) (ifa : ospf_iface) (r : resolution) (change : Bool) :
    proto_ospf × Bool :=
  let found := ifa.asp_list.any (matches_peer r)
  let marked := ifa.asp_list.map (fun n => if matches_peer r n then { n with valid := true } else n)
  let po := set_iface po i { ifa with asp_list := marked }
  let refused := !found && area_any ifa.oa (fun _ n => refuses_peer po.router_id r n) po
  let collision_found := !found && area_any ifa.oa (fun _ n => overlaps r.neigh_r n.px) po
  let change1 := if !refused && collision_found then
      change || area_any ifa.oa (fun _ n => overlaps r.neigh_r n.px && decide (n.rid = po.router_id)) po
    else change
  let po1 := if !refused && collision_found then
      delete_where ifa.oa (fun n => overlaps r.neigh_r n.px) po
    else po
  if !found && !refused then
    ( configure_ifa_add_prefix r.neigh_r.addr r.neigh_r.len r.neigh_rid po.router_id
      r.highest_link_pa_priority po1 i, change1)
  else (po1, change1)

/-- Step 5.3.6d: try to steal a /64. -/
def step6d (db : List ac_lsa) (i : Nat) (ifa : ospf_iface) (u : used_acc) (st : alloc_state) :
    alloc_state :=
  if !st.pxchoose_success && u.found_steal then
    try_steal db i ifa u.steal u.lowest_pa_priority none st
  else st

/-- Steps 5.3.6e and 5.3.6f: a /80 from memory (try_reuse), then an unused /80. -/
def step6f (md5 : Digest) (fuel : Nat) (i : Nat) (ifa : ospf_iface) (usp : Prefix) (u : used_acc)
    (st : alloc_state) : Except Fault alloc_state :=
  let st := if !st.pxchoose_success && decide (ifa.pa_priority < PA_PRIORITY_MAX) then
      try_reuse st else st
  if !st.pxchoose_success && decide (ifa.pa_priority < PA_PRIORITY_MAX) then
    try_assign_unused md5 fuel i ifa usp u.used LSA_AC_ASP_SUB_PREFIX_LENGTH none st
  else .ok st

/-- Step 5.3.6g: try to split a /64. -/
def step6g (md5 : Digest) (fuel : Nat) (db : List ac_lsa) (i : Nat) (ifa : ospf_iface)
    (u : used_acc) (st : alloc_state) : Except Fault alloc_state :=
  if !st.pxchoose_success && u.found_split && decide (ifa.pa_priority < PA_PRIORITY_MAX) then
    try_split md5 fuel db i ifa u.split LSA_AC_ASP_SUB_PREFIX_LENGTH st
  else .ok st

/-- Step 5.3.6 (a to h) for the interface at position `i`. -/
def step6 (md5 : Digest) (fuel : Nat) (db : List ac_lsa) (po : proto_ospf) (i : Nat)
    (ifa : ospf_iface) (usp : Prefix) (change : Bool) : Except Fault (proto_ospf × Bool) :=
  /- 5.3.6a -/
  let u := find_used db po i ifa usp none
  /- 5.3.6b, 5.3.6c -/
  match try_assign_unused md5 fuel i ifa usp u.used LSA_AC_ASP_D_PREFIX_LENGTH none
      (try_reuse ⟨po, false, change⟩) with
  | .error e => .error e
  | .ok st =>
    match step6f md5 fuel i ifa usp u (step6d db i ifa u st) with
    | .error e => .error e
    | .ok st =>
      match step6g md5 fuel db i ifa u st with
      | .error e => .error e
      | .ok st => .ok (st.po, st.change)

/-- The interface at position `i` with its neighbors refreshed by 5.3.2a. -/
def refresh_iface (db : List ac_lsa) (ifa : ospf_iface) : ospf_iface :=
  { ifa with neigh_list := ifa.neigh_list.map (refresh_neighbor db) }

/-- Step 5.3.4 with its guard `have_highest_link_pa_priority &&
have_assignment_resp`. Returns the new state, `change` and `deassigned_prefix`. -/
def run_step4 (md5 : Digest) (fuel : Nat) (db : List ac_lsa) (po : proto_ospf) (i : Nat)
    (ifa : ospf_iface) (usp : Prefix) (r : resolution) : Except Fault (proto_ospf × Bool × Bool) :=
  match guard_step4 r, r.self_r_px.bind (fun j => (ifa.asp_list[j]?).map (fun n => (j, n))) with
  | true, some (j, self_r) => step4 md5 fuel db po i ifa usp j self_r
  | _, _ => .ok (po, false, false)

/-- Step 5.3.5 with its guard. Returns the new state and `change`. -/
def run_step5 (i : Nat) (r : resolution) (s : proto_ospf × Bool) : proto_ospf × Bool :=
  if guard_step5 r then
    match s.1.iface_list[i]? with
    | some ifa => step5 s.1 i ifa r s.2
    | none => s
  else s

/-- Step 5.3.6 with its guard `deassigned_prefix || (…)`. -/
def run_step6 (md5 : Digest) (fuel : Nat) (db : List ac_lsa) (i : Nat) (usp : Prefix)
    (r : resolution) ( deassigned_prefix : Bool) (s : proto_ospf × Bool) :
    Except Fault (proto_ospf × Bool) :=
  if deassigned_prefix || guard_step6 r then
    match s.1.iface_list[i]? with
    | some ifa => step6 md5 fuel db s.1 i ifa usp s.2
    | none => .ok s
  else .ok s

/-- The function ospf_pxassign_usp_ifa for the interface at position `i` and
the usable prefix `usp`. Returns the new state and `change`. -/
def ospf_pxassign_usp_ifa (md5 : Digest) (fuel : Nat) (db : List ac_lsa) (po : proto_ospf)
    (i : Nat) (usp : Prefix) : Except Fault (proto_ospf × Bool) :=
  match po.iface_list[i]? with
  | none => .ok (po, false)
  | some ifa0 =>
    /- 5.3.0 -/
    if (lsdb_usps db).any (fun usp2 => strictly_inside usp usp2) then .ok (po, false)
    else
      /- 5.3.2 -/
      let ifa := refresh_iface db ifa0
      let po := set_iface po i ifa
      let r := resolve db po.router_id ifa usp
      /- 5.3.3 -/
      if early_exit r then .ok (po, false)
      else do
        let s4 ← run_step4 md5 fuel db po i ifa usp r
        run_step6 md5 fuel db i usp r s4.2.2 (run_step5 i r (s4.1, s4.2.1))

/-! ## The run over an area (ospf_pxassign_area) -/

/-- The first loop of ospf_pxassign_area: every record of the area gets `valid = 0`. -/
def mark_invalid (oa : Nat) (po : proto_ospf) : proto_ospf :=
  { po with iface_list := po.iface_list.map (fun ifa =>
      if ifa.oa = oa then { ifa with asp_list := ifa.asp_list.map (fun n => { n with valid := false }) }
      else ifa) }

/-- The loop over the interfaces of the area for one usable prefix, from the
position list `is`. -/
def walk_ifaces (md5 : Digest) (fuel : Nat) (db : List ac_lsa) (oa : Nat) (usp : Prefix) :
    List Nat → proto_ospf × Bool → Except Fault (proto_ospf × Bool)
  | [], s => .ok s
  | i :: is, s =>
    match s.1.iface_list[i]? with
    | none => walk_ifaces md5 fuel db oa usp is s
    | some ifa =>
      if ifa.oa = oa then do
        let s1 ← ospf_pxassign_usp_ifa md5 fuel db s.1 i usp
        walk_ifaces md5 fuel db oa usp is (s1.1, s.2 || s1.2)
      else walk_ifaces md5 fuel db oa usp is s

/-- The loop over the usable prefixes of the LSDB. -/
def walk_usps (md5 : Digest) (fuel : Nat) (db : List ac_lsa) (oa : Nat) :
    List Prefix → proto_ospf × Bool → Except Fault (proto_ospf × Bool)
  | [], s => .ok s
  | usp :: usps, s => do
    let s1 ← walk_ifaces md5 fuel db oa usp (List.range s.1.iface_list.length) s
    walk_usps md5 fuel db oa usps s1

/-- The last loop of ospf_pxassign_area: the records still invalid are removed.
The source walks each list with WALK_LIST while unlinking and freeing the
current node, and reads the `next` field of the freed node; the embedding takes
the value the field had. -/
def sweep (oa : Nat) (s : proto_ospf × Bool) : proto_ospf × Bool :=
  (delete_where oa (fun n => !n.valid) s.1,
   s.2 || area_any oa (fun _ n => !n.valid && decide (n.rid = s.1.router_id)) s.1)

/-- The function ospf_pxassign_area for the area `oa`. Returns the new state
and whether schedule_ac_lsa(oa) was called. -/
def ospf_pxassign_area (md5 : Digest) (fuel : Nat) (db : List ac_lsa) (po : proto_ospf)
    (oa : Nat) : Except Fault (proto_ospf × Bool) := do
  let s ← walk_usps md5 fuel db oa (lsdb_usps db) (mark_invalid oa po, false)
  .ok (sweep oa s)

/-! ## Predicates used in the statements -/

/-- The top `l` bits of two addresses agree. -/
def agree (a b : ip_addr) (l : Nat) : Prop := ipa_and (ipa_xor a b) (ipa_mkmask l) = IPA_NONE

/-! ## Concrete inputs used in the examples -/

/-- A digest that does not depend on its arguments. -/
def ex_md5 : Digest := fun _ _ _ => ⟨0x12345678, 0x9abcdef0, 0x11111111, 0x22222222⟩

/-- The usable prefix 2001:db8::/60. -/
def ex_usp : Prefix := ⟨⟨0x20010db8, 0, 0, 0⟩, 60⟩

/-- The prefix 2001:db8:0:1::/64. -/
def ex_p1 : Prefix := ⟨⟨0x20010db8, 1, 0, 0⟩, 64⟩

/-- A neighbor with router id 20 in state Full, whose interface on the link
has identifier 7. -/
def ex_neigh : ospf_neighbor := ⟨20, 8, 7, 0, 0⟩

/-- The LSDB in which router 20 advertises the usable prefix 2001:db8::/60 and,
for its interface 7, the assignment 2001:db8:0:1::/64 with priority 1. -/
def ex_db_peer : List ac_lsa := [⟨20, [ex_usp], [⟨7, 1, 64, [ex_p1]⟩]⟩]

/-- Router 10 with two interfaces of area 0: eth0 (priority 1) sees the
neighbor 20; eth1 (priority 5) holds our record 2001:db8:0:1::/64 with
priority 5. -/
def ex_po_refuse : proto_ospf :=
  ⟨10, [⟨"eth0", 0, 1, [], [ex_neigh]⟩,
        ⟨"eth1", 0, 5, [⟨ex_p1, 10, 10, 5, true⟩], []⟩], []⟩

/-- Router 10 with two interfaces of area 0, both of priority 1 and both on the
link of neighbor 20, without any record. -/
def ex_po_two : proto_ospf :=
  ⟨10, [⟨"eth0", 0, 1, [], [ex_neigh]⟩, ⟨"eth1", 0, 1, [], [ex_neigh]⟩], []⟩

/-- The tie-break of step 5.3.5 in the words of the specification: the local
record `n` wins against the peer assignment of `r`. -/
def wins_tie_break (router_id : Nat) (r : resolution) (n : prefix_node) : Prop :=
  n.pa_priority > r.highest_link_pa_priority
  ∨ (n.pa_priority = r.highest_link_pa_priority ∧ strictly_inside n.px r.neigh_r = true)
  ∨ (n.pa_priority = r.highest_link_pa_priority ∧ n.px = r.neigh_r ∧ router_id > r.neigh_rid)

/-- The record step 5.3.5 installs for the peer assignment of `r`. -/
def peer_record (router_id : Nat) (r : resolution) : prefix_node :=
  ⟨r.neigh_r, r.neigh_rid, router_id, r.highest_link_pa_priority, true⟩

/-- Router 10 with two interfaces of area 0, both of priority 1 and both on the
link of neighbor 20; eth1 holds the assignment of the neighbor. -/
def ex_po_evict : proto_ospf :=
  ⟨10, [⟨"eth0", 0, 1, [], [ex_neigh]⟩,
        ⟨"eth1", 0, 1, [⟨ex_p1, 20, 10, 1, true⟩], [ex_neigh]⟩], []⟩

/-! ## Invariants of the assignment lists -/

/-- The prefix `p` lies inside some usable prefix advertised in the LSDB. -/
def in_usp (db : List ac_lsa) (p : Prefix) : Prop :=
  ∃ u ∈ lsdb_usps db, contains u p = true

/-- The prefix `p` is an ASP advertised by a router other than us. -/
def advertised_by_other (db : List ac_lsa) (router_id : Nat) (p : Prefix) : Prop :=
  ∃ en ∈ db, en.rt ≠ router_id ∧ ∃ iasp ∈ en.iasps, p ∈ iasp.asps

/-- A record that the current LSDB can justify: its prefix lies inside an
advertised usable prefix, and it is ours or advertised by another router. -/
def justified (db : List ac_lsa) (router_id : Nat) (n : prefix_node) : Prop :=
  in_usp db n.px ∧ (n.rid = router_id ∨ advertised_by_other db router_id n.px)

/-- A record without its mark-and-sweep flag. -/
def erase_valid (n : prefix_node) : prefix_node := { n with valid := false }

/-- P1: on every interface of the area, no two distinct records overlap. -/
def iface_disjoint (oa : Nat) (po : proto_ospf) : Prop :=
  ∀ (k : Nat) (ifa : ospf_iface), po.iface_list[k]? = some ifa → ifa.oa = oa →
    ifa.asp_list.Pairwise (fun a b => overlaps a.px b.px = false)

/-- P2: no two distinct records of ours on interfaces of the area overlap,
whether they sit on the same interface or on two different ones. -/
def own_disjoint (oa : Nat) (po : proto_ospf) : Prop :=
  (∀ (k : Nat) (ifa : ospf_iface), po.iface_list[k]? = some ifa → ifa.oa = oa →
    ifa.asp_list.Pairwise (fun a b =>
      a.rid = po.router_id → b.rid = po.router_id → overlaps a.px b.px = false))
  ∧ (∀ (k1 k2 : Nat) (ifa1 ifa2 : ospf_iface), k1 ≠ k2 →
      po.iface_list[k1]? = some ifa1 → po.iface_list[k2]? = some ifa2 →
      ifa1.oa = oa → ifa2.oa = oa →
      ∀ a ∈ ifa1.asp_list, ∀ b ∈ ifa2.asp_list,
        a.rid = po.router_id → b.rid = po.router_id → overlaps a.px b.px = false)

/-- P3: every record on an interface of the area lies inside some usable
prefix advertised in the LSDB. -/
def all_in_usp (db : List ac_lsa) (oa : Nat) (po : proto_ospf) : Prop :=
  ∀ (k : Nat) (ifa : ospf_iface), po.iface_list[k]? = some ifa → ifa.oa = oa →
    ∀ n ∈ ifa.asp_list, in_usp db n.px

/-- Invariant of a run: every record marked valid is justified by the LSDB. -/
def valid_justified (db : List ac_lsa) (oa : Nat) (po : proto_ospf) : Prop :=
  ∀ (k : Nat) (ifa : ospf_iface), po.iface_list[k]? = some ifa → ifa.oa = oa →
    ∀ n ∈ ifa.asp_list, n.valid = true → justified db po.router_id n

/-- Invariant of a run: on every interface of the area the justified records
do not overlap each other. -/
def justified_disjoint (db : List ac_lsa) (oa : Nat) (po : proto_ospf) : Prop :=
  ∀ (k : Nat) (ifa : ospf_iface), po.iface_list[k]? = some ifa → ifa.oa = oa →
    ifa.asp_list.Pairwise (fun a b =>
      justified db po.router_id a → justified db po.router_id b → overlaps a.px b.px = false)

/-- Our record `a` lies inside an advertised usable prefix. -/
def own_in_usp (db : List ac_lsa) (router_id : Nat) (a : prefix_node) : Prop :=
  a.rid = router_id ∧ in_usp db a.px

/-- Invariant of a run: our records inside advertised usable prefixes do not
overlap each other, on one interface or across the interfaces of the area. -/
def own_justified_disjoint (db : List ac_lsa) (oa : Nat) (po : proto_ospf) : Prop :=
  (∀ (k : Nat) (ifa : ospf_iface), po.iface_list[k]? = some ifa → ifa.oa = oa →
    ifa.asp_list.Pairwise (fun a b =>
      own_in_usp db po.router_id a → own_in_usp db po.router_id b → overlaps a.px b.px = false))
  ∧ (∀ (k1 k2 : Nat) (ifa1 ifa2 : ospf_iface), k1 ≠ k2 →
      po.iface_list[k1]? = some ifa1 → po.iface_list[k2]? = some ifa2 →
      ifa1.oa = oa → ifa2.oa = oa →
      ∀ a ∈ ifa1.asp_list, ∀ b ∈ ifa2.asp_list,
        own_in_usp db po.router_id a → own_in_usp db po.router_id b → overlaps a.px b.px = false)

/-- The interface `ifa1` has the configuration of `ifa`: same name, same
priority, and the same neighbors up to the fields cached by step 5.3.2a. -/
def same_config (db : List ac_lsa) (ifa ifa1 : ospf_iface) : Prop :=
  ifa1.name = ifa.name ∧ ifa1.pa_priority = ifa.pa_priority ∧
  ifa1.neigh_list.map (refresh_neighbor db) = ifa.neigh_list.map (refresh_neighbor db)

/-- The state `po1` is reached from `po` by deleting records and by marking
valid records that are justified: interfaces keep their place, their area and
their configuration, and on the interfaces of the area the records of `po1`
are, flags apart, a sublist of those of `po`. -/
def refines (db : List ac_lsa) (oa : Nat) (po po1 : proto_ospf) : Prop :=
  po1.router_id = po.router_id ∧ po1.iface_list.length = po.iface_list.length ∧
  (∀ (k : Nat) (ifa ifa1 : ospf_iface), po.iface_list[k]? = some ifa → po1.iface_list[k]? = some ifa1 →
    ifa1.oa = ifa.oa ∧
    (ifa.oa = oa →
      (ifa1.asp_list.map erase_valid).Sublist (ifa.asp_list.map erase_valid)
      ∧ ∀ n ∈ ifa1.asp_list, n.valid = true → n ∈ ifa.asp_list ∨ justified db po.router_id n)) ∧
  (∀ (k : Nat) (ifa ifa1 : ospf_iface), po.iface_list[k]? = some ifa → po1.iface_list[k]? = some ifa1 →
    same_config db ifa ifa1)

/-- No interface of the area holds two records of ours with the same prefix
inside an advertised usable prefix. -/
def twin_free_same (db : List ac_lsa) (oa : Nat) (po : proto_ospf) : Prop :=
  ∀ (k : Nat) (ifa : ospf_iface), po.iface_list[k]? = some ifa → ifa.oa = oa →
    ifa.asp_list.Pairwise (fun a b =>
      own_in_usp db po.router_id a → b.rid = po.router_id → a.px ≠ b.px)

/-- No two interfaces of the area hold records of ours with the same prefix
inside an advertised usable prefix. -/
def twin_free_cross (db : List ac_lsa) (oa : Nat) (po : proto_ospf) : Prop :=
  ∀ (k1 k2 : Nat) (ifa1 ifa2 : ospf_iface), k1 ≠ k2 →
    po.iface_list[k1]? = some ifa1 → po.iface_list[k2]? = some ifa2 →
    ifa1.oa = oa → ifa2.oa = oa →
    ∀ a ∈ ifa1.asp_list, ∀ b ∈ ifa2.asp_list,
      own_in_usp db po.router_id a → b.rid = po.router_id → a.px ≠ b.px

/-- The effect of one call of ospf_pxassign_usp_ifa for interface `i`: either
the state is refined, or it is refined to `mid` and then one valid, justified
record `n` is appended to the list of interface `i`; `n` overlaps no justified
record of interface `i` (if the initial state had no twins on an interface)
and no record of ours inside a usable prefix on another interface of the area
(if the initial state had no twins across interfaces). -/
def step_ok (db : List ac_lsa) (oa : Nat) (i : Nat) (po po1 : proto_ospf) : Prop :=
  refines db oa po po1 ∨
  ∃ (mid : proto_ospf) (ifa : ospf_iface) (n : prefix_node) (log : List kcall),
    refines db oa po mid ∧ mid.iface_list[i]? = some ifa ∧ ifa.oa = oa ∧
    po1 = { set_iface mid i { ifa with asp_list := ifa.asp_list ++ [n] } with klog := log } ∧
    n.valid = true ∧ justified db po.router_id n ∧
    (twin_free_same db oa po → ∀ m ∈ ifa.asp_list, justified db po.router_id m →
        overlaps m.px n.px = false) ∧
    (twin_free_cross db oa po → ∀ (k : Nat) (ifa2 : ospf_iface), k ≠ i →
        mid.iface_list[k]? = some ifa2 → ifa2.oa = oa →
        ∀ m ∈ ifa2.asp_list, own_in_usp db po.router_id m → overlaps m.px n.px = false)

/-- What the resolver knows about a stored peer assignment: it lies inside
`usp` and is an ASP of an IASP advertised by router `neigh_rid`. -/
def peer_sound (db : List ac_lsa) (usp : Prefix) (acc : peer_acc) : Prop :=
  acc.assignment_found = true →
    net_in_net acc.neigh_r.addr acc.neigh_r.len usp.addr usp.len = true ∧
    ∃ en ∈ db, en.rt = acc.neigh_rid ∧ ∃ iasp ∈ en.iasps, acc.neigh_r ∈ iasp.asps

/-- The prefixes find_used collects for interface `i`, in order. -/
def used_candidates (db : List ac_lsa) (po : proto_ospf) (i : Nat) (ifa : ospf_iface)
    (usp : Prefix) (self_r : Option prefix_node) : List (Prefix × Nat × Nat) :=
  lsdb_used db po.router_id usp ++ own_used po.router_id ifa.oa usp i self_r 0 po.iface_list

/-- What the outputs of find_used are after the prefixes `seen` have been
collected. -/
def used_acc_sound (seen : List (Prefix × Nat × Nat)) (acc : used_acc) : Prop :=
  acc.used.map (fun n => n.px) = seen.map (fun e => e.1)
  ∧ (acc.found_steal = true → ∃ e ∈ seen,
      acc.steal = ⟨ipa_and e.1.addr (ipa_mkmask LSA_AC_ASP_D_PREFIX_LENGTH), LSA_AC_ASP_D_PREFIX_LENGTH⟩)
  ∧ (acc.found_split = true → ∃ e ∈ seen, acc.split = e.1 ∧ e.1.len = LSA_AC_ASP_D_PREFIX_LENGTH)

/-- The state of the allocation steps of one call for interface `i`: nothing
has been assigned yet, or a record has been assigned in a way that keeps the
invariants. -/
def alloc_ok (db : List ac_lsa) (oa : Nat) (i : Nat) (po : proto_ospf) (ch : Bool)
    (st : alloc_state) : Prop :=
  st = ⟨po, false, ch⟩ ∨ (st.pxchoose_success = true ∧ step_ok db oa i po st.po)

/-- Router 10 with the single interface eth0 (area 0, priority 1), without
neighbors and without records. -/
def ex_po_solo : proto_ospf := ⟨10, [⟨"eth0", 0, 1, [], []⟩], []⟩

/-- The LSDB in which we advertise the usable prefix 2001:db8::/60. -/
def ex_db_solo : List ac_lsa := [⟨10, [ex_usp], []⟩]

/-- The state after one run from `ex_po_solo` with `ex_db_solo`. -/
def ex_out_solo : proto_ospf :=
  ⟨10, [⟨"eth0", 0, 1, [⟨⟨⟨0x20010db8, 0, 0, 0⟩, 64⟩, 10, 10, 1, true⟩], []⟩],
    [kcall.add "eth0" ⟨0x20010db8, 0, 0, 0⟩ 64 10]⟩

/-- The usable prefix 2001:db8:0:0:100::/72. -/
def ex_u72a : Prefix := ⟨⟨0x20010db8, 0, 0x01000000, 0⟩, 72⟩

/-- The usable prefix 2001:db8:0:0:200::/72. -/
def ex_u72b : Prefix := ⟨⟨0x20010db8, 0, 0x02000000, 0⟩, 72⟩

/-- The LSDB in which we advertise the usable prefix 2001:db8:0:0:100::/72. -/
def ex_db_long : List ac_lsa := [⟨10, [ex_u72a], []⟩]

/-- The LSDB in which we advertise the two usable prefixes of 72 bits. -/
def ex_db_long2 : List ac_lsa := [⟨10, [ex_u72a, ex_u72b], []⟩]

/-- The state after one run from `ex_po_solo` with `ex_db_long`. -/
def ex_out_long : proto_ospf :=
  ⟨10, [⟨"eth0", 0, 1, [⟨⟨⟨0x20010db8, 0, 0x01000000, 0⟩, 64⟩, 10, 10, 1, true⟩], []⟩],
    [kcall.add "eth0" ⟨0x20010db8, 0, 0x01000000, 0⟩ 64 10]⟩

/-- The state after one run from `ex_po_solo` with `ex_db_long2`. -/
def ex_out_long2 : proto_ospf :=
  ⟨10, [⟨"eth0", 0, 1, [⟨⟨⟨0x20010db8, 0, 0x01000000, 0⟩, 64⟩, 10, 10, 1, true⟩,
                         ⟨⟨⟨0x20010db8, 0, 0x02000000, 0⟩, 64⟩, 10, 10, 1, true⟩], []⟩],
    [kcall.add "eth0" ⟨0x20010db8, 0, 0x01000000, 0⟩ 64 10,
     kcall.add "eth0" ⟨0x20010db8, 0, 0x02000000, 0⟩ 64 10]⟩

/-- Every interface with its neighbors refreshed by 5.3.2a. -/
def refresh_all (db : List ac_lsa) (po : proto_ospf) : proto_ospf :=
  { po with iface_list := po.iface_list.map (refresh_iface db) }

/-- The allocation state over the refreshed protocol instance. -/
def refresh_state (db : List ac_lsa) (st : alloc_state) : alloc_state :=
  { st with po := refresh_all db st.po }

/-- The configuration of an interface: its name, area, priority and neighbors
(refreshed by 5.3.2a), without its assignment records. -/
def iface_config (db : List ac_lsa) (ifa : ospf_iface) : ospf_iface :=
  { refresh_iface db ifa with asp_list := [] }

/-- The configuration of the protocol instance: the router id and the
configuration of every interface. -/
def config_of (db : List ac_lsa) (po : proto_ospf) : proto_ospf :=
  { po with iface_list := po.iface_list.map (iface_config db), klog := [] }

/-- The state a run leaves from `ex_po_refuse` with `ex_db_peer`: the cached
fields of the neighbor of eth0 are refreshed, nothing else changes. -/
def ex_out_refuse : proto_ospf :=
  ⟨10, [⟨"eth0", 0, 1, [], [⟨20, 8, 7, 1, 64⟩]⟩,
        ⟨"eth1", 0, 5, [⟨ex_p1, 10, 10, 5, true⟩], []⟩], []⟩

/-- The state a run leaves from `ex_po_two` with `ex_db_peer`: the assignment
of the neighbor was added to eth0, then moved to eth1. -/
def ex_out_two : proto_ospf :=
  ⟨10, [⟨"eth0", 0, 1, [], [⟨20, 8, 7, 1, 64⟩]⟩,
        ⟨"eth1", 0, 1, [⟨ex_p1, 20, 10, 1, true⟩], [⟨20, 8, 7, 1, 64⟩]⟩],
    [kcall.add "eth0" ex_p1.addr 64 10, kcall.del "eth0" ex_p1.addr 64 10,
     kcall.add "eth1" ex_p1.addr 64 10]⟩

/-- The state the next run leaves from `ex_out_two` with `ex_db_peer`: the
lists are as before, four kernel calls were issued. -/
def ex_out_two2 : proto_ospf :=
  { ex_out_two with klog := ex_out_two.klog ++
      [kcall.del "eth1" ex_p1.addr 64 10, kcall.add "eth0" ex_p1.addr 64 10,
       kcall.del "eth0" ex_p1.addr 64 10, kcall.add "eth1" ex_p1.addr 64 10] }

/-- The usable prefix 2001:db8::/48 of the nested-USP scenario. -/
def ex_u48 : Prefix := ⟨⟨0x20010db8, 0, 0, 0⟩, 48⟩

/-- The usable prefix 2001:db8:0:1::/64 of the nested-USP scenario. -/
def ex_u64 : Prefix := ⟨⟨0x20010db8, 1, 0, 0⟩, 64⟩

/-- An LSDB in which router 10 advertises both usable prefixes of the
nested-USP scenario and nobody advertises an assignment. -/
def ex_db_nested : List ac_lsa := [⟨10, [ex_u48, ex_u64], []⟩]

/-- What ospf_pxassign_usp_ifa does once the guard of 5.3.0 has let the usable
prefix pass: steps 5.3.2 to 5.3.6. -/
def past_guard (md5 : Digest) (fuel : Nat) (db : List ac_lsa) (po : proto_ospf)
    (i : Nat) (usp : Prefix) : Except Fault (proto_ospf × Bool) :=
  match po.iface_list[i]? with
  | none => .ok (po, false)
  | some ifa0 =>
    let ifa := refresh_iface db ifa0
    let po := set_iface po i ifa
    let r := resolve db po.router_id ifa usp
    if early_exit r then .ok (po, false)
    else do
      let s4 ← run_step4 md5 fuel db po i ifa usp r
      run_step6 md5 fuel db i usp r s4.2.2 (run_step5 i r (s4.1, s4.2.1))

/-- The state ospf_pxassign_usp_ifa leaves from `ex_po_solo` for the usable
prefix 2001:db8::/48 of `ex_db_nested`: eth0 holds 2001:db8:0:def0::/64. -/
def ex_out_nested : proto_ospf :=
  ⟨10, [⟨"eth0", 0, 1, [⟨⟨⟨0x20010db8, 0xdef0, 0, 0⟩, 64⟩, 10, 10, 1, true⟩], []⟩],
    [kcall.add "eth0" ⟨0x20010db8, 0xdef0, 0, 0⟩ 64 10]⟩

/-- The first ASP inside `usp` among the IASPs the neighbor advertises for its
interface on this link, in LSDB order. -/
def neigh_asp (db : List ac_lsa) (usp : Prefix) (n : ospf_neighbor) : Option Prefix :=
  (neighbor_iasps db n).findSome? (fun iasp =>
    iasp.asps.find? (fun a => net_in_net a.addr a.len usp.addr usp.len))

/-- The neighbors the specification selects among in 5.3.2c: state at least
Init, priority `hp`, and an ASP inside `usp` in an IASP for this link. -/
def peer_candidate (db : List ac_lsa) (usp : Prefix) (hp : Nat) (n : ospf_neighbor) : Bool :=
  decide (NEIGHBOR_INIT ≤ n.state) && decide (n.pa_priority = hp) &&
    (neighbor_iasps db n).any (fun iasp =>
      iasp.asps.any (fun a => net_in_net a.addr a.len usp.addr usp.len))

/-- The neighbor has a nonzero router id, and the LSDB holds at most one AC-LSA
of its router with at most one IASP for its interface on this link. -/
def plain_neighbor (db : List ac_lsa) (n : ospf_neighbor) : Prop :=
  0 < n.rid ∧ (db.filter (fun en => decide (en.rt = n.rid))).length ≤ 1
    ∧ (neighbor_iasps db n).length ≤ 1

/-- The conjuncts of `plain_neighbor` are decidable. -/
instance instDecidablePlainNeighbor (db : List ac_lsa) (n : ospf_neighbor) :
    Decidable (plain_neighbor db n) := by
  unfold plain_neighbor
  exact inferInstance

/-- What the walk of 5.3.2c has recorded after the neighbors `done`. -/
def peer_inv (db : List ac_lsa) (usp : Prefix) (hp : Nat) (done : List ospf_neighbor)
    (acc : peer_acc) : Prop :=
  (acc.assignment_found = false → acc.neigh_rid = 0 ∧ ∀ n ∈ done, peer_candidate db usp hp n = false)
  ∧ (acc.assignment_found = true → ∃ n ∈ done, peer_candidate db usp hp n = true
      ∧ (∀ m ∈ done, peer_candidate db usp hp m = true → m.rid ≤ n.rid)
      ∧ acc.neigh_rid = n.rid ∧ neigh_asp db usp n = some acc.neigh_r)

/-- The prefix 2001:db8:0:2::/64. -/
def ex_p2 : Prefix := ⟨⟨0x20010db8, 2, 0, 0⟩, 64⟩

/-- A neighbor with router id 0 (state Full, interface id 7, priority 1). -/
def ex_neigh0 : ospf_neighbor := ⟨0, 8, 7, 1, 64⟩

/-- The neighbor 20 with its cached fields refreshed. -/
def ex_neigh20 : ospf_neighbor := ⟨20, 8, 7, 1, 64⟩

/-- The neighbor 30 (state Full, interface id 9, priority 1). -/
def ex_neigh30 : ospf_neighbor := ⟨30, 8, 9, 1, 64⟩

/-- An interface of priority 1 whose only neighbor has router id 0. -/
def ex_if_zero : ospf_iface := ⟨"eth0", 0, 1, [], [ex_neigh0]⟩

/-- An interface of priority 1 with the neighbors 20 and 30, in this order. -/
def ex_if_pair : ospf_iface := ⟨"eth0", 0, 1, [], [ex_neigh20, ex_neigh30]⟩

/-- Router 0 advertises 2001:db8:0:1::/64 for its interface 7. -/
def ex_db_zero : List ac_lsa := [⟨0, [ex_usp], [⟨7, 1, 64, [ex_p1]⟩]⟩]

/-- Router 20 advertises 2001:db8:0:1::/64; router 30 advertises 2001:db8:0:2::/64
for its interface 9. -/
def ex_db_pair : List ac_lsa :=
  [⟨20, [ex_usp], [⟨7, 1, 64, [ex_p1]⟩]⟩, ⟨30, [], [⟨9, 1, 64, [ex_p2]⟩]⟩]

/-- As `ex_db_pair`, but the LSA of router 30 carries two IASPs for its
interface 9, the first one without an ASP. -/
def ex_db_two_iasps : List ac_lsa :=
  [⟨20, [ex_usp], [⟨7, 1, 64, [ex_p1]⟩]⟩, ⟨30, [], [⟨9, 1, 64, []⟩, ⟨9, 1, 64, [ex_p2]⟩]⟩]

/-- As `ex_db_pair`, but router 30 has two AC-LSAs, the first one without an IASP. -/
def ex_db_two_lsas : List ac_lsa :=
  [⟨20, [ex_usp], [⟨7, 1, 64, [ex_p1]⟩]⟩, ⟨30, [], []⟩, ⟨30, [], [⟨9, 1, 64, [ex_p2]⟩]⟩]

/-- Every record of `po1` is a record of the same interface in `po` or has the
preferred length `L_pref`. -/
def installs_pref_only (po po1 : proto_ospf) : Prop :=
  ∀ (k : Nat) (ifa1 : ospf_iface), po1.iface_list[k]? = some ifa1 → ∀ n ∈ ifa1.asp_list,
    n.px.len = LSA_AC_ASP_D_PREFIX_LENGTH ∨ ∃ ifa, po.iface_list[k]? = some ifa ∧ n ∈ ifa.asp_list

/-- Router 10 with one interface of priority 1 that holds our fallback record
2001:db8:0:1:1::/80. -/
def ex_po_fallback : proto_ospf :=
  ⟨10, [⟨"eth0", 0, 1, [⟨⟨⟨0x20010db8, 1, 0x00010000, 0⟩, 80⟩, 10, 10, 1, false⟩], []⟩], []⟩

/-- The state ospf_pxassign_usp_ifa leaves from `ex_po_fallback` with
`ex_db_solo`: the /80 is replaced by 2001:db8::/64. -/
def ex_out_upgrade : proto_ospf :=
  ⟨10, [⟨"eth0", 0, 1, [⟨⟨⟨0x20010db8, 0, 0, 0⟩, 64⟩, 10, 10, 1, true⟩], []⟩],
    [kcall.del "eth0" ⟨0x20010db8, 1, 0x00010000, 0⟩ 80 10,
     kcall.add "eth0" ⟨0x20010db8, 0, 0, 0⟩ 64 10]⟩

/-- Router 10 with one interface of the greatest priority and no record. -/
def ex_po_max : proto_ospf := ⟨10, [⟨"eth0", 0, 255, [], []⟩], []⟩

/-- Router 20 advertises the usable prefix 2001:db8:0:1::/64 and has assigned
all of it with the greatest priority. -/
def ex_db_full : List ac_lsa := [⟨20, [ex_u64], [⟨7, 255, 64, [ex_u64]⟩]⟩]

/-- The usable prefix 2001:db8::/62 of the fallback scenario. -/
def ex_u62 : Prefix := ⟨⟨0x20010db8, 0, 0, 0⟩, 62⟩

/-- Router 10 advertises 2001:db8::/62; nobody else has assigned anything. -/
def ex_db_62 : List ac_lsa := [⟨10, [ex_u62], []⟩]

/-- Router 10 with five interfaces of area 0 and priority 1: eth0 to eth3 hold
the four /64s of 2001:db8::/62, eth4 holds nothing. -/
def ex_po_five : proto_ospf :=
  ⟨10, [⟨"eth0", 0, 1, [⟨⟨⟨0x20010db8, 0, 0, 0⟩, 64⟩, 10, 10, 1, true⟩], []⟩,
        ⟨"eth1", 0, 1, [⟨⟨⟨0x20010db8, 1, 0, 0⟩, 64⟩, 10, 10, 1, true⟩], []⟩,
        ⟨"eth2", 0, 1, [⟨⟨⟨0x20010db8, 2, 0, 0⟩, 64⟩, 10, 10, 1, true⟩], []⟩,
        ⟨"eth3", 0, 1, [⟨⟨⟨0x20010db8, 3, 0, 0⟩, 64⟩, 10, 10, 1, true⟩], []⟩,
        ⟨"eth4", 0, 1, [], []⟩], []⟩

/-- The state ospf_pxassign_usp_ifa leaves from `ex_po_five` for eth4: the
record 2001:db8::/64 has moved from eth0 to eth4. -/
def ex_out_five : proto_ospf :=
  ⟨10, [⟨"eth0", 0, 1, [], []⟩,
        ⟨"eth1", 0, 1, [⟨⟨⟨0x20010db8, 1, 0, 0⟩, 64⟩, 10, 10, 1, true⟩], []⟩,
        ⟨"eth2", 0, 1, [⟨⟨⟨0x20010db8, 2, 0, 0⟩, 64⟩, 10, 10, 1, true⟩], []⟩,
        ⟨"eth3", 0, 1, [⟨⟨⟨0x20010db8, 3, 0, 0⟩, 64⟩, 10, 10, 1, true⟩], []⟩,
        ⟨"eth4", 0, 1, [⟨⟨⟨0x20010db8, 0, 0, 0⟩, 64⟩, 10, 10, 1, true⟩], []⟩],
    [kcall.del "eth0" ⟨0x20010db8, 0, 0, 0⟩ 64 10, kcall.add "eth4" ⟨0x20010db8, 0, 0, 0⟩ 64 10]⟩

/-- Router 10 with one interface that holds our record 2001:db8::/64 and a
record of router 20, 2001:db8:0:5::/64, that nobody advertises any more. -/
def ex_po_stale : proto_ospf :=
  ⟨10, [⟨"eth0", 0, 1, [⟨⟨⟨0x20010db8, 0, 0, 0⟩, 64⟩, 10, 10, 1, true⟩,
                        ⟨⟨⟨0x20010db8, 5, 0, 0⟩, 64⟩, 20, 10, 1, true⟩], []⟩], []⟩

/-- The state before the sweep of the run from `ex_po_stale` with `ex_db_solo`:
our record has been validated, the record of router 20 has not. -/
def ex_mid_stale : proto_ospf :=
  ⟨10, [⟨"eth0", 0, 1, [⟨⟨⟨0x20010db8, 0, 0, 0⟩, 64⟩, 10, 10, 1, true⟩,
                        ⟨⟨⟨0x20010db8, 5, 0, 0⟩, 64⟩, 20, 10, 1, false⟩], []⟩], []⟩

/-- The state after the run from `ex_po_stale` with `ex_db_solo`. -/
def ex_out_stale : proto_ospf :=
  ⟨10, [⟨"eth0", 0, 1, [⟨⟨⟨0x20010db8, 0, 0, 0⟩, 64⟩, 10, 10, 1, true⟩], []⟩],
    [kcall.del "eth0" ⟨0x20010db8, 5, 0, 0⟩ 64 10]⟩

/-- The word `addr[i]` of an address, for an index inside the array. -/
def ip_addr.word (a : ip_addr) (i : Nat) : Nat :=
  match i with
  | 0 => a.a0
  | 1 => a.a1
  | 2 => a.a2
  | 3 => a.a3
  | _ => 0

/-! ## Addresses as numbers -/

/-- The address read as a 128-bit unsigned integer, most significant word
first. -/
def addr_val (a : ip_addr) : Nat := ((a.a0 * 2 ^ 32 + a.a1) * 2 ^ 32 + a.a2) * 2 ^ 32 + a.a3

/-- The prefix 2001:db8:ffff:fffe::/64. -/
def ex_fffe : Prefix := ⟨⟨0x20010db8, 0xFFFFFFFE, 0, 0⟩, 64⟩

/-- The prefix ffff:ffff:ffff:ffff::/64, the last /64 of the address space. -/
def ex_last64 : Prefix := ⟨⟨0xFFFFFFFF, 0xFFFFFFFF, 0, 0⟩, 64⟩

/-- Router 10 with two interfaces of area 0, both of priority 1 and without
neighbors, that both hold our record 2001:db8:0:1::/64. -/
def ex_po_dup : proto_ospf :=
  ⟨10, [⟨"eth0", 0, 1, [⟨ex_p1, 10, 10, 1, true⟩], []⟩,
        ⟨"eth1", 0, 1, [⟨ex_p1, 10, 10, 1, true⟩], []⟩], []⟩

/-- Bit `n` of the address, counted from the most significant bit (bit 0) to
the least significant one (bit 127). -/
def ip_addr.bit (a : ip_addr) (n : Nat) : Bool := (a.word (n / 32)).testBit (31 - n % 32)

/-- The LSDB in which router 20 advertises the usable prefix 2001:db8::/60 and,
for its interface 7, priority 1 without any assignment. -/
def ex_db_defer : List ac_lsa := [⟨20, [ex_usp], [⟨7, 1, 64, []⟩]⟩]

/-- Router 10 with the single interface eth0 (area 0, priority 1) that sees
the neighbor 20 and holds no record. -/
def ex_po_defer : proto_ospf := ⟨10, [⟨"eth0", 0, 1, [], [ex_neigh]⟩], []⟩

/-- The words of the specification for a steal candidate that is contested: an
ASP advertised by another router with a priority above `lowest` overlaps
`steal`, or a record of ours on an interface of the area with a priority above
`lowest` overlaps `steal`. -/
def steal_contested (db : List ac_lsa) (po : proto_ospf) (oa : Nat) (steal : Prefix)
    (lowest : Nat) : Prop :=
  (∃ en ∈ db, en.rt ≠ po.router_id ∧ ∃ iasp ∈ en.iasps, iasp.pa_priority > lowest ∧
      ∃ a ∈ iasp.asps, overlaps steal a = true)
  ∨ (∃ (k : Nat) (ifa2 : ospf_iface), po.iface_list[k]? = some ifa2 ∧ ifa2.oa = oa ∧
      ifa2.pa_priority > lowest ∧
      ∃ n ∈ ifa2.asp_list, n.rid = po.router_id ∧ overlaps steal n.px = true)

/-- Router 10 with two interfaces of area 0 without neighbors: eth0 of
priority 5 holds nothing, eth1 of priority 1 holds our record
2001:db8:0:1::/64. -/
def ex_po_steal : proto_ospf :=
  ⟨10, [⟨"eth0", 0, 5, [], []⟩, ⟨"eth1", 0, 1, [⟨ex_p1, 10, 10, 1, true⟩], []⟩], []⟩

/-- The state step 5.3.6d leaves from `ex_po_steal` for eth0: the record has
moved from eth1 to eth0. -/
def ex_out_steal : proto_ospf :=
  ⟨10, [⟨"eth0", 0, 5, [⟨ex_p1, 10, 10, 5, true⟩], []⟩, ⟨"eth1", 0, 1, [], []⟩],
    [kcall.del "eth1" ⟨0x20010db8, 1, 0, 0⟩ 64 10, kcall.add "eth0" ⟨0x20010db8, 1, 0, 0⟩ 64 10]⟩

/-- The LSDB in which we advertise the usable prefix 2001:db8:0:1::/64, router
20 has assigned all of it with priority 1, and router 30 advertises
2001:db8:0:1:1::/80 with priority 1. -/
def ex_db_contest : List ac_lsa :=
  [⟨10, [ex_u64], []⟩, ⟨20, [], [⟨7, 1, 64, [ex_p1]⟩]⟩,
   ⟨30, [], [⟨9, 1, 80, [⟨⟨0x20010db8, 1, 0x00010000, 0⟩, 80⟩]⟩]⟩]

/-! ## TLVs of the AC LSA (find_next_tlv) -/

/-- The header `struct ospf_lsa_ac_tlv` (proto/ospf/ospf.h is not among the
sources): the type of the TLV and the length of its value. -/
structure ospf_lsa_ac_tlv where
  type : Nat
  length : Nat
deriving DecidableEq, Repr

/-- The function find_next_tlv. The body of the LSA is given by `lsa`, the
header that lies at each byte offset (`none` where no TLV of the body begins: a
read of the header there is outside the body, or not on a TLV boundary); the
macro LSA_AC_TLV_SPACE, which is not among the sources, is the parameter
`space`. `bound = size - 4` is computed in `unsigned int`, and the comparison
`*offset <= bound` converts the `int` offset to `unsigned int`. The result is
the offset of the TLV returned (`none` for the null pointer) and the value left
in `*offset`. The `while` loop runs on `fuel`. -/
def find_next_tlv (space : Nat → Nat) (lsa : Nat → Option ospf_lsa_ac_tlv) (size : Nat)
    (type : Nat) : Nat → Nat → Except Fault (Option Nat × Nat)
  | 0, _ => .error .out_of_fuel
  | fuel + 1, offset =>
    let bound := (size + 2 ^ 32 - 4) % 2 ^ 32
    if offset % 2 ^ 32 ≤ bound then
      let old_offset := offset
      match lsa offset with
      | none => .error .undefined_access
      | some tlv =>
        let offset := offset + space tlv.length
        if type = 0 ∨ tlv.type = type then .ok (some old_offset, offset)
        else find_next_tlv space lsa size type fuel offset
    else .ok (none, offset)

/-- The number of bytes a list of consecutive TLVs occupies. -/
def tlvs_size (space : Nat → Nat) (tlvs : List ospf_lsa_ac_tlv) : Nat :=
  (tlvs.map (fun t => space t.length)).sum

/-- The body made of the consecutive TLVs `tlvs`: the header that begins at
byte offset `o`, if one does. -/
def tlv_at (space : Nat → Nat) : List ospf_lsa_ac_tlv → Nat → Option ospf_lsa_ac_tlv
  | [], _ => none
  | t :: rest, o =>
    if o = 0 then some t
    else if space t.length ≤ o then tlv_at space rest (o - space t.length)
    else none

/-- A value for LSA_AC_TLV_SPACE in the examples: the header of four bytes and
the value padded to a multiple of four bytes. -/
def ex_space (length : Nat) : Nat := 4 + (length + 3) / 4 * 4

/-- A body of three TLVs: type 1 with 16 bytes of value at offset 0, type 2
with 5 bytes at offset 20, type 3 without value at offset 32; 36 bytes. -/
def ex_tlvs : List ospf_lsa_ac_tlv := [⟨1, 16⟩, ⟨2, 5⟩, ⟨3, 0⟩]

/-- What find_used knows about the steal candidate after the elements of
`acc.used` have been collected for an interface of priority `p0`. -/
def steal_inv (p0 : Nat) (acc : used_acc) : Prop :=
  (acc.found_steal = true ↔ ∃ x ∈ acc.used, x.pa_priority < p0)
  ∧ (∀ x ∈ acc.used, acc.lowest_pa_priority ≤ x.pa_priority)
  ∧ (acc.found_steal = false → acc.lowest_pa_priority = p0)
  ∧ (acc.found_steal = true → ∃ (pre post : List prefix_node) (m : prefix_node),
      acc.used = pre ++ m :: post ∧ m.pa_priority = acc.lowest_pa_priority
      ∧ (∀ x ∈ pre, acc.lowest_pa_priority < x.pa_priority)
      ∧ acc.steal = ⟨ipa_and m.px.addr (ipa_mkmask LSA_AC_ASP_D_PREFIX_LENGTH),
          LSA_AC_ASP_D_PREFIX_LENGTH⟩)

/-- The used list that holds all of ffff:ffff:ffff:ffff::/64, advertised by
router 20 with priority 1. -/
def ex_used_last : List prefix_node := [⟨ex_last64, 20, 0, 1, false⟩]

/-- The candidate address `x` of a scan for prefixes of length `L` lies past
the used element `n`: on the bits on which a candidate and `n` are compared,
`x` is above `n`. -/
def past (L : Nat) (x : ip_addr) (n : prefix_node) : Bool :=
  decide (addr_val n.px.addr / 2 ^ (128 - min L n.px.len)
    < addr_val x / 2 ^ (128 - min L n.px.len))

/-- The number of used elements the candidate address `x` does not lie past. -/
def live (L : Nat) (used : List prefix_node) (x : ip_addr) : Nat :=
  (used.filter (fun n => !past L x n)).length

/-! # Theorems -/

/-! ## Facts about masks and containment -/

theorem u32_mkmask_testBit (n j : Nat) :
    (u32_mkmask n).testBit j = (decide (32 - n ≤ j) && decide (j - (32 - n) < n)) := by
  unfold u32_mkmask
  rw [Nat.testBit_shiftLeft, Nat.testBit_two_pow_sub_one]

theorem and_mask_zero_iff (x n : Nat) :
    x &&& u32_mkmask n = 0 ↔ ∀ j, 32 - n ≤ j → j - (32 - n) < n → x.testBit j = false := by
  constructor
  · intro h j h1 h2
    have := congrArg (fun v => v.testBit j) h
    simp [Nat.testBit_and, u32_mkmask_testBit, h1, h2] at this
    exact this
  · intro h
    apply Nat.eq_of_testBit_eq
    intro j
    simp only [Nat.testBit_and, u32_mkmask_testBit, Nat.zero_testBit]
    by_cases h1 : 32 - n ≤ j
    · by_cases h2 : j - (32 - n) < n
      · simp [h j h1 h2]
      · simp [h2]
    · simp [h1]

theorem and_mask_mono (x m n : Nat) (hmn : m ≤ n) (hn : n ≤ 32)
    (h : x &&& u32_mkmask n = 0) : x &&& u32_mkmask m = 0 := by
  rw [and_mask_zero_iff] at h ⊢
  intro j h1 h2
  apply h j <;> omega

theorem xor_mask_trans (a b c m : Nat) (h1 : (a ^^^ b) &&& m = 0) (h2 : (b ^^^ c) &&& m = 0) :
    (a ^^^ c) &&& m = 0 := by
  apply Nat.eq_of_testBit_eq
  intro j
  have e1 := congrArg (fun v => v.testBit j) h1
  have e2 := congrArg (fun v => v.testBit j) h2
  simp only [Nat.testBit_and, Nat.testBit_xor, Nat.zero_testBit] at e1 e2 ⊢
  revert e1 e2
  cases a.testBit j <;> cases b.testBit j <;> cases c.testBit j <;> cases m.testBit j <;> simp

theorem xor_mask_symm (a b m : Nat) (h : (a ^^^ b) &&& m = 0) : (b ^^^ a) &&& m = 0 := by
  rw [Nat.xor_comm]; exact h

theorem agree_iff (a b : ip_addr) (l : Nat) : agree a b l ↔
    ((a.a0 ^^^ b.a0) &&& u32_mkmask (min l 32) = 0 ∧
     (a.a1 ^^^ b.a1) &&& u32_mkmask (min (l - 32) 32) = 0 ∧
     (a.a2 ^^^ b.a2) &&& u32_mkmask (min (l - 64) 32) = 0 ∧
     (a.a3 ^^^ b.a3) &&& u32_mkmask (min (l - 96) 32) = 0) := by
  simp [agree, ipa_and, ipa_xor, ipa_mkmask, IPA_NONE]

theorem agree_refl (a : ip_addr) (l : Nat) : agree a a l := by
  simp [agree_iff]

theorem agree_symm {a b : ip_addr} {l : Nat} (h : agree a b l) : agree b a l := by
  rw [agree_iff] at h ⊢
  exact ⟨xor_mask_symm _ _ _ h.1, xor_mask_symm _ _ _ h.2.1, xor_mask_symm _ _ _ h.2.2.1,
    xor_mask_symm _ _ _ h.2.2.2⟩

theorem agree_trans {a b c : ip_addr} {l : Nat} (h1 : agree a b l) (h2 : agree b c l) :
    agree a c l := by
  rw [agree_iff] at h1 h2 ⊢
  exact ⟨xor_mask_trans _ _ _ _ h1.1 h2.1, xor_mask_trans _ _ _ _ h1.2.1 h2.2.1,
    xor_mask_trans _ _ _ _ h1.2.2.1 h2.2.2.1, xor_mask_trans _ _ _ _ h1.2.2.2 h2.2.2.2⟩

theorem agree_mono {a b : ip_addr} {l m : Nat} (hml : m ≤ l) (h : agree a b l) : agree a b m := by
  rw [agree_iff] at h ⊢
  refine ⟨and_mask_mono _ _ _ ?_ ?_ h.1, and_mask_mono _ _ _ ?_ ?_ h.2.1,
    and_mask_mono _ _ _ ?_ ?_ h.2.2.1, and_mask_mono _ _ _ ?_ ?_ h.2.2.2⟩ <;> omega

theorem net_in_net_iff (a : ip_addr) (al : Nat) (b : ip_addr) (bl : Nat) :
    net_in_net a al b bl = true ↔ bl ≤ al ∧ agree a b bl := by
  simp [net_in_net, agree]

theorem net_in_net_trans {a b c : ip_addr} {al bl cl : Nat}
    (h1 : net_in_net a al b bl = true) (h2 : net_in_net b bl c cl = true) :
    net_in_net a al c cl = true := by
  rw [net_in_net_iff] at *
  exact ⟨by omega, agree_trans (agree_mono h2.1 h1.2) h2.2⟩

/-- Two prefixes that contain a common prefix are comparable. -/
theorem net_in_net_comparable {n u r : ip_addr} {nl ul rl : Nat}
    (h1 : net_in_net n nl u ul = true) (h2 : net_in_net n nl r rl = true) (h : ul ≤ rl) :
    net_in_net r rl u ul = true := by
  rw [net_in_net_iff] at *
  exact ⟨h, agree_trans (agree_symm (agree_mono h h2.2)) h1.2⟩

theorem net_in_net_self (a : ip_addr) {al bl : Nat} (h : bl ≤ al) :
    net_in_net a al a bl = true := by
  rw [net_in_net_iff]; exact ⟨h, agree_refl a bl⟩

/-! ## The branches of ospf_pxassign_usp_ifa -/

/-- C10. When the function does not return at the test of 5.3.3, exactly one
of the guards of step 4 (keep-own), step 5 (accept-peer) and step 6 without
fall-through (allocate) holds; and when the guard of step 4 does not hold,
step 4 leaves the state alone and reports `deassigned_prefix = 0`, so that
step 6 then runs only under its own guard. -/
theorem exactly_one_branch (md5 : Digest) (fuel : Nat) (db : List ac_lsa) (po : proto_ospf)
    (i : Nat) (ifa : ospf_iface) (usp : Prefix) (r : resolution) (h : early_exit r = false) :
    ((guard_step4 r = true ∧ guard_step5 r = false ∧ guard_step6 r = false)
      ∨ (guard_step4 r = false ∧ guard_step5 r = true ∧ guard_step6 r = false)
      ∨ (guard_step4 r = false ∧ guard_step5 r = false ∧ guard_step6 r = true))
    ∧ (guard_step4 r = false →
        run_step4 md5 fuel db po i ifa usp r = .ok (po, false, false)
        ∧ ∀ s, guard_step6 r = false → run_step6 md5 fuel db i usp r false s = .ok s) := by
  constructor
  · revert h
    unfold early_exit guard_step4 guard_step5 guard_step6
    cases r.have_highest_link_pa_priority <;> cases r.have_assignment_resp
      <;> cases r.have_highest_rid <;> cases r.assignment_found <;> simp
  · intro h4
    constructor
    · unfold run_step4
      rw [h4]
    · intro s h6
      unfold run_step6
      simp [h6]

/-- Witness for C10: a resolution with a peer assignment and no responsibility
of ours passes the test of 5.3.3 and fires step 5 only. -/
theorem exactly_one_branch_witness :
    early_exit ⟨true, 1, false, true, 20, ⟨IPA_NONE, 0⟩, false, none⟩ = false ∧
    (((guard_step4 ⟨true, 1, false, true, 20, ⟨IPA_NONE, 0⟩, false, none⟩ = true
        ∧ guard_step5 ⟨true, 1, false, true, 20, ⟨IPA_NONE, 0⟩, false, none⟩ = false
        ∧ guard_step6 ⟨true, 1, false, true, 20, ⟨IPA_NONE, 0⟩, false, none⟩ = false)
      ∨ (guard_step4 ⟨true, 1, false, true, 20, ⟨IPA_NONE, 0⟩, false, none⟩ = false
        ∧ guard_step5 ⟨true, 1, false, true, 20, ⟨IPA_NONE, 0⟩, false, none⟩ = true
        ∧ guard_step6 ⟨true, 1, false, true, 20, ⟨IPA_NONE, 0⟩, false, none⟩ = false)
      ∨ (guard_step4 ⟨true, 1, false, true, 20, ⟨IPA_NONE, 0⟩, false, none⟩ = false
        ∧ guard_step5 ⟨true, 1, false, true, 20, ⟨IPA_NONE, 0⟩, false, none⟩ = false
        ∧ guard_step6 ⟨true, 1, false, true, 20, ⟨IPA_NONE, 0⟩, false, none⟩ = true))) :=
  ⟨by decide, (exactly_one_branch (fun _ _ _ => IPA_NONE) 0 [] ⟨1, [], []⟩ 0 ⟨"eth0", 0, 1, [], []⟩
      ⟨IPA_NONE, 0⟩ ⟨true, 1, false, true, 20, ⟨IPA_NONE, 0⟩, false, none⟩ (by decide)).1⟩

/-! ## The candidate chooser -/

theorem full_word_testBit (j : Nat) : (0xFFFFFFFF : Nat).testBit j = decide (j < 32) := by
  have : (0xFFFFFFFF : Nat) = 2 ^ 32 - 1 := by norm_num
  rw [this, Nat.testBit_two_pow_sub_one]

theorem random_word_agrees (h ml u n : Nat) (hn : n ≤ 32) :
    ((((h &&& ml) &&& (0xFFFFFFFF ^^^ u32_mkmask n)) ||| u) ^^^ u) &&& u32_mkmask n = 0 := by
  apply Nat.eq_of_testBit_eq
  intro j
  rw [Nat.testBit_and, Nat.testBit_xor, Nat.testBit_or, Nat.testBit_and, Nat.testBit_and,
    Nat.testBit_xor, Nat.zero_testBit, u32_mkmask_testBit, full_word_testBit]
  by_cases h1 : 32 - n ≤ j
  · by_cases h2 : j - (32 - n) < n
    · have : j < 32 := by omega
      simp [h1, h2, this]
    · simp [h2]
  · simp [h1]
theorem random_prefix_inside (md5 : Digest) (usp : Prefix) (len rid : Nat) (ifname : String)
    (i : Nat) (h : usp.len ≤ len) :
    net_in_net ( random_prefix md5 usp len rid ifname i) len usp.addr usp.len = true := by
  rw [net_in_net_iff, agree_iff]
  refine ⟨h, ?_⟩
  simp only [ random_prefix, ipa_or, ipa_and, ipa_not, ipa_mkmask]
  exact ⟨random_word_agrees _ _ _ _ (by omega), random_word_agrees _ _ _ _ (by omega),
    random_word_agrees _ _ _ _ (by omega), random_word_agrees _ _ _ _ (by omega)⟩

theorem next_prefix_len {pxa pxb r : Prefix} (h : next_prefix pxa pxb = .ok r) : r.len = pxa.len := by
  unfold next_prefix at h
  cases hw : next_prefix_addr pxa pxb with
  | error e => rw [hw] at h; cases h
  | ok w => rw [hw] at h; cases h; rfl

theorem choose_random_sound (md5 : Digest) (usp : Prefix) (len : Nat) (used : List prefix_node)
    (rid : Nat) (ifname : String) (hl : usp.len ≤ len) (n : Nat) :
    ∀ (i : Nat) (px : Prefix), choose_random md5 usp len used rid ifname i n = some px →
      px.len = len ∧ net_in_net px.addr px.len usp.addr usp.len = true ∧ in_use px used = false := by
  induction n with
  | zero => intro i px h; simp [choose_random] at h
  | succ n ih =>
    intro i px h
    simp only [choose_random] at h
    split at h
    · rename_i hu
      cases h
      exact ⟨rfl, random_prefix_inside md5 usp len rid ifname i hl, by simpa using hu⟩
    · exact ih _ _ h

theorem scan_enter_len (pxu px : Prefix) (looped : Bool) : (scan_enter pxu px looped).1.len = px.len := by
  unfold scan_enter; split <;> rfl

theorem scan_enter_inside (pxu px : Prefix) (looped : Bool) (h : pxu.len ≤ px.len) :
    net_in_net (scan_enter pxu px looped).1.addr (scan_enter pxu px looped).1.len pxu.addr pxu.len
      = true := by
  unfold scan_enter
  split
  · exact net_in_net_self _ h
  · rename_i hr
    simpa using hr

theorem scan_advance_len {used : List prefix_node} {px r : Prefix}
    (h : scan_advance used px = .ok r) : r.len = px.len := by
  unfold scan_advance at h
  split at h
  · exact next_prefix_len h
  · cases h; rfl

theorem choose_scan_sound (usp : Prefix) (len : Nat) (used : List prefix_node) (start : Prefix)
    (hl : usp.len ≤ len) (fuel : Nat) :
    ∀ (px : Prefix) (looped : Bool) (q : Prefix), px.len = len →
      choose_scan usp used start fuel px looped = .ok (.PXCHOOSE_SUCCESS, q) →
      q.len = len ∧ net_in_net q.addr q.len usp.addr usp.len = true ∧ in_use q used = false := by
  induction fuel with
  | zero => intro px looped q _ h; simp [choose_scan] at h
  | succ fuel ih =>
    intro px looped q hpx h
    rw [choose_scan] at h
    by_cases hc : (!looped || ipa_less px.addr start.addr) = true
    · rw [if_pos hc] at h
      by_cases hu : (!in_use (scan_enter usp px looped).1 used) = true
      · simp only [hu, if_true] at h
        injection h with h
        injection h with _ h
        subst h
        exact ⟨by rw [scan_enter_len, hpx], scan_enter_inside _ _ _ (by omega), by simpa using hu⟩
      · simp only [hu] at h
        cases ha : scan_advance used (scan_enter usp px looped).1 with
        | error e => rw [ha] at h; simp at h
        | ok r =>
          rw [ha] at h
          exact ih r _ q (by rw [scan_advance_len ha, scan_enter_len, hpx]) (by simpa using h)
    · rw [if_neg hc] at h
      simp at h

theorem in_use_false_iff (px : Prefix) (used : List prefix_node) :
    in_use px used = false ↔ ∀ n ∈ used, overlaps px n.px = false := by
  unfold in_use
  rw [List.any_eq_false]
  constructor
  · intro h n hn
    have := h n hn
    simp only [collides, overlaps, contains] at this ⊢
    rw [Bool.or_comm]
    simpa using this
  · intro h n hn
    have := h n hn
    simp only [collides, overlaps, contains] at this ⊢
    rw [Bool.or_comm]
    simpa using this

/-- C5. Soundness of choose_prefix: when the requested length is at least the
length of the usable prefix and choose_prefix returns PXCHOOSE_SUCCESS, the
prefix it stores has the requested length, lies inside the usable prefix and
overlaps no element of the used list. (Neither the masking of the usable
prefix nor the bounds `1 ≤ usp.len` and `len ≤ 128` are needed.) -/
theorem choose_prefix_sound (md5 : Digest) (fuel : Nat) (usp : Prefix) (len : Nat)
    (used : List prefix_node) (rid : Nat) (ifname : String) (px : Prefix)
    (hlen : usp.len ≤ len)
    (h : choose_prefix md5 fuel usp len used rid ifname = .ok (.PXCHOOSE_SUCCESS, px)) :
    px.len = len ∧ contains usp px = true ∧ ∀ n ∈ used, overlaps px n.px = false := by
  unfold choose_prefix at h
  cases hr : choose_random md5 usp len used rid ifname 0 10 with
  | some q =>
    rw [hr] at h
    injection h with h
    injection h with _ h
    subst h
    obtain ⟨h1, h2, h3⟩ := choose_random_sound md5 usp len used rid ifname hlen 10 0 q hr
    exact ⟨h1, h2, (in_use_false_iff _ _).1 h3⟩
  | none =>
    rw [hr] at h
    obtain ⟨h1, h2, h3⟩ := choose_scan_sound usp len used _ hlen fuel _ _ px rfl h
    exact ⟨h1, h2, (in_use_false_iff _ _).1 h3⟩

/-- Witness for C5: in 2001:db8::/60 with 2001:db8::/64 in use and a digest
whose candidates all fall on the used /64, the scan stores 2001:db8:0:1::/64. -/
theorem choose_prefix_sound_witness :
    (⟨⟨0x20010db8, 1, 0, 0⟩, 64⟩ : Prefix).len = 64
    ∧ contains ⟨⟨0x20010db8, 0, 0, 0⟩, 60⟩ ⟨⟨0x20010db8, 1, 0, 0⟩, 64⟩ = true
    ∧ ∀ n ∈ [(⟨⟨⟨0x20010db8, 0, 0, 0⟩, 64⟩, 20, 0, 1, false⟩ : prefix_node)],
        overlaps ⟨⟨0x20010db8, 1, 0, 0⟩, 64⟩ n.px = false :=
  choose_prefix_sound (fun _ _ _ => ⟨0x12345678, 0x9abcdef0, 0x11111111, 0x22222222⟩) 4
    ⟨⟨0x20010db8, 0, 0, 0⟩, 60⟩ 64 [⟨⟨⟨0x20010db8, 0, 0, 0⟩, 64⟩, 20, 0, 1, false⟩] 10 "eth0"
    ⟨⟨0x20010db8, 1, 0, 0⟩, 64⟩ (by decide) (by decide)

theorem choose_random_none (md5 : Digest) (usp : Prefix) (len : Nat) (used : List prefix_node)
    (rid : Nat) (ifname : String) (n : Nat) :
    ∀ i, (∀ k, i ≤ k → k < i + n → in_use ⟨ random_prefix md5 usp len rid ifname k, len⟩ used = true) →
      choose_random md5 usp len used rid ifname i n = none := by
  induction n with
  | zero => intro i _; rfl
  | succ n ih =>
    intro i h
    rw [choose_random]
    have h0 := h i (Nat.le_refl i) (by omega)
    simp only [h0, Bool.not_true, Bool.false_eq_true, if_false]
    exact ih (i + 1) (fun k hk1 hk2 => h k (by omega) (by omega))

/-- C6, evaluation at the failing input. In the usable prefix
2001:db8:ffff:fffe::/63 with 2001:db8:ffff:fffe::/64 in use, the prefix
2001:db8:ffff:ffff::/64 is free; yet whenever the ten pseudo-random candidates
fall on the used /64, choose_prefix returns PXCHOOSE_FAILURE: next_prefix
treats the word 0xFFFFFFFF as an overflow (`add < 0xFFFFFFFF`) and steps over
the free prefix. -/
theorem choose_prefix_misses_free (md5 : Digest) (rid : Nat) (ifname : String)
    (h : ∀ k, k < 10 → random_prefix md5 ⟨⟨0x20010db8, 0xFFFFFFFE, 0, 0⟩, 63⟩ 64 rid ifname k
      = ⟨0x20010db8, 0xFFFFFFFE, 0, 0⟩) :
    choose_prefix md5 100 ⟨⟨0x20010db8, 0xFFFFFFFE, 0, 0⟩, 63⟩ 64
        [⟨⟨⟨0x20010db8, 0xFFFFFFFE, 0, 0⟩, 64⟩, 20, 0, 1, false⟩] rid ifname
      = .ok (.PXCHOOSE_FAILURE, ⟨⟨0x20010db9, 0, 0, 0⟩, 64⟩)
    ∧ contains ⟨⟨0x20010db8, 0xFFFFFFFE, 0, 0⟩, 63⟩ ⟨⟨0x20010db8, 0xFFFFFFFF, 0, 0⟩, 64⟩ = true
    ∧ (∀ n ∈ [(⟨⟨⟨0x20010db8, 0xFFFFFFFE, 0, 0⟩, 64⟩, 20, 0, 1, false⟩ : prefix_node)],
        overlaps ⟨⟨0x20010db8, 0xFFFFFFFF, 0, 0⟩, 64⟩ n.px = false) := by
  refine ⟨?_, by decide, by decide⟩
  unfold choose_prefix
  rw [choose_random_none md5 _ 64 _ rid ifname 10 0 (fun k _ hk => by rw [h k (by omega)]; decide)]
  simp only [h 9 (by omega)]
  decide

/-- Witness for the evaluation of C6: a digest whose bit 63 is clear. -/
theorem choose_prefix_misses_free_witness :
    choose_prefix (fun _ _ _ => ⟨0x12345678, 0x9abcdef0, 0x11111111, 0x22222222⟩) 100
        ⟨⟨0x20010db8, 0xFFFFFFFE, 0, 0⟩, 63⟩ 64
        [⟨⟨⟨0x20010db8, 0xFFFFFFFE, 0, 0⟩, 64⟩, 20, 0, 1, false⟩] 10 "eth0"
      = .ok (.PXCHOOSE_FAILURE, ⟨⟨0x20010db9, 0, 0, 0⟩, 64⟩) :=
  ( choose_prefix_misses_free (fun _ _ _ => ⟨0x12345678, 0x9abcdef0, 0x11111111, 0x22222222⟩) 10 "eth0"
    (fun _ _ => by simp only [ random_prefix]; decide)).1

/-! ## Step 5.3.4: keeping our own assignment -/

theorem prefix_eq_iff (a b : Prefix) :
    (ipa_equal a.addr b.addr && decide (a.len = b.len)) = true ↔ a = b := by
  cases a; cases b; simp [ipa_equal]

theorem lsdb_any_iff (db : List ac_lsa) (router_id : Nat) (sel : lsa_iasp → Bool)
    (p : ac_lsa → lsa_iasp → Prefix → Bool) :
    lsdb_any db router_id sel p = true ↔
      ∃ en ∈ db, en.rt ≠ router_id ∧ ∃ iasp ∈ en.iasps, sel iasp = true ∧
        ∃ a ∈ iasp.asps, p en iasp a = true := by
  simp only [lsdb_any, List.any_eq_true, Bool.and_eq_true, decide_eq_true_eq]

/-- C7. The collision rule of step 5.3.4 for our assignment `self_r` at
position `j`: the LSDB scan deassigns it exactly when some ASP advertised by
another router (1) has our priority and lies strictly inside `self_r`, or (2)
has our priority, the prefix of `self_r` and a greater router id, or (3) has a
greater priority and overlaps `self_r`. In that case the record is deleted,
`change` is set and step 5.3.6 runs; otherwise `deassigned_prefix` stays 0 and,
unless `self_r` is a /80 that is tried for an upgrade, the record is kept and
marked valid. -/
theorem keep_own_collision_rule (md5 : Digest) (fuel : Nat) (db : List ac_lsa) (po : proto_ospf)
    (i : Nat) (ifa : ospf_iface) (usp : Prefix) (j : Nat) (self_r : prefix_node) :
    (lsdb_collision db po.router_id ifa.pa_priority self_r.px = true ↔
      ∃ en ∈ db, en.rt ≠ po.router_id ∧ ∃ iasp ∈ en.iasps, ∃ a ∈ iasp.asps,
        (iasp.pa_priority = ifa.pa_priority ∧ strictly_inside a self_r.px = true)
        ∨ (iasp.pa_priority = ifa.pa_priority ∧ a = self_r.px ∧ en.rt > po.router_id)
        ∨ (iasp.pa_priority > ifa.pa_priority ∧ overlaps a self_r.px = true))
    ∧ (lsdb_collision db po.router_id ifa.pa_priority self_r.px = true →
        step4 md5 fuel db po i ifa usp j self_r = .ok ( configure_ifa_del_prefix po i j, true, true)
        ∧ ∀ (r : resolution) (s : proto_ospf × Bool) (ifa6 : ospf_iface),
            s.1.iface_list[i]? = some ifa6 →
            run_step6 md5 fuel db i usp r true s = step6 md5 fuel db s.1 i ifa6 usp s.2)
    ∧ (lsdb_collision db po.router_id ifa.pa_priority self_r.px = false →
        ∀ out, step4 md5 fuel db po i ifa usp j self_r = .ok out →
          out.2.2 = false ∧
          (self_r.px.len ≠ LSA_AC_ASP_SUB_PREFIX_LENGTH → out = (set_valid po i j, false, false))) := by
  refine ⟨?_, ?_, ?_⟩
  · unfold lsdb_collision
    rw [lsdb_any_iff]
    constructor
    · rintro ⟨en, hen, hrt, iasp, hi, _, a, ha, hp⟩
      refine ⟨en, hen, hrt, iasp, hi, a, ha, ?_⟩
      simp only [asp_collides, Bool.or_eq_true, Bool.and_eq_true, decide_eq_true_eq] at hp
      rcases hp with (⟨⟨h1, h2⟩, h3⟩ | ⟨⟨⟨h1, h2⟩, h3⟩, h4⟩) | ⟨h1, h2⟩
      · left
        exact ⟨h1, by simp only [strictly_inside, Bool.and_eq_true, Bool.or_eq_true, decide_eq_true_eq]; exact ⟨h2, h3⟩⟩
      · right; left
        exact ⟨h1, (prefix_eq_iff a self_r.px).1 (by simp [h3, h4]), h2⟩
      · right; right
        refine ⟨h1, ?_⟩
        simp only [overlaps, contains, Bool.or_eq_true]
        exact h2.symm
    · rintro ⟨en, hen, hrt, iasp, hi, a, ha, hp⟩
      refine ⟨en, hen, hrt, iasp, hi, ?_, a, ha, ?_⟩
      · rcases hp with ⟨h1, _⟩ | ⟨h1, _⟩ | ⟨h1, _⟩ <;> simp <;> omega
      · simp only [asp_collides, Bool.or_eq_true, Bool.and_eq_true, decide_eq_true_eq]
        rcases hp with ⟨h1, h2⟩ | ⟨h1, h2, h3⟩ | ⟨h1, h2⟩
        · left; left
          simp only [strictly_inside, Bool.and_eq_true, Bool.or_eq_true, decide_eq_true_eq] at h2
          exact ⟨⟨h1, h2.1⟩, h2.2⟩
        · left; right
          have := (prefix_eq_iff a self_r.px).2 h2
          simp only [Bool.and_eq_true, decide_eq_true_eq] at this
          exact ⟨⟨⟨h1, h3⟩, this.1⟩, this.2⟩
        · right
          simp only [overlaps, contains, Bool.or_eq_true] at h2
          exact ⟨h1, h2.symm⟩
  · intro h
    refine ⟨by unfold step4; rw [if_pos h], ?_⟩
    intro r s ifa6 h6
    unfold run_step6
    simp [h6]
  · intro h out hout
    unfold step4 at hout
    rw [if_neg (by simp [h])] at hout
    split at hout
    · cases hout
    · split at hout
      · rename_i hlen
        refine ⟨?_, fun hne => absurd hlen hne⟩
        cases hu : upgrade md5 fuel db i ifa usp j ⟨po, false, false⟩ with
        | error e => rw [hu] at hout; cases hout
        | ok st =>
          rw [hu] at hout
          simp only [bind, Except.bind] at hout
          split at hout <;> (cases hout; rfl)
      · cases hout
        exact ⟨rfl, fun _ => rfl⟩

/-! ## Facts about the state primitives -/

theorem set_iface_getElem? (po : proto_ospf) (i k : Nat) (ifa : ospf_iface) :
    (set_iface po i ifa).iface_list[k]? =
      if i = k then (if i < po.iface_list.length then some ifa else none) else po.iface_list[k]? := by
  simp [set_iface, List.getElem?_set]

theorem set_iface_self (po : proto_ospf) (i : Nat) (ifa0 ifa : ospf_iface)
    (h : po.iface_list[i]? = some ifa0) : (set_iface po i ifa).iface_list[i]? = some ifa := by
  rw [set_iface_getElem?]
  have := (List.getElem?_eq_some.1 h).1
  simp [this]

theorem set_iface_set_iface (po : proto_ospf) (i : Nat) (a b : ospf_iface) :
    set_iface (set_iface po i a) i b = set_iface po i b := by
  simp [set_iface, List.set_set]

theorem set_iface_same (po : proto_ospf) (i : Nat) (ifa : ospf_iface)
    (h : po.iface_list[i]? = some ifa) : set_iface po i ifa = po := by
  cases po with
  | mk rid l k =>
    simp only [set_iface, proto_ospf.mk.injEq, true_and, and_true]
    apply List.ext_getElem?
    intro n
    rw [List.getElem?_set]
    split
    · rename_i hn
      subst hn
      have := (List.getElem?_eq_some.1 h).1
      simp only [this, if_true]
      exact h.symm
    · rfl

theorem area_any_iff (oa : Nat) (p : ospf_iface → prefix_node → Bool) (po : proto_ospf) :
    area_any oa p po = true ↔
      ∃ (k : Nat) (ifa2 : ospf_iface), po.iface_list[k]? = some ifa2 ∧ ifa2.oa = oa ∧ ∃ n ∈ ifa2.asp_list, p ifa2 n = true := by
  simp only [area_any, List.any_eq_true, Bool.and_eq_true, decide_eq_true_eq]
  constructor
  · rintro ⟨ifa2, hm, ho, n, hn, hp⟩
    obtain ⟨k, hk⟩ := List.mem_iff_getElem?.1 hm
    exact ⟨k, ifa2, hk, ho, n, hn, hp⟩
  · rintro ⟨k, ifa2, hk, ho, n, hn, hp⟩
    exact ⟨ifa2, List.mem_iff_getElem?.2 ⟨k, hk⟩, ho, n, hn, hp⟩

/-! ## Step 5.3.5: a peer assignment -/

theorem guard_step5_excludes (r : resolution) (h : guard_step5 r = true) :
    early_exit r = false ∧ guard_step4 r = false ∧ guard_step6 r = false := by
  revert h
  unfold early_exit guard_step4 guard_step5 guard_step6
  cases r.have_highest_link_pa_priority <;> cases r.have_assignment_resp
    <;> cases r.have_highest_rid <;> cases r.assignment_found <;> simp

theorem map_mark_none (r : resolution) (l : List prefix_node)
    (h : ∀ n ∈ l, matches_peer r n = false) :
    l.map (fun n => if matches_peer r n then { n with valid := true } else n) = l := by
  induction l with
  | nil => rfl
  | cons a t ih =>
    simp only [List.map_cons, h a (List.mem_cons_self a t), Bool.false_eq_true, if_false]
    rw [ih (fun n hn => h n (List.mem_cons_of_mem a hn))]

/-- C8. Refusal of a peer assignment is atomic. When the function reaches
step 5.3.5 (the usable prefix passes the test of 5.3.0 and the guard of step 5
holds), no record of the interface matches the peer assignment and some record
on an interface of the area overlaps the peer prefix and wins against it
(greater priority; or the priority of the link and a prefix strictly inside the
peer prefix; or the priority of the link, the same prefix and our router id
greater than the peer's), the function returns no-change and its state differs
from the initial one only by the refreshed neighbor fields: no record is
installed or removed on any interface and no kernel call is issued. -/
theorem accept_peer_refusal (md5 : Digest) (fuel : Nat) (db : List ac_lsa) (po : proto_ospf)
    (i : Nat) (usp : Prefix) (ifa0 : ospf_iface)
    (hifa : po.iface_list[i]? = some ifa0)
    (hnest : (lsdb_usps db).any (fun usp2 => strictly_inside usp usp2) = false)
    (hguard : guard_step5 (resolve db po.router_id (refresh_iface db ifa0) usp) = true)
    (hnomatch : ∀ n ∈ ifa0.asp_list,
      matches_peer (resolve db po.router_id (refresh_iface db ifa0) usp) n = false)
    (hwin : ∃ (k : Nat) (ifa2 : ospf_iface), po.iface_list[k]? = some ifa2 ∧ ifa2.oa = ifa0.oa ∧ ∃ n ∈ ifa2.asp_list,
      overlaps (resolve db po.router_id (refresh_iface db ifa0) usp).neigh_r n.px = true ∧
      (n.pa_priority > (resolve db po.router_id (refresh_iface db ifa0) usp).highest_link_pa_priority
       ∨ (n.pa_priority = (resolve db po.router_id (refresh_iface db ifa0) usp).highest_link_pa_priority
          ∧ strictly_inside n.px (resolve db po.router_id (refresh_iface db ifa0) usp).neigh_r = true)
       ∨ (n.pa_priority = (resolve db po.router_id (refresh_iface db ifa0) usp).highest_link_pa_priority
          ∧ n.px = (resolve db po.router_id (refresh_iface db ifa0) usp).neigh_r
          ∧ po.router_id > (resolve db po.router_id (refresh_iface db ifa0) usp).neigh_rid))) :
    ospf_pxassign_usp_ifa md5 fuel db po i usp
        = .ok (set_iface po i (refresh_iface db ifa0), false)
    ∧ (set_iface po i (refresh_iface db ifa0)).klog = po.klog
    ∧ ∀ k : Nat, ((set_iface po i (refresh_iface db ifa0)).iface_list[k]?).map (fun ifa => ifa.asp_list)
        = (po.iface_list[k]?).map (fun ifa => ifa.asp_list) := by
  obtain ⟨he, h4, h6⟩ := guard_step5_excludes _ hguard
  have hlen := (List.getElem?_eq_some.1 hifa).1
  refine ⟨?_, rfl, ?_⟩
  · unfold ospf_pxassign_usp_ifa
    simp only [hifa, hnest, Bool.false_eq_true, if_false]
    have hrid : (set_iface po i (refresh_iface db ifa0)).router_id = po.router_id := rfl
    rw [hrid, he]
    simp only [Bool.false_eq_true, if_false]
    have hs4 : run_step4 md5 fuel db (set_iface po i (refresh_iface db ifa0)) i (refresh_iface db ifa0)
        usp (resolve db po.router_id (refresh_iface db ifa0) usp)
        = .ok (set_iface po i (refresh_iface db ifa0), false, false) := by
      unfold run_step4
      rw [h4]
    rw [hs4]
    simp only [bind, Except.bind]
    have hs5 : run_step5 i (resolve db po.router_id (refresh_iface db ifa0) usp)
        (set_iface po i (refresh_iface db ifa0), false)
        = (set_iface po i (refresh_iface db ifa0), false) := by
      unfold run_step5
      rw [if_pos hguard]
      simp only [set_iface_self po i ifa0 _ hifa]
      unfold step5
      have hmark := map_mark_none _ _ hnomatch
      have hfound : (refresh_iface db ifa0).asp_list.any
          (matches_peer (resolve db po.router_id (refresh_iface db ifa0) usp)) = false := by
        rw [List.any_eq_false]
        intro n hn
        simpa using hnomatch n hn
      have hsame : set_iface (set_iface po i (refresh_iface db ifa0)) i
          { refresh_iface db ifa0 with asp_list := (refresh_iface db ifa0).asp_list.map (fun n =>
              if matches_peer (resolve db po.router_id (refresh_iface db ifa0) usp) n
              then { n with valid := true } else n) }
          = set_iface po i (refresh_iface db ifa0) := by
        rw [set_iface_set_iface]
        congr 1
        show ({ refresh_iface db ifa0 with asp_list := List.map _ ifa0.asp_list } : ospf_iface) = _
        rw [hmark]
        rfl
      simp only [hfound, hsame]
      have href : area_any (refresh_iface db ifa0).oa
          (fun _ n => refuses_peer (set_iface po i (refresh_iface db ifa0)).router_id
            (resolve db po.router_id (refresh_iface db ifa0) usp) n)
          (set_iface po i (refresh_iface db ifa0)) = true := by
        rw [area_any_iff]
        obtain ⟨k, ifa2, hk, ho, n, hn, hov, hw⟩ := hwin
        have href : refuses_peer po.router_id
            (resolve db po.router_id (refresh_iface db ifa0) usp) n = true := by
          simp only [refuses_peer, Bool.and_eq_true, Bool.or_eq_true, decide_eq_true_eq]
          refine ⟨hov, ?_⟩
          rcases hw with h1 | ⟨h1, h2⟩ | ⟨h1, h2, h3⟩
          · left; left; exact h1
          · left; right
            simp only [strictly_inside, Bool.and_eq_true, Bool.or_eq_true, decide_eq_true_eq,
              Bool.not_eq_true', ipa_equal, decide_eq_false_iff_not] at h2
            simp only [ipa_equal, Bool.not_eq_true', decide_eq_false_iff_not]
            refine ⟨⟨h1, h2.1⟩, ?_⟩
            rcases h2.2 with h | h
            · left; exact fun e => h e.symm
            · right; exact fun e => h e.symm
          · right
            refine ⟨⟨h1, ?_⟩, h3⟩
            rw [h2]
            simp [ipa_equal]
        by_cases hki : i = k
        · subst hki
          rw [hifa] at hk
          cases hk
          exact ⟨i, refresh_iface db ifa0, set_iface_self po i ifa0 _ hifa, rfl, n, hn, href⟩
        · refine ⟨k, ifa2, ?_, ho, n, hn, href⟩
          rw [set_iface_getElem?, if_neg hki]
          exact hk
      simp [href]
    rw [hs5]
    unfold run_step6
    simp [h6]
  · intro k
    rw [set_iface_getElem?]
    split
    · rename_i hik
      subst hik
      simp [hlen, hifa, refresh_iface]
    · rfl

/-- Witness for C8: on eth0 the peer assignment 2001:db8:0:1::/64 (priority 1)
is refused because eth1 holds the same prefix with priority 5. -/
theorem accept_peer_refusal_witness :
    ospf_pxassign_usp_ifa ex_md5 4 ex_db_peer ex_po_refuse 0 ex_usp
      = .ok (set_iface ex_po_refuse 0 (refresh_iface ex_db_peer ⟨"eth0", 0, 1, [], [ex_neigh]⟩), false) :=
  (accept_peer_refusal ex_md5 4 ex_db_peer ex_po_refuse 0 ex_usp ⟨"eth0", 0, 1, [], [ex_neigh]⟩
    rfl (by decide) (by decide) (by decide)
    ⟨1, ⟨"eth1", 0, 5, [⟨ex_p1, 10, 10, 5, true⟩], []⟩, rfl, rfl, ⟨ex_p1, 10, 10, 5, true⟩,
      by simp, by decide, Or.inl (by decide)⟩).1

theorem refuses_peer_iff (router_id : Nat) (r : resolution) (n : prefix_node) :
    refuses_peer router_id r n = true ↔
      overlaps r.neigh_r n.px = true ∧ wins_tie_break router_id r n := by
  simp only [refuses_peer, wins_tie_break, Bool.and_eq_true, Bool.or_eq_true, decide_eq_true_eq,
    strictly_inside, ipa_equal, Bool.not_eq_true', decide_eq_false_iff_not]
  constructor
  · rintro ⟨hov, (h1 | ⟨⟨h1, h2⟩, h3⟩) | ⟨⟨h1, h2, h3⟩, h4⟩⟩
    · exact ⟨hov, Or.inl h1⟩
    · refine ⟨hov, Or.inr (Or.inl ⟨h1, h2, ?_⟩)⟩
      rcases h3 with h | h
      · left; exact fun e => h e.symm
      · right; exact fun e => h e.symm
    · refine ⟨hov, Or.inr (Or.inr ⟨h1, ?_, h4⟩)⟩
      cases hn : n.px
      cases hr : r.neigh_r
      rw [hn, hr] at h2 h3
      simp only at h2 h3
      rw [h2, h3]
  · rintro ⟨hov, h1 | ⟨h1, h2, h3⟩ | ⟨h1, h2, h3⟩⟩
    · exact ⟨hov, Or.inl (Or.inl h1)⟩
    · refine ⟨hov, Or.inl (Or.inr ⟨⟨h1, h2⟩, ?_⟩)⟩
      rcases h3 with h | h
      · left; exact fun e => h e.symm
      · right; exact fun e => h e.symm
    · refine ⟨hov, Or.inr ⟨⟨h1, ?_⟩, h3⟩⟩
      rw [h2]
      exact ⟨rfl, rfl⟩

theorem add_prefix_getElem? (addr : ip_addr) (len rid my_rid prio : Nat) (po : proto_ospf)
    (i k : Nat) (ifa : ospf_iface) (h : po.iface_list[i]? = some ifa) :
    ( configure_ifa_add_prefix addr len rid my_rid prio po i).iface_list[k]? =
      if i = k then some { ifa with asp_list := ifa.asp_list ++ [⟨⟨addr, len⟩, rid, my_rid, prio, true⟩] }
      else po.iface_list[k]? := by
  have hl := (List.getElem?_eq_some.1 h).1
  simp only [ configure_ifa_add_prefix, h]
  show (set_iface po i _).iface_list[k]? = _
  rw [set_iface_getElem?]
  simp [hl]

theorem delete_where_getElem? (oa : Nat) (p : prefix_node → Bool) (po : proto_ospf) (k : Nat) :
    (delete_where oa p po).iface_list[k]? = (po.iface_list[k]?).map (fun ifa2 =>
      if ifa2.oa = oa then { ifa2 with asp_list := ifa2.asp_list.filter (fun n => !p n) } else ifa2) := by
  simp [delete_where, List.getElem?_map]

theorem area_any_false_iff (oa : Nat) (p : ospf_iface → prefix_node → Bool) (po : proto_ospf) :
    area_any oa p po = false ↔
      ∀ (k : Nat) (ifa2 : ospf_iface), po.iface_list[k]? = some ifa2 → ifa2.oa = oa →
        ∀ n ∈ ifa2.asp_list, p ifa2 n = false := by
  rw [← Bool.not_eq_true, area_any_iff]
  constructor
  · intro h k ifa2 hk ho n hn
    by_contra hp
    exact h ⟨k, ifa2, hk, ho, n, hn, by simpa using hp⟩
  · rintro h ⟨k, ifa2, hk, ho, n, hn, hp⟩
    rw [h k ifa2 hk ho n hn] at hp
    cases hp
/-- C9. Accepting a peer assignment. When the function reaches step 5.3.5, no
record of the interface matches the peer assignment and no record on an
interface of the area that overlaps the peer prefix wins against it, the
function returns with the peer record (peer prefix, `rid` the peer, `my_rid`
our router id, the priority of the link, `valid = 1`) at the end of the list of
the interface, and no other record on any interface of the area overlaps the
peer prefix. -/
theorem accept_peer_evicts (md5 : Digest) (fuel : Nat) (db : List ac_lsa) (po : proto_ospf)
    (i : Nat) (usp : Prefix) (ifa0 : ospf_iface)
    (hifa : po.iface_list[i]? = some ifa0)
    (hnest : (lsdb_usps db).any (fun usp2 => strictly_inside usp usp2) = false)
    (hguard : guard_step5 (resolve db po.router_id (refresh_iface db ifa0) usp) = true)
    (hnomatch : ∀ n ∈ ifa0.asp_list,
      matches_peer (resolve db po.router_id (refresh_iface db ifa0) usp) n = false)
    (hnowin : ∀ (k : Nat) (ifa2 : ospf_iface), po.iface_list[k]? = some ifa2 → ifa2.oa = ifa0.oa →
      ∀ n ∈ ifa2.asp_list,
        overlaps (resolve db po.router_id (refresh_iface db ifa0) usp).neigh_r n.px = true →
        ¬ wins_tie_break po.router_id (resolve db po.router_id (refresh_iface db ifa0) usp) n) :
    ∃ (po1 : proto_ospf) (change : Bool) (ifa1 : ospf_iface) (l : List prefix_node),
      ospf_pxassign_usp_ifa md5 fuel db po i usp = .ok (po1, change)
      ∧ po1.iface_list[i]? = some ifa1
      ∧ ifa1.asp_list = l ++ [peer_record po.router_id
          (resolve db po.router_id (refresh_iface db ifa0) usp)]
      ∧ (∀ n ∈ l, overlaps (resolve db po.router_id (refresh_iface db ifa0) usp).neigh_r n.px = false)
      ∧ ∀ (k : Nat) (ifa2 : ospf_iface), k ≠ i → po1.iface_list[k]? = some ifa2 → ifa2.oa = ifa0.oa →
          ∀ n ∈ ifa2.asp_list,
            overlaps (resolve db po.router_id (refresh_iface db ifa0) usp).neigh_r n.px = false := by
  obtain ⟨he, h4, h6⟩ := guard_step5_excludes _ hguard
  have hlen := (List.getElem?_eq_some.1 hifa).1
  generalize hr : resolve db po.router_id (refresh_iface db ifa0) usp = r at *
  -- the state after the resolver
  have hget1 : ∀ k : Nat, k ≠ i →
      (set_iface po i (refresh_iface db ifa0)).iface_list[k]? = po.iface_list[k]? := by
    intro k hk
    rw [set_iface_getElem?, if_neg (fun e => hk e.symm)]
  have hself := set_iface_self po i ifa0 (refresh_iface db ifa0) hifa
  have hfound : (refresh_iface db ifa0).asp_list.any (matches_peer r) = false := by
    rw [List.any_eq_false]
    intro n hn
    simpa using hnomatch n hn
  have hsame : set_iface (set_iface po i (refresh_iface db ifa0)) i
      { refresh_iface db ifa0 with asp_list := (refresh_iface db ifa0).asp_list.map (fun n =>
          if matches_peer r n then { n with valid := true } else n) }
      = set_iface po i (refresh_iface db ifa0) := by
    rw [set_iface_set_iface]
    congr 1
    show ({ refresh_iface db ifa0 with asp_list := List.map _ ifa0.asp_list } : ospf_iface) = _
    rw [map_mark_none _ _ hnomatch]
    rfl
  have href : area_any (refresh_iface db ifa0).oa
      (fun _ n => refuses_peer (set_iface po i (refresh_iface db ifa0)).router_id r n)
      (set_iface po i (refresh_iface db ifa0)) = false := by
    rw [area_any_false_iff]
    intro k ifa2 hk ho n hn
    by_contra hp
    have hp2 : refuses_peer po.router_id r n = true := by simpa using hp
    rw [refuses_peer_iff] at hp2
    by_cases hki : k = i
    · subst hki
      rw [hself] at hk
      cases hk
      exact hnowin k ifa0 hifa rfl n hn hp2.1 hp2.2
    · rw [hget1 k hki] at hk
      exact hnowin k ifa2 hk ho n hn hp2.1 hp2.2
  -- the state before the record is added
  have hstep : ∃ (po2 : proto_ospf) (ch : Bool) (ifa2 : ospf_iface),
      step5 (set_iface po i (refresh_iface db ifa0)) i (refresh_iface db ifa0) r false
        = ( configure_ifa_add_prefix r.neigh_r.addr r.neigh_r.len r.neigh_rid po.router_id
            r.highest_link_pa_priority po2 i, ch)
      ∧ po2.iface_list[i]? = some ifa2 ∧ ifa2.oa = ifa0.oa
      ∧ ∀ (k : Nat) (ifa3 : ospf_iface), po2.iface_list[k]? = some ifa3 → ifa3.oa = ifa0.oa →
          ∀ n ∈ ifa3.asp_list, overlaps r.neigh_r n.px = false := by
    unfold step5
    simp only [hfound, hsame, href, Bool.not_false, Bool.true_and, Bool.and_self, if_true]
    by_cases hc : area_any (refresh_iface db ifa0).oa (fun _ n => overlaps r.neigh_r n.px)
        (set_iface po i (refresh_iface db ifa0)) = true
    · simp only [hc, if_true]
      refine ⟨_, _, { refresh_iface db ifa0 with asp_list :=
          (refresh_iface db ifa0).asp_list.filter (fun n => !overlaps r.neigh_r n.px) },
        rfl, ?_, rfl, ?_⟩
      · rw [delete_where_getElem?, hself]
        simp
      · intro k ifa3 hk ho n hn
        rw [delete_where_getElem?] at hk
        cases hq : (set_iface po i (refresh_iface db ifa0)).iface_list[k]? with
        | none => rw [hq] at hk; cases hk
        | some ifa4 =>
          rw [hq] at hk
          simp only [Option.map_some', Option.some.injEq] at hk
          subst hk
          by_cases ho4 : ifa4.oa = (refresh_iface db ifa0).oa
          · simp only [ho4, if_true] at hn
            simpa using (List.mem_filter.1 hn).2
          · simp only [ho4, if_false] at ho
            exact absurd ho ho4
    · simp only [hc, Bool.false_eq_true, if_false]
      refine ⟨_, _, _, rfl, hself, rfl, ?_⟩
      have hc := (area_any_false_iff _ _ _).1 (by simpa using hc)
      intro k ifa3 hk ho n hn
      exact hc k ifa3 hk ho n hn
  obtain ⟨po2, ch, ifa2, hs5, hi2, ho2, hno⟩ := hstep
  refine ⟨ configure_ifa_add_prefix r.neigh_r.addr r.neigh_r.len r.neigh_rid po.router_id
      r.highest_link_pa_priority po2 i, ch,
      { ifa2 with asp_list := ifa2.asp_list ++ [peer_record po.router_id r] }, ifa2.asp_list,
      ?_, ?_, rfl, ?_, ?_⟩
  · unfold ospf_pxassign_usp_ifa
    simp only [hifa, hnest, Bool.false_eq_true, if_false]
    have hrid : (set_iface po i (refresh_iface db ifa0)).router_id = po.router_id := rfl
    rw [hrid, hr, he]
    simp only [Bool.false_eq_true, if_false]
    have hs4 : run_step4 md5 fuel db (set_iface po i (refresh_iface db ifa0)) i (refresh_iface db ifa0)
        usp r = .ok (set_iface po i (refresh_iface db ifa0), false, false) := by
      unfold run_step4
      rw [h4]
    rw [hs4]
    simp only [bind, Except.bind]
    have hrun5 : run_step5 i r (set_iface po i (refresh_iface db ifa0), false)
        = ( configure_ifa_add_prefix r.neigh_r.addr r.neigh_r.len r.neigh_rid po.router_id
            r.highest_link_pa_priority po2 i, ch) := by
      unfold run_step5
      rw [if_pos hguard]
      simp only [hself]
      exact hs5
    rw [hrun5]
    unfold run_step6
    simp [h6]
  · rw [add_prefix_getElem? _ _ _ _ _ _ _ _ _ hi2]
    simp [peer_record]
  · intro n hn
    exact hno i ifa2 hi2 ho2 n hn
  · intro k ifa3 hk hk3 ho n hn
    rw [add_prefix_getElem? _ _ _ _ _ _ _ _ _ hi2, if_neg (fun e => hk e.symm)] at hk3
    exact hno k ifa3 hk3 ho n hn

/-- Witness for C9: eth0 accepts the assignment 2001:db8:0:1::/64 of neighbor
20 although eth1 already holds it; the record of eth1 does not win. -/
theorem accept_peer_evicts_witness :
    ∃ (po1 : proto_ospf) (change : Bool) (ifa1 : ospf_iface) (l : List prefix_node),
      ospf_pxassign_usp_ifa ex_md5 4 ex_db_peer ex_po_evict 0 ex_usp = .ok (po1, change)
      ∧ po1.iface_list[0]? = some ifa1
      ∧ ifa1.asp_list = l ++ [peer_record ex_po_evict.router_id
          (resolve ex_db_peer ex_po_evict.router_id
            (refresh_iface ex_db_peer ⟨"eth0", 0, 1, [], [ex_neigh]⟩) ex_usp)]
      ∧ (∀ n ∈ l, overlaps (resolve ex_db_peer ex_po_evict.router_id
            (refresh_iface ex_db_peer ⟨"eth0", 0, 1, [], [ex_neigh]⟩) ex_usp).neigh_r n.px = false)
      ∧ ∀ (k : Nat) (ifa2 : ospf_iface), k ≠ 0 → po1.iface_list[k]? = some ifa2 →
          ifa2.oa = (⟨"eth0", 0, 1, [], [ex_neigh]⟩ : ospf_iface).oa →
          ∀ n ∈ ifa2.asp_list, overlaps (resolve ex_db_peer ex_po_evict.router_id
            (refresh_iface ex_db_peer ⟨"eth0", 0, 1, [], [ex_neigh]⟩) ex_usp).neigh_r n.px = false :=
  accept_peer_evicts ex_md5 4 ex_db_peer ex_po_evict 0 ex_usp ⟨"eth0", 0, 1, [], [ex_neigh]⟩
    rfl (by decide) (by decide) (by decide)
    (fun k ifa2 hk _ n hn _ => by
      have hn2 : n = ⟨ex_p1, 20, 10, 1, true⟩ := by
        rcases k with _ | _ | k
        · simp only [ex_po_evict, List.getElem?_cons_zero, Option.some.injEq] at hk
          subst hk
          cases hn
        · simp only [ex_po_evict, List.getElem?_cons_succ, List.getElem?_cons_zero,
            Option.some.injEq] at hk
          subst hk
          simpa using hn
        · simp [ex_po_evict] at hk
      subst hn2
      unfold wins_tie_break
      decide)

/-! ## Invariants: refinement of states -/

theorem erase_valid_px (n : prefix_node) : (erase_valid n).px = n.px := rfl

theorem erase_valid_rid (n : prefix_node) : (erase_valid n).rid = n.rid := rfl

theorem justified_congr (db : List ac_lsa) (rid : Nat) {a b : prefix_node}
    (h : erase_valid a = erase_valid b) : justified db rid a ↔ justified db rid b := by
  have h1 : a.px = b.px := by rw [← erase_valid_px a, h, erase_valid_px]
  have h2 : a.rid = b.rid := by rw [← erase_valid_rid a, h, erase_valid_rid]
  unfold justified
  rw [h1, h2]

theorem own_in_usp_congr (db : List ac_lsa) (rid : Nat) {a b : prefix_node}
    (h : erase_valid a = erase_valid b) : own_in_usp db rid a ↔ own_in_usp db rid b := by
  have h1 : a.px = b.px := by rw [← erase_valid_px a, h, erase_valid_px]
  have h2 : a.rid = b.rid := by rw [← erase_valid_rid a, h, erase_valid_rid]
  unfold own_in_usp
  rw [h1, h2]

theorem pairwise_of_erase_sublist {R : prefix_node → prefix_node → Prop}
    (hR : ∀ a b, R (erase_valid a) (erase_valid b) ↔ R a b) {l l1 : List prefix_node}
    (hs : (l1.map erase_valid).Sublist (l.map erase_valid)) (h : l.Pairwise R) : l1.Pairwise R := by
  have h1 : (l.map erase_valid).Pairwise R :=
    List.pairwise_map.2 (h.imp (fun {a b} hab => (hR a b).2 hab))
  have h2 := List.pairwise_map.1 (h1.sublist hs)
  exact h2.imp (fun {a b} hab => (hR a b).1 hab)

theorem mem_of_erase_sublist {l l1 : List prefix_node}
    (hs : (l1.map erase_valid).Sublist (l.map erase_valid)) {m : prefix_node} (hm : m ∈ l1) :
    ∃ m0 ∈ l, erase_valid m0 = erase_valid m := by
  have := hs.subset (List.mem_map_of_mem erase_valid hm)
  obtain ⟨m0, h0, he⟩ := List.mem_map.1 this
  exact ⟨m0, h0, he⟩

theorem same_config_refl (db : List ac_lsa) (ifa : ospf_iface) : same_config db ifa ifa :=
  ⟨rfl, rfl, rfl⟩

theorem same_config_trans {db : List ac_lsa} {a b c : ospf_iface}
    (h1 : same_config db a b) (h2 : same_config db b c) : same_config db a c :=
  ⟨h2.1.trans h1.1, h2.2.1.trans h1.2.1, h2.2.2.trans h1.2.2⟩

theorem refines_refl (db : List ac_lsa) (oa : Nat) (po : proto_ospf) : refines db oa po po := by
  refine ⟨rfl, rfl, ?_, ?_⟩
  · intro k ifa ifa1 h h1
    rw [h] at h1
    cases h1
    exact ⟨rfl, fun _ => ⟨List.Sublist.refl _, fun n hn _ => Or.inl hn⟩⟩
  · intro k ifa ifa1 h h1
    rw [h] at h1
    cases h1
    exact same_config_refl db ifa

theorem refines_trans {db : List ac_lsa} {oa : Nat} {a b c : proto_ospf}
    (h1 : refines db oa a b) (h2 : refines db oa b c) : refines db oa a c := by
  obtain ⟨r1, l1, f1, c1⟩ := h1
  obtain ⟨r2, l2, f2, c2⟩ := h2
  have mid : ∀ (k : Nat) (ifa : ospf_iface), a.iface_list[k]? = some ifa →
      ∃ ifa1, b.iface_list[k]? = some ifa1 := by
    intro k ifa hk
    have hlt : k < b.iface_list.length := by
      rw [l1]; exact (List.getElem?_eq_some.1 hk).1
    exact ⟨b.iface_list[k], List.getElem?_eq_getElem hlt⟩
  refine ⟨r2.trans r1, l2.trans l1, ?_, ?_⟩
  · intro k ifa ifa2 hk hk2
    obtain ⟨ifa1, hk1⟩ := mid k ifa hk
    obtain ⟨o1, g1⟩ := f1 k ifa ifa1 hk hk1
    obtain ⟨o2, g2⟩ := f2 k ifa1 ifa2 hk1 hk2
    refine ⟨o2.trans o1, fun ho => ?_⟩
    obtain ⟨s1, v1⟩ := g1 ho
    obtain ⟨s2, v2⟩ := g2 (o1.trans ho)
    refine ⟨s2.trans s1, ?_⟩
    intro n hn hv
    rcases v2 n hn hv with h | h
    · exact v1 n h hv
    · right; rw [← r1]; exact h
  · intro k ifa ifa2 hk hk2
    obtain ⟨ifa1, hk1⟩ := mid k ifa hk
    exact same_config_trans (c1 k ifa ifa1 hk hk1) (c2 k ifa1 ifa2 hk1 hk2)

theorem refines_preimage {db : List ac_lsa} {oa : Nat} {po po1 : proto_ospf}
    (h : refines db oa po po1) {k : Nat} {ifa1 : ospf_iface} (hk : po1.iface_list[k]? = some ifa1) :
    ∃ ifa, po.iface_list[k]? = some ifa ∧ ifa.oa = ifa1.oa := by
  have hlt : k < po.iface_list.length := by
    rw [← h.2.1]; exact (List.getElem?_eq_some.1 hk).1
  refine ⟨po.iface_list[k], List.getElem?_eq_getElem hlt, ?_⟩
  exact ((h.2.2.1 k _ ifa1 (List.getElem?_eq_getElem hlt) hk).1).symm

theorem valid_justified_refines {db : List ac_lsa} {oa : Nat} {po po1 : proto_ospf}
    (hv : valid_justified db oa po) (h : refines db oa po po1) : valid_justified db oa po1 := by
  intro k ifa1 hk ho n hn hval
  obtain ⟨ifa, hk0, ho0⟩ := refines_preimage h hk
  obtain ⟨_, g⟩ := h.2.2.1 k ifa ifa1 hk0 hk
  rw [h.1]
  rcases (g (ho0.trans ho)).2 n hn hval with hm | hj
  · exact hv k ifa hk0 (ho0.trans ho) n hm hval
  · exact hj

theorem justified_disjoint_refines {db : List ac_lsa} {oa : Nat} {po po1 : proto_ospf}
    (hd : justified_disjoint db oa po) (h : refines db oa po po1) :
    justified_disjoint db oa po1 := by
  intro k ifa1 hk ho
  obtain ⟨ifa, hk0, ho0⟩ := refines_preimage h hk
  obtain ⟨_, g⟩ := h.2.2.1 k ifa ifa1 hk0 hk
  rw [h.1]
  refine pairwise_of_erase_sublist ?_ (g (ho0.trans ho)).1 (hd k ifa hk0 (ho0.trans ho))
  intro a b
  rw [justified_congr db po.router_id (rfl : erase_valid (erase_valid a) = erase_valid a),
    justified_congr db po.router_id (rfl : erase_valid (erase_valid b) = erase_valid b)]
  rfl

theorem own_justified_disjoint_refines {db : List ac_lsa} {oa : Nat} {po po1 : proto_ospf}
    (hd : own_justified_disjoint db oa po) (h : refines db oa po po1) :
    own_justified_disjoint db oa po1 := by
  constructor
  · intro k ifa1 hk ho
    obtain ⟨ifa, hk0, ho0⟩ := refines_preimage h hk
    obtain ⟨_, g⟩ := h.2.2.1 k ifa ifa1 hk0 hk
    rw [h.1]
    refine pairwise_of_erase_sublist ?_ (g (ho0.trans ho)).1 (hd.1 k ifa hk0 (ho0.trans ho))
    intro a b
    rw [own_in_usp_congr db po.router_id (rfl : erase_valid (erase_valid a) = erase_valid a),
      own_in_usp_congr db po.router_id (rfl : erase_valid (erase_valid b) = erase_valid b)]
    rfl
  · intro k1 k2 ifa1 ifa2 hne hk1 hk2 ho1 ho2 a ha b hb hoa hob
    obtain ⟨ifa10, hk10, ho10⟩ := refines_preimage h hk1
    obtain ⟨ifa20, hk20, ho20⟩ := refines_preimage h hk2
    obtain ⟨_, g1⟩ := h.2.2.1 k1 ifa10 ifa1 hk10 hk1
    obtain ⟨_, g2⟩ := h.2.2.1 k2 ifa20 ifa2 hk20 hk2
    obtain ⟨a0, ha0, hea⟩ := mem_of_erase_sublist (g1 (ho10.trans ho1)).1 ha
    obtain ⟨b0, hb0, heb⟩ := mem_of_erase_sublist (g2 (ho20.trans ho2)).1 hb
    rw [h.1] at hoa hob
    have := hd.2 k1 k2 ifa10 ifa20 hne hk10 hk20 (ho10.trans ho1) (ho20.trans ho2) a0 ha0 b0 hb0
      ((own_in_usp_congr db po.router_id hea).2 hoa) ((own_in_usp_congr db po.router_id heb).2 hob)
    have pa : a0.px = a.px := by rw [← erase_valid_px a0, hea, erase_valid_px]
    have pb : b0.px = b.px := by rw [← erase_valid_px b0, heb, erase_valid_px]
    rw [pa, pb] at this
    exact this
theorem overlaps_comm (a b : Prefix) : overlaps a b = overlaps b a := by
  unfold overlaps; rw [Bool.or_comm]

theorem overlaps_self (p : Prefix) : overlaps p p = true := by
  unfold overlaps contains
  rw [net_in_net_self p.addr (Nat.le_refl _)]
  rfl

theorem own_in_usp_justified {db : List ac_lsa} {rid : Nat} {a : prefix_node}
    (h : own_in_usp db rid a) : justified db rid a := ⟨h.2, Or.inl h.1⟩

theorem twin_free_same_of_justified_disjoint {db : List ac_lsa} {oa : Nat} {po : proto_ospf}
    (h : justified_disjoint db oa po) : twin_free_same db oa po := by
  intro k ifa hk ho
  refine (h k ifa hk ho).imp ?_
  intro a b hab ha hb he
  have hjb : justified db po.router_id b := ⟨by rw [← he]; exact ha.2, Or.inl hb⟩
  have := hab (own_in_usp_justified ha) hjb
  rw [he, overlaps_self] at this
  cases this

theorem twin_free_same_of_own {db : List ac_lsa} {oa : Nat} {po : proto_ospf}
    (h : own_justified_disjoint db oa po) : twin_free_same db oa po := by
  intro k ifa hk ho
  refine (h.1 k ifa hk ho).imp ?_
  intro a b hab ha hb he
  have := hab ha ⟨hb, by rw [← he]; exact ha.2⟩
  rw [he, overlaps_self] at this
  cases this

theorem twin_free_cross_of_own {db : List ac_lsa} {oa : Nat} {po : proto_ospf}
    (h : own_justified_disjoint db oa po) : twin_free_cross db oa po := by
  intro k1 k2 ifa1 ifa2 hne hk1 hk2 ho1 ho2 a ha b hb hoa hob he
  have := h.2 k1 k2 ifa1 ifa2 hne hk1 hk2 ho1 ho2 a ha b hb hoa ⟨hob, by rw [← he]; exact hoa.2⟩
  rw [he, overlaps_self] at this
  cases this

theorem appended_getElem? (mid : proto_ospf) (i k : Nat) (ifa x : ospf_iface) (log : List kcall)
    (h : mid.iface_list[i]? = some ifa) :
    ({ set_iface mid i x with klog := log } : proto_ospf).iface_list[k]? =
      if i = k then some x else mid.iface_list[k]? := by
  show (set_iface mid i x).iface_list[k]? = _
  rw [set_iface_getElem?]
  have := (List.getElem?_eq_some.1 h).1
  simp [this]

theorem valid_justified_step {db : List ac_lsa} {oa i : Nat} {po po1 : proto_ospf}
    (hv : valid_justified db oa po) (h : step_ok db oa i po po1) : valid_justified db oa po1 := by
  rcases h with h | ⟨mid, ifa, n, log, hr, hi, hoa, hpo, hval, hj, _, _⟩
  · exact valid_justified_refines hv h
  · have hm := valid_justified_refines hv hr
    subst hpo
    intro k ifa1 hk ho m hmem hmv
    show justified db mid.router_id m
    rw [appended_getElem? mid i k ifa _ log hi] at hk
    split at hk
    · cases hk
      rcases List.mem_append.1 hmem with h1 | h1
      · exact hm i ifa hi hoa m h1 hmv
      · rw [List.mem_singleton.1 h1, hr.1]; exact hj
    · exact hm k ifa1 hk ho m hmem hmv

theorem justified_disjoint_step {db : List ac_lsa} {oa i : Nat} {po po1 : proto_ospf}
    (hd : justified_disjoint db oa po) (h : step_ok db oa i po po1) :
    justified_disjoint db oa po1 := by
  rcases h with h | ⟨mid, ifa, n, log, hr, hi, hoa, hpo, hval, hj, hc1, _⟩
  · exact justified_disjoint_refines hd h
  · have hm := justified_disjoint_refines hd hr
    have hc := hc1 (twin_free_same_of_justified_disjoint hd)
    subst hpo
    intro k ifa1 hk ho
    show List.Pairwise (fun a b => justified db mid.router_id a → justified db mid.router_id b → _) _
    rw [appended_getElem? mid i k ifa _ log hi] at hk
    split at hk
    · cases hk
      rw [List.pairwise_append]
      refine ⟨hm i ifa hi hoa, List.pairwise_singleton _ _, ?_⟩
      intro a ha b hb hja _
      rw [List.mem_singleton.1 hb]
      rw [hr.1] at hja
      exact hc a ha hja
    · exact hm k ifa1 hk ho

theorem own_justified_disjoint_step {db : List ac_lsa} {oa i : Nat} {po po1 : proto_ospf}
    (hd : own_justified_disjoint db oa po) (h : step_ok db oa i po po1) :
    own_justified_disjoint db oa po1 := by
  rcases h with h | ⟨mid, ifa, n, log, hr, hi, hoa, hpo, hval, hj, hc1, hc2⟩
  · exact own_justified_disjoint_refines hd h
  · have hm := own_justified_disjoint_refines hd hr
    have hcs := hc1 (twin_free_same_of_own hd)
    have hcc := hc2 (twin_free_cross_of_own hd)
    have hrid : mid.router_id = po.router_id := hr.1
    subst hpo
    constructor
    · intro k ifa1 hk ho
      show List.Pairwise (fun a b => own_in_usp db mid.router_id a → own_in_usp db mid.router_id b → _) _
      rw [appended_getElem? mid i k ifa _ log hi] at hk
      split at hk
      · cases hk
        rw [List.pairwise_append]
        refine ⟨hm.1 i ifa hi hoa, List.pairwise_singleton _ _, ?_⟩
        intro a ha b hb hja _
        rw [List.mem_singleton.1 hb]
        rw [hrid] at hja
        exact hcs a ha (own_in_usp_justified hja)
      · exact hm.1 k ifa1 hk ho
    · intro k1 k2 ifa1 ifa2 hne hk1 hk2 ho1 ho2 a ha b hb
      show own_in_usp db mid.router_id a → own_in_usp db mid.router_id b → _
      intro hoa1 hob1
      rw [appended_getElem? mid i k1 ifa _ log hi] at hk1
      rw [appended_getElem? mid i k2 ifa _ log hi] at hk2
      by_cases h1 : i = k1
      · rw [if_pos h1] at hk1
        have h2 : ¬ i = k2 := fun e => hne (h1.symm.trans e)
        rw [if_neg h2] at hk2
        cases hk1
        rcases List.mem_append.1 ha with ha1 | ha1
        · exact hm.2 i k2 ifa ifa2 h2 hi hk2 hoa ho2 a ha1 b hb hoa1 hob1
        · rw [List.mem_singleton.1 ha1, overlaps_comm]
          rw [hrid] at hob1
          exact hcc k2 ifa2 (fun e => h2 e.symm) hk2 ho2 b hb hob1
      · rw [if_neg h1] at hk1
        by_cases h2 : i = k2
        · rw [if_pos h2] at hk2
          cases hk2
          rcases List.mem_append.1 hb with hb1 | hb1
          · exact hm.2 k1 i ifa1 ifa (fun e => h1 e.symm) hk1 hi ho1 hoa a ha b hb1 hoa1 hob1
          · rw [List.mem_singleton.1 hb1]
            rw [hrid] at hoa1
            exact hcc k1 ifa1 (fun e => h1 e.symm) hk1 ho1 a ha hoa1
        · rw [if_neg h2] at hk2
          exact hm.2 k1 k2 ifa1 ifa2 hne hk1 hk2 ho1 ho2 a ha b hb hoa1 hob1

/-! ## Invariants: the state primitives refine -/

theorem refines_set_iface {db : List ac_lsa} {oa : Nat} {po : proto_ospf} {i : Nat}
    {ifa0 x : ospf_iface} (hi : po.iface_list[i]? = some ifa0) (ho : x.oa = ifa0.oa)
    (hc : same_config db ifa0 x)
    (hs : (x.asp_list.map erase_valid).Sublist (ifa0.asp_list.map erase_valid))
    (hv : ifa0.oa = oa → ∀ n ∈ x.asp_list, n.valid = true →
      n ∈ ifa0.asp_list ∨ justified db po.router_id n) :
    refines db oa po (set_iface po i x) := by
  have hlt := (List.getElem?_eq_some.1 hi).1
  refine ⟨rfl, by simp [set_iface], ?_, ?_⟩
  · intro k ifa ifa1 hk hk1
    rw [set_iface_getElem?] at hk1
    split at hk1
    · rename_i hik
      subst hik
      rw [hi] at hk
      cases hk
      simp only [hlt, if_true, Option.some.injEq] at hk1
      subst hk1
      exact ⟨ho, fun h => ⟨hs, hv h⟩⟩
    · rw [hk] at hk1
      cases hk1
      exact ⟨rfl, fun _ => ⟨List.Sublist.refl _, fun n hn _ => Or.inl hn⟩⟩
  · intro k ifa ifa1 hk hk1
    rw [set_iface_getElem?] at hk1
    split at hk1
    · rename_i hik
      subst hik
      rw [hi] at hk
      cases hk
      simp only [hlt, if_true, Option.some.injEq] at hk1
      subst hk1
      exact hc
    · rw [hk] at hk1
      cases hk1
      exact same_config_refl db ifa

theorem neighbor_iasps_congr (db : List ac_lsa) {a b : ospf_neighbor} (h1 : a.rid = b.rid)
    (h2 : a.iface_id = b.iface_id) : neighbor_iasps db a = neighbor_iasps db b := by
  unfold neighbor_iasps
  rw [h1, h2]

theorem refresh_fold_fields (l : List lsa_iasp) : ∀ n : ospf_neighbor,
    (l.foldl (fun n iasp => { n with pa_priority := iasp.pa_priority, pa_pxlen := iasp.pa_pxlen }) n).rid
        = n.rid
    ∧ (l.foldl (fun n iasp => { n with pa_priority := iasp.pa_priority, pa_pxlen := iasp.pa_pxlen }) n).state
        = n.state
    ∧ (l.foldl (fun n iasp => { n with pa_priority := iasp.pa_priority, pa_pxlen := iasp.pa_pxlen }) n).iface_id
        = n.iface_id := by
  induction l with
  | nil => intro n; exact ⟨rfl, rfl, rfl⟩
  | cons a t ih =>
    intro n
    rw [List.foldl_cons]
    exact ih _

theorem refresh_fold_twice (l : List lsa_iasp) : ∀ n m : ospf_neighbor,
    n.rid = m.rid → n.state = m.state → n.iface_id = m.iface_id → l ≠ [] →
    l.foldl (fun n iasp => { n with pa_priority := iasp.pa_priority, pa_pxlen := iasp.pa_pxlen }) n
      = l.foldl (fun n iasp => { n with pa_priority := iasp.pa_priority, pa_pxlen := iasp.pa_pxlen }) m := by
  induction l with
  | nil => intro n m _ _ _ h; exact absurd rfl h
  | cons a t ih =>
    intro n m h1 h2 h3 _
    rw [List.foldl_cons, List.foldl_cons]
    congr 1
    cases n; cases m
    simp only at h1 h2 h3
    simp [h1, h2, h3]

theorem refresh_neighbor_idem (db : List ac_lsa) (n : ospf_neighbor) :
    refresh_neighbor db (refresh_neighbor db n) = refresh_neighbor db n := by
  unfold refresh_neighbor
  by_cases hs : NEIGHBOR_INIT ≤ n.state
  · simp only [hs, if_true]
    obtain ⟨f1, f2, f3⟩ := refresh_fold_fields (neighbor_iasps db n) n
    rw [if_pos (by rw [f2]; exact hs), neighbor_iasps_congr db f1 f3]
    by_cases hl : neighbor_iasps db n = []
    · rw [hl]; rfl
    · exact refresh_fold_twice _ _ _ f1 f2 f3 hl
  · simp only [hs, if_false]

theorem refresh_iface_idem (db : List ac_lsa) (ifa : ospf_iface) :
    refresh_iface db (refresh_iface db ifa) = refresh_iface db ifa := by
  unfold refresh_iface
  simp only [List.map_map]
  congr 1
  apply List.map_congr_left
  intro n _
  exact refresh_neighbor_idem db n

theorem same_config_refresh (db : List ac_lsa) (ifa : ospf_iface) :
    same_config db ifa (refresh_iface db ifa) := by
  refine ⟨rfl, rfl, ?_⟩
  have := congrArg (fun x => x.neigh_list) (refresh_iface_idem db ifa)
  exact this

theorem refines_refresh {db : List ac_lsa} {oa : Nat} {po : proto_ospf} {i : Nat}
    {ifa0 : ospf_iface} (hi : po.iface_list[i]? = some ifa0) :
    refines db oa po (set_iface po i (refresh_iface db ifa0)) :=
  refines_set_iface hi rfl (same_config_refresh db ifa0) (List.Sublist.refl _)
    (fun _ _ hn _ => Or.inl hn)

theorem erase_valid_set (l : List prefix_node) (j : Nat) (n : prefix_node)
    (h : l[j]? = some n) :
    (l.set j { n with valid := true }).map erase_valid = l.map erase_valid := by
  apply List.ext_getElem?
  intro k
  simp only [List.getElem?_map, List.getElem?_set]
  split
  · rename_i hjk
    subst hjk
    have := (List.getElem?_eq_some.1 h).1
    simp [this, h, erase_valid]
  · rfl

theorem refines_set_valid {db : List ac_lsa} {oa : Nat} {po : proto_ospf} {i j : Nat}
    {ifa0 : ospf_iface} {n : prefix_node} (hi : po.iface_list[i]? = some ifa0)
    (hj : ifa0.asp_list[j]? = some n) (hn : justified db po.router_id n) :
    refines db oa po (set_valid po i j) := by
  unfold set_valid
  simp only [hi, hj]
  refine refines_set_iface hi rfl ⟨rfl, rfl, rfl⟩ ?_ ?_
  · show ((ifa0.asp_list.set j { n with valid := true }).map erase_valid).Sublist _
    rw [erase_valid_set _ _ _ hj]
  · intro _ m hm _
    show m ∈ ifa0.asp_list ∨ _
    rcases List.mem_or_eq_of_mem_set hm with h | h
    · exact Or.inl h
    · right
      rw [h]
      exact (justified_congr db po.router_id (rfl : erase_valid { n with valid := true } = erase_valid n)).2 hn

theorem refines_del_prefix (db : List ac_lsa) (oa : Nat) (po : proto_ospf) (i j : Nat) :
    refines db oa po ( configure_ifa_del_prefix po i j) := by
  cases hi : po.iface_list[i]? with
  | none =>
    simp only [ configure_ifa_del_prefix, hi]
    exact refines_refl db oa po
  | some ifa =>
    cases hj : ifa.asp_list[j]? with
    | none =>
      simp only [ configure_ifa_del_prefix, hi, hj]
      exact refines_refl db oa po
    | some n =>
      simp only [ configure_ifa_del_prefix, hi, hj]
      have h : refines db oa po (set_iface po i { ifa with asp_list := ifa.asp_list.eraseIdx j }) :=
        refines_set_iface hi rfl ⟨rfl, rfl, rfl⟩ ((List.eraseIdx_sublist _ _).map _)
          (fun _ m hm _ => Or.inl (List.mem_of_mem_eraseIdx hm))
      exact h

theorem refines_delete_where (db : List ac_lsa) (oa oa1 : Nat) (p : prefix_node → Bool)
    (po : proto_ospf) : refines db oa po (delete_where oa1 p po) := by
  refine ⟨rfl, by simp [delete_where], ?_, ?_⟩
  · intro k ifa ifa1 hk hk1
    rw [delete_where_getElem?, hk] at hk1
    simp only [Option.map_some', Option.some.injEq] at hk1
    subst hk1
    split
    · exact ⟨rfl, fun _ => ⟨(List.filter_sublist _).map _, fun n hn _ => Or.inl (List.mem_filter.1 hn).1⟩⟩
    · exact ⟨rfl, fun _ => ⟨List.Sublist.refl _, fun n hn _ => Or.inl hn⟩⟩
  · intro k ifa ifa1 hk hk1
    rw [delete_where_getElem?, hk] at hk1
    simp only [Option.map_some', Option.some.injEq] at hk1
    subst hk1
    split
    · exact ⟨rfl, rfl, rfl⟩
    · exact ⟨rfl, rfl, rfl⟩

theorem erase_valid_mark (l : List prefix_node) (q : prefix_node → Bool) :
    (l.map (fun n => if q n then { n with valid := true } else n)).map erase_valid
      = l.map erase_valid := by
  rw [List.map_map]
  apply List.map_congr_left
  intro n _
  simp only [Function.comp]
  split <;> rfl

theorem refines_mark {db : List ac_lsa} {oa : Nat} {po : proto_ospf} {i : Nat}
    {ifa0 : ospf_iface} (q : prefix_node → Bool) (hi : po.iface_list[i]? = some ifa0)
    (hq : ∀ n ∈ ifa0.asp_list, q n = true → justified db po.router_id n) :
    refines db oa po (set_iface po i { ifa0 with
      asp_list := ifa0.asp_list.map (fun n => if q n then { n with valid := true } else n) }) := by
  refine refines_set_iface hi rfl ⟨rfl, rfl, rfl⟩ ?_ ?_
  · show ((ifa0.asp_list.map _).map erase_valid).Sublist _
    rw [erase_valid_mark]
  · intro _ m hm _
    obtain ⟨n, hn, he⟩ := List.mem_map.1 hm
    by_cases hqn : q n = true
    · right
      rw [if_pos hqn] at he
      rw [← he]
      exact (justified_congr db po.router_id (rfl : erase_valid { n with valid := true } = erase_valid n)).2
        (hq n hn hqn)
    · left
      rw [if_neg hqn] at he
      rw [← he]; exact hn

/-! ## Facts about the resolver -/

theorem assignment_find_some {rid : Nat} {ifa : ospf_iface} {usp : Prefix} {j : Nat}
    (h : assignment_find rid ifa usp = some j) :
    ∃ n, ifa.asp_list[j]? = some n ∧ n.rid = rid ∧
      net_in_net n.px.addr n.px.len usp.addr usp.len = true := by
  unfold assignment_find at h
  simp only at h
  split at h
  · rename_i hlt
    cases h
    refine ⟨_, List.getElem?_eq_getElem hlt, ?_⟩
    have := @List.findIdx_getElem _ (fun aspn => decide (aspn.rid = rid) &&
      net_in_net aspn.px.addr aspn.px.len usp.addr usp.len) ifa.asp_list hlt
    simpa using this
  · cases h

theorem peer_iasps_sound (db : List ac_lsa) (usp : Prefix) (neigh : ospf_neighbor) (en : ac_lsa)
    (hen : en ∈ db) (hrt : en.rt = neigh.rid) (l : List lsa_iasp) :
    (∀ x ∈ l, x ∈ en.iasps) → ∀ acc, peer_sound db usp acc →
      peer_sound db usp (peer_iasps usp neigh l acc) := by
  induction l with
  | nil => intro _ acc h; exact h
  | cons iasp rest ih =>
    intro hl acc hacc
    have hrest : ∀ x ∈ rest, x ∈ en.iasps := fun x hx => hl x (List.mem_cons_of_mem _ hx)
    rw [peer_iasps]
    split
    · cases hf : iasp.asps.find? (fun a => net_in_net a.addr a.len usp.addr usp.len) with
      | none =>
        simp only
        split
        · exact hacc
        · exact ih hrest acc hacc
      | some a =>
        simp only [if_true]
        intro _
        refine ⟨?_, en, hen, hrt, iasp, hl iasp (List.mem_cons_self _ _), List.mem_of_find?_eq_some hf⟩
        simpa using List.find?_some hf
    · exact ih hrest acc hacc

theorem peer_lsas_sound (db : List ac_lsa) (usp : Prefix) (neigh : ospf_neighbor)
    (l : List ac_lsa) : (∀ x ∈ l, x ∈ db) → ∀ acc, peer_sound db usp acc →
      peer_sound db usp (peer_lsas usp neigh l acc) := by
  induction l with
  | nil => intro _ acc h; exact h
  | cons en rest ih =>
    intro hl acc hacc
    have hrest : ∀ x ∈ rest, x ∈ db := fun x hx => hl x (List.mem_cons_of_mem _ hx)
    rw [peer_lsas]
    split
    · rename_i hrt
      have h1 := peer_iasps_sound db usp neigh en (hl en (List.mem_cons_self _ _)) hrt en.iasps
        (fun x hx => hx) acc hacc
      simp only
      split
      · exact h1
      · exact ih hrest _ h1
    · exact ih hrest acc hacc

theorem peer_assignment_sound (db : List ac_lsa) (usp : Prefix) (highest : Nat)
    (neighs : List ospf_neighbor) : peer_sound db usp (peer_assignment db usp highest neighs) := by
  unfold peer_assignment
  have : ∀ (l : List ospf_neighbor) (acc : peer_acc), peer_sound db usp acc →
      peer_sound db usp (l.foldl (fun acc neigh =>
        if neigh.pa_priority = highest ∧ neigh.rid > acc.neigh_rid ∧ NEIGHBOR_INIT ≤ neigh.state then
          peer_lsas usp neigh db acc
        else acc) acc) := by
    intro l
    induction l with
    | nil => intro acc h; exact h
    | cons n rest ih =>
      intro acc h
      rw [List.foldl_cons]
      apply ih
      split
      · exact peer_lsas_sound db usp n db (fun x hx => hx) acc h
      · exact h
  exact this neighs _ (fun h => by cases h)

theorem resolve_peer_sound (db : List ac_lsa) (rid : Nat) (ifa : ospf_iface) (usp : Prefix)
    (h : (resolve db rid ifa usp).assignment_found = true) :
    net_in_net (resolve db rid ifa usp).neigh_r.addr (resolve db rid ifa usp).neigh_r.len
        usp.addr usp.len = true ∧
    ∃ en ∈ db, en.rt = (resolve db rid ifa usp).neigh_rid ∧
      ∃ iasp ∈ en.iasps, (resolve db rid ifa usp).neigh_r ∈ iasp.asps :=
  peer_assignment_sound db usp _ ifa.neigh_list h

theorem resolve_self_r {db : List ac_lsa} {rid : Nat} {ifa : ospf_iface} {usp : Prefix} {j : Nat}
    (h : (resolve db rid ifa usp).self_r_px = some j) :
    ∃ n, ifa.asp_list[j]? = some n ∧ n.rid = rid ∧
      net_in_net n.px.addr n.px.len usp.addr usp.len = true := by
  have key : ∀ (c : Prop) [Decidable c],
      (if c then assignment_find rid ifa usp else none) = some j →
      assignment_find rid ifa usp = some j := by
    intro c _ hc
    split at hc
    · exact hc
    · cases hc
  exact assignment_find_some (key _ h)

/-! ## Facts about find_used -/

theorem used_step_sound (prio : Nat) (seen : List (Prefix × Nat × Nat)) (acc : used_acc)
    (e : Prefix × Nat × Nat) (h : used_acc_sound seen acc) :
    used_acc_sound (seen ++ [e]) (used_step prio acc e) := by
  obtain ⟨h1, h2, h3⟩ := h
  have lift2 : ∀ {st : Prefix}, (∃ x ∈ seen, st =
      ⟨ipa_and x.1.addr (ipa_mkmask LSA_AC_ASP_D_PREFIX_LENGTH), LSA_AC_ASP_D_PREFIX_LENGTH⟩) →
      ∃ x ∈ seen ++ [e], st =
      ⟨ipa_and x.1.addr (ipa_mkmask LSA_AC_ASP_D_PREFIX_LENGTH), LSA_AC_ASP_D_PREFIX_LENGTH⟩ :=
    fun ⟨x, hx, hs⟩ => ⟨x, List.mem_append_left _ hx, hs⟩
  have lift3 : ∀ {sp : Prefix}, (∃ x ∈ seen, sp = x.1 ∧ x.1.len = LSA_AC_ASP_D_PREFIX_LENGTH) →
      ∃ x ∈ seen ++ [e], sp = x.1 ∧ x.1.len = LSA_AC_ASP_D_PREFIX_LENGTH :=
    fun ⟨x, hx, hs⟩ => ⟨x, List.mem_append_left _ hx, hs⟩
  have here : e ∈ seen ++ [e] := List.mem_append_right _ (List.mem_singleton_self e)
  unfold used_step
  simp only
  by_cases hs : e.2.1 < acc.lowest_pa_priority
  · simp only [hs, if_true]
    split
    · rename_i hsp
      simp only [Bool.and_eq_true, decide_eq_true_eq] at hsp
      exact ⟨by simp [h1], fun _ => ⟨e, here, rfl⟩, fun _ => ⟨e, here, rfl, hsp.2⟩⟩
    · exact ⟨by simp [h1], fun _ => ⟨e, here, rfl⟩, fun hf => lift3 (h3 hf)⟩
  · simp only [hs, if_false]
    split
    · rename_i hsp
      simp only [Bool.and_eq_true, decide_eq_true_eq] at hsp
      exact ⟨by simp [h1], fun hf => lift2 (h2 hf), fun _ => ⟨e, here, rfl, hsp.2⟩⟩
    · exact ⟨by simp [h1], fun hf => lift2 (h2 hf), fun hf => lift3 (h3 hf)⟩

theorem used_fold_sound (prio : Nat) (l : List (Prefix × Nat × Nat)) :
    ∀ (seen : List (Prefix × Nat × Nat)) (acc : used_acc), used_acc_sound seen acc →
      used_acc_sound (seen ++ l) (l.foldl (used_step prio) acc) := by
  induction l with
  | nil => intro seen acc h; simpa using h
  | cons e rest ih =>
    intro seen acc h
    rw [List.foldl_cons]
    have := ih (seen ++ [e]) _ (used_step_sound prio seen acc e h)
    simpa using this

theorem find_used_sound (db : List ac_lsa) (po : proto_ospf) (i : Nat) (ifa : ospf_iface)
    (usp : Prefix) (self_r : Option prefix_node) :
    used_acc_sound (used_candidates db po i ifa usp self_r) (find_used db po i ifa usp self_r) := by
  have := used_fold_sound ifa.pa_priority (used_candidates db po i ifa usp self_r) []
    ⟨[], ⟨IPA_NONE, 0⟩, false, ⟨IPA_NONE, 0⟩, false, ifa.pa_priority⟩
    (by refine ⟨rfl, ?_, ?_⟩ <;> intro h <;> cases h)
  simpa using this

theorem lsdb_used_inside (db : List ac_lsa) (rid : Nat) (usp : Prefix) (e : Prefix × Nat × Nat)
    (h : e ∈ lsdb_used db rid usp) : net_in_net e.1.addr e.1.len usp.addr usp.len = true := by
  simp only [lsdb_used, List.mem_flatMap, List.mem_filter, List.mem_map] at h
  obtain ⟨en, _, iasp, _, a, ⟨_, ha⟩, he⟩ := h
  rw [← he]
  exact ha

theorem lsdb_used_cover (db : List ac_lsa) (rid : Nat) (usp a : Prefix)
    (h : advertised_by_other db rid a)
    (hin : net_in_net a.addr a.len usp.addr usp.len = true) :
    ∃ e ∈ lsdb_used db rid usp, e.1 = a := by
  obtain ⟨en, hen, hrt, iasp, hi, ha⟩ := h
  refine ⟨(a, iasp.pa_priority, en.rt), ?_, rfl⟩
  simp only [lsdb_used, List.mem_flatMap, List.mem_filter, List.mem_map]
  exact ⟨en, ⟨hen, by simpa using hrt⟩, iasp, hi, a, ⟨ha, hin⟩, rfl⟩

theorem own_used_inside (rid oa : Nat) (usp : Prefix) (i : Nat) (self_r : Option prefix_node)
    (l : List ospf_iface) : ∀ (k0 : Nat) (e : Prefix × Nat × Nat),
      e ∈ own_used rid oa usp i self_r k0 l →
      net_in_net e.1.addr e.1.len usp.addr usp.len = true := by
  induction l with
  | nil => intro k0 e h; simp [own_used] at h
  | cons ifa2 rest ih =>
    intro k0 e h
    rw [own_used, List.mem_append] at h
    rcases h with h | h
    · split at h
      · simp only [List.mem_map, List.mem_filter, Bool.and_eq_true] at h
        obtain ⟨n, ⟨_, ⟨_, hn⟩, _⟩, he⟩ := h
        rw [← he]
        exact hn
      · cases h
    · exact ih _ e h

theorem own_used_cover (rid oa : Nat) (usp : Prefix) (i : Nat) (self_r : Option prefix_node)
    (l : List ospf_iface) : ∀ (k0 k : Nat) (ifa2 : ospf_iface) (n : prefix_node),
      l[k]? = some ifa2 → ifa2.oa = oa → n ∈ ifa2.asp_list → n.rid = rid →
      net_in_net n.px.addr n.px.len usp.addr usp.len = true →
      not_self self_r (decide (k0 + k = i)) n = true →
      ∃ e ∈ own_used rid oa usp i self_r k0 l, e.1 = n.px := by
  induction l with
  | nil => intro k0 k ifa2 n h; simp at h
  | cons ifa3 rest ih =>
    intro k0 k ifa2 n hk ho hn hr hin hns
    rw [own_used]
    cases k with
    | zero =>
      simp only [List.getElem?_cons_zero, Option.some.injEq] at hk
      subst hk
      refine ⟨(n.px, ifa3.pa_priority, n.rid), List.mem_append_left _ ?_, rfl⟩
      rw [if_pos ho]
      simp only [List.mem_map, List.mem_filter, Bool.and_eq_true, decide_eq_true_eq]
      exact ⟨n, ⟨hn, ⟨hr, hin⟩, by simpa using hns⟩, rfl⟩
    | succ k =>
      simp only [List.getElem?_cons_succ] at hk
      obtain ⟨e, he, hp⟩ := ih (k0 + 1) k ifa2 n hk ho hn hr hin
        (by rw [show k0 + 1 + k = k0 + (k + 1) by omega]; exact hns)
      exact ⟨e, List.mem_append_right _ he, hp⟩

/-! ## Invariants: composition and maximal usable prefixes -/

theorem twin_free_same_refines {db : List ac_lsa} {oa : Nat} {po po1 : proto_ospf}
    (hd : twin_free_same db oa po) (h : refines db oa po po1) : twin_free_same db oa po1 := by
  intro k ifa1 hk ho
  obtain ⟨ifa, hk0, ho0⟩ := refines_preimage h hk
  obtain ⟨_, g⟩ := h.2.2.1 k ifa ifa1 hk0 hk
  rw [h.1]
  refine pairwise_of_erase_sublist ?_ (g (ho0.trans ho)).1 (hd k ifa hk0 (ho0.trans ho))
  intro a b
  rw [own_in_usp_congr db po.router_id (rfl : erase_valid (erase_valid a) = erase_valid a)]
  rfl

theorem twin_free_cross_refines {db : List ac_lsa} {oa : Nat} {po po1 : proto_ospf}
    (hd : twin_free_cross db oa po) (h : refines db oa po po1) : twin_free_cross db oa po1 := by
  intro k1 k2 ifa1 ifa2 hne hk1 hk2 ho1 ho2 a ha b hb hoa hob
  obtain ⟨ifa10, hk10, ho10⟩ := refines_preimage h hk1
  obtain ⟨ifa20, hk20, ho20⟩ := refines_preimage h hk2
  obtain ⟨_, g1⟩ := h.2.2.1 k1 ifa10 ifa1 hk10 hk1
  obtain ⟨_, g2⟩ := h.2.2.1 k2 ifa20 ifa2 hk20 hk2
  obtain ⟨a0, ha0, hea⟩ := mem_of_erase_sublist (g1 (ho10.trans ho1)).1 ha
  obtain ⟨b0, hb0, heb⟩ := mem_of_erase_sublist (g2 (ho20.trans ho2)).1 hb
  rw [h.1] at hoa hob
  have pa : a0.px = a.px := by rw [← erase_valid_px a0, hea, erase_valid_px]
  have pb : b0.px = b.px := by rw [← erase_valid_px b0, heb, erase_valid_px]
  have rb : b0.rid = b.rid := by rw [← erase_valid_rid b0, heb, erase_valid_rid]
  have := hd k1 k2 ifa10 ifa20 hne hk10 hk20 (ho10.trans ho1) (ho20.trans ho2) a0 ha0 b0 hb0
    ((own_in_usp_congr db po.router_id hea).2 hoa) (rb.trans hob)
  rw [pa, pb] at this
  exact this

theorem step_ok_of_refines {db : List ac_lsa} {oa i : Nat} {a b c : proto_ospf}
    (h1 : refines db oa a b) (h2 : step_ok db oa i b c) : step_ok db oa i a c := by
  rcases h2 with h2 | ⟨mid, ifa, n, log, hr, hi, hoa, hpo, hval, hj, hc1, hc2⟩
  · exact Or.inl (refines_trans h1 h2)
  · right
    refine ⟨mid, ifa, n, log, refines_trans h1 hr, hi, hoa, hpo, hval, ?_, ?_, ?_⟩
    · rw [← h1.1]; exact hj
    · intro ht
      rw [← h1.1]
      exact hc1 (twin_free_same_refines ht h1)
    · intro ht
      rw [← h1.1]
      exact hc2 (twin_free_cross_refines ht h1)

/-- A prefix inside some advertised usable prefix that overlaps a prefix
inside `usp` lies inside `usp` itself, when `usp` passes the test of 5.3.0. -/
theorem inside_of_overlap {db : List ac_lsa} {usp m n : Prefix}
    (hguard : (lsdb_usps db).any (fun usp2 => strictly_inside usp usp2) = false)
    (hm : in_usp db m) (hn : net_in_net n.addr n.len usp.addr usp.len = true)
    (hov : overlaps m n = true) : net_in_net m.addr m.len usp.addr usp.len = true := by
  simp only [overlaps, contains, Bool.or_eq_true] at hov
  rcases hov with h | h
  · by_cases hl : usp.len ≤ m.len
    · exact net_in_net_comparable hn h hl
    · have hum : net_in_net usp.addr usp.len m.addr m.len = true :=
        net_in_net_comparable h hn (by omega)
      obtain ⟨u, hu, hc⟩ := hm
      have huu : net_in_net usp.addr usp.len u.addr u.len = true := net_in_net_trans hum hc
      have hlen : u.len ≤ m.len := ((net_in_net_iff _ _ _ _).1 hc).1
      have := (List.any_eq_false.1 hguard) u hu
      simp only [strictly_inside, huu, Bool.true_and, Bool.or_eq_true, Bool.not_eq_true',
        decide_eq_true_eq, not_or, Bool.not_eq_false, Decidable.not_not] at this
      omega
  · exact net_in_net_trans h hn

/-! ## Invariants: a freshly chosen prefix -/

theorem used_px_mem {db : List ac_lsa} {po : proto_ospf} {i : Nat} {ifa : ospf_iface}
    {usp : Prefix} {self_r : Option prefix_node} {e : Prefix × Nat × Nat}
    (he : e ∈ used_candidates db po i ifa usp self_r) :
    ∃ x ∈ (find_used db po i ifa usp self_r).used, x.px = e.1 := by
  have h := (find_used_sound db po i ifa usp self_r).1
  have : e.1 ∈ (find_used db po i ifa usp self_r).used.map (fun n => n.px) := by
    rw [h]; exact List.mem_map_of_mem _ he
  obtain ⟨x, hx, hp⟩ := List.mem_map.1 this
  exact ⟨x, hx, hp⟩

theorem chosen_avoids {db : List ac_lsa} {po : proto_ospf} {i : Nat} {ifa : ospf_iface}
    {usp : Prefix} {self_r : Option prefix_node} {px : Prefix}
    (hguard : (lsdb_usps db).any (fun usp2 => strictly_inside usp usp2) = false)
    (hin : net_in_net px.addr px.len usp.addr usp.len = true)
    (hav : ∀ x ∈ (find_used db po i ifa usp self_r).used, overlaps px x.px = false)
    {k : Nat} {ifa2 : ospf_iface} {m : prefix_node}
    (hk : po.iface_list[k]? = some ifa2) (ho : ifa2.oa = ifa.oa) (hm : m ∈ ifa2.asp_list)
    (hj : justified db po.router_id m)
    (hns : not_self self_r (decide (k = i)) m = true ∨ advertised_by_other db po.router_id m.px) :
    overlaps m.px px = false := by
  by_contra hov
  have hov : overlaps m.px px = true := by simpa using hov
  have hmin := inside_of_overlap hguard hj.1 hin hov
  have hadv : advertised_by_other db po.router_id m.px → False := by
    intro ha
    obtain ⟨e, he, hp⟩ := lsdb_used_cover db po.router_id usp m.px ha hmin
    obtain ⟨x, hx, hxp⟩ := @used_px_mem db po i ifa usp self_r _
      (List.mem_append_left _ he)
    have := hav x hx
    rw [hxp, hp, overlaps_comm, hov] at this
    cases this
  rcases hns with hns | hns
  · rcases hj.2 with hown | ha
    · obtain ⟨e, he, hp⟩ := own_used_cover po.router_id ifa.oa usp i self_r po.iface_list 0 k ifa2 m
        hk ho hm hown hmin (by simpa using hns)
      obtain ⟨x, hx, hxp⟩ := @used_px_mem db po i ifa usp self_r _ (List.mem_append_right _ he)
      have := hav x hx
      rw [hxp, hp, overlaps_comm, hov] at this
      cases this
    · exact hadv ha
  · exact hadv hns

theorem twin_absurd {db : List ac_lsa} {oa : Nat} {po : proto_ospf} {k : Nat} {ifa : ospf_iface}
    {j : Nat} {s m : prefix_node} (ht : twin_free_same db oa po)
    (hk : po.iface_list[k]? = some ifa) (ho : ifa.oa = oa) (hs : ifa.asp_list[j]? = some s)
    (hso : own_in_usp db po.router_id s) (hm : m ∈ ifa.asp_list.eraseIdx j)
    (hmr : m.rid = po.router_id) (he : s.px = m.px) : False := by
  obtain ⟨k1, hne, hk1⟩ := List.mem_eraseIdx_iff_getElem?.1 hm
  have hp := List.pairwise_iff_getElem.1 (ht k ifa hk ho)
  obtain ⟨hjl, hjs⟩ := List.getElem?_eq_some.1 hs
  obtain ⟨hkl, hkm⟩ := List.getElem?_eq_some.1 hk1
  rcases Nat.lt_or_gt_of_ne hne with hlt | hlt
  · have := hp k1 j hkl hjl hlt
    rw [hjs, hkm] at this
    exact this ⟨hmr, by rw [← he]; exact hso.2⟩ hso.1 he.symm
  · have := hp j k1 hjl hkl hlt
    rw [hjs, hkm] at this
    exact this hso hmr he

theorem del_prefix_getElem? {po : proto_ospf} {i j : Nat} {ifa : ospf_iface} {s : prefix_node}
    (hi : po.iface_list[i]? = some ifa) (hj : ifa.asp_list[j]? = some s) (k : Nat) :
    ( configure_ifa_del_prefix po i j).iface_list[k]? =
      if i = k then some { ifa with asp_list := ifa.asp_list.eraseIdx j } else po.iface_list[k]? := by
  simp only [ configure_ifa_del_prefix, hi, hj]
  show (set_iface po i _).iface_list[k]? = _
  rw [set_iface_getElem?]
  have := (List.getElem?_eq_some.1 hi).1
  simp [this]

theorem del_prefix_router_id (po : proto_ospf) (i j : Nat) :
    ( configure_ifa_del_prefix po i j).router_id = po.router_id := by
  unfold configure_ifa_del_prefix
  split
  · rfl
  · split <;> rfl

theorem add_prefix_eq (addr : ip_addr) (len rid my_rid prio : Nat) (po : proto_ospf) (i : Nat)
    (ifa : ospf_iface) (h : po.iface_list[i]? = some ifa) :
    configure_ifa_add_prefix addr len rid my_rid prio po i =
      { set_iface po i { ifa with asp_list := ifa.asp_list ++ [⟨⟨addr, len⟩, rid, my_rid, prio, true⟩] }
        with klog := po.klog ++ [kcall.add ifa.name addr len my_rid] } := by
  simp only [ configure_ifa_add_prefix, h]

theorem not_self_false_eq {s m : prefix_node}
    (h : ¬ not_self (some s) true m = true) : s.px = m.px := by
  simp only [not_self, ipa_equal, Bool.not_true, Bool.or_false, Bool.or_eq_true, Bool.not_eq_true',
    decide_eq_false_iff_not, decide_eq_true_eq, not_or, Decidable.not_not] at h
  cases hs : s.px
  cases hm : m.px
  rw [hs, hm] at h
  simp only at h
  rw [h.1, h.2]

theorem try_assign_step_ok {md5 : Digest} {fuel : Nat} {db : List ac_lsa} {oa : Nat}
    {po : proto_ospf} {i : Nat} {ifa : ospf_iface} {usp : Prefix} {length : Nat} {ch : Bool}
    {st1 : alloc_state}
    (hi : po.iface_list[i]? = some ifa) (hoa : ifa.oa = oa)
    (hguard : (lsdb_usps db).any (fun usp2 => strictly_inside usp usp2) = false)
    (husp : usp ∈ lsdb_usps db) (hlen : usp.len ≤ length)
    (self_r : Option Nat)
    (hself : ∀ j, self_r = some j → ∃ s, ifa.asp_list[j]? = some s ∧ s.rid = po.router_id ∧
      net_in_net s.px.addr s.px.len usp.addr usp.len = true)
    (h : try_assign_unused md5 fuel i ifa usp
      (find_used db po i ifa usp (self_r.bind (fun j => ifa.asp_list[j]?))).used length self_r
      ⟨po, false, ch⟩ = .ok st1) :
    (st1 = ⟨po, false, ch⟩) ∨ (st1.pxchoose_success = true ∧ step_ok db oa i po st1.po) := by
  unfold try_assign_unused at h
  cases hc : choose_prefix md5 fuel usp length
      (find_used db po i ifa usp (self_r.bind (fun j => ifa.asp_list[j]?))).used po.router_id ifa.name with
  | error e => rw [hc] at h; cases h
  | ok r =>
    rw [hc] at h
    simp only [bind, Except.bind] at h
    obtain ⟨code, px⟩ := r
    cases code with
    | PXCHOOSE_FAILURE =>
      simp only at h
      cases h
      exact Or.inl rfl
    | PXCHOOSE_SUCCESS =>
      simp only at h
      right
      obtain ⟨hpl, hpin, hpav⟩ := choose_prefix_sound md5 fuel usp length _ po.router_id ifa.name px hlen hc
      have hpin2 : net_in_net px.addr px.len usp.addr usp.len = true := hpin
      have hjust : justified db po.router_id ⟨⟨px.addr, px.len⟩, po.router_id, po.router_id,
          ifa.pa_priority, true⟩ := ⟨⟨usp, husp, hpin⟩, Or.inl rfl⟩
      cases self_r with
      | none =>
        simp only at h
        cases h
        refine ⟨rfl, Or.inr ⟨po, ifa, _, _, refines_refl db oa po, hi, hoa,
          add_prefix_eq _ _ _ _ _ _ _ _ hi, rfl, hjust, ?_, ?_⟩⟩
        · intro _ m hm hjm
          exact chosen_avoids hguard hpin2 hpav hi rfl hm hjm (Or.inl rfl)
        · intro _ k ifa2 hk hk2 ho2 m hm hom
          refine chosen_avoids hguard hpin2 hpav hk2 (ho2.trans hoa.symm) hm
            (own_in_usp_justified hom) (Or.inl ?_)
          simp [not_self]
      | some j =>
        obtain ⟨s, hs, hsr, hsin⟩ := hself j rfl
        simp only at h
        cases h
        have hmid := del_prefix_getElem? hi hs
        have hrid := del_prefix_router_id po i j
        refine ⟨rfl, Or.inr ⟨ configure_ifa_del_prefix po i j,
          { ifa with asp_list := ifa.asp_list.eraseIdx j },
          ⟨⟨px.addr, px.len⟩, ( configure_ifa_del_prefix po i j).router_id,
            ( configure_ifa_del_prefix po i j).router_id, ifa.pa_priority, true⟩,
          ( configure_ifa_del_prefix po i j).klog ++
            [kcall.add ifa.name px.addr px.len ( configure_ifa_del_prefix po i j).router_id],
          refines_del_prefix db oa po i j,
          by rw [hmid i]; simp, hoa, ?_, rfl, ?_, ?_, ?_⟩⟩
        · exact add_prefix_eq _ _ _ _ _ _ _ _ (by rw [hmid i]; simp)
        · rw [hrid]; exact hjust
        · intro ht m hm hjm
          have hpav2 : ∀ x ∈ (find_used db po i ifa usp (ifa.asp_list[j]?)).used,
              overlaps px x.px = false := hpav
          rw [hs] at hpav2
          by_cases hns : not_self (some s) (decide (i = i)) m = true
          · exact chosen_avoids hguard hpin2 hpav2 hi rfl (List.mem_of_mem_eraseIdx hm) hjm (Or.inl hns)
          · rcases hjm.2 with hown | hadv
            · exfalso
              have he : s.px = m.px := not_self_false_eq (by simpa using hns)
              exact twin_absurd ht hi hoa hs ⟨hsr, usp, husp, hsin⟩ hm hown he
            · exact chosen_avoids hguard hpin2 hpav2 hi rfl (List.mem_of_mem_eraseIdx hm) hjm (Or.inr hadv)
        · intro _ k ifa2 hk hk2 ho2 m hm hom
          have hpav2 : ∀ x ∈ (find_used db po i ifa usp (ifa.asp_list[j]?)).used,
              overlaps px x.px = false := hpav
          rw [hmid k, if_neg (fun e => hk e.symm)] at hk2
          refine chosen_avoids hguard hpin2 hpav2 hk2 (ho2.trans hoa.symm) hm
            (own_in_usp_justified hom) (Or.inl ?_)
          cases ifa.asp_list[j]? <;> simp [not_self, hk]

/-! ## Invariants: step 5.3.5 -/

theorem delete_where_clean (oa : Nat) (p : prefix_node → Bool) (po : proto_ospf)
    (k : Nat) (ifa2 : ospf_iface) (hk : (delete_where oa p po).iface_list[k]? = some ifa2)
    (ho : ifa2.oa = oa) : ∀ m ∈ ifa2.asp_list, p m = false := by
  intro m hm
  rw [delete_where_getElem?] at hk
  cases hq : po.iface_list[k]? with
  | none => rw [hq] at hk; cases hk
  | some ifa4 =>
    rw [hq] at hk
    simp only [Option.map_some', Option.some.injEq] at hk
    subst hk
    by_cases ho4 : ifa4.oa = oa
    · simp only [ho4, if_true] at hm
      simpa using (List.mem_filter.1 hm).2
    · simp only [ho4, if_false] at ho

theorem delete_where_self (oa : Nat) (p : prefix_node → Bool) (po : proto_ospf)
    (i : Nat) (ifa : ospf_iface) (hi : po.iface_list[i]? = some ifa) (ho : ifa.oa = oa) :
    (delete_where oa p po).iface_list[i]? =
      some { ifa with asp_list := ifa.asp_list.filter (fun n => !p n) } := by
  rw [delete_where_getElem?, hi]
  simp [ho]

theorem peer_justified {db : List ac_lsa} {rid : Nat} {usp : Prefix} {r : resolution}
    (husp : usp ∈ lsdb_usps db)
    (hin : net_in_net r.neigh_r.addr r.neigh_r.len usp.addr usp.len = true)
    (hadv : ∃ en ∈ db, en.rt = r.neigh_rid ∧ ∃ iasp ∈ en.iasps, r.neigh_r ∈ iasp.asps)
    (n : prefix_node) (hp : n.px = r.neigh_r) (hr : n.rid = r.neigh_rid) :
    justified db rid n := by
  refine ⟨⟨usp, husp, by rw [hp]; exact hin⟩, ?_⟩
  by_cases h : r.neigh_rid = rid
  · left; rw [hr, h]
  · right
    obtain ⟨en, hen, hrt, iasp, hi, ha⟩ := hadv
    exact ⟨en, hen, by rw [hrt]; exact h, iasp, hi, by rw [hp]; exact ha⟩

theorem matches_peer_eq {r : resolution} {n : prefix_node} (h : matches_peer r n = true) :
    n.px = r.neigh_r ∧ n.rid = r.neigh_rid := by
  simp only [matches_peer, Bool.and_eq_true, decide_eq_true_eq] at h
  refine ⟨(prefix_eq_iff _ _).1 ?_, h.1.2⟩
  simp [h.1.1.1, h.1.1.2]

theorem step5_step_ok {db : List ac_lsa} {oa : Nat} {po : proto_ospf} {i : Nat} {ifa : ospf_iface}
    {usp : Prefix} {r : resolution} (ch : Bool)
    (hi : po.iface_list[i]? = some ifa) (hoa : ifa.oa = oa) (husp : usp ∈ lsdb_usps db)
    (hin : net_in_net r.neigh_r.addr r.neigh_r.len usp.addr usp.len = true)
    (hadv : ∃ en ∈ db, en.rt = r.neigh_rid ∧ ∃ iasp ∈ en.iasps, r.neigh_r ∈ iasp.asps) :
    step_ok db oa i po (step5 po i ifa r ch).1 := by
  have hpj := fun n hp hr => @peer_justified db po.router_id usp r husp hin hadv n hp hr
  have hrm : refines db oa po (set_iface po i { ifa with
      asp_list := ifa.asp_list.map (fun n => if matches_peer r n then { n with valid := true } else n) }) :=
    refines_mark (matches_peer r) hi (fun n _ hq => hpj n (matches_peer_eq hq).1 (matches_peer_eq hq).2)
  have him := set_iface_self po i ifa { ifa with
      asp_list := ifa.asp_list.map (fun n => if matches_peer r n then { n with valid := true } else n) } hi
  unfold step5
  simp only
  generalize set_iface po i { ifa with
      asp_list := ifa.asp_list.map (fun n => if matches_peer r n then { n with valid := true } else n) }
    = pm at hrm him
  generalize hifm : ({ ifa with
      asp_list := ifa.asp_list.map (fun n => if matches_peer r n then { n with valid := true } else n) }
      : ospf_iface) = ifm at him
  have hifmo : ifm.oa = ifa.oa := by rw [← hifm]
  have hrid : pm.router_id = po.router_id := hrm.1
  by_cases hadd : (!ifa.asp_list.any (matches_peer r) &&
      !(!ifa.asp_list.any (matches_peer r) && area_any ifa.oa (fun _ n => refuses_peer pm.router_id r n) pm)) = true
  · rw [if_pos hadd]
    simp only [Bool.and_eq_true, Bool.not_eq_true', Bool.and_eq_false_iff] at hadd
    obtain ⟨hf, href⟩ := hadd
    simp only [hf, Bool.not_false, Bool.true_and] at href ⊢
    rcases href with href | href
    · cases href
    simp only [href, Bool.not_false, Bool.true_and]
    by_cases hc : area_any ifa.oa (fun _ n => overlaps r.neigh_r n.px) pm = true
    · simp only [hc, if_true]
      have hd := delete_where_self ifa.oa (fun n => overlaps r.neigh_r n.px) pm i ifm him hifmo
      right
      refine ⟨_, _, _, _, refines_trans hrm (refines_delete_where db oa ifa.oa _ pm), hd,
        hifmo.trans hoa, add_prefix_eq _ _ _ _ _ _ _ _ hd, rfl, hpj _ rfl rfl, ?_, ?_⟩
      · intro _ m hm _
        have := delete_where_clean ifa.oa (fun n => overlaps r.neigh_r n.px) pm i _ hd hifmo m hm
        rw [overlaps_comm]; exact this
      · intro _ k ifa2 _ hk2 ho2 m hm _
        have := delete_where_clean ifa.oa (fun n => overlaps r.neigh_r n.px) pm k _ hk2
          (ho2.trans hoa.symm) m hm
        rw [overlaps_comm]; exact this
    · simp only [hc, Bool.false_eq_true, if_false]
      have hc2 := (area_any_false_iff _ _ _).1 (by simpa using hc)
      right
      refine ⟨pm, ifm, _, _, hrm, him, hifmo.trans hoa, add_prefix_eq _ _ _ _ _ _ _ _ him, rfl,
        hpj _ rfl rfl, ?_, ?_⟩
      · intro _ m hm _
        rw [overlaps_comm]; exact hc2 i ifm him hifmo m hm
      · intro _ k ifa2 _ hk2 ho2 m hm _
        rw [overlaps_comm]; exact hc2 k ifa2 hk2 (ho2.trans hoa.symm) m hm
  · rw [if_neg hadd]
    left
    simp only
    split
    · exact refines_trans hrm (refines_delete_where db oa ifa.oa _ pm)
    · exact hrm

/-! ## Invariants: stealing and splitting -/

theorem filter_eraseIdx_take (keep : prefix_node → Bool) (l : List prefix_node) :
    ∀ (j : Nat) (s : prefix_node), l[j]? = some s → keep s = true →
      (l.filter keep).eraseIdx ((l.take j).filter keep).length = (l.eraseIdx j).filter keep := by
  induction l with
  | nil => intro j s h; simp at h
  | cons a t ih =>
    intro j s h hs
    cases j with
    | zero =>
      simp only [List.getElem?_cons_zero, Option.some.injEq] at h
      subst h
      simp [List.filter_cons, hs]
    | succ j =>
      simp only [List.getElem?_cons_succ] at h
      have := ih j s h hs
      by_cases ha : keep a = true
      · simp [List.filter_cons, ha, this]
      · simp [List.filter_cons, ha, this]

theorem mask_word_sub (x u mu m : Nat) (h : (x ^^^ u) &&& mu = 0)
    (hsub : ∀ j, mu.testBit j = true → m.testBit j = true) : ((x &&& m) ^^^ u) &&& mu = 0 := by
  apply Nat.eq_of_testBit_eq
  intro j
  have e := congrArg (fun v => v.testBit j) h
  simp only [Nat.testBit_and, Nat.testBit_xor, Nat.zero_testBit] at e ⊢
  have s := hsub j
  revert e s
  cases x.testBit j <;> cases u.testBit j <;> cases mu.testBit j <;> cases m.testBit j <;> simp

theorem u32_mkmask_sub (a b : Nat) (hab : a ≤ b) (hb : b ≤ 32) (j : Nat)
    (h : (u32_mkmask a).testBit j = true) : (u32_mkmask b).testBit j = true := by
  rw [u32_mkmask_testBit] at h ⊢
  simp only [Bool.and_eq_true, decide_eq_true_eq] at h ⊢
  omega

theorem steal_inside {a usp : ip_addr} {al ul : Nat} (h : net_in_net a al usp ul = true)
    (hl : ul ≤ LSA_AC_ASP_D_PREFIX_LENGTH) :
    net_in_net (ipa_and a (ipa_mkmask LSA_AC_ASP_D_PREFIX_LENGTH)) LSA_AC_ASP_D_PREFIX_LENGTH
      usp ul = true := by
  rw [net_in_net_iff] at h ⊢
  refine ⟨hl, ?_⟩
  have h2 := (agree_iff _ _ _).1 h.2
  rw [agree_iff]
  unfold LSA_AC_ASP_D_PREFIX_LENGTH at hl ⊢
  simp only [ipa_and, ipa_mkmask]
  refine ⟨mask_word_sub _ _ _ _ h2.1 (u32_mkmask_sub _ _ ?_ ?_),
    mask_word_sub _ _ _ _ h2.2.1 (u32_mkmask_sub _ _ ?_ ?_),
    mask_word_sub _ _ _ _ h2.2.2.1 (u32_mkmask_sub _ _ ?_ ?_),
    mask_word_sub _ _ _ _ h2.2.2.2 (u32_mkmask_sub _ _ ?_ ?_)⟩ <;> omega

theorem steal_victim_none (rid : Nat) (steal : Prefix) (m : prefix_node) :
    steal_victim rid steal none m = overlaps steal m.px := by
  simp [steal_victim]

theorem steal_survivor {rid : Nat} {steal : Prefix} {s m : prefix_node}
    (h : steal_victim rid steal (some s) m = false) (hov : overlaps steal m.px = true) :
    s.px = m.px ∧ m.rid = rid := by
  simp only [steal_victim, hov, Bool.true_and, Bool.or_eq_false_iff, Bool.not_eq_false',
    decide_eq_false_iff_not, Decidable.not_not, ipa_equal, decide_eq_true_eq] at h
  refine ⟨?_, h.2⟩
  cases hs : s.px
  cases hm : m.px
  rw [hs, hm] at h
  simp only at h
  rw [h.1.1, h.1.2]

theorem filter_getElem_take (keep : prefix_node → Bool) (l : List prefix_node) :
    ∀ (j : Nat) (s : prefix_node), l[j]? = some s → keep s = true →
      (l.filter keep)[((l.take j).filter keep).length]? = some s := by
  induction l with
  | nil => intro j s h; simp at h
  | cons a t ih =>
    intro j s h hs
    cases j with
    | zero =>
      simp only [List.getElem?_cons_zero, Option.some.injEq] at h
      subst h
      simp [List.filter_cons, hs]
    | succ j =>
      simp only [List.getElem?_cons_succ] at h
      have := ih j s h hs
      by_cases ha : keep a = true
      · simp [List.filter_cons, ha, this]
      · simp [List.filter_cons, ha, this]

theorem delete_where_mem {oa : Nat} {p : prefix_node → Bool} {po : proto_ospf} {k : Nat}
    {ifa2 : ospf_iface} (hk : (delete_where oa p po).iface_list[k]? = some ifa2) :
    ∃ ifa0, po.iface_list[k]? = some ifa0 ∧ ifa0.oa = ifa2.oa ∧
      ∀ m ∈ ifa2.asp_list, m ∈ ifa0.asp_list := by
  rw [delete_where_getElem?] at hk
  cases hq : po.iface_list[k]? with
  | none => rw [hq] at hk; cases hk
  | some ifa4 =>
    rw [hq] at hk
    simp only [Option.map_some', Option.some.injEq] at hk
    subst hk
    refine ⟨ifa4, rfl, ?_, ?_⟩
    · split <;> rfl
    · intro m hm
      split at hm
      · exact (List.mem_filter.1 hm).1
      · exact hm

theorem twin_free_cross_apply {db : List ac_lsa} {oa : Nat} {po : proto_ospf} {k1 k2 : Nat}
    {ifa1 ifa2 : ospf_iface} {a b : prefix_node} (ht : twin_free_cross db oa po)
    (hk1 : po.iface_list[k1]? = some ifa1) (hk2 : po.iface_list[k2]? = some ifa2)
    (ho1 : ifa1.oa = oa) (ho2 : ifa2.oa = oa) (hne : k1 ≠ k2)
    (ha : a ∈ ifa1.asp_list) (hb : b ∈ ifa2.asp_list)
    (hoa : own_in_usp db po.router_id a) (hob : b.rid = po.router_id) (he : a.px = b.px) : False :=
  ht k1 k2 ifa1 ifa2 hne hk1 hk2 ho1 ho2 a ha b hb hoa hob he

theorem try_steal_step_ok {db : List ac_lsa} {oa : Nat} {po : proto_ospf} {i : Nat}
    {ifa : ospf_iface} {usp steal : Prefix} {lowest : Nat} {ch : Bool}
    (hi : po.iface_list[i]? = some ifa) (hoa : ifa.oa = oa) (husp : usp ∈ lsdb_usps db)
    (hsin : net_in_net steal.addr steal.len usp.addr usp.len = true)
    (self_r : Option Nat)
    (hself : ∀ j, self_r = some j → ∃ s, ifa.asp_list[j]? = some s ∧ s.rid = po.router_id ∧
      net_in_net s.px.addr s.px.len usp.addr usp.len = true) :
    (try_steal db i ifa steal lowest self_r ⟨po, false, ch⟩ = ⟨po, false, ch⟩) ∨
    ((try_steal db i ifa steal lowest self_r ⟨po, false, ch⟩).pxchoose_success = true ∧
      step_ok db oa i po (try_steal db i ifa steal lowest self_r ⟨po, false, ch⟩).po) := by
  unfold try_steal
  simp only
  split
  swap
  · exact Or.inl rfl
  right
  refine ⟨rfl, ?_⟩
  simp only
  have hjust : justified db po.router_id ⟨⟨steal.addr, steal.len⟩, po.router_id, po.router_id,
      ifa.pa_priority, true⟩ := ⟨⟨usp, husp, hsin⟩, Or.inl rfl⟩
  cases self_r with
  | none =>
    simp only [Option.bind_none]
    have hd := delete_where_self ifa.oa (steal_victim po.router_id steal none) po i ifa hi rfl
    refine Or.inr ⟨_, _, _, _, refines_delete_where db oa ifa.oa _ po, hd, hoa,
      add_prefix_eq _ _ _ _ _ _ _ _ hd, rfl, hjust, ?_, ?_⟩
    · intro _ m hm _
      have := delete_where_clean ifa.oa _ po i _ hd rfl m hm
      rw [steal_victim_none] at this
      rw [overlaps_comm]; exact this
    · intro _ k ifa2 _ hk2 ho2 m hm _
      have := delete_where_clean ifa.oa _ po k _ hk2 (ho2.trans hoa.symm) m hm
      rw [steal_victim_none] at this
      rw [overlaps_comm]; exact this
  | some j =>
    obtain ⟨s, hs, hsr, hsi⟩ := hself j rfl
    have hb : (some j).bind (fun j => ifa.asp_list[j]?) = some s := hs
    simp only [hb]
    have hso : own_in_usp db po.router_id s := ⟨hsr, usp, husp, hsi⟩
    have hkeep : (fun n => !steal_victim po.router_id steal (some s) n) s = true := by
      simp [steal_victim, ipa_equal, hsr]
    have hd := delete_where_self ifa.oa (steal_victim po.router_id steal (some s)) po i ifa hi rfl
    have hfs := filter_getElem_take (fun n => !steal_victim po.router_id steal (some s) n)
      ifa.asp_list j s hs hkeep
    have hferase := filter_eraseIdx_take (fun n => !steal_victim po.router_id steal (some s) n)
      ifa.asp_list j s hs hkeep
    have hmid := del_prefix_getElem? hd hfs
    have hmidi := hmid i
    rw [if_pos rfl] at hmidi
    refine Or.inr ⟨_, _, _, _,
      refines_trans (refines_delete_where db oa ifa.oa _ po) ( refines_del_prefix db oa _ i _),
      hmidi, hoa, add_prefix_eq _ _ _ _ _ _ _ _ hmidi, rfl, hjust, ?_, ?_⟩
    · intro ht m hm _
      by_contra hov
      have hov : overlaps steal m.px = true := by rw [overlaps_comm]; simpa using hov
      have hm2 : m ∈ (ifa.asp_list.eraseIdx j).filter
          (fun n => !steal_victim po.router_id steal (some s) n) := by
        rw [← hferase]; exact hm
      obtain ⟨hm3, hm4⟩ := List.mem_filter.1 hm2
      obtain ⟨he, hr⟩ := steal_survivor (by simpa using hm4) hov
      exact twin_absurd ht hi hoa hs hso hm3 hr he
    · intro ht k ifa2 hk hk2 ho2 m hm _
      by_contra hov
      have hov : overlaps steal m.px = true := by rw [overlaps_comm]; simpa using hov
      rw [hmid k, if_neg (fun e => hk e.symm)] at hk2
      have hv := delete_where_clean ifa.oa _ po k _ hk2 (ho2.trans hoa.symm) m hm
      obtain ⟨he, hr⟩ := steal_survivor hv hov
      obtain ⟨ifa0, hk0, ho0, hmem⟩ := delete_where_mem hk2
      exact twin_free_cross_apply ht hi hk0 hoa (ho0.trans ho2) (fun e => hk e.symm)
        (List.mem_iff_getElem?.2 ⟨j, hs⟩) (hmem m hm) hso hr he

theorem try_split_step_ok {md5 : Digest} {fuel : Nat} {db : List ac_lsa} {oa : Nat}
    {po : proto_ospf} {i : Nat} {ifa : ospf_iface} {usp split : Prefix} {length : Nat} {ch : Bool}
    {st1 : alloc_state}
    (hi : po.iface_list[i]? = some ifa) (hoa : ifa.oa = oa) (husp : usp ∈ lsdb_usps db)
    (hsin : net_in_net split.addr split.len usp.addr usp.len = true)
    (h : try_split md5 fuel db i ifa split length ⟨po, false, ch⟩ = .ok st1) :
    (st1 = ⟨po, false, ch⟩) ∨ (st1.pxchoose_success = true ∧ step_ok db oa i po st1.po) := by
  unfold try_split at h
  simp only at h
  split at h
  · cases h
  split at h
  · cases h
    exact Or.inl rfl
  cases hc : choose_prefix md5 fuel split length [] po.router_id ifa.name with
  | error e => rw [hc] at h; cases h
  | ok r =>
    rw [hc] at h
    simp only [bind, Except.bind] at h
    obtain ⟨code, px⟩ := r
    cases code with
    | PXCHOOSE_FAILURE => simp only at h; cases h
    | PXCHOOSE_SUCCESS =>
      simp only at h
      cases h
      right
      refine ⟨rfl, ?_⟩
      have hjust : justified db po.router_id ⟨⟨split.addr, split.len⟩, po.router_id, po.router_id,
          ifa.pa_priority, true⟩ := ⟨⟨usp, husp, hsin⟩, Or.inl rfl⟩
      have hd := delete_where_self ifa.oa (fun n => overlaps split n.px) po i ifa hi rfl
      refine Or.inr ⟨_, _, _, _, refines_delete_where db oa ifa.oa _ po, hd, hoa,
        add_prefix_eq _ _ _ _ _ _ _ _ hd, rfl, hjust, ?_, ?_⟩
      · intro _ m hm _
        have := delete_where_clean ifa.oa _ po i _ hd rfl m hm
        rw [overlaps_comm]; exact this
      · intro _ k ifa2 _ hk2 ho2 m hm _
        have := delete_where_clean ifa.oa _ po k _ hk2 (ho2.trans hoa.symm) m hm
        rw [overlaps_comm]; exact this

/-! ## Invariants: steps 5.3.6 and 5.3.4 -/

theorem candidate_inside {db : List ac_lsa} {po : proto_ospf} {i : Nat} {ifa : ospf_iface}
    {usp : Prefix} {self_r : Option prefix_node} {e : Prefix × Nat × Nat}
    (he : e ∈ used_candidates db po i ifa usp self_r) :
    net_in_net e.1.addr e.1.len usp.addr usp.len = true := by
  rcases List.mem_append.1 he with h | h
  · exact lsdb_used_inside db po.router_id usp e h
  · exact own_used_inside po.router_id ifa.oa usp i self_r po.iface_list 0 e h

theorem find_used_steal_inside {db : List ac_lsa} {po : proto_ospf} {i : Nat} {ifa : ospf_iface}
    {usp : Prefix} {self_r : Option prefix_node}
    (hl : usp.len ≤ LSA_AC_ASP_D_PREFIX_LENGTH)
    (h : (find_used db po i ifa usp self_r).found_steal = true) :
    net_in_net (find_used db po i ifa usp self_r).steal.addr
      (find_used db po i ifa usp self_r).steal.len usp.addr usp.len = true := by
  obtain ⟨e, he, hs⟩ := (find_used_sound db po i ifa usp self_r).2.1 h
  rw [hs]
  exact steal_inside (candidate_inside he) hl

theorem find_used_split_inside {db : List ac_lsa} {po : proto_ospf} {i : Nat} {ifa : ospf_iface}
    {usp : Prefix} {self_r : Option prefix_node}
    (h : (find_used db po i ifa usp self_r).found_split = true) :
    net_in_net (find_used db po i ifa usp self_r).split.addr
      (find_used db po i ifa usp self_r).split.len usp.addr usp.len = true := by
  obtain ⟨e, he, hs, _⟩ := (find_used_sound db po i ifa usp self_r).2.2 h
  rw [hs]
  exact candidate_inside he

theorem step6d_ok {db : List ac_lsa} {oa : Nat} {po : proto_ospf} {i : Nat} {ifa : ospf_iface}
    {usp : Prefix} {ch : Bool} {st : alloc_state}
    (hi : po.iface_list[i]? = some ifa) (hoa : ifa.oa = oa) (husp : usp ∈ lsdb_usps db)
    (hlen : usp.len ≤ LSA_AC_ASP_D_PREFIX_LENGTH) (h : alloc_ok db oa i po ch st) :
    alloc_ok db oa i po ch (step6d db i ifa (find_used db po i ifa usp none) st) := by
  unfold step6d
  rcases h with h | h
  · subst h
    by_cases hf : (find_used db po i ifa usp none).found_steal = true
    · simp only [hf, Bool.not_false, Bool.and_self, if_true]
      exact try_steal_step_ok hi hoa husp (find_used_steal_inside hlen hf) none
        (fun j hj => by cases hj)
    · simp only [hf, Bool.and_false, Bool.false_eq_true, if_false]
      exact Or.inl rfl
  · simp only [h.1, Bool.not_true, Bool.false_and, Bool.false_eq_true, if_false]
    exact Or.inr h

theorem step6f_ok {md5 : Digest} {fuel : Nat} {db : List ac_lsa} {oa : Nat} {po : proto_ospf}
    {i : Nat} {ifa : ospf_iface} {usp : Prefix} {ch : Bool} {st st1 : alloc_state}
    (hi : po.iface_list[i]? = some ifa) (hoa : ifa.oa = oa)
    (hguard : (lsdb_usps db).any (fun usp2 => strictly_inside usp usp2) = false)
    (husp : usp ∈ lsdb_usps db) (hlen : usp.len ≤ LSA_AC_ASP_D_PREFIX_LENGTH)
    (h : alloc_ok db oa i po ch st)
    (hr : step6f md5 fuel i ifa usp (find_used db po i ifa usp none) st = .ok st1) :
    alloc_ok db oa i po ch st1 := by
  unfold step6f at hr
  simp only [try_reuse, ite_self] at hr
  rcases h with h | h
  · subst h
    split at hr
    · exact try_assign_step_ok hi hoa hguard husp
        (by unfold LSA_AC_ASP_D_PREFIX_LENGTH at hlen; unfold LSA_AC_ASP_SUB_PREFIX_LENGTH; omega)
        none (fun j hj => by cases hj) hr
    · cases hr
      exact Or.inl rfl
  · simp only [h.1, Bool.not_true, Bool.false_and, Bool.false_eq_true, if_false] at hr
    cases hr
    exact Or.inr h

theorem step6g_ok {md5 : Digest} {fuel : Nat} {db : List ac_lsa} {oa : Nat} {po : proto_ospf}
    {i : Nat} {ifa : ospf_iface} {usp : Prefix} {ch : Bool} {st st1 : alloc_state}
    (hi : po.iface_list[i]? = some ifa) (hoa : ifa.oa = oa) (husp : usp ∈ lsdb_usps db)
    (h : alloc_ok db oa i po ch st)
    (hr : step6g md5 fuel db i ifa (find_used db po i ifa usp none) st = .ok st1) :
    alloc_ok db oa i po ch st1 := by
  unfold step6g at hr
  rcases h with h | h
  · subst h
    split at hr
    · rename_i hc
      simp only [Bool.not_false, Bool.true_and, Bool.and_eq_true] at hc
      exact try_split_step_ok hi hoa husp (find_used_split_inside hc.1) hr
    · cases hr
      exact Or.inl rfl
  · simp only [h.1, Bool.not_true, Bool.false_and, Bool.false_eq_true, if_false] at hr
    cases hr
    exact Or.inr h

theorem alloc_ok_step {db : List ac_lsa} {oa : Nat} {po : proto_ospf} {i : Nat} {ch : Bool}
    {st : alloc_state} (h : alloc_ok db oa i po ch st) : step_ok db oa i po st.po := by
  rcases h with h | h
  · subst h
    exact Or.inl (refines_refl db oa po)
  · exact h.2

theorem step6_step_ok {md5 : Digest} {fuel : Nat} {db : List ac_lsa} {oa : Nat}
    {po : proto_ospf} {i : Nat} {ifa : ospf_iface} {usp : Prefix} {ch : Bool}
    {out : proto_ospf × Bool}
    (hi : po.iface_list[i]? = some ifa) (hoa : ifa.oa = oa)
    (hguard : (lsdb_usps db).any (fun usp2 => strictly_inside usp usp2) = false)
    (husp : usp ∈ lsdb_usps db) (hlen : usp.len ≤ LSA_AC_ASP_D_PREFIX_LENGTH)
    (h : step6 md5 fuel db po i ifa usp ch = .ok out) : step_ok db oa i po out.1 := by
  unfold step6 at h
  simp only [try_reuse] at h
  cases h1 : try_assign_unused md5 fuel i ifa usp (find_used db po i ifa usp none).used
      LSA_AC_ASP_D_PREFIX_LENGTH none ⟨po, false, ch⟩ with
  | error e => rw [h1] at h; cases h
  | ok st1 =>
    rw [h1] at h
    simp only at h
    have a1 : alloc_ok db oa i po ch st1 :=
      try_assign_step_ok hi hoa hguard husp hlen none (fun j hj => by cases hj) h1
    have a2 := @step6d_ok db oa po i ifa usp ch st1 hi hoa husp hlen a1
    cases h2 : step6f md5 fuel i ifa usp (find_used db po i ifa usp none)
        (step6d db i ifa (find_used db po i ifa usp none) st1) with
    | error e => rw [h2] at h; cases h
    | ok st2 =>
      rw [h2] at h
      simp only at h
      have a3 := step6f_ok hi hoa hguard husp hlen a2 h2
      cases h3 : step6g md5 fuel db i ifa (find_used db po i ifa usp none) st2 with
      | error e => rw [h3] at h; cases h
      | ok st3 =>
        rw [h3] at h
        simp only [Except.ok.injEq] at h
        subst h
        exact alloc_ok_step (step6g_ok hi hoa husp a3 h3)

theorem upgrade_ok {md5 : Digest} {fuel : Nat} {db : List ac_lsa} {oa : Nat} {po : proto_ospf}
    {i : Nat} {ifa : ospf_iface} {usp : Prefix} {j : Nat} {s : prefix_node} {st1 : alloc_state}
    (hi : po.iface_list[i]? = some ifa) (hoa : ifa.oa = oa)
    (hguard : (lsdb_usps db).any (fun usp2 => strictly_inside usp usp2) = false)
    (husp : usp ∈ lsdb_usps db) (hlen : usp.len ≤ LSA_AC_ASP_D_PREFIX_LENGTH)
    (hs : ifa.asp_list[j]? = some s) (hsr : s.rid = po.router_id)
    (hsi : net_in_net s.px.addr s.px.len usp.addr usp.len = true)
    (h : upgrade md5 fuel db i ifa usp j ⟨po, false, false⟩ = .ok st1) :
    alloc_ok db oa i po false st1 := by
  unfold upgrade at h
  simp only [try_reuse] at h
  have hself : ∀ j1, some j = some j1 → ∃ s, ifa.asp_list[j1]? = some s ∧ s.rid = po.router_id ∧
      net_in_net s.px.addr s.px.len usp.addr usp.len = true := by
    intro j1 hj1
    cases hj1
    exact ⟨s, hs, hsr, hsi⟩
  cases h1 : try_assign_unused md5 fuel i ifa usp (find_used db po i ifa usp (ifa.asp_list[j]?)).used
      LSA_AC_ASP_D_PREFIX_LENGTH (some j) ⟨po, false, false⟩ with
  | error e => rw [h1] at h; cases h
  | ok st =>
    rw [h1] at h
    simp only [bind, Except.bind] at h
    have a1 : alloc_ok db oa i po false st :=
      try_assign_step_ok hi hoa hguard husp hlen (some j) hself h1
    rcases a1 with e1 | a1
    · subst e1
      by_cases hf : (find_used db po i ifa usp (ifa.asp_list[j]?)).found_steal = true
      · simp only [hf, Bool.not_false, Bool.and_self, if_true, Except.ok.injEq] at h
        subst h
        exact try_steal_step_ok hi hoa husp (find_used_steal_inside hlen hf) (some j) hself
      · simp only [hf, Bool.and_false, Bool.false_eq_true, if_false, Except.ok.injEq] at h
        subst h
        exact Or.inl rfl
    · simp only [a1.1, Bool.not_true, Bool.false_and, Bool.false_eq_true, if_false,
        Except.ok.injEq] at h
      subst h
      exact Or.inr a1

theorem step4_ok {md5 : Digest} {fuel : Nat} {db : List ac_lsa} {oa : Nat} {po : proto_ospf}
    {i : Nat} {ifa : ospf_iface} {usp : Prefix} {j : Nat} {s : prefix_node}
    {out : proto_ospf × Bool × Bool}
    (hi : po.iface_list[i]? = some ifa) (hoa : ifa.oa = oa)
    (hguard : (lsdb_usps db).any (fun usp2 => strictly_inside usp usp2) = false)
    (husp : usp ∈ lsdb_usps db) (hlen : usp.len ≤ LSA_AC_ASP_D_PREFIX_LENGTH)
    (hs : ifa.asp_list[j]? = some s) (hsr : s.rid = po.router_id)
    (hsi : net_in_net s.px.addr s.px.len usp.addr usp.len = true)
    (h : step4 md5 fuel db po i ifa usp j s = .ok out) :
    (out.2.2 = true ∧ refines db oa po out.1) ∨ (out.2.2 = false ∧ step_ok db oa i po out.1) := by
  have hjs : justified db po.router_id s := ⟨⟨usp, husp, hsi⟩, Or.inl hsr⟩
  unfold step4 at h
  split at h
  · cases h
    exact Or.inl ⟨rfl, refines_del_prefix db oa po i j⟩
  split at h
  · cases h
  split at h
  · cases hu : upgrade md5 fuel db i ifa usp j ⟨po, false, false⟩ with
    | error e => rw [hu] at h; cases h
    | ok st =>
      rw [hu] at h
      simp only [bind, Except.bind] at h
      have a := upgrade_ok hi hoa hguard husp hlen hs hsr hsi hu
      split at h
      · cases h
        exact Or.inr ⟨rfl, alloc_ok_step a⟩
      · rename_i hns
        cases h
        rcases a with e | a
        · subst e
          exact Or.inr ⟨rfl, Or.inl (refines_set_valid hi hs hjs)⟩
        · exact absurd a.1 hns
  · cases h
    exact Or.inr ⟨rfl, Or.inl (refines_set_valid hi hs hjs)⟩

/-! ## Invariants: one call of ospf_pxassign_usp_ifa -/

theorem run_step4_ok {md5 : Digest} {fuel : Nat} {db : List ac_lsa} {oa : Nat} {po : proto_ospf}
    {i : Nat} {ifa : ospf_iface} {usp : Prefix} {out : proto_ospf × Bool × Bool}
    (hi : po.iface_list[i]? = some ifa) (hoa : ifa.oa = oa)
    (hguard : (lsdb_usps db).any (fun usp2 => strictly_inside usp usp2) = false)
    (husp : usp ∈ lsdb_usps db) (hlen : usp.len ≤ LSA_AC_ASP_D_PREFIX_LENGTH)
    (h : run_step4 md5 fuel db po i ifa usp (resolve db po.router_id ifa usp) = .ok out) :
    (out.2.2 = true ∧ refines db oa po out.1 ∧
        guard_step4 (resolve db po.router_id ifa usp) = true)
    ∨ (out.2.2 = false ∧ step_ok db oa i po out.1 ∧
        (guard_step4 (resolve db po.router_id ifa usp) = false → out.1 = po)) := by
  unfold run_step4 at h
  by_cases hg : guard_step4 (resolve db po.router_id ifa usp) = true
  · cases hself : (resolve db po.router_id ifa usp).self_r_px with
    | none =>
      rw [hg, hself] at h
      simp only [Option.none_bind] at h
      cases h
      exact Or.inr ⟨rfl, Or.inl (refines_refl db oa po), fun _ => rfl⟩
    | some j =>
      obtain ⟨s, hs, hsr, hsi⟩ := resolve_self_r hself
      rw [hg, hself] at h
      simp only [Option.some_bind, hs, Option.map_some'] at h
      rcases step4_ok hi hoa hguard husp hlen hs hsr hsi h with a | a
      · exact Or.inl ⟨a.1, a.2, hg⟩
      · exact Or.inr ⟨a.1, a.2, fun hf => by rw [hg] at hf; cases hf⟩
  · have hg2 : guard_step4 (resolve db po.router_id ifa usp) = false := by simpa using hg
    rw [hg2] at h
    simp only at h
    cases h
    exact Or.inr ⟨rfl, Or.inl (refines_refl db oa po), fun _ => rfl⟩

theorem guard_step4_excludes (r : resolution) (h : guard_step4 r = true) :
    guard_step5 r = false ∧ guard_step6 r = false := by
  revert h
  unfold guard_step4 guard_step5 guard_step6
  cases r.have_highest_link_pa_priority <;> cases r.have_assignment_resp
    <;> cases r.have_highest_rid <;> cases r.assignment_found <;> simp

theorem guard_step5_found (r : resolution) (h : guard_step5 r = true) :
    r.assignment_found = true := by
  unfold guard_step5 at h
  simp only [Bool.and_eq_true] at h
  exact h.2

theorem refines_iface {db : List ac_lsa} {oa : Nat} {po po1 : proto_ospf} {i : Nat}
    {ifa : ospf_iface} (h : refines db oa po po1) (hi : po.iface_list[i]? = some ifa) :
    ∃ ifa1, po1.iface_list[i]? = some ifa1 ∧ ifa1.oa = ifa.oa := by
  have hlt : i < po1.iface_list.length := by
    rw [h.2.1]; exact (List.getElem?_eq_some.1 hi).1
  exact ⟨po1.iface_list[i], List.getElem?_eq_getElem hlt,
    (h.2.2.1 i ifa _ hi (List.getElem?_eq_getElem hlt)).1⟩

/-- One call of ospf_pxassign_usp_ifa, for an advertised usable prefix of at
most 64 bits and an interface of the area, keeps the invariants of the run. -/
theorem usp_ifa_step_ok {md5 : Digest} {fuel : Nat} {db : List ac_lsa} {oa : Nat}
    {po : proto_ospf} {i : Nat} {usp : Prefix} {ifa0 : ospf_iface} {out : proto_ospf × Bool}
    (hi : po.iface_list[i]? = some ifa0) (hoa : ifa0.oa = oa) (husp : usp ∈ lsdb_usps db)
    (hlen : usp.len ≤ LSA_AC_ASP_D_PREFIX_LENGTH)
    (h : ospf_pxassign_usp_ifa md5 fuel db po i usp = .ok out) : step_ok db oa i po out.1 := by
  unfold ospf_pxassign_usp_ifa at h
  simp only [hi] at h
  split at h
  · cases h
    exact Or.inl (refines_refl db oa po)
  rename_i hguard
  have hguard : (lsdb_usps db).any (fun usp2 => strictly_inside usp usp2) = false := by
    simpa using hguard
  have hr1 : refines db oa po (set_iface po i (refresh_iface db ifa0)) := refines_refresh hi
  have hi1 := set_iface_self po i ifa0 (refresh_iface db ifa0) hi
  have hoa1 : (refresh_iface db ifa0).oa = oa := hoa
  generalize set_iface po i (refresh_iface db ifa0) = po1 at h hr1 hi1
  generalize refresh_iface db ifa0 = ifa at h hi1 hoa1
  split at h
  · cases h
    exact Or.inl hr1
  cases h4 : run_step4 md5 fuel db po1 i ifa usp (resolve db po1.router_id ifa usp) with
  | error e => rw [h4] at h; cases h
  | ok s4 =>
    rw [h4] at h
    simp only [bind, Except.bind] at h
    apply step_ok_of_refines hr1
    rcases run_step4_ok hi1 hoa1 hguard husp hlen h4 with ⟨hd, href, hg4⟩ | ⟨hd, hstep, hg4⟩
    · -- our assignment was removed: step 5.3.6 runs
      obtain ⟨g5, _⟩ := guard_step4_excludes _ hg4
      unfold run_step5 at h
      rw [if_neg (by simp [g5])] at h
      unfold run_step6 at h
      simp only [hd, Bool.true_or, if_true] at h
      obtain ⟨ifa6, hi6, hoa6⟩ := refines_iface href hi1
      rw [hi6] at h
      exact step_ok_of_refines href (step6_step_ok hi6 (hoa6.trans hoa1) hguard husp hlen h)
    · by_cases g4 : guard_step4 (resolve db po1.router_id ifa usp) = true
      · obtain ⟨g5, g6⟩ := guard_step4_excludes _ g4
        unfold run_step5 at h
        rw [if_neg (by simp [g5])] at h
        unfold run_step6 at h
        simp only [hd, g6, Bool.or_self, Bool.false_eq_true, if_false, Except.ok.injEq] at h
        subst h
        exact hstep
      · have hpo := hg4 (by simpa using g4)
        by_cases g5 : guard_step5 (resolve db po1.router_id ifa usp) = true
        · obtain ⟨_, _, g6⟩ := guard_step5_excludes _ g5
          obtain ⟨hin, hadv⟩ := resolve_peer_sound db po1.router_id ifa usp (guard_step5_found _ g5)
          unfold run_step5 at h
          rw [if_pos g5] at h
          simp only [hpo, hi1] at h
          unfold run_step6 at h
          simp only [hd, g6, Bool.or_self, Bool.false_eq_true, if_false, Except.ok.injEq] at h
          subst h
          exact step5_step_ok _ hi1 hoa1 husp hin hadv
        · unfold run_step5 at h
          rw [if_neg g5] at h
          unfold run_step6 at h
          simp only [hd, Bool.false_or] at h
          split at h
          · simp only [hpo, hi1] at h
            exact step6_step_ok hi1 hoa1 hguard husp hlen h
          · cases h
            exact hstep

/-! ## Invariants: the run over an area -/

theorem walk_ifaces_inv {md5 : Digest} {fuel : Nat} {db : List ac_lsa} {oa : Nat} {usp : Prefix}
    (I : proto_ospf → Prop)
    (hI : ∀ (i : Nat) (po po1 : proto_ospf), I po → step_ok db oa i po po1 → I po1)
    (husp : usp ∈ lsdb_usps db) (hlen : usp.len ≤ LSA_AC_ASP_D_PREFIX_LENGTH) (is : List Nat) :
    ∀ (s out : proto_ospf × Bool), I s.1 → walk_ifaces md5 fuel db oa usp is s = .ok out →
      I out.1 := by
  induction is with
  | nil =>
    intro s out hs h
    simp only [walk_ifaces, Except.ok.injEq] at h
    subst h
    exact hs
  | cons i is ih =>
    intro s out hs h
    rw [walk_ifaces] at h
    cases hi : s.1.iface_list[i]? with
    | none =>
      rw [hi] at h
      exact ih s out hs h
    | some ifa =>
      rw [hi] at h
      simp only at h
      split at h
      · rename_i hoa
        cases hp : ospf_pxassign_usp_ifa md5 fuel db s.1 i usp with
        | error e => rw [hp] at h; cases h
        | ok s1 =>
          rw [hp] at h
          simp only [bind, Except.bind] at h
          exact ih (s1.1, s.2 || s1.2) out (hI i s.1 s1.1 hs (usp_ifa_step_ok hi hoa husp hlen hp)) h
      · exact ih s out hs h

theorem walk_usps_inv {md5 : Digest} {fuel : Nat} {db : List ac_lsa} {oa : Nat}
    (I : proto_ospf → Prop)
    (hI : ∀ (i : Nat) (po po1 : proto_ospf), I po → step_ok db oa i po po1 → I po1)
    (usps : List Prefix) :
    (∀ u ∈ usps, u ∈ lsdb_usps db ∧ u.len ≤ LSA_AC_ASP_D_PREFIX_LENGTH) →
    ∀ (s out : proto_ospf × Bool), I s.1 → walk_usps md5 fuel db oa usps s = .ok out → I out.1 := by
  induction usps with
  | nil =>
    intro _ s out hs h
    simp only [walk_usps, Except.ok.injEq] at h
    subst h
    exact hs
  | cons usp rest ih =>
    intro hu s out hs h
    rw [walk_usps] at h
    cases hw : walk_ifaces md5 fuel db oa usp (List.range s.1.iface_list.length) s with
    | error e => rw [hw] at h; cases h
    | ok s1 =>
      rw [hw] at h
      simp only [bind, Except.bind] at h
      have h1 := walk_ifaces_inv I hI (hu usp (List.mem_cons_self _ _)).1
        (hu usp (List.mem_cons_self _ _)).2 _ s s1 hs hw
      exact ih (fun u hm => hu u (List.mem_cons_of_mem _ hm)) s1 out h1 h

theorem refines_mark_invalid (db : List ac_lsa) (oa oa1 : Nat) (po : proto_ospf) :
    refines db oa po (mark_invalid oa1 po) := by
  refine ⟨rfl, by simp [mark_invalid], ?_, ?_⟩
  · intro k ifa ifa1 hk hk1
    simp only [mark_invalid, List.getElem?_map, hk, Option.map_some', Option.some.injEq] at hk1
    subst hk1
    split
    · refine ⟨rfl, fun _ => ⟨?_, ?_⟩⟩
      · show ((ifa.asp_list.map _).map erase_valid).Sublist _
        rw [List.map_map]
        exact List.Sublist.refl _
      · intro n hn hv
        obtain ⟨m, _, hm⟩ := List.mem_map.1 hn
        rw [← hm] at hv
        cases hv
    · exact ⟨rfl, fun _ => ⟨List.Sublist.refl _, fun n hn _ => Or.inl hn⟩⟩
  · intro k ifa ifa1 hk hk1
    simp only [mark_invalid, List.getElem?_map, hk, Option.map_some', Option.some.injEq] at hk1
    subst hk1
    split
    · exact ⟨rfl, rfl, rfl⟩
    · exact ⟨rfl, rfl, rfl⟩

theorem valid_justified_mark_invalid (db : List ac_lsa) (oa : Nat) (po : proto_ospf) :
    valid_justified db oa (mark_invalid oa po) := by
  intro k ifa1 hk ho n hn hv
  simp only [mark_invalid, List.getElem?_map] at hk
  cases hq : po.iface_list[k]? with
  | none => rw [hq] at hk; cases hk
  | some ifa =>
    rw [hq] at hk
    simp only [Option.map_some', Option.some.injEq] at hk
    subst hk
    split at hn
    · obtain ⟨m, _, hm⟩ := List.mem_map.1 hn
      rw [← hm] at hv
      cases hv
    · rename_i hne
      split at ho
      · rename_i he
        exact absurd he hne
      · exact absurd ho hne

theorem sweep_valid (oa : Nat) (s : proto_ospf × Bool) (k : Nat) (ifa : ospf_iface)
    (hk : (sweep oa s).1.iface_list[k]? = some ifa) (ho : ifa.oa = oa) :
    ∀ n ∈ ifa.asp_list, n.valid = true := by
  intro n hn
  have := delete_where_clean oa (fun n => !n.valid) s.1 k ifa hk ho n hn
  simpa using this

theorem refines_sweep (db : List ac_lsa) (oa : Nat) (s : proto_ospf × Bool) :
    refines db oa s.1 (sweep oa s).1 :=
  refines_delete_where db oa oa _ s.1

/-- After a completed run over an area whose usable prefixes have at most 64
bits, every record left on an interface of the area is valid and justified,
and any invariant kept by the calls of ospf_pxassign_usp_ifa and by deletions
holds of the final state. -/
theorem area_inv {md5 : Digest} {fuel : Nat} {db : List ac_lsa} {oa : Nat} {po : proto_ospf}
    {out : proto_ospf × Bool} (I : proto_ospf → Prop)
    (hI : ∀ (i : Nat) (po po1 : proto_ospf), I po → step_ok db oa i po po1 → I po1)
    (hR : ∀ (po po1 : proto_ospf), I po → refines db oa po po1 → I po1)
    (hlen : ∀ u ∈ lsdb_usps db, u.len ≤ LSA_AC_ASP_D_PREFIX_LENGTH)
    (h0 : I po) (h : ospf_pxassign_area md5 fuel db po oa = .ok out) :
    I out.1 ∧ ∀ (k : Nat) (ifa : ospf_iface), out.1.iface_list[k]? = some ifa → ifa.oa = oa →
      ∀ n ∈ ifa.asp_list, n.valid = true ∧ justified db out.1.router_id n := by
  unfold ospf_pxassign_area at h
  cases hw : walk_usps md5 fuel db oa (lsdb_usps db) (mark_invalid oa po, false) with
  | error e => rw [hw] at h; cases h
  | ok s =>
    rw [hw] at h
    simp only [bind, Except.bind, Except.ok.injEq] at h
    subst h
    have hu : ∀ u ∈ lsdb_usps db, u ∈ lsdb_usps db ∧ u.len ≤ LSA_AC_ASP_D_PREFIX_LENGTH :=
      fun u hm => ⟨hm, hlen u hm⟩
    have i1 : I s.1 := walk_usps_inv I hI _ hu _ s
      (hR po _ h0 (refines_mark_invalid db oa oa po)) hw
    have v1 : valid_justified db oa s.1 :=
      walk_usps_inv (valid_justified db oa) (fun i po po1 hv hs => valid_justified_step hv hs)
        _ hu _ s (valid_justified_mark_invalid db oa po) hw
    have v2 := valid_justified_refines v1 (refines_sweep db oa s)
    refine ⟨hR _ _ i1 (refines_sweep db oa s), ?_⟩
    intro k ifa hk ho n hn
    have hv := sweep_valid oa s k ifa hk ho n hn
    exact ⟨hv, v2 k ifa hk ho n hn hv⟩

/-! ## The invariants P1, P2 and P3 of a run -/

theorem solo_iface {k : Nat} {ifa : ospf_iface} (hk : ex_po_solo.iface_list[k]? = some ifa) :
    ifa.asp_list = [] := by
  rcases k with _ | k
  · simp only [ex_po_solo, List.getElem?_cons_zero, Option.some.injEq] at hk
    subst hk
    rfl
  · simp [ex_po_solo] at hk

/-- C3, counterexample. With the single usable prefix 2001:db8:0:0:100::/72
advertised, one run on a router with one interface installs the record
2001:db8:0:0:100::/64, which no advertised usable prefix contains. -/
theorem usp_containment_fails :
    ospf_pxassign_area ex_md5 4 ex_db_long ex_po_solo 0 = .ok (ex_out_long, true)
    ∧ ¬ all_in_usp ex_db_long 0 ex_out_long := by
  refine ⟨by decide, ?_⟩
  intro h
  obtain ⟨u, hu, hc⟩ := h 0 ⟨"eth0", 0, 1, [⟨⟨⟨0x20010db8, 0, 0x01000000, 0⟩, 64⟩, 10, 10, 1, true⟩], []⟩
    rfl rfl ⟨⟨⟨0x20010db8, 0, 0x01000000, 0⟩, 64⟩, 10, 10, 1, true⟩ (List.mem_singleton_self _)
  simp only [lsdb_usps, ex_db_long, List.flatMap_cons, List.flatMap_nil, List.append_nil,
    List.mem_singleton] at hu
  subst hu
  revert hc
  decide

/-- C3, amended. When every usable prefix advertised in the LSDB has at most
64 bits, after any completed run of ospf_pxassign_area, from any starting
state, every record left on an interface of the area lies inside some
advertised usable prefix. -/
theorem usp_containment (md5 : Digest) (fuel : Nat) (db : List ac_lsa) (po : proto_ospf)
    (oa : Nat) (out : proto_ospf × Bool)
    (hlen : ∀ u ∈ lsdb_usps db, u.len ≤ LSA_AC_ASP_D_PREFIX_LENGTH)
    (h : ospf_pxassign_area md5 fuel db po oa = .ok out) : all_in_usp db oa out.1 := by
  have := (area_inv (fun _ => True) (fun _ _ _ _ _ => trivial) (fun _ _ _ _ => trivial)
    hlen trivial h).2
  intro k ifa hk ho n hn
  exact (this k ifa hk ho n hn).2.1

/-- Witness for C3 (amended): the run on the solo router with 2001:db8::/60. -/
theorem usp_containment_witness : all_in_usp ex_db_solo 0 ex_out_solo :=
  usp_containment ex_md5 4 ex_db_solo ex_po_solo 0 (ex_out_solo, true) (by decide) (by decide)

/-- C1, counterexample. With the usable prefixes 2001:db8:0:0:100::/72 and
2001:db8:0:0:200::/72 advertised, one run from empty lists leaves on eth0 the
records 2001:db8:0:0:100::/64 and 2001:db8:0:0:200::/64, which overlap. -/
theorem iface_overlap_after_run :
    iface_disjoint 0 ex_po_solo
    ∧ ospf_pxassign_area ex_md5 4 ex_db_long2 ex_po_solo 0 = .ok (ex_out_long2, true)
    ∧ ¬ iface_disjoint 0 ex_out_long2 := by
  refine ⟨?_, by decide, ?_⟩
  · intro k ifa hk _
    rw [solo_iface hk]
    exact List.Pairwise.nil
  · intro h
    have := h 0 ⟨"eth0", 0, 1, [⟨⟨⟨0x20010db8, 0, 0x01000000, 0⟩, 64⟩, 10, 10, 1, true⟩,
      ⟨⟨⟨0x20010db8, 0, 0x02000000, 0⟩, 64⟩, 10, 10, 1, true⟩], []⟩ rfl rfl
    have h2 := (List.pairwise_cons.1 this).1 ⟨⟨⟨0x20010db8, 0, 0x02000000, 0⟩, 64⟩, 10, 10, 1, true⟩
      (List.mem_singleton_self _)
    revert h2
    decide

/-- C1, amended. When every usable prefix advertised in the LSDB has at most
64 bits, a completed run of ospf_pxassign_area started from lists in which no
two records of an interface of the area overlap ends with such lists. -/
theorem iface_disjoint_run (md5 : Digest) (fuel : Nat) (db : List ac_lsa) (po : proto_ospf)
    (oa : Nat) (out : proto_ospf × Bool)
    (hlen : ∀ u ∈ lsdb_usps db, u.len ≤ LSA_AC_ASP_D_PREFIX_LENGTH)
    (hstart : iface_disjoint oa po)
    (h : ospf_pxassign_area md5 fuel db po oa = .ok out) : iface_disjoint oa out.1 := by
  have h0 : justified_disjoint db oa po := fun k ifa hk ho =>
    (hstart k ifa hk ho).imp (fun {a b} hab _ _ => hab)
  obtain ⟨hd, hv⟩ := area_inv (justified_disjoint db oa)
    (fun i po po1 hd hs => justified_disjoint_step hd hs)
    (fun po po1 hd hr => justified_disjoint_refines hd hr) hlen h0 h
  intro k ifa hk ho
  refine (hd k ifa hk ho).imp_of_mem ?_
  intro a b ha hb hab
  exact hab (hv k ifa hk ho a ha).2 (hv k ifa hk ho b hb).2

/-- Witness for C1 (amended): the run on the solo router with 2001:db8::/60. -/
theorem iface_disjoint_run_witness : iface_disjoint 0 ex_out_solo :=
  iface_disjoint_run ex_md5 4 ex_db_solo ex_po_solo 0 (ex_out_solo, true) (by decide)
    (fun k ifa hk _ => by rw [solo_iface hk]; exact List.Pairwise.nil) (by decide)

/-- C2, counterexample. With the two usable prefixes of 72 bits advertised, one
run from empty lists leaves two overlapping records of ours on eth0. -/
theorem own_overlap_after_run :
    own_disjoint 0 ex_po_solo
    ∧ ospf_pxassign_area ex_md5 4 ex_db_long2 ex_po_solo 0 = .ok (ex_out_long2, true)
    ∧ ¬ own_disjoint 0 ex_out_long2 := by
  refine ⟨⟨?_, ?_⟩, by decide, ?_⟩
  · intro k ifa hk _
    rw [solo_iface hk]
    exact List.Pairwise.nil
  · intro k1 k2 ifa1 ifa2 _ hk1 _ _ _ a ha
    rw [solo_iface hk1] at ha
    cases ha
  · intro h
    have := h.1 0 ⟨"eth0", 0, 1, [⟨⟨⟨0x20010db8, 0, 0x01000000, 0⟩, 64⟩, 10, 10, 1, true⟩,
      ⟨⟨⟨0x20010db8, 0, 0x02000000, 0⟩, 64⟩, 10, 10, 1, true⟩], []⟩ rfl rfl
    have h2 := (List.pairwise_cons.1 this).1 ⟨⟨⟨0x20010db8, 0, 0x02000000, 0⟩, 64⟩, 10, 10, 1, true⟩
      (List.mem_singleton_self _) rfl rfl
    revert h2
    decide

/-- C2, amended. When every usable prefix advertised in the LSDB has at most
64 bits, a completed run of ospf_pxassign_area started from lists in which no
two records of ours on interfaces of the area overlap ends with such lists. -/
theorem own_disjoint_run (md5 : Digest) (fuel : Nat) (db : List ac_lsa) (po : proto_ospf)
    (oa : Nat) (out : proto_ospf × Bool)
    (hlen : ∀ u ∈ lsdb_usps db, u.len ≤ LSA_AC_ASP_D_PREFIX_LENGTH)
    (hstart : own_disjoint oa po)
    (h : ospf_pxassign_area md5 fuel db po oa = .ok out) : own_disjoint oa out.1 := by
  have h0 : own_justified_disjoint db oa po :=
    ⟨fun k ifa hk ho => (hstart.1 k ifa hk ho).imp (fun {a b} hab ha hb => hab ha.1 hb.1),
     fun k1 k2 ifa1 ifa2 hne hk1 hk2 ho1 ho2 a ha b hb hoa hob =>
       hstart.2 k1 k2 ifa1 ifa2 hne hk1 hk2 ho1 ho2 a ha b hb hoa.1 hob.1⟩
  obtain ⟨hd, hv⟩ := area_inv (own_justified_disjoint db oa)
    (fun i po po1 hd hs => own_justified_disjoint_step hd hs)
    (fun po po1 hd hr => own_justified_disjoint_refines hd hr) hlen h0 h
  constructor
  · intro k ifa hk ho
    refine (hd.1 k ifa hk ho).imp_of_mem ?_
    intro a b ha hb hab hra hrb
    exact hab ⟨hra, (hv k ifa hk ho a ha).2.1⟩ ⟨hrb, (hv k ifa hk ho b hb).2.1⟩
  · intro k1 k2 ifa1 ifa2 hne hk1 hk2 ho1 ho2 a ha b hb hra hrb
    exact hd.2 k1 k2 ifa1 ifa2 hne hk1 hk2 ho1 ho2 a ha b hb
      ⟨hra, (hv k1 ifa1 hk1 ho1 a ha).2.1⟩ ⟨hrb, (hv k2 ifa2 hk2 ho2 b hb).2.1⟩

/-- Witness for C2 (amended): the run on the solo router with 2001:db8::/60. -/
theorem own_disjoint_run_witness : own_disjoint 0 ex_out_solo :=
  own_disjoint_run ex_md5 4 ex_db_solo ex_po_solo 0 (ex_out_solo, true) (by decide)
    ⟨fun k ifa hk _ => by rw [solo_iface hk]; exact List.Pairwise.nil,
     fun k1 k2 ifa1 ifa2 _ hk1 _ _ _ a ha => by rw [solo_iface hk1] at ha; cases ha⟩ (by decide)

/-! ## Idempotence: the run and the cached neighbor fields -/

theorem refresh_all_getElem? (db : List ac_lsa) (po : proto_ospf) (k : Nat) :
    (refresh_all db po).iface_list[k]? = (po.iface_list[k]?).map (refresh_iface db) := by
  simp [refresh_all]

theorem refresh_all_set_iface (db : List ac_lsa) (po : proto_ospf) (i : Nat) (x : ospf_iface) :
    refresh_all db (set_iface po i x) = set_iface (refresh_all db po) i (refresh_iface db x) := by
  simp [refresh_all, set_iface, List.map_set]

theorem refresh_all_add_prefix (db : List ac_lsa) (a : ip_addr) (l rid my p : Nat)
    (po : proto_ospf) (i : Nat) :
    configure_ifa_add_prefix a l rid my p (refresh_all db po) i
      = refresh_all db ( configure_ifa_add_prefix a l rid my p po i) := by
  unfold configure_ifa_add_prefix
  rw [refresh_all_getElem?]
  cases h : po.iface_list[i]? with
  | none => rfl
  | some ifa => simp [refresh_all, set_iface, List.map_set, refresh_iface]

theorem refresh_all_del_prefix (db : List ac_lsa) (po : proto_ospf) (i j : Nat) :
    configure_ifa_del_prefix (refresh_all db po) i j
      = refresh_all db ( configure_ifa_del_prefix po i j) := by
  unfold configure_ifa_del_prefix
  rw [refresh_all_getElem?]
  cases h : po.iface_list[i]? with
  | none => rfl
  | some ifa =>
    simp only [Option.map_some']
    show (match ifa.asp_list[j]? with
      | none => refresh_all db po
      | some pxn => _) = _
    cases h2 : ifa.asp_list[j]? with
    | none => rfl
    | some pxn => simp [refresh_all, set_iface, List.map_set, refresh_iface]

theorem refresh_all_set_valid (db : List ac_lsa) (po : proto_ospf) (i j : Nat) :
    set_valid (refresh_all db po) i j = refresh_all db (set_valid po i j) := by
  unfold set_valid
  rw [refresh_all_getElem?]
  cases h : po.iface_list[i]? with
  | none => rfl
  | some ifa =>
    simp only [Option.map_some']
    show (match ifa.asp_list[j]? with
      | none => refresh_all db po
      | some pxn => _) = _
    cases h2 : ifa.asp_list[j]? with
    | none => rfl
    | some pxn => simp [refresh_all, set_iface, List.map_set, refresh_iface]

theorem refresh_all_delete_where (db : List ac_lsa) (oa : Nat) (p : prefix_node → Bool)
    (po : proto_ospf) :
    delete_where oa p (refresh_all db po) = refresh_all db (delete_where oa p po) := by
  simp only [delete_where, refresh_all, List.map_map, List.flatMap_map]
  congr 1
  · apply List.map_congr_left
    intro ifa _
    simp only [Function.comp, refresh_iface]
    split <;> rfl

theorem refresh_all_area_any (db : List ac_lsa) (oa : Nat) (p : ospf_iface → prefix_node → Bool)
    (hp : ∀ ifa n, p (refresh_iface db ifa) n = p ifa n) (po : proto_ospf) :
    area_any oa p (refresh_all db po) = area_any oa p po := by
  simp only [area_any, refresh_all, List.any_map]
  congr 1
  funext ifa
  simp only [Function.comp]
  have : p (refresh_iface db ifa) = p ifa := funext (hp ifa)
  rw [this]
  rfl

theorem refresh_own_used (db : List ac_lsa) (router_id oa : Nat) (usp : Prefix) (i : Nat)
    (self_r : Option prefix_node) (l : List ospf_iface) : ∀ k : Nat,
    own_used router_id oa usp i self_r k (l.map (refresh_iface db))
      = own_used router_id oa usp i self_r k l := by
  induction l with
  | nil => intro k; rfl
  | cons a t ih =>
    intro k
    simp only [List.map_cons, own_used, ih]
    rfl

theorem refresh_find_used (db : List ac_lsa) (po : proto_ospf) (i : Nat) (ifa : ospf_iface)
    (usp : Prefix) (self_r : Option prefix_node) :
    find_used db (refresh_all db po) i (refresh_iface db ifa) usp self_r
      = find_used db po i ifa usp self_r := by
  unfold find_used
  show List.foldl _ _ (_ ++ own_used _ _ _ _ _ 0 (po.iface_list.map (refresh_iface db))) = _
  rw [refresh_own_used]
  rfl

theorem refresh_steal_own_blocked (db : List ac_lsa) (router_id oa : Nat) (steal : Prefix)
    (lowest i : Nat) (self_r : Option prefix_node) (l : List ospf_iface) : ∀ k : Nat,
    steal_own_blocked router_id oa steal lowest i self_r k (l.map (refresh_iface db))
      = steal_own_blocked router_id oa steal lowest i self_r k l := by
  induction l with
  | nil => intro k; rfl
  | cons a t ih =>
    intro k
    simp only [List.map_cons, steal_own_blocked, ih]
    rfl

theorem refresh_own_collision (db : List ac_lsa) (router_id p : Nat) (self_r : Prefix)
    (i : Nat) (l : List ospf_iface) : ∀ k : Nat,
    own_collision router_id p self_r i k (l.map (refresh_iface db))
      = own_collision router_id p self_r i k l := by
  induction l with
  | nil => intro k; rfl
  | cons a t ih =>
    intro k
    simp only [List.map_cons, own_collision, ih]
    rfl

theorem refresh_try_assign_unused (md5 : Digest) (fuel : Nat) (db : List ac_lsa) (i : Nat)
    (ifa : ospf_iface) (usp : Prefix) (used : List prefix_node) (length : Nat)
    (self_r : Option Nat) (st : alloc_state) :
    try_assign_unused md5 fuel i (refresh_iface db ifa) usp used length self_r (refresh_state db st)
      = (try_assign_unused md5 fuel i ifa usp used length self_r st).map (refresh_state db) := by
  unfold try_assign_unused
  show ( choose_prefix md5 fuel usp length used st.po.router_id ifa.name >>= _) = _
  cases h : choose_prefix md5 fuel usp length used st.po.router_id ifa.name with
  | error e => rfl
  | ok r =>
    simp only [bind, Except.bind, Except.map]
    cases h1 : r.1 with
    | PXCHOOSE_FAILURE => rfl
    | PXCHOOSE_SUCCESS =>
      simp only [Except.ok.injEq]
      cases self_r with
      | none =>
        simp only [refresh_state]
        rw [← refresh_all_add_prefix]
        rfl
      | some j =>
        simp only [refresh_state]
        rw [ refresh_all_del_prefix, refresh_all_add_prefix]
        rfl

theorem refresh_all_router_id (db : List ac_lsa) (po : proto_ospf) :
    (refresh_all db po).router_id = po.router_id := rfl

theorem refresh_try_steal (db : List ac_lsa) (i : Nat) (ifa : ospf_iface) (steal : Prefix)
    (lowest : Nat) (self_r : Option Nat) (st : alloc_state) :
    try_steal db i (refresh_iface db ifa) steal lowest self_r (refresh_state db st)
      = refresh_state db (try_steal db i ifa steal lowest self_r st) := by
  unfold try_steal
  simp only [refresh_state, refresh_all_router_id]
  have e1 : (refresh_iface db ifa).asp_list = ifa.asp_list := rfl
  have e2 : (refresh_iface db ifa).oa = ifa.oa := rfl
  have e3 : (refresh_iface db ifa).pa_priority = ifa.pa_priority := rfl
  have e4 : (refresh_all db st.po).iface_list = st.po.iface_list.map (refresh_iface db) := rfl
  rw [e1, e2, e3, e4, refresh_steal_own_blocked, refresh_all_delete_where,
    refresh_all_area_any]
  · split
    · cases self_r with
      | none =>
        simp only [ refresh_all_add_prefix]
      | some j =>
        simp only [ refresh_all_del_prefix, refresh_all_add_prefix]
    · rfl
  · intro _ _; rfl

theorem refresh_try_split (md5 : Digest) (fuel : Nat) (db : List ac_lsa) (i : Nat)
    (ifa : ospf_iface) (split : Prefix) (length : Nat) (st : alloc_state) :
    try_split md5 fuel db i (refresh_iface db ifa) split length (refresh_state db st)
      = (try_split md5 fuel db i ifa split length st).map (refresh_state db) := by
  unfold try_split
  simp only [refresh_state, refresh_all_router_id]
  have e2 : (refresh_iface db ifa).oa = ifa.oa := rfl
  have e3 : (refresh_iface db ifa).pa_priority = ifa.pa_priority := rfl
  have e5 : (refresh_iface db ifa).name = ifa.name := rfl
  rw [e2, e3, e5, refresh_all_delete_where, refresh_all_area_any, refresh_all_area_any]
  · split
    · rfl
    · split
      · rfl
      · cases h : choose_prefix md5 fuel split length [] st.po.router_id ifa.name with
        | error e => rfl
        | ok r =>
          simp only [bind, Except.bind, Except.map]
          cases h1 : r.1 with
          | PXCHOOSE_FAILURE => rfl
          | PXCHOOSE_SUCCESS =>
            simp only [ refresh_all_add_prefix]
            rfl
  · intro _ _; rfl
  · intro _ _; rfl

theorem refresh_upgrade (md5 : Digest) (fuel : Nat) (db : List ac_lsa) (i : Nat)
    (ifa : ospf_iface) (usp : Prefix) (j : Nat) (st : alloc_state) :
    upgrade md5 fuel db i (refresh_iface db ifa) usp j (refresh_state db st)
      = (upgrade md5 fuel db i ifa usp j st).map (refresh_state db) := by
  unfold upgrade
  have e1 : (refresh_iface db ifa).asp_list = ifa.asp_list := rfl
  have e0 : (refresh_state db st).po = refresh_all db st.po := rfl
  rw [e0, e1, refresh_find_used]
  simp only [try_reuse]
  rw [refresh_try_assign_unused]
  cases h : try_assign_unused md5 fuel i ifa usp (find_used db st.po i ifa usp ifa.asp_list[j]?).used
      LSA_AC_ASP_D_PREFIX_LENGTH (some j) st with
  | error e => rfl
  | ok st1 =>
    simp only [bind, Except.bind, Except.map]
    have e6 : (refresh_state db st1).pxchoose_success = st1.pxchoose_success := rfl
    rw [e6]
    split
    · rw [refresh_try_steal]
    · rfl

theorem refresh_step4 (md5 : Digest) (fuel : Nat) (db : List ac_lsa) (po : proto_ospf) (i : Nat)
    (ifa : ospf_iface) (usp : Prefix) (j : Nat) (self_r : prefix_node) :
    step4 md5 fuel db (refresh_all db po) i (refresh_iface db ifa) usp j self_r
      = (step4 md5 fuel db po i ifa usp j self_r).map (fun o => (refresh_all db o.1, o.2)) := by
  unfold step4
  have e3 : (refresh_iface db ifa).pa_priority = ifa.pa_priority := rfl
  have e4 : (refresh_all db po).iface_list = po.iface_list.map (refresh_iface db) := rfl
  rw [e3, e4, refresh_own_collision, refresh_all_router_id]
  split
  · rw [ refresh_all_del_prefix]; rfl
  · split
    · rfl
    · split
      · have := refresh_upgrade md5 fuel db i ifa usp j ⟨po, false, false⟩
        have e7 : refresh_state db ⟨po, false, false⟩ = ⟨refresh_all db po, false, false⟩ := rfl
        rw [e7] at this
        rw [this]
        cases h : upgrade md5 fuel db i ifa usp j ⟨po, false, false⟩ with
        | error e => rfl
        | ok st =>
          simp only [bind, Except.bind, Except.map]
          have e6 : (refresh_state db st).pxchoose_success = st.pxchoose_success := rfl
          rw [e6]
          split
          · rfl
          · show Except.ok (set_valid (refresh_all db st.po) i j, _, _) = _
            rw [refresh_all_set_valid]
            rfl
      · rw [refresh_all_set_valid]; rfl

theorem refresh_step5 (db : List ac_lsa) (po : proto_ospf) (i : Nat) (ifa : ospf_iface)
    (r : resolution) (change : Bool) :
    step5 (refresh_all db po) i (refresh_iface db ifa) r change
      = (refresh_all db (step5 po i ifa r change).1, (step5 po i ifa r change).2) := by
  unfold step5
  have e1 : (refresh_iface db ifa).asp_list = ifa.asp_list := rfl
  have e2 : (refresh_iface db ifa).oa = ifa.oa := rfl
  have key : ∀ l : List prefix_node, set_iface (refresh_all db po) i
      { name := (refresh_iface db ifa).name, oa := ifa.oa,
        pa_priority := (refresh_iface db ifa).pa_priority, asp_list := l,
        neigh_list := (refresh_iface db ifa).neigh_list }
      = refresh_all db (set_iface po i { ifa with asp_list := l }) := by
    intro l
    rw [refresh_all_set_iface]
    rfl
  simp only [e1, e2, key, refresh_all_router_id]
  rw [refresh_all_area_any, refresh_all_area_any, refresh_all_area_any, refresh_all_delete_where]
  · split
    · split
      · rw [ refresh_all_add_prefix]
      · rw [ refresh_all_add_prefix]
    · split <;> rfl
  · intro _ _; rfl
  · intro _ _; rfl
  · intro _ _; rfl

theorem refresh_step6d (db : List ac_lsa) (i : Nat) (ifa : ospf_iface) (u : used_acc)
    (st : alloc_state) :
    step6d db i (refresh_iface db ifa) u (refresh_state db st)
      = refresh_state db (step6d db i ifa u st) := by
  unfold step6d
  have e6 : (refresh_state db st).pxchoose_success = st.pxchoose_success := rfl
  rw [e6]
  split
  · rw [refresh_try_steal]
  · rfl

theorem refresh_step6f (md5 : Digest) (fuel : Nat) (db : List ac_lsa) (i : Nat)
    (ifa : ospf_iface) (usp : Prefix) (u : used_acc) (st : alloc_state) :
    step6f md5 fuel i (refresh_iface db ifa) usp u (refresh_state db st)
      = (step6f md5 fuel i ifa usp u st).map (refresh_state db) := by
  unfold step6f
  have e6 : (refresh_state db st).pxchoose_success = st.pxchoose_success := rfl
  have e3 : (refresh_iface db ifa).pa_priority = ifa.pa_priority := rfl
  simp only [try_reuse, ite_self, e6, e3]
  split
  · rw [refresh_try_assign_unused]
  · rfl

theorem refresh_step6g (md5 : Digest) (fuel : Nat) (db : List ac_lsa) (i : Nat)
    (ifa : ospf_iface) (u : used_acc) (st : alloc_state) :
    step6g md5 fuel db i (refresh_iface db ifa) u (refresh_state db st)
      = (step6g md5 fuel db i ifa u st).map (refresh_state db) := by
  unfold step6g
  have e6 : (refresh_state db st).pxchoose_success = st.pxchoose_success := rfl
  have e3 : (refresh_iface db ifa).pa_priority = ifa.pa_priority := rfl
  rw [e6, e3]
  split
  · rw [refresh_try_split]
  · rfl

theorem refresh_step6 (md5 : Digest) (fuel : Nat) (db : List ac_lsa) (po : proto_ospf) (i : Nat)
    (ifa : ospf_iface) (usp : Prefix) (change : Bool) :
    step6 md5 fuel db (refresh_all db po) i (refresh_iface db ifa) usp change
      = (step6 md5 fuel db po i ifa usp change).map (fun o => (refresh_all db o.1, o.2)) := by
  unfold step6
  simp only [try_reuse]
  have e7 : (⟨refresh_all db po, false, change⟩ : alloc_state) = refresh_state db ⟨po, false, change⟩ := rfl
  rw [refresh_find_used, e7, refresh_try_assign_unused]
  cases h : try_assign_unused md5 fuel i ifa usp (find_used db po i ifa usp none).used
      LSA_AC_ASP_D_PREFIX_LENGTH none ⟨po, false, change⟩ with
  | error e => rfl
  | ok st =>
    simp only [Except.map]
    rw [refresh_step6d, refresh_step6f]
    cases h1 : step6f md5 fuel i ifa usp (find_used db po i ifa usp none)
        (step6d db i ifa (find_used db po i ifa usp none) st) with
    | error e => rfl
    | ok st1 =>
      simp only [Except.map]
      rw [refresh_step6g]
      cases h2 : step6g md5 fuel db i ifa (find_used db po i ifa usp none) st1 with
      | error e => rfl
      | ok st2 => rfl

theorem refresh_run_step4 (md5 : Digest) (fuel : Nat) (db : List ac_lsa) (po : proto_ospf)
    (i : Nat) (ifa : ospf_iface) (usp : Prefix) (r : resolution) :
    run_step4 md5 fuel db (refresh_all db po) i (refresh_iface db ifa) usp r
      = (run_step4 md5 fuel db po i ifa usp r).map (fun o => (refresh_all db o.1, o.2)) := by
  unfold run_step4
  have e1 : (refresh_iface db ifa).asp_list = ifa.asp_list := rfl
  rw [e1]
  split
  · rw [refresh_step4]
  · rfl

theorem refresh_run_step5 (db : List ac_lsa) (i : Nat) (r : resolution) (s : proto_ospf × Bool) :
    run_step5 i r (refresh_all db s.1, s.2)
      = (refresh_all db (run_step5 i r s).1, (run_step5 i r s).2) := by
  unfold run_step5
  split
  · simp only [refresh_all_getElem?]
    cases h : s.1.iface_list[i]? with
    | none => rfl
    | some ifa =>
      simp only [Option.map_some']
      rw [refresh_step5]
  · rfl

theorem refresh_run_step6 (md5 : Digest) (fuel : Nat) (db : List ac_lsa) (i : Nat) (usp : Prefix)
    (r : resolution) (d : Bool) (s : proto_ospf × Bool) :
    run_step6 md5 fuel db i usp r d (refresh_all db s.1, s.2)
      = (run_step6 md5 fuel db i usp r d s).map (fun o => (refresh_all db o.1, o.2)) := by
  unfold run_step6
  split
  · simp only [refresh_all_getElem?]
    cases h : s.1.iface_list[i]? with
    | none => rfl
    | some ifa =>
      simp only [Option.map_some']
      rw [refresh_step6]
  · rfl

theorem refresh_usp_ifa (md5 : Digest) (fuel : Nat) (db : List ac_lsa) (po : proto_ospf)
    (i : Nat) (usp : Prefix) :
    ospf_pxassign_usp_ifa md5 fuel db (refresh_all db po) i usp
      = (ospf_pxassign_usp_ifa md5 fuel db po i usp).map (fun o => (refresh_all db o.1, o.2)) := by
  unfold ospf_pxassign_usp_ifa
  rw [refresh_all_getElem?]
  cases h : po.iface_list[i]? with
  | none => rfl
  | some ifa0 =>
    simp only [Option.map_some']
    split
    · rfl
    · have hP : set_iface (refresh_all db po) i (refresh_iface db (refresh_iface db ifa0))
          = refresh_all db (set_iface po i (refresh_iface db ifa0)) :=
        (refresh_all_set_iface db po i _).symm
      have hr : ∀ rid, resolve db rid (refresh_iface db (refresh_iface db ifa0)) usp
          = resolve db rid (refresh_iface db ifa0) usp := by
        intro rid
        rw [refresh_iface_idem]
      simp only [hP, hr, refresh_all_router_id]
      split
      · rfl
      · rw [refresh_run_step4]
        cases h4 : run_step4 md5 fuel db (set_iface po i (refresh_iface db ifa0)) i
            (refresh_iface db ifa0) usp
            (resolve db (set_iface po i (refresh_iface db ifa0)).router_id (refresh_iface db ifa0) usp) with
        | error e => rfl
        | ok s4 =>
          simp only [bind, Except.bind, Except.map]
          have e5 := refresh_run_step5 db i
            (resolve db (set_iface po i (refresh_iface db ifa0)).router_id (refresh_iface db ifa0) usp)
            (s4.1, s4.2.1)
          simp only at e5
          rw [e5, refresh_run_step6]
          rfl

theorem refresh_walk_ifaces (md5 : Digest) (fuel : Nat) (db : List ac_lsa) (oa : Nat)
    (usp : Prefix) (is : List Nat) : ∀ s : proto_ospf × Bool,
    walk_ifaces md5 fuel db oa usp is (refresh_all db s.1, s.2)
      = (walk_ifaces md5 fuel db oa usp is s).map (fun o => (refresh_all db o.1, o.2)) := by
  induction is with
  | nil => intro s; rfl
  | cons i is ih =>
    intro s
    unfold walk_ifaces
    simp only [refresh_all_getElem?]
    cases h : s.1.iface_list[i]? with
    | none => exact ih s
    | some ifa =>
      simp only [Option.map_some']
      have e2 : (refresh_iface db ifa).oa = ifa.oa := rfl
      rw [e2]
      split
      · rw [refresh_usp_ifa]
        cases h1 : ospf_pxassign_usp_ifa md5 fuel db s.1 i usp with
        | error e => rfl
        | ok s1 =>
          simp only [bind, Except.bind, Except.map]
          exact ih (s1.1, s.2 || s1.2)
      · exact ih s

theorem refresh_walk_usps (md5 : Digest) (fuel : Nat) (db : List ac_lsa) (oa : Nat)
    (usps : List Prefix) : ∀ s : proto_ospf × Bool,
    walk_usps md5 fuel db oa usps (refresh_all db s.1, s.2)
      = (walk_usps md5 fuel db oa usps s).map (fun o => (refresh_all db o.1, o.2)) := by
  induction usps with
  | nil => intro s; rfl
  | cons usp usps ih =>
    intro s
    unfold walk_usps
    have el : (refresh_all db s.1).iface_list.length = s.1.iface_list.length := by
      simp [refresh_all]
    simp only [el]
    rw [refresh_walk_ifaces]
    cases h1 : walk_ifaces md5 fuel db oa usp (List.range s.1.iface_list.length) s with
    | error e => rfl
    | ok s1 =>
      simp only [bind, Except.bind, Except.map]
      exact ih s1

theorem refresh_sweep (db : List ac_lsa) (oa : Nat) (s : proto_ospf × Bool) :
    sweep oa (refresh_all db s.1, s.2) = (refresh_all db (sweep oa s).1, (sweep oa s).2) := by
  unfold sweep
  simp only [refresh_all_delete_where, refresh_all_router_id]
  rw [refresh_all_area_any]
  intro _ _; rfl

theorem refresh_mark_invalid (db : List ac_lsa) (oa : Nat) (po : proto_ospf) :
    mark_invalid oa (refresh_all db po) = refresh_all db (mark_invalid oa po) := by
  simp only [mark_invalid, refresh_all, List.map_map]
  congr 1
  apply List.map_congr_left
  intro ifa _
  simp only [Function.comp, refresh_iface]
  split <;> rfl

theorem refresh_area (md5 : Digest) (fuel : Nat) (db : List ac_lsa) (po : proto_ospf) (oa : Nat) :
    ospf_pxassign_area md5 fuel db (refresh_all db po) oa
      = (ospf_pxassign_area md5 fuel db po oa).map (fun o => (refresh_all db o.1, o.2)) := by
  unfold ospf_pxassign_area
  rw [refresh_mark_invalid]
  have := refresh_walk_usps md5 fuel db oa (lsdb_usps db) (mark_invalid oa po, false)
  simp only at this
  rw [this]
  cases h : walk_usps md5 fuel db oa (lsdb_usps db) (mark_invalid oa po, false) with
  | error e => rfl
  | ok s =>
    simp only [bind, Except.bind, Except.map]
    rw [refresh_sweep]

/-! ## Idempotence: a run leaves the configuration alone -/

theorem config_set_iface {db : List ac_lsa} {po : proto_ospf} {i : Nat} {ifa x : ospf_iface}
    (hi : po.iface_list[i]? = some ifa) (hx : iface_config db x = iface_config db ifa) :
    config_of db (set_iface po i x) = config_of db po := by
  have h := set_iface_same po i ifa hi
  conv_rhs => rw [← h]
  simp only [config_of, set_iface, List.map_set, hx]

theorem config_add_prefix (db : List ac_lsa) (a : ip_addr) (l rid my p : Nat)
    (po : proto_ospf) (i : Nat) :
    config_of db ( configure_ifa_add_prefix a l rid my p po i) = config_of db po := by
  unfold configure_ifa_add_prefix
  cases h : po.iface_list[i]? with
  | none => rfl
  | some ifa => exact config_set_iface h rfl

theorem config_del_prefix (db : List ac_lsa) (po : proto_ospf) (i j : Nat) :
    config_of db ( configure_ifa_del_prefix po i j) = config_of db po := by
  unfold configure_ifa_del_prefix
  cases h : po.iface_list[i]? with
  | none => rfl
  | some ifa =>
    show config_of db (match ifa.asp_list[j]? with
      | none => po
      | some pxn => _) = _
    cases h2 : ifa.asp_list[j]? with
    | none => rfl
    | some pxn => exact config_set_iface h rfl

theorem config_set_valid (db : List ac_lsa) (po : proto_ospf) (i j : Nat) :
    config_of db (set_valid po i j) = config_of db po := by
  unfold set_valid
  cases h : po.iface_list[i]? with
  | none => rfl
  | some ifa =>
    show config_of db (match ifa.asp_list[j]? with
      | none => po
      | some pxn => _) = _
    cases h2 : ifa.asp_list[j]? with
    | none => rfl
    | some pxn => exact config_set_iface h rfl

theorem config_delete_where (db : List ac_lsa) (oa : Nat) (p : prefix_node → Bool)
    (po : proto_ospf) : config_of db (delete_where oa p po) = config_of db po := by
  simp only [config_of, delete_where, List.map_map]
  congr 1
  apply List.map_congr_left
  intro ifa _
  simp only [Function.comp]
  split <;> rfl

theorem config_mark_invalid (db : List ac_lsa) (oa : Nat) (po : proto_ospf) :
    config_of db (mark_invalid oa po) = config_of db po := by
  simp only [config_of, mark_invalid, List.map_map]
  congr 1
  apply List.map_congr_left
  intro ifa _
  simp only [Function.comp]
  split <;> rfl

theorem config_try_assign_unused {md5 : Digest} {fuel : Nat} {db : List ac_lsa} {i : Nat}
    {ifa : ospf_iface} {usp : Prefix} {used : List prefix_node} {length : Nat}
    {self_r : Option Nat} {st o : alloc_state}
    (h : try_assign_unused md5 fuel i ifa usp used length self_r st = .ok o) :
    config_of db o.po = config_of db st.po := by
  unfold try_assign_unused at h
  cases hc : choose_prefix md5 fuel usp length used st.po.router_id ifa.name with
  | error e => rw [hc] at h; cases h
  | ok r =>
    rw [hc] at h
    simp only [bind, Except.bind] at h
    cases h1 : r.1 with
    | PXCHOOSE_FAILURE =>
      rw [h1] at h
      cases h
      rfl
    | PXCHOOSE_SUCCESS =>
      rw [h1] at h
      simp only [Except.ok.injEq] at h
      subst h
      cases self_r with
      | none => exact config_add_prefix ..
      | some j => exact ( config_add_prefix ..).trans ( config_del_prefix ..)

theorem config_try_steal (db : List ac_lsa) (i : Nat) (ifa : ospf_iface) (steal : Prefix)
    (lowest : Nat) (self_r : Option Nat) (st : alloc_state) :
    config_of db (try_steal db i ifa steal lowest self_r st).po = config_of db st.po := by
  unfold try_steal
  simp only
  split
  · cases self_r with
    | none => exact ( config_add_prefix ..).trans (config_delete_where ..)
    | some j =>
      exact ( config_add_prefix ..).trans (( config_del_prefix ..).trans (config_delete_where ..))
  · rfl

theorem config_try_split {md5 : Digest} {fuel : Nat} {db : List ac_lsa} {i : Nat}
    {ifa : ospf_iface} {split : Prefix} {length : Nat} {st o : alloc_state}
    (h : try_split md5 fuel db i ifa split length st = .ok o) :
    config_of db o.po = config_of db st.po := by
  unfold try_split at h
  simp only at h
  split at h
  · cases h
  · split at h
    · cases h; rfl
    · cases hc : choose_prefix md5 fuel split length [] st.po.router_id ifa.name with
      | error e => rw [hc] at h; cases h
      | ok r =>
        rw [hc] at h
        simp only [bind, Except.bind] at h
        cases h1 : r.1 with
        | PXCHOOSE_FAILURE => rw [h1] at h; cases h
        | PXCHOOSE_SUCCESS =>
          rw [h1] at h
          simp only [Except.ok.injEq] at h
          subst h
          exact ( config_add_prefix ..).trans (config_delete_where ..)

theorem config_upgrade {md5 : Digest} {fuel : Nat} {db : List ac_lsa} {i : Nat}
    {ifa : ospf_iface} {usp : Prefix} {j : Nat} {st o : alloc_state}
    (h : upgrade md5 fuel db i ifa usp j st = .ok o) :
    config_of db o.po = config_of db st.po := by
  unfold upgrade at h
  simp only [try_reuse] at h
  cases h1 : try_assign_unused md5 fuel i ifa usp (find_used db st.po i ifa usp ifa.asp_list[j]?).used
      LSA_AC_ASP_D_PREFIX_LENGTH (some j) st with
  | error e => rw [h1] at h; cases h
  | ok st1 =>
    rw [h1] at h
    simp only [bind, Except.bind] at h
    have c1 := @config_try_assign_unused _ _ db _ _ _ _ _ _ _ _ h1
    split at h
    · cases h
      exact (config_try_steal ..).trans c1
    · cases h
      exact c1

theorem config_step4 {md5 : Digest} {fuel : Nat} {db : List ac_lsa} {po : proto_ospf} {i : Nat}
    {ifa : ospf_iface} {usp : Prefix} {j : Nat} {self_r : prefix_node}
    {o : proto_ospf × Bool × Bool} (h : step4 md5 fuel db po i ifa usp j self_r = .ok o) :
    config_of db o.1 = config_of db po := by
  unfold step4 at h
  split at h
  · cases h; exact config_del_prefix ..
  · split at h
    · cases h
    · split at h
      · cases h1 : upgrade md5 fuel db i ifa usp j ⟨po, false, false⟩ with
        | error e => rw [h1] at h; cases h
        | ok st =>
          rw [h1] at h
          simp only [bind, Except.bind] at h
          have c1 := config_upgrade h1
          split at h
          · cases h; exact c1
          · cases h; exact (config_set_valid ..).trans c1
      · cases h; exact config_set_valid ..

theorem config_step5 (db : List ac_lsa) {po : proto_ospf} {i : Nat} {ifa : ospf_iface}
    (r : resolution) (change : Bool) (hi : po.iface_list[i]? = some ifa) :
    config_of db (step5 po i ifa r change).1 = config_of db po := by
  unfold step5
  simp only
  have c0 : ∀ l : List prefix_node, config_of db (set_iface po i { ifa with asp_list := l })
      = config_of db po := fun l => config_set_iface hi rfl
  split
  · split
    · exact ( config_add_prefix ..).trans ((config_delete_where ..).trans (c0 _))
    · exact ( config_add_prefix ..).trans (c0 _)
  · split
    · exact (config_delete_where ..).trans (c0 _)
    · exact c0 _

theorem config_step6d (db : List ac_lsa) (i : Nat) (ifa : ospf_iface) (u : used_acc)
    (st : alloc_state) : config_of db (step6d db i ifa u st).po = config_of db st.po := by
  unfold step6d
  split
  · exact config_try_steal ..
  · rfl

theorem config_step6f {md5 : Digest} {fuel : Nat} {db : List ac_lsa} {i : Nat}
    {ifa : ospf_iface} {usp : Prefix} {u : used_acc} {st o : alloc_state}
    (h : step6f md5 fuel i ifa usp u st = .ok o) : config_of db o.po = config_of db st.po := by
  unfold step6f at h
  simp only [try_reuse, ite_self] at h
  split at h
  · exact config_try_assign_unused h
  · cases h; rfl

theorem config_step6g {md5 : Digest} {fuel : Nat} {db : List ac_lsa} {i : Nat}
    {ifa : ospf_iface} {u : used_acc} {st o : alloc_state}
    (h : step6g md5 fuel db i ifa u st = .ok o) : config_of db o.po = config_of db st.po := by
  unfold step6g at h
  split at h
  · exact config_try_split h
  · cases h; rfl

theorem config_step6 {md5 : Digest} {fuel : Nat} {db : List ac_lsa} {po : proto_ospf} {i : Nat}
    {ifa : ospf_iface} {usp : Prefix} {change : Bool} {o : proto_ospf × Bool}
    (h : step6 md5 fuel db po i ifa usp change = .ok o) : config_of db o.1 = config_of db po := by
  unfold step6 at h
  simp only [try_reuse] at h
  cases h1 : try_assign_unused md5 fuel i ifa usp (find_used db po i ifa usp none).used
      LSA_AC_ASP_D_PREFIX_LENGTH none ⟨po, false, change⟩ with
  | error e => rw [h1] at h; cases h
  | ok st =>
    rw [h1] at h
    simp only at h
    have c1 := @config_try_assign_unused _ _ db _ _ _ _ _ _ _ _ h1
    cases h2 : step6f md5 fuel i ifa usp (find_used db po i ifa usp none)
        (step6d db i ifa (find_used db po i ifa usp none) st) with
    | error e => rw [h2] at h; cases h
    | ok st1 =>
      rw [h2] at h
      simp only at h
      have c2 := (@config_step6f _ _ db _ _ _ _ _ _ h2).trans (config_step6d ..)
      cases h3 : step6g md5 fuel db i ifa (find_used db po i ifa usp none) st1 with
      | error e => rw [h3] at h; cases h
      | ok st2 =>
        rw [h3] at h
        cases h
        exact (config_step6g h3).trans (c2.trans c1)

theorem config_run_step4 {md5 : Digest} {fuel : Nat} {db : List ac_lsa} {po : proto_ospf}
    {i : Nat} {ifa : ospf_iface} {usp : Prefix} {r : resolution} {o : proto_ospf × Bool × Bool}
    (h : run_step4 md5 fuel db po i ifa usp r = .ok o) : config_of db o.1 = config_of db po := by
  unfold run_step4 at h
  split at h
  · exact config_step4 h
  · cases h; rfl

theorem config_run_step5 (db : List ac_lsa) (i : Nat) (r : resolution) (s : proto_ospf × Bool) :
    config_of db (run_step5 i r s).1 = config_of db s.1 := by
  unfold run_step5
  split
  · cases h : s.1.iface_list[i]? with
    | none => rfl
    | some ifa => exact config_step5 db r s.2 h
  · rfl

theorem config_run_step6 {md5 : Digest} {fuel : Nat} {db : List ac_lsa} {i : Nat} {usp : Prefix}
    {r : resolution} {d : Bool} {s o : proto_ospf × Bool}
    (h : run_step6 md5 fuel db i usp r d s = .ok o) : config_of db o.1 = config_of db s.1 := by
  unfold run_step6 at h
  split at h
  · cases h1 : s.1.iface_list[i]? with
    | none => rw [h1] at h; cases h; rfl
    | some ifa => rw [h1] at h; exact config_step6 h
  · cases h; rfl

theorem iface_config_refresh (db : List ac_lsa) (ifa : ospf_iface) :
    iface_config db (refresh_iface db ifa) = iface_config db ifa := by
  unfold iface_config
  rw [refresh_iface_idem]

theorem config_usp_ifa {md5 : Digest} {fuel : Nat} {db : List ac_lsa} {po : proto_ospf}
    {i : Nat} {usp : Prefix} {o : proto_ospf × Bool}
    (h : ospf_pxassign_usp_ifa md5 fuel db po i usp = .ok o) :
    config_of db o.1 = config_of db po := by
  unfold ospf_pxassign_usp_ifa at h
  cases hi : po.iface_list[i]? with
  | none => rw [hi] at h; cases h; rfl
  | some ifa0 =>
    rw [hi] at h
    simp only at h
    have c0 : config_of db (set_iface po i (refresh_iface db ifa0)) = config_of db po :=
      config_set_iface hi (iface_config_refresh db ifa0)
    split at h
    · cases h; rfl
    · split at h
      · cases h; exact c0
      · cases h4 : run_step4 md5 fuel db (set_iface po i (refresh_iface db ifa0)) i
            (refresh_iface db ifa0) usp
            (resolve db (set_iface po i (refresh_iface db ifa0)).router_id (refresh_iface db ifa0) usp) with
        | error e => rw [h4] at h; cases h
        | ok s4 =>
          rw [h4] at h
          simp only [bind, Except.bind] at h
          exact (config_run_step6 h).trans ((config_run_step5 ..).trans ((config_run_step4 h4).trans c0))

theorem config_walk_ifaces {md5 : Digest} {fuel : Nat} {db : List ac_lsa} {oa : Nat}
    {usp : Prefix} (is : List Nat) : ∀ (s o : proto_ospf × Bool),
    walk_ifaces md5 fuel db oa usp is s = .ok o → config_of db o.1 = config_of db s.1 := by
  induction is with
  | nil => intro s o h; cases h; rfl
  | cons i is ih =>
    intro s o h
    unfold walk_ifaces at h
    cases hi : s.1.iface_list[i]? with
    | none => rw [hi] at h; exact ih s o h
    | some ifa =>
      rw [hi] at h
      simp only at h
      split at h
      · cases h1 : ospf_pxassign_usp_ifa md5 fuel db s.1 i usp with
        | error e => rw [h1] at h; cases h
        | ok s1 =>
          rw [h1] at h
          simp only [bind, Except.bind] at h
          have c1 : config_of db s1.1 = config_of db s.1 := config_usp_ifa h1
          exact (ih (s1.1, s.2 || s1.2) o h).trans c1
      · exact ih s o h

theorem config_walk_usps {md5 : Digest} {fuel : Nat} {db : List ac_lsa} {oa : Nat}
    (usps : List Prefix) : ∀ (s o : proto_ospf × Bool),
    walk_usps md5 fuel db oa usps s = .ok o → config_of db o.1 = config_of db s.1 := by
  induction usps with
  | nil => intro s o h; cases h; rfl
  | cons usp usps ih =>
    intro s o h
    unfold walk_usps at h
    cases h1 : walk_ifaces md5 fuel db oa usp (List.range s.1.iface_list.length) s with
    | error e => rw [h1] at h; cases h
    | ok s1 =>
      rw [h1] at h
      simp only [bind, Except.bind] at h
      exact (ih s1 o h).trans (config_walk_ifaces _ s s1 h1)

theorem config_area {md5 : Digest} {fuel : Nat} {db : List ac_lsa} {po : proto_ospf} {oa : Nat}
    {o : proto_ospf × Bool} (h : ospf_pxassign_area md5 fuel db po oa = .ok o) :
    config_of db o.1 = config_of db po := by
  unfold ospf_pxassign_area at h
  cases hw : walk_usps md5 fuel db oa (lsdb_usps db) (mark_invalid oa po, false) with
  | error e => rw [hw] at h; cases h
  | ok s =>
    rw [hw] at h
    simp only [bind, Except.bind, Except.ok.injEq] at h
    subst h
    exact (config_delete_where ..).trans ((config_walk_usps _ _ s hw).trans (config_mark_invalid ..))

/-! ## P4: idempotence -/

theorem iface_eq_of_config {db : List ac_lsa} {x y : ospf_iface}
    (h1 : iface_config db x = iface_config db y) (h2 : x.asp_list = y.asp_list) :
    refresh_iface db x = refresh_iface db y := by
  cases x
  cases y
  simp only [iface_config, refresh_iface, ospf_iface.mk.injEq, true_and] at h1 h2 ⊢
  obtain ⟨a, b, c, d⟩ := h1
  exact ⟨a, b, c, h2, d⟩

theorem ifaces_eq_of_config {db : List ac_lsa} : ∀ (la lb : List ospf_iface),
    la.map (iface_config db) = lb.map (iface_config db) →
    la.map (fun ifa => ifa.asp_list) = lb.map (fun ifa => ifa.asp_list) →
    la.map (refresh_iface db) = lb.map (refresh_iface db)
  | [], [], _, _ => rfl
  | [], _ :: _, h, _ => by cases h
  | _ :: _, [], h, _ => by cases h
  | x :: la, y :: lb, h1, h2 => by
    simp only [List.map_cons, List.cons.injEq] at h1 h2 ⊢
    exact ⟨iface_eq_of_config h1.1 h2.1, ifaces_eq_of_config la lb h1.2 h2.2⟩

theorem state_eq_of_config {db : List ac_lsa} {a b : proto_ospf}
    (hc : config_of db a = config_of db b) (hk : a.klog = b.klog)
    (hl : a.iface_list.map (fun ifa => ifa.asp_list) = b.iface_list.map (fun ifa => ifa.asp_list)) :
    refresh_all db a = refresh_all db b := by
  cases a
  cases b
  simp only [config_of, refresh_all, proto_ospf.mk.injEq, and_true] at hc hk hl ⊢
  exact ⟨hc.1, ifaces_eq_of_config _ _ hc.2 hl, hk⟩

theorem refresh_all_lists (db : List ac_lsa) (po : proto_ospf) :
    (refresh_all db po).iface_list.map (fun ifa => ifa.asp_list)
      = po.iface_list.map (fun ifa => ifa.asp_list) := by
  simp only [refresh_all, List.map_map]
  rfl

/-- C4, amended. A run that completes without a kernel call and without a
re-origination request, and leaves every assignment list as it was (the valid
flags it resets apart), is followed by a run that, with the same LSDB, neighbors
and interface configuration, completes, issues no kernel call, leaves every
assignment list as it is and requests no re-origination. -/
theorem idempotent_at_fixed_point (md5 : Digest) (fuel : Nat) (db : List ac_lsa)
    (po : proto_ospf) (oa : Nat) (po1 : proto_ospf)
    (h1 : ospf_pxassign_area md5 fuel db po oa = .ok (po1, false))
    (hlog : po1.klog = po.klog)
    (hlists : (mark_invalid oa po1).iface_list.map (fun ifa => ifa.asp_list)
      = (mark_invalid oa po).iface_list.map (fun ifa => ifa.asp_list)) :
    ∃ po2, ospf_pxassign_area md5 fuel db po1 oa = .ok (po2, false) ∧ po2.klog = po1.klog ∧
      po2.iface_list.map (fun ifa => ifa.asp_list) = po1.iface_list.map (fun ifa => ifa.asp_list) := by
  have c : config_of db po1 = config_of db po := config_area h1
  have hfix : refresh_all db (mark_invalid oa po1) = refresh_all db (mark_invalid oa po) :=
    state_eq_of_config ((config_mark_invalid ..).trans (c.trans (config_mark_invalid ..).symm))
      hlog hlists
  have e : ospf_pxassign_area md5 fuel db (refresh_all db po1) oa
      = ospf_pxassign_area md5 fuel db (refresh_all db po) oa := by
    unfold ospf_pxassign_area
    rw [refresh_mark_invalid, refresh_mark_invalid, hfix]
  rw [refresh_area, refresh_area, h1] at e
  cases h2 : ospf_pxassign_area md5 fuel db po1 oa with
  | error x => rw [h2] at e; cases e
  | ok o =>
    rw [h2] at e
    simp only [Except.map, Except.ok.injEq, Prod.mk.injEq] at e
    obtain ⟨e1, e2⟩ := e
    refine ⟨o.1, ?_, congrArg (fun p => p.klog) e1, ?_⟩
    · rw [← e2]
    · rw [← refresh_all_lists db o.1, ← refresh_all_lists db po1, e1]

/-- Witness for C4 (amended): router 10 refuses the assignment of neighbor 20 on
eth0 and keeps its own record on eth1; the run only refreshes the neighbor. -/
theorem idempotent_at_fixed_point_witness :
    ospf_pxassign_area ex_md5 4 ex_db_peer ex_po_refuse 0 = .ok (ex_out_refuse, false) ∧
    ∃ po2, ospf_pxassign_area ex_md5 4 ex_db_peer ex_out_refuse 0 = .ok (po2, false) ∧
      po2.klog = ex_out_refuse.klog ∧
      po2.iface_list.map (fun ifa => ifa.asp_list)
        = ex_out_refuse.iface_list.map (fun ifa => ifa.asp_list) :=
  ⟨by decide, idempotent_at_fixed_point ex_md5 4 ex_db_peer ex_po_refuse 0 ex_out_refuse
    (by decide) rfl (by decide)⟩

/-- C4, counterexample. Router 10 has two interfaces of area 0 on the link of
neighbor 20, which advertises 2001:db8:0:1::/64. The first run from empty lists
completes with the record of the neighbor on eth1 and requests no
re-origination. The second run, with nothing changed, deletes the record from
eth1, adds it to eth0, deletes it from eth0 and adds it to eth1: four kernel
calls. -/
theorem second_run_kernel_calls :
    ospf_pxassign_area ex_md5 4 ex_db_peer ex_po_two 0 = .ok (ex_out_two, false)
    ∧ ospf_pxassign_area ex_md5 4 ex_db_peer ex_out_two 0 = .ok (ex_out_two2, false)
    ∧ ex_out_two2.klog = ex_out_two.klog ++
        [kcall.del "eth1" ex_p1.addr 64 10, kcall.add "eth0" ex_p1.addr 64 10,
         kcall.del "eth0" ex_p1.addr 64 10, kcall.add "eth1" ex_p1.addr 64 10]
    ∧ ex_out_two2.klog ≠ ex_out_two.klog := by
  decide

/-! ## Step 5.3.0: nested usable prefixes -/

theorem strictly_inside_iff (u u2 : Prefix) :
    strictly_inside u u2 = true ↔ contains u2 u = true ∧ (u2.addr ≠ u.addr ∨ u2.len ≠ u.len) := by
  simp only [strictly_inside, contains, ipa_equal, Bool.and_eq_true, Bool.or_eq_true,
    Bool.not_eq_true', decide_eq_false_iff_not, decide_eq_true_eq, ne_eq]
  constructor
  · rintro ⟨h, h1 | h1⟩
    · exact ⟨h, Or.inl (fun e => h1 e.symm)⟩
    · exact ⟨h, Or.inr (fun e => h1 e.symm)⟩
  · rintro ⟨h, h1 | h1⟩
    · exact ⟨h, Or.inl (fun e => h1 e.symm)⟩
    · exact ⟨h, Or.inr (fun e => h1 e.symm)⟩

/-- C11. Nested-USP guard: when the LSDB advertises another usable prefix that
contains `usp` and differs from it in address or length, ospf_pxassign_usp_ifa
returns no change and the state it was given: every list, every valid flag and
every neighbor field is as before. -/
theorem nested_usp_guard (md5 : Digest) (fuel : Nat) (db : List ac_lsa) (po : proto_ospf)
    (i : Nat) (usp : Prefix)
    (h : ∃ u2 ∈ lsdb_usps db, contains u2 usp = true ∧ (u2.addr ≠ usp.addr ∨ u2.len ≠ usp.len)) :
    ospf_pxassign_usp_ifa md5 fuel db po i usp = .ok (po, false) := by
  obtain ⟨u2, hm, hc⟩ := h
  have hg : (lsdb_usps db).any (fun usp2 => strictly_inside usp usp2) = true :=
    List.any_eq_true.2 ⟨u2, hm, (strictly_inside_iff usp u2).2 hc⟩
  unfold ospf_pxassign_usp_ifa
  cases po.iface_list[i]? with
  | none => rfl
  | some ifa0 => simp only [hg, if_true]

/-- Witness for C11: the usable prefix 2001:db8:0:1::/64 next to 2001:db8::/48. -/
theorem nested_usp_guard_witness :
    ospf_pxassign_usp_ifa ex_md5 4 ex_db_nested ex_po_solo 0 ex_u64 = .ok (ex_po_solo, false) :=
  nested_usp_guard ex_md5 4 ex_db_nested ex_po_solo 0 ex_u64
    ⟨ex_u48, by decide, by decide, Or.inl (by decide)⟩

/-- C12, counterexample. With 2001:db8::/48 and 2001:db8:0:1::/64 advertised,
processing the /48 for eth0 of the solo router is not aborted: it installs
2001:db8:0:def0::/64 and flags a change; processing the /64 is aborted by the
guard and changes nothing. -/
theorem nested_scenario_as_coded :
    ospf_pxassign_usp_ifa ex_md5 4 ex_db_nested ex_po_solo 0 ex_u48 = .ok (ex_out_nested, true)
    ∧ ex_out_nested ≠ ex_po_solo
    ∧ ospf_pxassign_usp_ifa ex_md5 4 ex_db_nested ex_po_solo 0 ex_u64 = .ok (ex_po_solo, false) := by
  decide

/-- C12, amended. With 2001:db8::/48 and 2001:db8:0:1::/64 the advertised
usable prefixes, processing the /64 for an interface is aborted by the guard of
5.3.0 without any change, while processing the /48 is not aborted by the guard
and runs the resolver and the steps after it. -/
theorem nested_scenario (md5 : Digest) (fuel : Nat) (db : List ac_lsa) (po : proto_ospf) (i : Nat)
    (h48 : ex_u48 ∈ lsdb_usps db) (hall : ∀ u ∈ lsdb_usps db, u = ex_u48 ∨ u = ex_u64) :
    ospf_pxassign_usp_ifa md5 fuel db po i ex_u64 = .ok (po, false)
    ∧ ospf_pxassign_usp_ifa md5 fuel db po i ex_u48 = past_guard md5 fuel db po i ex_u48 := by
  have hg64 : (lsdb_usps db).any (fun usp2 => strictly_inside ex_u64 usp2) = true :=
    List.any_eq_true.2 ⟨ex_u48, h48, by decide⟩
  have hg48 : (lsdb_usps db).any (fun usp2 => strictly_inside ex_u48 usp2) = false := by
    rw [List.any_eq_false]
    intro u hu
    rcases hall u hu with h | h <;> rw [h] <;> decide
  constructor
  · unfold ospf_pxassign_usp_ifa
    cases po.iface_list[i]? with
    | none => rfl
    | some ifa0 => simp only [hg64, if_true]
  · unfold ospf_pxassign_usp_ifa past_guard
    cases po.iface_list[i]? with
    | none => rfl
    | some ifa0 => simp only [hg48, Bool.false_eq_true, if_false]

/-- Witness for C12 (amended): the solo router with both usable prefixes advertised. -/
theorem nested_scenario_witness :
    ospf_pxassign_usp_ifa ex_md5 4 ex_db_nested ex_po_solo 0 ex_u64 = .ok (ex_po_solo, false)
    ∧ ospf_pxassign_usp_ifa ex_md5 4 ex_db_nested ex_po_solo 0 ex_u48
        = past_guard ex_md5 4 ex_db_nested ex_po_solo 0 ex_u48 :=
  nested_scenario ex_md5 4 ex_db_nested ex_po_solo 0 (by decide) (by decide)

/-! ## Step 5.3.2c: the peer assignment -/

theorem peer_iasps_skip (usp : Prefix) (neigh : ospf_neighbor) (l : List lsa_iasp)
    (acc : peer_acc) (h : l.filter (fun iasp => decide (iasp.id = neigh.iface_id)) = []) :
    peer_iasps usp neigh l acc = acc := by
  induction l with
  | nil => rfl
  | cons a t ih =>
    rw [List.filter_cons] at h
    by_cases hid : a.id = neigh.iface_id
    · simp [hid] at h
    · simp only [hid, decide_False, Bool.false_eq_true, if_false] at h
      simp only [peer_iasps, hid, if_false]
      exact ih h

theorem peer_iasps_one (usp : Prefix) (neigh : ospf_neighbor) (l : List lsa_iasp)
    (acc : peer_acc)
    (h : (l.filter (fun iasp => decide (iasp.id = neigh.iface_id))).length ≤ 1) :
    peer_iasps usp neigh l acc =
      match (l.filter (fun iasp => decide (iasp.id = neigh.iface_id))).findSome? (fun iasp =>
          iasp.asps.find? (fun a => net_in_net a.addr a.len usp.addr usp.len)) with
      | some a => ⟨true, neigh.rid, a⟩
      | none => acc := by
  induction l with
  | nil => rfl
  | cons a t ih =>
    by_cases hid : a.id = neigh.iface_id
    · have hf : (a :: t).filter (fun iasp => decide (iasp.id = neigh.iface_id))
          = a :: t.filter (fun iasp => decide (iasp.id = neigh.iface_id)) := by
        simp [List.filter_cons, hid]
      rw [hf] at h ⊢
      have ht : t.filter (fun iasp => decide (iasp.id = neigh.iface_id)) = [] := by
        apply List.eq_nil_of_length_eq_zero
        simp only [List.length_cons] at h
        omega
      rw [ht]
      simp only [peer_iasps, hid, if_true, List.findSome?_cons, List.findSome?_nil]
      rw [peer_iasps_skip usp neigh t _ ht]
      cases a.asps.find? (fun a => net_in_net a.addr a.len usp.addr usp.len) with
      | none => simp
      | some x => simp
    · have hf : (a :: t).filter (fun iasp => decide (iasp.id = neigh.iface_id))
          = t.filter (fun iasp => decide (iasp.id = neigh.iface_id)) := by
        simp [List.filter_cons, hid]
      rw [hf] at h ⊢
      simp only [peer_iasps, hid, if_false]
      exact ih h

theorem peer_lsas_skip (usp : Prefix) (neigh : ospf_neighbor) (db : List ac_lsa)
    (acc : peer_acc) (h : db.filter (fun en => decide (en.rt = neigh.rid)) = []) :
    peer_lsas usp neigh db acc = acc := by
  induction db with
  | nil => rfl
  | cons a t ih =>
    rw [List.filter_cons] at h
    by_cases hid : a.rt = neigh.rid
    · simp [hid] at h
    · simp only [hid, decide_False, Bool.false_eq_true, if_false] at h
      simp only [peer_lsas, hid, if_false]
      exact ih h

theorem peer_lsas_one (usp : Prefix) (neigh : ospf_neighbor) (db : List ac_lsa)
    (acc : peer_acc)
    (h1 : (db.filter (fun en => decide (en.rt = neigh.rid))).length ≤ 1)
    (h2 : (neighbor_iasps db neigh).length ≤ 1) :
    peer_lsas usp neigh db acc =
      match neigh_asp db usp neigh with
      | some a => ⟨true, neigh.rid, a⟩
      | none => acc := by
  induction db with
  | nil => rfl
  | cons a t ih =>
    by_cases hid : a.rt = neigh.rid
    · have hf : (a :: t).filter (fun en => decide (en.rt = neigh.rid))
          = a :: t.filter (fun en => decide (en.rt = neigh.rid)) := by
        simp [List.filter_cons, hid]
      have ht : t.filter (fun en => decide (en.rt = neigh.rid)) = [] := by
        rw [hf] at h1
        apply List.eq_nil_of_length_eq_zero
        simp only [List.length_cons] at h1
        omega
      have hn : neighbor_iasps (a :: t) neigh
          = a.iasps.filter (fun iasp => decide (iasp.id = neigh.iface_id)) := by
        simp only [neighbor_iasps, hf, ht, List.flatMap_cons, List.flatMap_nil, List.append_nil]
      rw [hn] at h2
      simp only [peer_lsas, hid, if_true, neigh_asp, hn]
      rw [peer_lsas_skip usp neigh t _ ht, peer_iasps_one usp neigh a.iasps acc h2]
      simp
    · have hf : (a :: t).filter (fun en => decide (en.rt = neigh.rid))
          = t.filter (fun en => decide (en.rt = neigh.rid)) := by
        simp [List.filter_cons, hid]
      have hn : neighbor_iasps (a :: t) neigh = neighbor_iasps t neigh := by
        simp only [neighbor_iasps, hf]
      rw [hf] at h1
      rw [hn] at h2
      simp only [peer_lsas, hid, if_false, neigh_asp, hn]
      exact ih h1 h2

theorem peer_candidate_iff (db : List ac_lsa) (usp : Prefix) (hp : Nat) (n : ospf_neighbor) :
    peer_candidate db usp hp n = true ↔
      NEIGHBOR_INIT ≤ n.state ∧ n.pa_priority = hp ∧ (neigh_asp db usp n).isSome = true := by
  simp only [peer_candidate, neigh_asp, Bool.and_eq_true, decide_eq_true_eq, and_assoc]
  refine and_congr_right (fun _ => and_congr_right (fun _ => ?_))
  rw [List.any_eq_true, Option.isSome_iff_exists]
  constructor
  · rintro ⟨iasp, hi, ha⟩
    cases h : (neighbor_iasps db n).findSome? (fun iasp =>
        iasp.asps.find? (fun a => net_in_net a.addr a.len usp.addr usp.len)) with
    | some a => exact ⟨a, rfl⟩
    | none =>
      rw [List.findSome?_eq_none_iff] at h
      have := h iasp hi
      rw [List.find?_eq_none] at this
      obtain ⟨a, ham, hin⟩ := List.any_eq_true.1 ha
      exact absurd hin (this a ham)
  · rintro ⟨a, h⟩
    obtain ⟨iasp, hi, hf⟩ := List.exists_of_findSome?_eq_some h
    exact ⟨iasp, hi, List.any_eq_true.2 ⟨a, List.mem_of_find?_eq_some hf,
      @List.find?_some _ (fun (a : Prefix) => net_in_net a.addr a.len usp.addr usp.len) _ _ hf⟩⟩

theorem neigh_asp_advertised {db : List ac_lsa} {usp : Prefix} {n : ospf_neighbor} {a : Prefix}
    (h : neigh_asp db usp n = some a) :
    ∃ iasp ∈ neighbor_iasps db n, a ∈ iasp.asps ∧ net_in_net a.addr a.len usp.addr usp.len = true := by
  obtain ⟨iasp, hi, hf⟩ := List.exists_of_findSome?_eq_some h
  exact ⟨iasp, hi, List.mem_of_find?_eq_some hf,
    @List.find?_some _ (fun (a : Prefix) => net_in_net a.addr a.len usp.addr usp.len) _ _ hf⟩

theorem peer_inv_step {db : List ac_lsa} {usp : Prefix} {hp : Nat} {done : List ospf_neighbor}
    {acc : peer_acc} (n : ospf_neighbor) (hn : plain_neighbor db n)
    (h : peer_inv db usp hp done acc) :
    peer_inv db usp hp (done ++ [n])
      (if n.pa_priority = hp ∧ n.rid > acc.neigh_rid ∧ NEIGHBOR_INIT ≤ n.state then
        peer_lsas usp n db acc else acc) := by
  obtain ⟨hpos, h1, h2⟩ := hn
  rw [peer_lsas_one usp n db acc h1 h2]
  have hc := peer_candidate_iff db usp hp n
  by_cases hcand : peer_candidate db usp hp n = true
  · obtain ⟨hs, hpr, hsome⟩ := hc.1 hcand
    obtain ⟨a, ha⟩ := Option.isSome_iff_exists.1 hsome
    by_cases hgt : n.rid > acc.neigh_rid
    · rw [if_pos ⟨hpr, hgt, hs⟩, ha]
      refine ⟨(fun hf => by cases hf), fun _ => ⟨n, by simp, hcand, ?_, rfl, ha⟩⟩
      intro m hm hmc
      rcases List.mem_append.1 hm with hm | hm
      · cases hfd : acc.assignment_found with
        | false => rw [(h.1 hfd).2 m hm] at hmc; cases hmc
        | true =>
          obtain ⟨k, _, _, hmax, hrid, _⟩ := h.2 hfd
          have := hmax m hm hmc
          omega
      · rw [List.mem_singleton.1 hm]
    · have hif : ¬ (n.pa_priority = hp ∧ n.rid > acc.neigh_rid ∧ NEIGHBOR_INIT ≤ n.state) :=
        fun x => hgt x.2.1
      rw [if_neg hif]
      cases hfd : acc.assignment_found with
      | false =>
        have := (h.1 hfd).1
        omega
      | true =>
        obtain ⟨k, hk, hkc, hmax, hrid, hasp⟩ := h.2 hfd
        refine ⟨(fun hf => by rw [hfd] at hf; cases hf),
          fun _ => ⟨k, List.mem_append_left _ hk, hkc, ?_, hrid, hasp⟩⟩
        intro m hm hmc
        rcases List.mem_append.1 hm with hm | hm
        · exact hmax m hm hmc
        · rw [List.mem_singleton.1 hm]; omega
  · have hcf : peer_candidate db usp hp n = false := by
      cases hx : peer_candidate db usp hp n with
      | true => exact absurd hx hcand
      | false => rfl
    have hres : (if n.pa_priority = hp ∧ n.rid > acc.neigh_rid ∧ NEIGHBOR_INIT ≤ n.state then
        (match neigh_asp db usp n with
          | some a => (⟨true, n.rid, a⟩ : peer_acc)
          | none => acc) else acc) = acc := by
      split
      · rename_i hif
        cases ha : neigh_asp db usp n with
        | none => rfl
        | some a =>
          exact absurd (hc.2 ⟨hif.2.2, hif.1, by rw [ha]; rfl⟩) hcand
      · rfl
    rw [hres]
    refine ⟨fun hf => ⟨(h.1 hf).1, ?_⟩, fun ht => ?_⟩
    · intro m hm
      rcases List.mem_append.1 hm with hm | hm
      · exact (h.1 hf).2 m hm
      · rw [List.mem_singleton.1 hm]; exact hcf
    · obtain ⟨k, hk, hkc, hmax, hrid, hasp⟩ := h.2 ht
      refine ⟨k, List.mem_append_left _ hk, hkc, ?_, hrid, hasp⟩
      intro m hm hmc
      rcases List.mem_append.1 hm with hm | hm
      · exact hmax m hm hmc
      · rw [List.mem_singleton.1 hm, hcf] at hmc; cases hmc

theorem peer_inv_fold {db : List ac_lsa} {usp : Prefix} {hp : Nat} :
    ∀ (rest done : List ospf_neighbor) (acc : peer_acc),
    (∀ n ∈ rest, plain_neighbor db n) → peer_inv db usp hp done acc →
    peer_inv db usp hp (done ++ rest)
      (rest.foldl (fun acc neigh =>
        if neigh.pa_priority = hp ∧ neigh.rid > acc.neigh_rid ∧ NEIGHBOR_INIT ≤ neigh.state then
          peer_lsas usp neigh db acc
        else acc) acc)
  | [], done, acc, _, h => by simpa using h
  | n :: rest, done, acc, hw, h => by
    have := peer_inv_fold rest (done ++ [n]) _ (fun m hm => hw m (List.mem_cons_of_mem _ hm))
      (peer_inv_step n (hw n (List.mem_cons_self _ _)) h)
    simpa using this

theorem peer_assignment_inv {db : List ac_lsa} {usp : Prefix} {hp : Nat}
    {neighs : List ospf_neighbor} (hw : ∀ n ∈ neighs, plain_neighbor db n) :
    peer_inv db usp hp neighs (peer_assignment db usp hp neighs) := by
  have := @peer_inv_fold db usp hp neighs [] ⟨false, 0, ⟨IPA_NONE, 0⟩⟩ hw
    ⟨fun _ => ⟨rfl, fun n hn => by cases hn⟩, fun h => by cases h⟩
  simpa [peer_assignment] using this

/-- C13, amended. Peer-assignment selection, for neighbors that have a nonzero
router id and for whom the LSDB holds at most one AC-LSA with at most one IASP
for this link: the resolver records no peer assignment exactly when no neighbor
in state at least Init with priority Hp advertises an ASP inside `usp` in its
IASP for this link; otherwise it records the router id of a neighbor that has
the greatest router id among those, with an ASP inside `usp` that this neighbor
advertises in its IASP for this link. -/
theorem peer_selection (db : List ac_lsa) (router_id : Nat) (ifa : ospf_iface) (usp : Prefix)
    (hw : ∀ n ∈ ifa.neigh_list, plain_neighbor db n) :
    ((resolve db router_id ifa usp).assignment_found = false ↔
      ∀ n ∈ ifa.neigh_list,
        peer_candidate db usp (resolve db router_id ifa usp).highest_link_pa_priority n = false)
    ∧ ((resolve db router_id ifa usp).assignment_found = true →
      ∃ n ∈ ifa.neigh_list,
        peer_candidate db usp (resolve db router_id ifa usp).highest_link_pa_priority n = true
        ∧ (∀ m ∈ ifa.neigh_list,
            peer_candidate db usp (resolve db router_id ifa usp).highest_link_pa_priority m = true →
            m.rid ≤ n.rid)
        ∧ (resolve db router_id ifa usp).neigh_rid = n.rid
        ∧ ∃ iasp ∈ neighbor_iasps db n, (resolve db router_id ifa usp).neigh_r ∈ iasp.asps
            ∧ net_in_net (resolve db router_id ifa usp).neigh_r.addr
                (resolve db router_id ifa usp).neigh_r.len usp.addr usp.len = true) := by
  have h := @peer_assignment_inv db usp (resolve db router_id ifa usp).highest_link_pa_priority
    ifa.neigh_list hw
  have e1 : (resolve db router_id ifa usp).assignment_found
      = (peer_assignment db usp (resolve db router_id ifa usp).highest_link_pa_priority
          ifa.neigh_list).assignment_found := rfl
  have e2 : (resolve db router_id ifa usp).neigh_rid
      = (peer_assignment db usp (resolve db router_id ifa usp).highest_link_pa_priority
          ifa.neigh_list).neigh_rid := rfl
  have e3 : (resolve db router_id ifa usp).neigh_r
      = (peer_assignment db usp (resolve db router_id ifa usp).highest_link_pa_priority
          ifa.neigh_list).neigh_r := rfl
  rw [e1, e2, e3]
  refine ⟨⟨fun hf => (h.1 hf).2, fun hall => ?_⟩, fun ht => ?_⟩
  · cases hfd : (peer_assignment db usp (resolve db router_id ifa usp).highest_link_pa_priority
        ifa.neigh_list).assignment_found with
    | false => rfl
    | true =>
      obtain ⟨n, hn, hc, _⟩ := h.2 hfd
      rw [hall n hn] at hc
      cases hc
  · obtain ⟨n, hn, hc, hmax, hrid, hasp⟩ := h.2 ht
    exact ⟨n, hn, hc, hmax, hrid, neigh_asp_advertised hasp⟩

/-- Witness for C13 (amended): of the neighbors 20 and 30, both advertising an
ASP inside 2001:db8::/60, the assignment of 30 is recorded. -/
theorem peer_selection_witness :
    (∀ n ∈ ex_if_pair.neigh_list, plain_neighbor ex_db_pair n)
    ∧ (resolve ex_db_pair 10 ex_if_pair ex_usp).assignment_found = true
    ∧ ∃ n ∈ ex_if_pair.neigh_list,
        peer_candidate ex_db_pair ex_usp
          (resolve ex_db_pair 10 ex_if_pair ex_usp).highest_link_pa_priority n = true
        ∧ (∀ m ∈ ex_if_pair.neigh_list,
            peer_candidate ex_db_pair ex_usp
              (resolve ex_db_pair 10 ex_if_pair ex_usp).highest_link_pa_priority m = true →
            m.rid ≤ n.rid)
        ∧ (resolve ex_db_pair 10 ex_if_pair ex_usp).neigh_rid = n.rid
        ∧ ∃ iasp ∈ neighbor_iasps ex_db_pair n,
            (resolve ex_db_pair 10 ex_if_pair ex_usp).neigh_r ∈ iasp.asps
            ∧ net_in_net (resolve ex_db_pair 10 ex_if_pair ex_usp).neigh_r.addr
                (resolve ex_db_pair 10 ex_if_pair ex_usp).neigh_r.len ex_usp.addr ex_usp.len = true :=
  ⟨by decide, by decide,
    (peer_selection ex_db_pair 10 ex_if_pair ex_usp (by decide)).2 (by decide)⟩

/-- C13, counterexample. (1) A neighbor with router id 0 that advertises
2001:db8:0:1::/64 for this link is never recorded. (2) Neighbor 30, whose LSA
carries two IASPs for this link with the ASP in the second, is passed over for
neighbor 20, and (3) so it is when its IASP is in its second AC-LSA. -/
theorem peer_selection_misses :
    ((resolve ex_db_zero 10 ex_if_zero ex_usp).assignment_found = false
      ∧ peer_candidate ex_db_zero ex_usp
          (resolve ex_db_zero 10 ex_if_zero ex_usp).highest_link_pa_priority ex_neigh0 = true)
    ∧ ((resolve ex_db_two_iasps 10 ex_if_pair ex_usp).neigh_rid = 20
      ∧ peer_candidate ex_db_two_iasps ex_usp
          (resolve ex_db_two_iasps 10 ex_if_pair ex_usp).highest_link_pa_priority ex_neigh30 = true)
    ∧ ((resolve ex_db_two_lsas 10 ex_if_pair ex_usp).neigh_rid = 20
      ∧ peer_candidate ex_db_two_lsas ex_usp
          (resolve ex_db_two_lsas 10 ex_if_pair ex_usp).highest_link_pa_priority ex_neigh30 = true) := by
  decide

/-! ## Step 5.3.6 and the upgrade of 5.3.4 -/

theorem guard_step6_excludes (r : resolution) (h : guard_step6 r = true) :
    early_exit r = false ∧ guard_step4 r = false ∧ guard_step5 r = false := by
  revert h
  unfold early_exit guard_step4 guard_step5 guard_step6
  cases r.have_highest_link_pa_priority <;> cases r.have_assignment_resp
    <;> cases r.have_highest_rid <;> cases r.assignment_found <;> simp

theorem choose_random_len (md5 : Digest) (usp : Prefix) (len : Nat) (used : List prefix_node)
    (rid : Nat) (ifname : String) (n : Nat) :
    ∀ (i : Nat) (px : Prefix), choose_random md5 usp len used rid ifname i n = some px →
      px.len = len := by
  induction n with
  | zero => intro i px h; simp [choose_random] at h
  | succ n ih =>
    intro i px h
    simp only [choose_random] at h
    split at h
    · cases h; rfl
    · exact ih _ _ h

theorem choose_scan_len (usp : Prefix) (used : List prefix_node) (start : Prefix) (fuel : Nat) :
    ∀ (px : Prefix) (looped : Bool) (c : pxchoose) (q : Prefix),
      choose_scan usp used start fuel px looped = .ok (c, q) → q.len = px.len := by
  induction fuel with
  | zero => intro px looped c q h; simp [choose_scan] at h
  | succ fuel ih =>
    intro px looped c q h
    rw [choose_scan] at h
    by_cases hc : (!looped || ipa_less px.addr start.addr) = true
    · rw [if_pos hc] at h
      have hel : (scan_enter usp px looped).1.len = px.len := by
        unfold scan_enter; split <;> rfl
      by_cases hu : (!in_use (scan_enter usp px looped).1 used) = true
      · rw [if_pos hu] at h
        cases h
        exact hel
      · rw [if_neg hu] at h
        cases ha : scan_advance used (scan_enter usp px looped).1 with
        | error e => rw [ha] at h; cases h
        | ok px1 =>
          rw [ha] at h
          have := ih px1 _ c q h
          rw [this, scan_advance_len ha, hel]
    · rw [if_neg hc] at h
      cases h
      rfl

theorem choose_prefix_len {md5 : Digest} {fuel : Nat} {usp : Prefix} {len : Nat}
    {used : List prefix_node} {rid : Nat} {ifname : String} {c : pxchoose} {px : Prefix}
    (h : choose_prefix md5 fuel usp len used rid ifname = .ok (c, px)) : px.len = len := by
  unfold choose_prefix at h
  cases hr : choose_random md5 usp len used rid ifname 0 10 with
  | some q =>
    rw [hr] at h
    simp only [Except.ok.injEq, Prod.mk.injEq] at h
    rw [← h.2]
    exact choose_random_len md5 usp len used rid ifname 10 0 q hr
  | none =>
    rw [hr] at h
    exact choose_scan_len usp used _ fuel _ _ c px h

theorem own_used_set_refresh (db : List ac_lsa) (router_id oa : Nat) (usp : Prefix) (i : Nat)
    (self_r : Option prefix_node) (x : ospf_iface) : ∀ (l : List ospf_iface) (k j : Nat),
    l[j]? = some x →
    own_used router_id oa usp i self_r k (l.set j (refresh_iface db x))
      = own_used router_id oa usp i self_r k l
  | [], _, _, h => by simp at h
  | a :: t, k, 0, h => by
    simp only [List.getElem?_cons_zero, Option.some.injEq] at h
    subst h
    simp only [List.set_cons_zero, own_used]
    rfl
  | a :: t, k, j + 1, h => by
    simp only [List.getElem?_cons_succ] at h
    simp only [List.set_cons_succ, own_used, own_used_set_refresh db router_id oa usp i self_r x t (k + 1) j h]

theorem find_used_set_refresh (db : List ac_lsa) (po : proto_ospf) (i : Nat) (ifa0 : ospf_iface)
    (usp : Prefix) (self_r : Option prefix_node) (k : Nat) (hk : po.iface_list[k]? = some ifa0) :
    find_used db (set_iface po k (refresh_iface db ifa0)) i (refresh_iface db ifa0) usp self_r
      = find_used db po i ifa0 usp self_r := by
  unfold find_used
  show List.foldl _ _ (_ ++ own_used _ _ _ _ _ 0 (po.iface_list.set k (refresh_iface db ifa0))) = _
  rw [own_used_set_refresh db _ _ _ _ _ ifa0 po.iface_list 0 k hk]
  rfl

/-- The function ospf_pxassign_usp_ifa when step 5.3.6 runs under its own guard
and its first call of choose_prefix succeeds. -/
theorem usp_ifa_allocate (md5 : Digest) (fuel : Nat) (db : List ac_lsa) (po : proto_ospf)
    (i : Nat) (usp : Prefix) (ifa0 : ospf_iface) (c : Prefix)
    (hifa : po.iface_list[i]? = some ifa0)
    (hnest : (lsdb_usps db).any (fun usp2 => strictly_inside usp usp2) = false)
    (hguard : guard_step6 (resolve db po.router_id (refresh_iface db ifa0) usp) = true)
    (hc : choose_prefix md5 fuel usp LSA_AC_ASP_D_PREFIX_LENGTH
      (find_used db po i ifa0 usp none).used po.router_id ifa0.name = .ok (.PXCHOOSE_SUCCESS, c)) :
    ospf_pxassign_usp_ifa md5 fuel db po i usp
        = .ok ({ set_iface po i { refresh_iface db ifa0 with
                    asp_list := ifa0.asp_list ++
                      [⟨c, po.router_id, po.router_id, ifa0.pa_priority, true⟩] }
                 with klog := po.klog ++ [kcall.add ifa0.name c.addr c.len po.router_id] }, true) := by
  obtain ⟨he, h4, h5⟩ := guard_step6_excludes _ hguard
  unfold ospf_pxassign_usp_ifa
  simp only [hifa, hnest, Bool.false_eq_true, if_false]
  have hrid : (set_iface po i (refresh_iface db ifa0)).router_id = po.router_id := rfl
  rw [hrid, he]
  simp only [Bool.false_eq_true, if_false]
  have hs4 : run_step4 md5 fuel db (set_iface po i (refresh_iface db ifa0)) i (refresh_iface db ifa0)
      usp (resolve db po.router_id (refresh_iface db ifa0) usp)
      = .ok (set_iface po i (refresh_iface db ifa0), false, false) := by
    unfold run_step4
    rw [h4]
  rw [hs4]
  simp only [bind, Except.bind]
  have hs5 : run_step5 i (resolve db po.router_id (refresh_iface db ifa0) usp)
      (set_iface po i (refresh_iface db ifa0), false)
      = (set_iface po i (refresh_iface db ifa0), false) := by
    unfold run_step5
    rw [h5]
    rfl
  rw [hs5]
  unfold run_step6
  simp only [hguard, Bool.false_or, if_true, set_iface_self po i ifa0 _ hifa]
  unfold step6
  simp only [try_reuse]
  rw [find_used_set_refresh db po i ifa0 usp none i hifa]
  have ht : try_assign_unused md5 fuel i (refresh_iface db ifa0) usp
      (find_used db po i ifa0 usp none).used LSA_AC_ASP_D_PREFIX_LENGTH none
      ⟨set_iface po i (refresh_iface db ifa0), false, false⟩
      = .ok ⟨ configure_ifa_add_prefix c.addr c.len po.router_id po.router_id ifa0.pa_priority
          (set_iface po i (refresh_iface db ifa0)) i, true, true⟩ := by
    unfold try_assign_unused
    show ( choose_prefix md5 fuel usp LSA_AC_ASP_D_PREFIX_LENGTH
      (find_used db po i ifa0 usp none).used po.router_id ifa0.name >>= _) = _
    rw [hc]
    rfl
  rw [ht]
  simp only [step6d, step6f, step6g, try_reuse, Bool.not_true, Bool.false_and, Bool.false_eq_true,
    if_false]
  rw [add_prefix_eq _ _ _ _ _ _ _ _ (set_iface_self po i ifa0 _ hifa), set_iface_set_iface]
  rfl

/-- C14. Allocate stops at the first success. When the function reaches step
5.3.6 under its own guard (not by fall-through from 5.3.4) and choose_prefix
succeeds with `c` for the length L_pref and the used list of find_used, then
`c` has length L_pref, the function returns change = 1, and the state it leaves
is the initial one (neighbors refreshed) with one record appended to the list of
the interface, `c` with rid and my_rid ours, the priority of the interface and
valid = 1, and one kernel call, the add of `c`: no other record is added or
removed, and nothing of try_steal, of the /80 steps or of try_split has taken
place. -/
theorem allocate_first_success (md5 : Digest) (fuel : Nat) (db : List ac_lsa) (po : proto_ospf)
    (i : Nat) (usp : Prefix) (ifa0 : ospf_iface) (c : Prefix)
    (hifa : po.iface_list[i]? = some ifa0)
    (hnest : (lsdb_usps db).any (fun usp2 => strictly_inside usp usp2) = false)
    (hguard : guard_step6 (resolve db po.router_id (refresh_iface db ifa0) usp) = true)
    (hc : choose_prefix md5 fuel usp LSA_AC_ASP_D_PREFIX_LENGTH
      (find_used db po i ifa0 usp none).used po.router_id ifa0.name = .ok (.PXCHOOSE_SUCCESS, c)) :
    c.len = LSA_AC_ASP_D_PREFIX_LENGTH
    ∧ ospf_pxassign_usp_ifa md5 fuel db po i usp
        = .ok ({ set_iface po i { refresh_iface db ifa0 with
                    asp_list := ifa0.asp_list ++
                      [⟨c, po.router_id, po.router_id, ifa0.pa_priority, true⟩] }
                 with klog := po.klog ++ [kcall.add ifa0.name c.addr c.len po.router_id] }, true) :=
  ⟨choose_prefix_len hc, usp_ifa_allocate md5 fuel db po i usp ifa0 c hifa hnest hguard hc⟩

theorem own_collision_set_refresh (db : List ac_lsa) (router_id p : Nat) (self_r : Prefix)
    (i : Nat) (x : ospf_iface) : ∀ (l : List ospf_iface) (k j : Nat),
    l[j]? = some x →
    own_collision router_id p self_r i k (l.set j (refresh_iface db x))
      = own_collision router_id p self_r i k l
  | [], _, _, h => by simp at h
  | a :: t, k, 0, h => by
    simp only [List.getElem?_cons_zero, Option.some.injEq] at h
    subst h
    simp only [List.set_cons_zero, own_collision]
    rfl
  | a :: t, k, j + 1, h => by
    simp only [List.getElem?_cons_succ] at h
    simp only [List.set_cons_succ, own_collision,
      own_collision_set_refresh db router_id p self_r i x t (k + 1) j h]

/-- C16. Upgrade of a /80 to a /64. When the function reaches step 5.3.4 with
our record `self_r` of length L_fall at position `j`, neither collision scan of
5.3.4 fires, and choose_prefix succeeds with `c` for the length L_pref and the
used list find_used builds with `self_r` left out, then `c` has length L_pref,
the function returns change = 1, and in the state it leaves the record at
position `j` has been removed from the list of the interface and the record `c`
with rid ours and valid = 1 appended; the kernel calls are the delete of
`self_r` and the add of `c`. -/
theorem upgrade_succeeds (md5 : Digest) (fuel : Nat) (db : List ac_lsa) (po : proto_ospf)
    (i : Nat) (usp : Prefix) (ifa0 : ospf_iface) (j : Nat) (self_r : prefix_node) (c : Prefix)
    (hifa : po.iface_list[i]? = some ifa0)
    (hnest : (lsdb_usps db).any (fun usp2 => strictly_inside usp usp2) = false)
    (hguard : guard_step4 (resolve db po.router_id (refresh_iface db ifa0) usp) = true)
    (hself : (resolve db po.router_id (refresh_iface db ifa0) usp).self_r_px = some j)
    (hj : ifa0.asp_list[j]? = some self_r)
    (hlen : self_r.px.len = LSA_AC_ASP_SUB_PREFIX_LENGTH)
    (hl : lsdb_collision db po.router_id ifa0.pa_priority self_r.px = false)
    (ho : own_collision po.router_id ifa0.pa_priority self_r.px i 0 po.iface_list = false)
    (hc : choose_prefix md5 fuel usp LSA_AC_ASP_D_PREFIX_LENGTH
      (find_used db po i ifa0 usp (some self_r)).used po.router_id ifa0.name
        = .ok (.PXCHOOSE_SUCCESS, c)) :
    c.len = LSA_AC_ASP_D_PREFIX_LENGTH
    ∧ ospf_pxassign_usp_ifa md5 fuel db po i usp
        = .ok ({ set_iface po i { refresh_iface db ifa0 with
                    asp_list := ifa0.asp_list.eraseIdx j ++
                      [⟨c, po.router_id, po.router_id, ifa0.pa_priority, true⟩] }
                 with klog := po.klog ++
                   [kcall.del ifa0.name self_r.px.addr self_r.px.len self_r.my_rid,
                    kcall.add ifa0.name c.addr c.len po.router_id] }, true) := by
  obtain ⟨h5, h6⟩ := guard_step4_excludes _ hguard
  have he : early_exit (resolve db po.router_id (refresh_iface db ifa0) usp) = false := by
    revert hguard
    unfold early_exit guard_step4
    cases (resolve db po.router_id (refresh_iface db ifa0) usp).have_highest_link_pa_priority
      <;> cases (resolve db po.router_id (refresh_iface db ifa0) usp).have_assignment_resp <;> simp
  refine ⟨choose_prefix_len hc, ?_⟩
  have hi1 := set_iface_self po i ifa0 (refresh_iface db ifa0) hifa
  have hj1 : (refresh_iface db ifa0).asp_list[j]? = some self_r := hj
  unfold ospf_pxassign_usp_ifa
  simp only [hifa, hnest, Bool.false_eq_true, if_false]
  have hrid : (set_iface po i (refresh_iface db ifa0)).router_id = po.router_id := rfl
  rw [hrid, he]
  simp only [Bool.false_eq_true, if_false]
  have hup : upgrade md5 fuel db i (refresh_iface db ifa0) usp j
      ⟨set_iface po i (refresh_iface db ifa0), false, false⟩
      = .ok ⟨ configure_ifa_add_prefix c.addr c.len po.router_id po.router_id ifa0.pa_priority
          ( configure_ifa_del_prefix (set_iface po i (refresh_iface db ifa0)) i j) i, true, true⟩ := by
    unfold upgrade
    simp only [try_reuse, hj1]
    rw [find_used_set_refresh db po i ifa0 usp (some self_r) i hifa]
    unfold try_assign_unused
    show (( choose_prefix md5 fuel usp LSA_AC_ASP_D_PREFIX_LENGTH
      (find_used db po i ifa0 usp (some self_r)).used po.router_id ifa0.name >>= _) >>= _) = _
    rw [hc]
    simp only [bind, Except.bind, del_prefix_router_id]
    rfl
  have hs4 : run_step4 md5 fuel db (set_iface po i (refresh_iface db ifa0)) i (refresh_iface db ifa0)
      usp (resolve db po.router_id (refresh_iface db ifa0) usp)
      = .ok ( configure_ifa_add_prefix c.addr c.len po.router_id po.router_id ifa0.pa_priority
          ( configure_ifa_del_prefix (set_iface po i (refresh_iface db ifa0)) i j) i, true, false) := by
    unfold run_step4
    rw [hguard, hself]
    simp only [Option.some_bind, hj1, Option.map_some']
    unfold step4
    have e3 : (refresh_iface db ifa0).pa_priority = ifa0.pa_priority := rfl
    have e4 : (set_iface po i (refresh_iface db ifa0)).iface_list
        = po.iface_list.set i (refresh_iface db ifa0) := rfl
    rw [hrid, e3, e4, own_collision_set_refresh db _ _ _ _ ifa0 po.iface_list 0 i hifa, hl, ho]
    simp only [Bool.false_eq_true, if_false, hlen, if_true]
    rw [hup]
    rfl
  rw [hs4]
  simp only [bind, Except.bind]
  have hs5 : ∀ s, run_step5 i (resolve db po.router_id (refresh_iface db ifa0) usp) s = s := by
    intro s
    unfold run_step5
    rw [h5]
    rfl
  rw [hs5]
  unfold run_step6
  simp only [h6, Bool.or_self, Bool.false_eq_true, if_false]
  have hd : configure_ifa_del_prefix (set_iface po i (refresh_iface db ifa0)) i j
      = { set_iface po i { refresh_iface db ifa0 with asp_list := ifa0.asp_list.eraseIdx j }
          with klog := po.klog ++
            [kcall.del ifa0.name self_r.px.addr self_r.px.len self_r.my_rid] } := by
    simp only [ configure_ifa_del_prefix, hi1, hj1, set_iface_set_iface]
    rfl
  rw [hd]
  have hi2 : ({ set_iface po i { refresh_iface db ifa0 with asp_list := ifa0.asp_list.eraseIdx j }
          with klog := po.klog ++
            [kcall.del ifa0.name self_r.px.addr self_r.px.len self_r.my_rid] } : proto_ospf).iface_list[i]?
      = some { refresh_iface db ifa0 with asp_list := ifa0.asp_list.eraseIdx j } :=
    set_iface_self po i ifa0 _ hifa
  rw [add_prefix_eq _ _ _ _ _ _ _ _ hi2]
  simp only [set_iface, List.set_set, List.append_assoc, List.singleton_append]
  rfl

theorem installs_pref_only_refl (po : proto_ospf) : installs_pref_only po po :=
  fun _ ifa1 hk _ hn => Or.inr ⟨ifa1, hk, hn⟩

theorem installs_pref_only_add {po x : proto_ospf} (a : ip_addr) (l rid my p i : Nat)
    (h : installs_pref_only po x) (hl : l = LSA_AC_ASP_D_PREFIX_LENGTH) :
    installs_pref_only po ( configure_ifa_add_prefix a l rid my p x i) := by
  intro k ifa1 hk n hn
  cases hx : x.iface_list[i]? with
  | none =>
    simp only [ configure_ifa_add_prefix, hx] at hk
    exact h k ifa1 hk n hn
  | some ifx =>
    rw [add_prefix_getElem? a l rid my p x i k ifx hx] at hk
    split at hk
    · rename_i hik
      subst hik
      simp only [Option.some.injEq] at hk
      subst hk
      rcases List.mem_append.1 hn with hn | hn
      · exact h i ifx hx n hn
      · rw [List.mem_singleton.1 hn]
        exact Or.inl hl
    · exact h k ifa1 hk n hn

theorem installs_pref_only_delete {po x : proto_ospf} (oa : Nat) (p : prefix_node → Bool)
    (h : installs_pref_only po x) : installs_pref_only po (delete_where oa p x) := by
  intro k ifa1 hk n hn
  rw [delete_where_getElem?] at hk
  cases hx : x.iface_list[k]? with
  | none => rw [hx] at hk; cases hk
  | some ifx =>
    rw [hx] at hk
    simp only [Option.map_some', Option.some.injEq] at hk
    subst hk
    split at hn
    · exact h k ifx hx n (List.mem_filter.1 hn).1
    · exact h k ifx hx n hn

/-- C17. Fallback guard. For an interface of priority PA_PRIORITY_MAX, steps
5.3.6e/f and 5.3.6g leave every allocation state as it is, and when step 5.3.6
returns, every record of the state it leaves was on the same interface before
or has length L_pref. -/
theorem fallback_guard (md5 : Digest) (fuel : Nat) (db : List ac_lsa) (po : proto_ospf) (i : Nat)
    (ifa : ospf_iface) (usp : Prefix) (change : Bool) (out : proto_ospf × Bool)
    (hp : ifa.pa_priority = PA_PRIORITY_MAX)
    (h : step6 md5 fuel db po i ifa usp change = .ok out) :
    (∀ (u : used_acc) (st : alloc_state),
      step6f md5 fuel i ifa usp u st = .ok st ∧ step6g md5 fuel db i ifa u st = .ok st)
    ∧ installs_pref_only po out.1 := by
  have hskip : ∀ (u : used_acc) (st : alloc_state),
      step6f md5 fuel i ifa usp u st = .ok st ∧ step6g md5 fuel db i ifa u st = .ok st := by
    intro u st
    unfold step6f step6g try_reuse
    simp [hp]
  refine ⟨hskip, ?_⟩
  unfold step6 at h
  simp only [try_reuse] at h
  cases h1 : try_assign_unused md5 fuel i ifa usp (find_used db po i ifa usp none).used
      LSA_AC_ASP_D_PREFIX_LENGTH none ⟨po, false, change⟩ with
  | error e => rw [h1] at h; cases h
  | ok st =>
    rw [h1] at h
    simp only [(hskip _ _).1, (hskip _ _).2, Except.ok.injEq] at h
    rw [← h]
    have hst : installs_pref_only po st.po := by
      unfold try_assign_unused at h1
      cases hc : choose_prefix md5 fuel usp LSA_AC_ASP_D_PREFIX_LENGTH
          (find_used db po i ifa usp none).used po.router_id ifa.name with
      | error e =>
        have h1b : ( choose_prefix md5 fuel usp LSA_AC_ASP_D_PREFIX_LENGTH
          (find_used db po i ifa usp none).used po.router_id ifa.name >>= _) = Except.ok st := h1
        rw [hc] at h1b
        cases h1b
      | ok r =>
        have h1b : ( choose_prefix md5 fuel usp LSA_AC_ASP_D_PREFIX_LENGTH
          (find_used db po i ifa usp none).used po.router_id ifa.name >>= _) = Except.ok st := h1
        rw [hc] at h1b
        simp only [bind, Except.bind] at h1b
        cases hr : r.1 with
        | PXCHOOSE_FAILURE =>
          rw [hr] at h1b
          cases h1b
          exact installs_pref_only_refl po
        | PXCHOOSE_SUCCESS =>
          rw [hr] at h1b
          simp only [Except.ok.injEq] at h1b
          rw [← h1b]
          have hcl : r.2.len = LSA_AC_ASP_D_PREFIX_LENGTH :=
            @choose_prefix_len md5 fuel usp _ _ po.router_id ifa.name r.1 r.2 hc
          exact installs_pref_only_add _ _ _ _ _ _ (installs_pref_only_refl po) hcl
    show installs_pref_only po (step6d db i ifa (find_used db po i ifa usp none) st).po
    unfold step6d
    split
    · rename_i hsteal
      simp only [Bool.and_eq_true] at hsteal
      obtain ⟨e, _, hs⟩ := (find_used_sound db po i ifa usp none).2.1 hsteal.2
      unfold try_steal
      simp only
      split
      · exact installs_pref_only_add _ _ _ _ _ _ (installs_pref_only_delete _ _ hst)
          (by rw [hs])
      · exact hst
    · exact hst

/-- Witness for C14: the solo router takes 2001:db8::/64 from 2001:db8::/60. -/
theorem allocate_first_success_witness :
    (⟨⟨0x20010db8, 0, 0, 0⟩, 64⟩ : Prefix).len = LSA_AC_ASP_D_PREFIX_LENGTH
    ∧ ospf_pxassign_usp_ifa ex_md5 4 ex_db_solo ex_po_solo 0 ex_usp = .ok (ex_out_solo, true) :=
  allocate_first_success ex_md5 4 ex_db_solo ex_po_solo 0 ex_usp ⟨"eth0", 0, 1, [], []⟩
    ⟨⟨0x20010db8, 0, 0, 0⟩, 64⟩ rfl (by decide) (by decide) (by decide)

/-- Witness for C16: the record 2001:db8:0:1:1::/80 is replaced by 2001:db8::/64. -/
theorem upgrade_succeeds_witness :
    (⟨⟨0x20010db8, 0, 0, 0⟩, 64⟩ : Prefix).len = LSA_AC_ASP_D_PREFIX_LENGTH
    ∧ ospf_pxassign_usp_ifa ex_md5 4 ex_db_solo ex_po_fallback 0 ex_usp = .ok (ex_out_upgrade, true) :=
  upgrade_succeeds ex_md5 4 ex_db_solo ex_po_fallback 0 ex_usp
    ⟨"eth0", 0, 1, [⟨⟨⟨0x20010db8, 1, 0x00010000, 0⟩, 80⟩, 10, 10, 1, false⟩], []⟩ 0
    ⟨⟨⟨0x20010db8, 1, 0x00010000, 0⟩, 80⟩, 10, 10, 1, false⟩
    ⟨⟨0x20010db8, 0, 0, 0⟩, 64⟩ rfl (by decide) (by decide) (by decide) rfl rfl (by decide)
    (by decide) (by decide)

/-- Witness for C17: the only /64 of the usable prefix is taken with the same
priority; an interface of priority 255 gets nothing, although a split candidate
was found. -/
theorem fallback_guard_witness :
    step6 ex_md5 4 ex_db_full ex_po_max 0 ⟨"eth0", 0, 255, [], []⟩ ex_u64 false
      = .ok (ex_po_max, false)
    ∧ (∀ (u : used_acc) (st : alloc_state),
        step6f ex_md5 4 0 ⟨"eth0", 0, 255, [], []⟩ ex_u64 u st = .ok st
        ∧ step6g ex_md5 4 ex_db_full 0 ⟨"eth0", 0, 255, [], []⟩ u st = .ok st)
    ∧ installs_pref_only ex_po_max ex_po_max :=
  ⟨by decide, fallback_guard ex_md5 4 ex_db_full ex_po_max 0 ⟨"eth0", 0, 255, [], []⟩ ex_u64 false
    (ex_po_max, false) rfl (by decide)⟩

/-! ## try_split in the fallback scenario -/

/-- C15, evaluation at the failing input. In the scenario of the /62 with four
/64s of ours on four interfaces of priority 1, the steps before the split find
nothing for the fifth interface (the /64 and the /80 chooser both fail), and
try_split then removes 2001:db8::/64 from eth0 and installs that same /64, not
a /80 inside it, on eth4. -/
theorem split_installs_parent :
    choose_prefix ex_md5 20 ex_u62 LSA_AC_ASP_D_PREFIX_LENGTH
        (find_used ex_db_62 ex_po_five 4 ⟨"eth4", 0, 1, [], []⟩ ex_u62 none).used 10 "eth4"
      = .ok (.PXCHOOSE_FAILURE, ⟨⟨0x20010db8, 1, 0, 0⟩, 64⟩)
    ∧ choose_prefix ex_md5 20 ex_u62 LSA_AC_ASP_SUB_PREFIX_LENGTH
        (find_used ex_db_62 ex_po_five 4 ⟨"eth4", 0, 1, [], []⟩ ex_u62 none).used 10 "eth4"
      = .ok (.PXCHOOSE_FAILURE, ⟨⟨0x20010db8, 1, 0, 0⟩, 80⟩)
    ∧ (find_used ex_db_62 ex_po_five 4 ⟨"eth4", 0, 1, [], []⟩ ex_u62 none).split
      = ⟨⟨0x20010db8, 0, 0, 0⟩, 64⟩
    ∧ ospf_pxassign_usp_ifa ex_md5 20 ex_db_62 ex_po_five 4 ex_u62 = .ok (ex_out_five, true) := by
  decide

/-! ## The sweep -/

theorem mark_invalid_all (oa : Nat) (po : proto_ospf) (k : Nat) (ifa : ospf_iface)
    (hk : (mark_invalid oa po).iface_list[k]? = some ifa) (ho : ifa.oa = oa) :
    ∀ n ∈ ifa.asp_list, n.valid = false := by
  intro n hn
  simp only [mark_invalid, List.getElem?_map] at hk
  cases hq : po.iface_list[k]? with
  | none => rw [hq] at hk; cases hk
  | some ifa0 =>
    rw [hq] at hk
    simp only [Option.map_some', Option.some.injEq] at hk
    subst hk
    split at hn
    · obtain ⟨m, _, hm⟩ := List.mem_map.1 hn
      rw [← hm]
    · rename_i hne
      split at ho
      · rename_i he; exact absurd he hne
      · exact absurd ho hne

/-- C18. Sweep. A completed run of ospf_pxassign_area is the walk over the
(usable prefix, interface) pairs, started with every record of the area
invalid, followed by the sweep: on every interface of the area the records
left are those the walk left valid, in order, so every remaining record is
valid; the other interfaces are as the walk left them; the kernel calls of the
sweep are the deletes of the removed records; and schedule_ac_lsa is called
exactly when a call of the walk reported a change or a removed record has our
router id. -/
theorem sweep_removes_invalid (md5 : Digest) (fuel : Nat) (db : List ac_lsa) (po : proto_ospf)
    (oa : Nat) (out : proto_ospf × Bool) (h : ospf_pxassign_area md5 fuel db po oa = .ok out) :
    ∃ s : proto_ospf × Bool,
      walk_usps md5 fuel db oa (lsdb_usps db) (mark_invalid oa po, false) = .ok s
      ∧ (∀ (k : Nat) (ifa : ospf_iface), (mark_invalid oa po).iface_list[k]? = some ifa →
          ifa.oa = oa → ∀ n ∈ ifa.asp_list, n.valid = false)
      ∧ (∀ k : Nat, out.1.iface_list[k]? = (s.1.iface_list[k]?).map (fun ifa =>
          if ifa.oa = oa then { ifa with asp_list := ifa.asp_list.filter (fun n => n.valid) }
          else ifa))
      ∧ (∀ (k : Nat) (ifa : ospf_iface), out.1.iface_list[k]? = some ifa → ifa.oa = oa →
          ∀ n ∈ ifa.asp_list, n.valid = true)
      ∧ out.1.klog = s.1.klog ++ s.1.iface_list.flatMap (fun ifa =>
          if ifa.oa = oa then
            (ifa.asp_list.filter (fun n => !n.valid)).map
              (fun n => kcall.del ifa.name n.px.addr n.px.len n.my_rid)
          else [])
      ∧ (out.2 = true ↔ s.2 = true ∨
          ∃ (k : Nat) (ifa : ospf_iface), s.1.iface_list[k]? = some ifa ∧ ifa.oa = oa ∧
            ∃ n ∈ ifa.asp_list, n.valid = false ∧ n.rid = s.1.router_id) := by
  unfold ospf_pxassign_area at h
  cases hw : walk_usps md5 fuel db oa (lsdb_usps db) (mark_invalid oa po, false) with
  | error e => rw [hw] at h; cases h
  | ok s =>
    rw [hw] at h
    simp only [bind, Except.bind, Except.ok.injEq] at h
    subst h
    refine ⟨s, rfl, mark_invalid_all oa po, ?_, sweep_valid oa s, rfl, ?_⟩
    · intro k
      show (delete_where oa (fun n => !n.valid) s.1).iface_list[k]? = _
      rw [delete_where_getElem?]
      simp only [Bool.not_not]
    · show (s.2 || area_any oa (fun _ n => !n.valid && decide (n.rid = s.1.router_id)) s.1) = true ↔ _
      rw [Bool.or_eq_true, area_any_iff]
      simp only [Bool.and_eq_true, Bool.not_eq_true', decide_eq_true_eq]

/-- Witness for C18: the record of router 20 that nobody advertises is swept,
ours is kept, and no re-origination is requested. -/
theorem sweep_removes_invalid_witness :
    ospf_pxassign_area ex_md5 4 ex_db_solo ex_po_stale 0 = .ok (ex_out_stale, false)
    ∧ walk_usps ex_md5 4 ex_db_solo 0 (lsdb_usps ex_db_solo) (mark_invalid 0 ex_po_stale, false)
        = .ok (ex_mid_stale, false)
    ∧ ∃ s : proto_ospf × Bool,
      walk_usps ex_md5 4 ex_db_solo 0 (lsdb_usps ex_db_solo) (mark_invalid 0 ex_po_stale, false) = .ok s
      ∧ (∀ (k : Nat) (ifa : ospf_iface), (mark_invalid 0 ex_po_stale).iface_list[k]? = some ifa →
          ifa.oa = 0 → ∀ n ∈ ifa.asp_list, n.valid = false)
      ∧ (∀ k : Nat, ex_out_stale.iface_list[k]? = (s.1.iface_list[k]?).map (fun ifa =>
          if ifa.oa = 0 then { ifa with asp_list := ifa.asp_list.filter (fun n => n.valid) }
          else ifa))
      ∧ (∀ (k : Nat) (ifa : ospf_iface), ex_out_stale.iface_list[k]? = some ifa → ifa.oa = 0 →
          ∀ n ∈ ifa.asp_list, n.valid = true)
      ∧ ex_out_stale.klog = s.1.klog ++ s.1.iface_list.flatMap (fun ifa =>
          if ifa.oa = 0 then
            (ifa.asp_list.filter (fun n => !n.valid)).map
              (fun n => kcall.del ifa.name n.px.addr n.px.len n.my_rid)
          else [])
      ∧ (false = true ↔ s.2 = true ∨
          ∃ (k : Nat) (ifa : ospf_iface), s.1.iface_list[k]? = some ifa ∧ ifa.oa = 0 ∧
            ∃ n ∈ ifa.asp_list, n.valid = false ∧ n.rid = s.1.router_id) :=
  ⟨by decide, by decide,
    sweep_removes_invalid ex_md5 4 ex_db_solo ex_po_stale 0 (ex_out_stale, false) (by decide)⟩

/-! ## The solo router -/

theorem lsdb_used_no_asp (db : List ac_lsa) (rid : Nat) (usp : Prefix)
    (h : ∀ en ∈ db, ∀ iasp ∈ en.iasps, iasp.asps = []) : lsdb_used db rid usp = [] := by
  unfold lsdb_used
  rw [List.flatMap_eq_nil_iff]
  intro en hen
  rw [List.flatMap_eq_nil_iff]
  intro iasp hi
  rw [h en (List.mem_filter.1 hen).1 iasp hi]
  rfl

/-- C19. Solo router. With 2001:db8::/60 the only usable prefix advertised and no
ASP in the LSDB, one run on a router whose only interface has priority 1, no
neighbors and no record completes, for every digest, router id, interface name
and fuel: it leaves exactly one record on the interface, the first random
candidate of length 64, which lies inside 2001:db8::/60 and has rid and my_rid
ours; the only kernel call is its add; and schedule_ac_lsa is requested. -/
theorem solo_router (md5 : Digest) (fuel : Nat) (db : List ac_lsa) (rid oa : Nat) (name : String)
    (husp : lsdb_usps db = [ex_usp])
    (hasp : ∀ en ∈ db, ∀ iasp ∈ en.iasps, iasp.asps = []) :
    ospf_pxassign_area md5 fuel db ⟨rid, [⟨name, oa, 1, [], []⟩], []⟩ oa
      = .ok (⟨rid, [⟨name, oa, 1,
                [⟨⟨ random_prefix md5 ex_usp 64 rid name 0, 64⟩, rid, rid, 1, true⟩], []⟩],
              [kcall.add name ( random_prefix md5 ex_usp 64 rid name 0) 64 rid]⟩, true)
    ∧ contains ex_usp ⟨ random_prefix md5 ex_usp 64 rid name 0, 64⟩ = true := by
  refine ⟨?_, random_prefix_inside md5 ex_usp 64 rid name 0 (by decide)⟩
  have hnest : (lsdb_usps db).any (fun usp2 => strictly_inside ex_usp usp2) = false := by
    rw [husp]; decide
  have hres : resolve db rid (refresh_iface db ⟨name, oa, 1, [], []⟩) ex_usp
      = ⟨true, 1, true, false, 0, ⟨IPA_NONE, 0⟩, false, none⟩ := by
    simp [resolve, refresh_iface, link_pa_priority, peer_assignment, assignment_find]
  have hused : (find_used db ⟨rid, [⟨name, oa, 1, [], []⟩], []⟩ 0 ⟨name, oa, 1, [], []⟩ ex_usp
      none).used = [] := by
    simp [find_used, lsdb_used_no_asp db rid ex_usp hasp, own_used]
  have hch : choose_prefix md5 fuel ex_usp LSA_AC_ASP_D_PREFIX_LENGTH
      (find_used db ⟨rid, [⟨name, oa, 1, [], []⟩], []⟩ 0 ⟨name, oa, 1, [], []⟩ ex_usp none).used
      rid name = .ok (.PXCHOOSE_SUCCESS, ⟨ random_prefix md5 ex_usp 64 rid name 0, 64⟩) := by
    rw [hused]
    rfl
  have hcall := usp_ifa_allocate md5 fuel db ⟨rid, [⟨name, oa, 1, [], []⟩], []⟩ 0 ex_usp
    ⟨name, oa, 1, [], []⟩ ⟨ random_prefix md5 ex_usp 64 rid name 0, 64⟩ rfl hnest
    (by rw [hres]; rfl) hch
  have hm : mark_invalid oa ⟨rid, [⟨name, oa, 1, [], []⟩], []⟩
      = ⟨rid, [⟨name, oa, 1, [], []⟩], []⟩ := by
    simp [mark_invalid]
  have hwi : walk_ifaces md5 fuel db oa ex_usp [0] (⟨rid, [⟨name, oa, 1, [], []⟩], []⟩, false)
      = .ok (⟨rid, [⟨name, oa, 1,
                [⟨⟨ random_prefix md5 ex_usp 64 rid name 0, 64⟩, rid, rid, 1, true⟩], []⟩],
              [kcall.add name ( random_prefix md5 ex_usp 64 rid name 0) 64 rid]⟩, true) := by
    rw [walk_ifaces]
    simp only [List.getElem?_cons_zero, if_true]
    rw [hcall]
    rfl
  unfold ospf_pxassign_area
  rw [husp, hm, walk_usps]
  have hr : List.range (([⟨name, oa, 1, [], []⟩] : List ospf_iface).length) = [0] := rfl
  simp only [hr, hwi, bind, Except.bind, walk_usps]
  simp [sweep, delete_where, area_any, del_calls]

/-- Witness for C19: the digest `ex_md5`, router 10, interface eth0. -/
theorem solo_router_witness :
    ospf_pxassign_area ex_md5 4 ex_db_solo ex_po_solo 0 = .ok (ex_out_solo, true)
    ∧ contains ex_usp ⟨⟨0x20010db8, 0, 0, 0⟩, 64⟩ = true :=
  solo_router ex_md5 4 ex_db_solo 10 0 "eth0" rfl (by decide)

/-! ## next_prefix and its blocker -/

theorem word_index_unit_aux : ∀ len < 129, 1 ≤ len →
    word_index len < 4 ∧ 32 * word_index len < len ∧ len ≤ 32 * word_index len + 32
    ∧ word_unit len = 2 ^ (32 * word_index len + 32 - len) := by
  decide

theorem word_index_unit {len : Nat} (h1 : 1 ≤ len) (h2 : len ≤ 128) :
    word_index len < 4 ∧ 32 * word_index len < len ∧ len ≤ 32 * word_index len + 32
    ∧ word_unit len = 2 ^ (32 * word_index len + 32 - len) :=
  word_index_unit_aux len (by omega) h1

theorem get_word (a : ip_addr) {i : Nat} (h : i < 4) : a.get i = .ok (a.word i) := by
  rcases i with _ | _ | _ | _ | i
  · rfl
  · rfl
  · rfl
  · rfl
  · omega

theorem word_set (a : ip_addr) {i : Nat} (h : i < 4) (v j : Nat) :
    (a.set i v).word j = if j = i then v else a.word j := by
  rcases i with _ | _ | _ | _ | i
  · rcases j with _ | _ | _ | _ | j <;> simp [ip_addr.set, ip_addr.word]
  · rcases j with _ | _ | _ | _ | j <;> simp [ip_addr.set, ip_addr.word]
  · rcases j with _ | _ | _ | _ | j <;> simp [ip_addr.set, ip_addr.word]
  · rcases j with _ | _ | _ | _ | j <;> simp [ip_addr.set, ip_addr.word]
  · omega

theorem agree_word {a b : ip_addr} {l : Nat} (h : agree a b l) {i : Nat} (hi : i < 4) :
    (a.word i ^^^ b.word i) &&& u32_mkmask (min (l - 32 * i) 32) = 0 := by
  rw [agree_iff] at h
  rcases i with _ | _ | _ | _ | i
  · exact h.1
  · exact h.2.1
  · exact h.2.2.1
  · exact h.2.2.2
  · omega

theorem masked_word {a : ip_addr} {l : Nat} (h : ipa_and a (ipa_mkmask l) = a) {i : Nat}
    (hi : i < 4) : a.word i &&& u32_mkmask (min (l - 32 * i) 32) = a.word i := by
  have h0 := congrArg (fun x => x.a0) h
  have h1 := congrArg (fun x => x.a1) h
  have h2 := congrArg (fun x => x.a2) h
  have h3 := congrArg (fun x => x.a3) h
  simp only [ipa_and, ipa_mkmask] at h0 h1 h2 h3
  rcases i with _ | _ | _ | _ | i
  · exact h0
  · exact h1
  · exact h2
  · exact h3
  · omega

theorem and_mask_word (a : ip_addr) (l : Nat) {i : Nat} (hi : i < 4) :
    (ipa_and a (ipa_mkmask l)).word i = a.word i &&& u32_mkmask (min (l - 32 * i) 32) := by
  rcases i with _ | _ | _ | _ | i
  · rfl
  · rfl
  · rfl
  · rfl
  · omega

theorem masked_bit {w m : Nat} (hw : w &&& u32_mkmask m = w) (j : Nat)
    (h : ¬ (32 - m ≤ j ∧ j - (32 - m) < m)) : w.testBit j = false := by
  have e := congrArg (fun v => v.testBit j) hw
  simp only [Nat.testBit_and, u32_mkmask_testBit] at e
  rw [← e]
  by_cases h1 : 32 - m ≤ j
  · have h2 : ¬ j - (32 - m) < m := fun x => h ⟨h1, x⟩
    simp [h2]
  · simp [h1]

theorem masked_lt {w m : Nat} (hm : m ≤ 32) (hw : w &&& u32_mkmask m = w) : w < 2 ^ 32 := by
  apply Nat.lt_pow_two_of_testBit
  intro j hj
  exact masked_bit hw j (by omega)

/-- Two different 32-bit words whose bits below the mask are zero differ
inside the mask. -/
theorem word_differs {w v m : Nat} (hm : m ≤ 32) (hw : w &&& u32_mkmask m = w)
    (hv : ∀ j, j < 32 - m → v.testBit j = false) (hlt : v < 2 ^ 32) (hne : v ≠ w) :
    (v ^^^ w) &&& u32_mkmask m ≠ 0 := by
  intro h
  apply hne
  rw [and_mask_zero_iff] at h
  apply Nat.eq_of_testBit_eq
  intro j
  by_cases h1 : 32 - m ≤ j
  · by_cases h2 : j - (32 - m) < m
    · have := h j h1 h2
      rw [Nat.testBit_xor] at this
      revert this
      cases v.testBit j <;> cases w.testBit j <;> simp
    · rw [masked_bit hw j (fun x => h2 x.2)]
      apply Nat.testBit_lt_two_pow
      calc v < 2 ^ 32 := hlt
        _ ≤ 2 ^ j := Nat.pow_le_pow_right (by norm_num) (by omega)
  · rw [masked_bit hw j (fun x => h1 x.1)]
    exact hv j (by omega)

theorem add_unit_low {w m : Nat} (hw : w &&& u32_mkmask m = w) (j : Nat) (hj : j < 32 - m) :
    (w + 2 ^ (32 - m)).testBit j = false := by
  rw [Nat.add_comm, Nat.testBit_two_pow_add_gt hj]
  exact masked_bit hw j (by omega)

theorem and_mask_xor (x y m : Nat) : ((x &&& m) ^^^ y) &&& m = (x ^^^ y) &&& m := by
  apply Nat.eq_of_testBit_eq
  intro j
  simp only [Nat.testBit_and, Nat.testBit_xor]
  cases x.testBit j <;> cases y.testBit j <;> cases m.testBit j <;> simp

theorem not_agree_of_word {a b : ip_addr} {l i : Nat} (hi : i < 4)
    (h : (a.word i ^^^ b.word i) &&& u32_mkmask (min (l - 32 * i) 32) ≠ 0) : ¬ agree a b l :=
  fun hg => h (agree_word hg hi)

theorem carry_a_words : ∀ (k : Nat) (a r : ip_addr), k ≤ 4 → carry_a a k = .ok r →
    ∀ j, k ≤ j → r.word j = a.word j := by
  intro k
  induction k with
  | zero => intro a r _ h; simp [carry_a] at h
  | succ k ih =>
    intro a r hk h j hj
    rw [carry_a, get_word a (by omega : k < 4)] at h
    simp only [bind, Except.bind] at h
    split at h
    · cases h
      rw [word_set a (by omega : k < 4)]
      rw [if_neg (by omega)]
    · rw [ih _ r (by omega) h j (by omega), word_set a (by omega : k < 4)]
      rw [if_neg (by omega)]

theorem carry_b_words (b : ip_addr) (blen : Nat) : ∀ (k : Nat) (a r : ip_addr), k ≤ 4 →
    carry_b a b blen k = .ok r →
    ∀ j, k ≤ j → j < 4 → r.word j = a.word j &&& u32_mkmask (min (blen - 32 * j) 32) := by
  intro k
  induction k with
  | zero => intro a r _ h; simp [carry_b] at h
  | succ k ih =>
    intro a r hk h j hj hj4
    rw [carry_b, get_word b (by omega : k < 4)] at h
    simp only [bind, Except.bind] at h
    split at h
    · cases h
      rw [and_mask_word _ _ hj4, word_set a (by omega : k < 4)]
      rw [if_neg (by omega)]
    · rw [ih _ r (by omega) h j (by omega) hj4, word_set a (by omega : k < 4)]
      rw [if_neg (by omega)]

theorem unit_bounds {len i : Nat} (h1 : 32 * i < len) (h2 : len ≤ 32 * i + 32) :
    32 * i + 32 - len = 32 - (len - 32 * i) ∧ min (len - 32 * i) 32 = len - 32 * i
    ∧ len - 32 * i ≤ 32 ∧ 0 < 2 ^ (32 - (len - 32 * i))
    ∧ 2 ^ (32 - (len - 32 * i)) ≤ 2147483648 := by
  refine ⟨by omega, by omega, by omega, Nat.two_pow_pos _, ?_⟩
  calc 2 ^ (32 - (len - 32 * i)) ≤ 2 ^ 31 := Nat.pow_le_pow_right (by norm_num) (by omega)
    _ = 2147483648 := by norm_num

theorem ok_bind {α β : Type} (x : α) (f : α → Except Fault β) :
    (Except.ok x >>= f) = f x := rfl

/-- When `pxa` is the shorter prefix, the address next_prefix leaves differs
from the old one inside the first `pxa.len` bits. -/
theorem next_covering_differs {pxa pxb : Prefix} {r : ip_addr} (hlt : pxa.len < pxb.len)
    (h1 : 1 ≤ pxa.len) (h2 : pxa.len ≤ 128)
    (hm : ipa_and pxa.addr (ipa_mkmask pxa.len) = pxa.addr)
    (h : next_prefix_addr pxa pxb = .ok r) : ¬ agree r pxa.addr pxa.len := by
  obtain ⟨hi, hlo, hhi, hu⟩ := word_index_unit h1 h2
  have hw := masked_word hm hi
  apply not_agree_of_word hi
  unfold next_prefix_addr at h
  rw [if_pos hlt] at h
  generalize word_index pxa.len = i at h hi hlo hhi hu hw ⊢
  generalize word_unit pxa.len = u at h hu
  dsimp only at h
  obtain ⟨e1, e2, hm32, hpos, hle⟩ := unit_bounds hlo hhi
  rw [e2] at hw ⊢
  rw [e1] at hu
  have hwlt := masked_lt hm32 hw
  rw [get_word _ hi] at h
  rw [ok_bind] at h
  split at h
  · rename_i hadd
    simp only [Except.ok.injEq] at h
    have hlt2 : pxa.addr.word i + u < 2 ^ 32 := Nat.lt_trans hadd (by norm_num)
    rw [← h, word_set _ hi, if_pos rfl, Nat.mod_eq_of_lt hlt2, hu]
    rw [hu] at hlt2
    exact word_differs hm32 hw (fun j hj => add_unit_low hw j hj) hlt2 (by omega)
  · rename_i hadd
    rw [carry_a_words _ _ r (by omega) h _ (Nat.le_refl _), word_set _ hi, if_pos rfl]
    exact word_differs hm32 hw (fun j _ => Nat.zero_testBit j) (by norm_num) (by omega)

/-- When `pxb` is not the longer prefix, the address next_prefix leaves differs
from that of `pxb` inside the first `pxb.len` bits. -/
theorem next_covered_differs {pxa pxb : Prefix} {r : ip_addr} (hlt : ¬ pxa.len < pxb.len)
    (h1 : 1 ≤ pxb.len) (h2 : pxb.len ≤ 128)
    (hm : ipa_and pxb.addr (ipa_mkmask pxb.len) = pxb.addr)
    (h : next_prefix_addr pxa pxb = .ok r) : ¬ agree r pxb.addr pxb.len := by
  obtain ⟨hi, hlo, hhi, hu⟩ := word_index_unit h1 h2
  have hw := masked_word hm hi
  apply not_agree_of_word hi
  unfold next_prefix_addr at h
  rw [if_neg hlt] at h
  generalize word_index pxb.len = i at h hi hlo hhi hu hw ⊢
  generalize word_unit pxb.len = u at h hu
  dsimp only at h
  obtain ⟨e1, e2, hm32, hpos, hle⟩ := unit_bounds hlo hhi
  rw [e2] at hw ⊢
  rw [e1] at hu
  have hwlt := masked_lt hm32 hw
  rw [get_word _ hi] at h
  rw [ok_bind] at h
  split at h
  · rename_i hadd
    simp only [Except.ok.injEq] at h
    have hlt2 : pxb.addr.word i + u < 2 ^ 32 := Nat.lt_trans hadd (by norm_num)
    rw [← h, and_mask_word _ _ hi, e2, word_set _ hi, if_pos rfl, Nat.mod_eq_of_lt hlt2,
      and_mask_xor, hu]
    rw [hu] at hlt2
    exact word_differs hm32 hw (fun j hj => add_unit_low hw j hj) hlt2 (by omega)
  · rename_i hadd
    rw [carry_b_words _ _ _ _ r (by omega) h _ (Nat.le_refl _) hi, e2, word_set _ hi, if_pos rfl,
      Nat.zero_and]
    exact word_differs hm32 hw (fun j _ => Nat.zero_testBit j) (by norm_num) (by omega)

/-- C20. next_prefix avoids the blocker. For prefixes `pxa` and `pxb` with
lengths in 1..128, addresses masked to their lengths, that overlap each other:
when next_prefix returns (it never stores IPA_NONE: where the source would, the
index has wrapped and the read is outside the array), the prefix it leaves in
`pxa` has the length of `pxa` and does not overlap `pxb`. -/
theorem next_prefix_avoids (pxa pxb r : Prefix)
    (ha : 1 ≤ pxa.len ∧ pxa.len ≤ 128) (hb : 1 ≤ pxb.len ∧ pxb.len ≤ 128)
    (hma : ipa_and pxa.addr (ipa_mkmask pxa.len) = pxa.addr)
    (hmb : ipa_and pxb.addr (ipa_mkmask pxb.len) = pxb.addr)
    (hov : overlaps pxa pxb = true)
    (h : next_prefix pxa pxb = .ok r) :
    r.len = pxa.len ∧ overlaps r pxb = false := by
  refine ⟨next_prefix_len h, ?_⟩
  unfold next_prefix at h
  cases hw : next_prefix_addr pxa pxb with
  | error e => rw [hw] at h; cases h
  | ok a =>
    rw [hw] at h
    simp only [Except.ok.injEq] at h
    subst h
    simp only [overlaps, contains, Bool.or_eq_true, net_in_net_iff] at hov
    rw [Bool.eq_false_iff]
    intro hc
    simp only [overlaps, contains, Bool.or_eq_true, net_in_net_iff] at hc
    by_cases hlt : pxa.len < pxb.len
    · have hd := next_covering_differs hlt ha.1 ha.2 hma hw
      have hin : agree pxb.addr pxa.addr pxa.len := by
        rcases hov with h1 | h1
        · exact h1.2
        · omega
      rcases hc with x | x
      · exact hd (agree_trans (agree_symm x.2) hin)
      · have := x.1
        omega
    · have hd := next_covered_differs hlt hb.1 hb.2 hmb hw
      rcases hc with x | x
      · have hl : pxa.len = pxb.len := by have := x.1; omega
        apply hd
        rw [← hl]
        exact agree_symm x.2
      · exact hd x.2

/-- Witness for C20: from 2001:db8:0:1:1::/80, blocked by 2001:db8:0:1::/64,
next_prefix goes to 2001:db8:0:2::/80. -/
theorem next_prefix_avoids_witness :
    next_prefix ⟨⟨0x20010db8, 1, 0x00010000, 0⟩, 80⟩ ex_p1 = .ok ⟨⟨0x20010db8, 2, 0, 0⟩, 80⟩
    ∧ (⟨⟨0x20010db8, 2, 0, 0⟩, 80⟩ : Prefix).len = (⟨⟨0x20010db8, 1, 0x00010000, 0⟩, 80⟩ : Prefix).len
    ∧ overlaps ⟨⟨0x20010db8, 2, 0, 0⟩, 80⟩ ex_p1 = false :=
  ⟨by decide, next_prefix_avoids ⟨⟨0x20010db8, 1, 0x00010000, 0⟩, 80⟩ ex_p1 ⟨⟨0x20010db8, 2, 0, 0⟩, 80⟩
    (by decide) (by decide) (by decide) (by decide) (by decide) (by decide)⟩

/-! ## next_prefix against the reference arithmetic -/

/-- C21. The reference arithmetic fails at a word that the increment fills
up to 0xFFFFFFFF. For `p = r = 2001:db8:ffff:fffe::/64` (overlapping, masked,
no carry out of the 128 bits) the reference value is `p.addr + 2^64`, the
address 2001:db8:ffff:ffff::, while next_prefix tests `add < 0xFFFFFFFF`,
clears the word and carries: it leaves 2001:db9::. -/
theorem next_prefix_off_by_one :
    overlaps ex_fffe ex_fffe = true
    ∧ ipa_and ex_fffe.addr (ipa_mkmask ex_fffe.len) = ex_fffe.addr
    ∧ addr_val ex_fffe.addr + 2 ^ (128 - ex_fffe.len) < 2 ^ 128
    ∧ next_prefix ex_fffe ex_fffe = .ok ⟨⟨0x20010db9, 0, 0, 0⟩, 64⟩
    ∧ addr_val ex_fffe.addr + 2 ^ (128 - ex_fffe.len) = addr_val ⟨0x20010db8, 0xFFFFFFFF, 0, 0⟩
    ∧ addr_val ⟨0x20010db9, 0, 0, 0⟩ ≠ addr_val ex_fffe.addr + 2 ^ (128 - ex_fffe.len) := by
  refine ⟨by decide, by decide, ?_, by decide, ?_, ?_⟩ <;>
    norm_num [addr_val, ex_fffe]

/-- C22. Where the increment carries out of the 128 bits next_prefix does not
store IPA_NONE. For `p = r = ffff:ffff:ffff:ffff::/64` the carry clears words 1
and 0, the unsigned index wraps below 0, the loop condition `i >= 0` still
holds and the next read is `addr[0xFFFFFFFF]`, outside the array. -/
theorem next_prefix_overflow_faults :
    overlaps ex_last64 ex_last64 = true
    ∧ 2 ^ 128 ≤ addr_val ex_last64.addr + 2 ^ (128 - ex_last64.len)
    ∧ next_prefix ex_last64 ex_last64 = .error .undefined_access
    ∧ next_prefix ex_last64 ex_last64 ≠ .ok ⟨IPA_NONE, 64⟩ := by
  refine ⟨by decide, ?_, by decide, by decide⟩
  norm_num [addr_val, ex_last64]

/-! ## next_prefix moves upwards -/

theorem val_lt_of_word {a b : ip_addr} {k : Nat} (hk : k < 4)
    (heq : ∀ j, j < k → b.word j = a.word j) (hlt : a.word k < b.word k)
    (ha : ∀ j, j < 4 → a.word j < 2 ^ 32) : addr_val a < addr_val b := by
  have a1 := ha 1 (by omega)
  have a2 := ha 2 (by omega)
  have a3 := ha 3 (by omega)
  simp only [ip_addr.word] at a1 a2 a3
  norm_num at a1 a2 a3
  rcases k with _ | _ | _ | _ | k
  · simp only [ip_addr.word] at hlt
    simp only [addr_val]
    norm_num
    omega
  · have e0 := heq 0 (by omega)
    simp only [ip_addr.word] at hlt e0
    simp only [addr_val]
    norm_num
    omega
  · have e0 := heq 0 (by omega)
    have e1 := heq 1 (by omega)
    simp only [ip_addr.word] at hlt e0 e1
    simp only [addr_val]
    norm_num
    omega
  · have e0 := heq 0 (by omega)
    have e1 := heq 1 (by omega)
    have e2 := heq 2 (by omega)
    simp only [ip_addr.word] at hlt e0 e1 e2
    simp only [addr_val]
    norm_num
    omega
  · omega

theorem less_of_word {a b : ip_addr} {k : Nat} (hk : k < 4)
    (heq : ∀ j, j < k → b.word j = a.word j) (hlt : a.word k < b.word k) :
    ipa_less a b = true := by
  rcases k with _ | _ | _ | _ | k
  · simp only [ip_addr.word] at hlt
    simp [ipa_less, hlt]
  · have e0 := heq 0 (by omega)
    simp only [ip_addr.word] at hlt e0
    simp [ipa_less, hlt, e0]
  · have e0 := heq 0 (by omega)
    have e1 := heq 1 (by omega)
    simp only [ip_addr.word] at hlt e0 e1
    simp [ipa_less, hlt, e0, e1]
  · have e0 := heq 0 (by omega)
    have e1 := heq 1 (by omega)
    have e2 := heq 2 (by omega)
    simp only [ip_addr.word] at hlt e0 e1 e2
    simp [ipa_less, hlt, e0, e1, e2]
  · omega

theorem mkmask_full : u32_mkmask 32 = 2 ^ 32 - 1 := by
  simp [u32_mkmask]

theorem and_full {x : Nat} (h : x < 2 ^ 32) : x &&& u32_mkmask 32 = x := by
  rw [mkmask_full, Nat.and_pow_two_sub_one_eq_mod, Nat.mod_eq_of_lt h]

theorem masked_of_low {v m : Nat} (hv : v < 2 ^ 32)
    (hlow : ∀ j, j < 32 - m → v.testBit j = false) : v &&& u32_mkmask m = v := by
  apply Nat.eq_of_testBit_eq
  intro j
  rw [Nat.testBit_and, u32_mkmask_testBit]
  by_cases h1 : 32 - m ≤ j
  · by_cases h2 : j - (32 - m) < m
    · simp [h1, h2]
    · have : v.testBit j = false := by
        apply Nat.testBit_lt_two_pow
        calc v < 2 ^ 32 := hv
          _ ≤ 2 ^ j := Nat.pow_le_pow_right (by norm_num) (by omega)
      simp [this]
  · rw [hlow j (by omega)]
    simp

/-- A word that agrees with `w` on the top `m` bits is below `w` plus one
unit of the last of these bits. -/
theorem agree_lt {x w m : Nat} (hm : m ≤ 32) (hx : x < 2 ^ 32) (hw : w < 2 ^ 32)
    (h : (x ^^^ w) &&& u32_mkmask m = 0) : x < w + 2 ^ (32 - m) := by
  rw [and_mask_zero_iff] at h
  have hd : x / 2 ^ (32 - m) = w / 2 ^ (32 - m) := by
    apply Nat.eq_of_testBit_eq
    intro j
    rw [← Nat.shiftRight_eq_div_pow, ← Nat.shiftRight_eq_div_pow, Nat.testBit_shiftRight,
      Nat.testBit_shiftRight]
    by_cases hj : j < m
    · have := h (32 - m + j) (by omega) (by omega)
      rw [Nat.testBit_xor] at this
      revert this
      cases x.testBit (32 - m + j) <;> cases w.testBit (32 - m + j) <;> simp
    · rw [Nat.testBit_lt_two_pow, Nat.testBit_lt_two_pow]
      · calc w < 2 ^ 32 := hw
          _ ≤ 2 ^ (32 - m + j) := Nat.pow_le_pow_right (by norm_num) (by omega)
      · calc x < 2 ^ 32 := hx
          _ ≤ 2 ^ (32 - m + j) := Nat.pow_le_pow_right (by norm_num) (by omega)
  have hp : 0 < 2 ^ (32 - m) := Nat.two_pow_pos _
  have h1 := Nat.lt_mul_div_succ x hp
  have h2 := Nat.mul_div_le w (2 ^ (32 - m))
  rw [hd, Nat.mul_add, Nat.mul_one] at h1
  omega

theorem agree_full_eq {x w : Nat} (hx : x < 2 ^ 32) (hw : w < 2 ^ 32)
    (h : (x ^^^ w) &&& u32_mkmask 32 = 0) : x = w := by
  have h1 := agree_lt (Nat.le_refl 32) hx hw h
  have h2 := agree_lt (Nat.le_refl 32) hw hx (by rw [Nat.xor_comm]; exact h)
  simp only [Nat.sub_self, pow_zero] at h1 h2
  omega

theorem carry_a_incr : ∀ (k : Nat) (a r : ip_addr), k ≤ 4 → carry_a a k = .ok r →
    ∃ j, j < k ∧ (∀ j2, j2 < j → r.word j2 = a.word j2) ∧ a.word j < r.word j := by
  intro k
  induction k with
  | zero => intro a r _ h; simp [carry_a] at h
  | succ k ih =>
    intro a r hk h
    rw [carry_a, get_word a (by omega : k < 4)] at h
    rw [ok_bind] at h
    dsimp only at h
    split at h
    · rename_i hadd
      simp only [Except.ok.injEq] at h
      have hlt2 : a.word k + 1 < 2 ^ 32 := Nat.lt_trans hadd (by norm_num)
      refine ⟨k, by omega, ?_, ?_⟩
      · intro j2 hj2
        rw [← h, word_set a (by omega : k < 4), if_neg (by omega)]
      · rw [← h, word_set a (by omega : k < 4), if_pos rfl, Nat.mod_eq_of_lt hlt2]
        omega
    · obtain ⟨j, hj, he, hl⟩ := ih _ r (by omega) h
      refine ⟨j, by omega, ?_, ?_⟩
      · intro j2 hj2
        rw [he j2 hj2, word_set a (by omega : k < 4), if_neg (by omega)]
      · rw [word_set a (by omega : k < 4), if_neg (by omega)] at hl
        exact hl

theorem carry_b_incr (b : ip_addr) (blen : Nat) : ∀ (k : Nat) (a r : ip_addr), k ≤ 4 →
    32 * k ≤ blen → carry_b a b blen k = .ok r →
    ∃ j, j < k ∧ (∀ j2, j2 < j → r.word j2 = a.word j2 &&& u32_mkmask 32)
      ∧ r.word j = b.word j + 1 := by
  intro k
  induction k with
  | zero => intro a r _ _ h; simp [carry_b] at h
  | succ k ih =>
    intro a r hk hb h
    rw [carry_b, get_word b (by omega : k < 4)] at h
    rw [ok_bind] at h
    dsimp only at h
    split at h
    · rename_i hadd
      simp only [Except.ok.injEq] at h
      have hlt2 : b.word k + 1 < 2 ^ 32 := Nat.lt_trans hadd (by norm_num)
      refine ⟨k, by omega, ?_, ?_⟩
      · intro j2 hj2
        rw [← h, and_mask_word _ _ (by omega : j2 < 4), word_set a (by omega : k < 4),
          if_neg (by omega), (by omega : min (blen - 32 * j2) 32 = 32)]
      · rw [← h, and_mask_word _ _ (by omega : k < 4), word_set a (by omega : k < 4), if_pos rfl,
          Nat.mod_eq_of_lt hlt2, (by omega : min (blen - 32 * k) 32 = 32), and_full hlt2]
    · obtain ⟨j, hj, he, hl⟩ := ih _ r (by omega) (by omega) h
      refine ⟨j, by omega, ?_, hl⟩
      intro j2 hj2
      rw [he j2 hj2, word_set a (by omega : k < 4), if_neg (by omega)]

theorem masked_words_lt {a : ip_addr} {l : Nat} (h : ipa_and a (ipa_mkmask l) = a) :
    ∀ j, j < 4 → a.word j < 2 ^ 32 :=
  fun _ hj => masked_lt (Nat.min_le_right _ _) (masked_word h hj)


theorem next_covering_incr {pxa pxb : Prefix} {r : ip_addr} (hlt : pxa.len < pxb.len)
    (h1 : 1 ≤ pxa.len) (h2 : pxa.len ≤ 128)
    (hm : ipa_and pxa.addr (ipa_mkmask pxa.len) = pxa.addr)
    (h : next_prefix_addr pxa pxb = .ok r) :
    ∃ k, k < 4 ∧ (∀ j, j < k → r.word j = pxa.addr.word j) ∧ pxa.addr.word k < r.word k := by
  obtain ⟨hi, hlo, hhi, hu⟩ := word_index_unit h1 h2
  have hws := masked_words_lt hm
  unfold next_prefix_addr at h
  rw [if_pos hlt] at h
  generalize word_index pxa.len = i at h hi hlo hhi hu
  generalize word_unit pxa.len = u at h hu
  dsimp only at h
  obtain ⟨e1, e2, hm32, hpos, hle⟩ := unit_bounds hlo hhi
  rw [e1] at hu
  rw [get_word _ hi] at h
  rw [ok_bind] at h
  split at h
  · rename_i hadd
    simp only [Except.ok.injEq] at h
    have hlt2 : pxa.addr.word i + u < 2 ^ 32 := Nat.lt_trans hadd (by norm_num)
    refine ⟨i, hi, ?_, ?_⟩
    · intro j hj
      rw [← h, word_set _ hi, if_neg (by omega)]
    · rw [← h, word_set _ hi, if_pos rfl, Nat.mod_eq_of_lt hlt2]
      omega
  · obtain ⟨j, hj, he, hl⟩ := carry_a_incr _ _ r (by omega) h
    rw [word_set _ hi, if_neg (by omega)] at hl
    refine ⟨j, by omega, ?_, hl⟩
    intro j2 hj2
    rw [he j2 hj2, word_set _ hi, if_neg (by omega)]

theorem next_covered_incr {pxa pxb : Prefix} {r : ip_addr} (hlt : ¬ pxa.len < pxb.len)
    (h1 : 1 ≤ pxb.len) (h2 : pxb.len ≤ 128)
    (hma : ipa_and pxa.addr (ipa_mkmask pxa.len) = pxa.addr)
    (hmb : ipa_and pxb.addr (ipa_mkmask pxb.len) = pxb.addr)
    (hag : agree pxa.addr pxb.addr pxb.len)
    (h : next_prefix_addr pxa pxb = .ok r) :
    ∃ k, k < 4 ∧ (∀ j, j < k → r.word j = pxa.addr.word j) ∧ pxa.addr.word k < r.word k := by
  obtain ⟨hi, hlo, hhi, hu⟩ := word_index_unit h1 h2
  have hws := masked_words_lt hma
  have hwb := masked_words_lt hmb
  have hw := masked_word hmb hi
  have hgi := agree_word hag hi
  unfold next_prefix_addr at h
  rw [if_neg hlt] at h
  generalize word_index pxb.len = i at h hi hlo hhi hu hw hgi
  generalize word_unit pxb.len = u at h hu
  dsimp only at h
  obtain ⟨e1, e2, hm32, hpos, hle⟩ := unit_bounds hlo hhi
  rw [e2] at hw hgi
  rw [e1] at hu
  rw [get_word _ hi] at h
  rw [ok_bind] at h
  split at h
  · rename_i hadd
    simp only [Except.ok.injEq] at h
    have hlt2 : pxb.addr.word i + u < 2 ^ 32 := Nat.lt_trans hadd (by norm_num)
    refine ⟨i, hi, ?_, ?_⟩
    · intro j hj
      rw [← h, and_mask_word _ _ (by omega : j < 4), word_set _ hi, if_neg (by omega),
        (by omega : min (pxb.len - 32 * j) 32 = 32), and_full (hws j (by omega))]
    · rw [← h, and_mask_word _ _ hi, e2, word_set _ hi, if_pos rfl, Nat.mod_eq_of_lt hlt2]
      rw [hu] at hlt2 ⊢
      rw [masked_of_low hlt2 (fun j hj => add_unit_low hw j hj)]
      exact agree_lt hm32 (hws i hi) (hwb i hi) hgi
  · obtain ⟨j, hj, he, hl⟩ := carry_b_incr _ _ _ _ r (by omega) (by omega) h
    have hgj := agree_word hag (by omega : j < 4)
    rw [(by omega : min (pxb.len - 32 * j) 32 = 32)] at hgj
    have hej := agree_full_eq (hws j (by omega)) (hwb j (by omega)) hgj
    refine ⟨j, by omega, ?_, ?_⟩
    · intro j2 hj2
      rw [he j2 hj2, word_set _ hi, if_neg (by omega), and_full (hws j2 (by omega))]
    · rw [hl, hej]
      omega

/-- C23. next_prefix is strictly increasing. For prefixes `pxa` and `pxb`
with lengths in 1..128, addresses masked to their lengths, that overlap each
other: when next_prefix returns (it never leaves the empty result IPA_NONE),
the address it leaves in `pxa`, read as a 128-bit unsigned integer, is
strictly greater than the old address of `pxa`. -/
theorem next_prefix_increases (pxa pxb r : Prefix)
    (ha : 1 ≤ pxa.len ∧ pxa.len ≤ 128) (hb : 1 ≤ pxb.len ∧ pxb.len ≤ 128)
    (hma : ipa_and pxa.addr (ipa_mkmask pxa.len) = pxa.addr)
    (hmb : ipa_and pxb.addr (ipa_mkmask pxb.len) = pxb.addr)
    (hov : overlaps pxa pxb = true)
    (h : next_prefix pxa pxb = .ok r) :
    addr_val pxa.addr < addr_val r.addr ∧ ipa_less pxa.addr r.addr = true := by
  unfold next_prefix at h
  cases hw : next_prefix_addr pxa pxb with
  | error e => rw [hw] at h; cases h
  | ok a =>
    rw [hw] at h
    simp only [Except.ok.injEq] at h
    subst h
    simp only [overlaps, contains, Bool.or_eq_true, net_in_net_iff] at hov
    have key : ∃ k, k < 4 ∧ (∀ j, j < k → a.word j = pxa.addr.word j)
        ∧ pxa.addr.word k < a.word k := by
      by_cases hlt : pxa.len < pxb.len
      · exact next_covering_incr hlt ha.1 ha.2 hma hw
      · apply next_covered_incr hlt hb.1 hb.2 hma hmb _ hw
        rcases hov with h1 | h1
        · have hl : pxa.len = pxb.len := by have := h1.1; omega
          rw [← hl]
          exact agree_symm h1.2
        · exact h1.2
    obtain ⟨k, hk, he, hl⟩ := key
    exact ⟨val_lt_of_word hk he hl (masked_words_lt hma), less_of_word hk he hl⟩

/-- Witness for C23: from 2001:db8:0:1:1::/80, blocked by 2001:db8:0:1::/64,
next_prefix goes up to 2001:db8:0:2::/80. -/
theorem next_prefix_increases_witness :
    next_prefix ⟨⟨0x20010db8, 1, 0x00010000, 0⟩, 80⟩ ex_p1 = .ok ⟨⟨0x20010db8, 2, 0, 0⟩, 80⟩
    ∧ addr_val ⟨0x20010db8, 1, 0x00010000, 0⟩ < addr_val ⟨0x20010db8, 2, 0, 0⟩
    ∧ ipa_less ⟨0x20010db8, 1, 0x00010000, 0⟩ ⟨0x20010db8, 2, 0, 0⟩ = true :=
  ⟨by decide, next_prefix_increases ⟨⟨0x20010db8, 1, 0x00010000, 0⟩, 80⟩ ex_p1 ⟨⟨0x20010db8, 2, 0, 0⟩, 80⟩
    (by decide) (by decide) (by decide) (by decide) (by decide) (by decide)⟩

/-! ## The own-collision scan of step 5.3.4 -/

theorem own_collision_iff (rid prio : Nat) (self_r : Prefix) (i : Nat) :
    ∀ (l : List ospf_iface) (k0 : Nat),
    own_collision rid prio self_r i k0 l = true ↔
      ∃ k ifa2, l[k]? = some ifa2 ∧ ∃ n ∈ ifa2.asp_list, n.rid = rid ∧
        own_collides prio self_r ifa2 (decide (k0 + k = i)) n = true
  | [], k0 => by simp [own_collision]
  | a :: t, k0 => by
    rw [own_collision, Bool.or_eq_true, own_collision_iff rid prio self_r i t (k0 + 1)]
    constructor
    · rintro (h | ⟨k, ifa2, hk, n, hn, hr, hc⟩)
      · simp only [List.any_eq_true, Bool.and_eq_true, decide_eq_true_eq] at h
        obtain ⟨n, hn, hr, hc⟩ := h
        exact ⟨0, a, List.getElem?_cons_zero, n, hn, hr, hc⟩
      · refine ⟨k + 1, ifa2, by rw [List.getElem?_cons_succ]; exact hk, n, hn, hr, ?_⟩
        rw [← hc]
        congr 2
        apply propext
        omega
    · rintro ⟨k, ifa2, hk, n, hn, hr, hc⟩
      rcases k with _ | k
      · left
        simp only [List.getElem?_cons_zero, Option.some.injEq] at hk
        subst hk
        simp only [List.any_eq_true, Bool.and_eq_true, decide_eq_true_eq]
        exact ⟨n, hn, hr, hc⟩
      · right
        simp only [List.getElem?_cons_succ] at hk
        refine ⟨k, ifa2, hk, n, hn, hr, ?_⟩
        rw [← hc]
        congr 2
        apply propext
        omega

theorem own_collides_iff (prio : Nat) (self_r : Prefix) (ifa2 : ospf_iface) (same : Bool)
    (n : prefix_node) :
    own_collides prio self_r ifa2 same n = true ↔
      (ifa2.pa_priority = prio ∧ n.px = self_r ∧ same = false)
      ∨ (ifa2.pa_priority = prio ∧ strictly_inside n.px self_r = true)
      ∨ (ifa2.pa_priority > prio ∧ overlaps n.px self_r = true) := by
  unfold own_collides
  rw [Bool.or_eq_true, Bool.or_eq_true]
  constructor
  · rintro ((h | h) | h)
    · left
      simp only [Bool.and_eq_true, decide_eq_true_eq, Bool.not_eq_true'] at h
      exact ⟨h.1.1.1, (prefix_eq_iff n.px self_r).1 (by simp [h.1.2.1, h.1.2.2]), h.2⟩
    · right; left
      simp only [Bool.and_eq_true, decide_eq_true_eq] at h
      refine ⟨h.1.1, ?_⟩
      unfold strictly_inside
      rw [Bool.and_eq_true]
      exact ⟨h.1.2, h.2⟩
    · right; right
      simp only [Bool.and_eq_true, decide_eq_true_eq, Bool.or_eq_true] at h
      refine ⟨h.1, ?_⟩
      simp only [overlaps, contains, Bool.or_eq_true]
      exact h.2.symm
  · rintro (⟨h1, h2, h3⟩ | ⟨h1, h2⟩ | ⟨h1, h2⟩)
    · left; left
      have he := (prefix_eq_iff n.px self_r).2 h2
      rw [Bool.and_eq_true] at he
      simp only [Bool.and_eq_true, decide_eq_true_eq, Bool.not_eq_true']
      refine ⟨⟨⟨h1, ?_⟩, he.1, of_decide_eq_true he.2⟩, h3⟩
      rw [h2]
      exact net_in_net_self _ (Nat.le_refl _)
    · left; right
      unfold strictly_inside at h2
      rw [Bool.and_eq_true] at h2
      simp only [Bool.and_eq_true, decide_eq_true_eq]
      exact ⟨⟨h1, h2.1⟩, h2.2⟩
    · right
      simp only [overlaps, contains, Bool.or_eq_true] at h2
      simp only [Bool.and_eq_true, decide_eq_true_eq, Bool.or_eq_true]
      exact ⟨h1, h2.symm⟩

/-- C25. An own collision in step 5.3.4 is fatal. When the function reaches
step 5.3.4 with our record `self_r` at position `j` and the LSDB scan has not
deassigned it: if a record `n` with rid = our router id on a local interface
`ifa2` (at position `k`) collides with `self_r`, that is (1) `ifa2` has the
priority of the interface and `n` has the prefix of `self_r` on another
interface, or (2) `ifa2` has the priority of the interface and `n` lies strictly
inside `self_r`, or (3) `ifa2` has a greater priority and `n` overlaps
`self_r`, then the function ends in `die` and does not return; the scan fires
for no other reason; and a record with the prefix of `self_r` on the interface
itself, such as `self_r`, never makes it fire. -/
theorem own_collision_fatal (md5 : Digest) (fuel : Nat) (db : List ac_lsa) (po : proto_ospf)
    (i : Nat) (usp : Prefix) (ifa0 : ospf_iface) (j : Nat) (self_r : prefix_node)
    (hifa : po.iface_list[i]? = some ifa0)
    (hnest : (lsdb_usps db).any (fun usp2 => strictly_inside usp usp2) = false)
    (hguard : guard_step4 (resolve db po.router_id (refresh_iface db ifa0) usp) = true)
    (hself : (resolve db po.router_id (refresh_iface db ifa0) usp).self_r_px = some j)
    (hj : ifa0.asp_list[j]? = some self_r)
    (hl : lsdb_collision db po.router_id ifa0.pa_priority self_r.px = false) :
    (own_collision po.router_id ifa0.pa_priority self_r.px i 0 po.iface_list = true ↔
      ∃ k ifa2, po.iface_list[k]? = some ifa2 ∧ ∃ n ∈ ifa2.asp_list, n.rid = po.router_id ∧
        ((ifa2.pa_priority = ifa0.pa_priority ∧ n.px = self_r.px ∧ k ≠ i)
        ∨ (ifa2.pa_priority = ifa0.pa_priority ∧ strictly_inside n.px self_r.px = true)
        ∨ (ifa2.pa_priority > ifa0.pa_priority ∧ overlaps n.px self_r.px = true)))
    ∧ (own_collision po.router_id ifa0.pa_priority self_r.px i 0 po.iface_list = true →
        ospf_pxassign_usp_ifa md5 fuel db po i usp = .error .die)
    ∧ (∀ n : prefix_node, n.px = self_r.px →
        own_collides ifa0.pa_priority self_r.px ifa0 true n = false) := by
  refine ⟨?_, ?_, ?_⟩
  · rw [own_collision_iff]
    constructor
    · rintro ⟨k, ifa2, hk, n, hn, hr, hc⟩
      refine ⟨k, ifa2, hk, n, hn, hr, ?_⟩
      rw [own_collides_iff] at hc
      rcases hc with ⟨h1, h2, h3⟩ | h | h
      · left
        refine ⟨h1, h2, ?_⟩
        simpa using h3
      · right; left; exact h
      · right; right; exact h
    · rintro ⟨k, ifa2, hk, n, hn, hr, hc⟩
      refine ⟨k, ifa2, hk, n, hn, hr, ?_⟩
      rw [own_collides_iff]
      rcases hc with ⟨h1, h2, h3⟩ | h | h
      · left
        refine ⟨h1, h2, ?_⟩
        simpa using h3
      · right; left; exact h
      · right; right; exact h
  · intro ho
    have he : early_exit (resolve db po.router_id (refresh_iface db ifa0) usp) = false := by
      revert hguard
      unfold early_exit guard_step4
      cases (resolve db po.router_id (refresh_iface db ifa0) usp).have_highest_link_pa_priority
        <;> cases (resolve db po.router_id (refresh_iface db ifa0) usp).have_assignment_resp <;> simp
    have hj1 : (refresh_iface db ifa0).asp_list[j]? = some self_r := hj
    unfold ospf_pxassign_usp_ifa
    simp only [hifa, hnest, Bool.false_eq_true, if_false]
    have hrid : (set_iface po i (refresh_iface db ifa0)).router_id = po.router_id := rfl
    rw [hrid, he]
    simp only [Bool.false_eq_true, if_false]
    have hs4 : run_step4 md5 fuel db (set_iface po i (refresh_iface db ifa0)) i (refresh_iface db ifa0)
        usp (resolve db po.router_id (refresh_iface db ifa0) usp) = .error .die := by
      unfold run_step4
      rw [hguard, hself]
      simp only [Option.some_bind, hj1, Option.map_some']
      unfold step4
      have e3 : (refresh_iface db ifa0).pa_priority = ifa0.pa_priority := rfl
      have e4 : (set_iface po i (refresh_iface db ifa0)).iface_list
          = po.iface_list.set i (refresh_iface db ifa0) := rfl
      rw [hrid, e3, e4, own_collision_set_refresh db _ _ _ _ ifa0 po.iface_list 0 i hifa, hl, ho]
      simp only [Bool.false_eq_true, if_false, if_true]
    rw [hs4]
    rfl
  · intro n hn
    rw [Bool.eq_false_iff]
    intro hc
    rw [own_collides_iff] at hc
    rcases hc with ⟨_, _, h3⟩ | ⟨_, h⟩ | ⟨h, _⟩
    · cases h3
    · rw [hn, strictly_inside_iff] at h
      rcases h.2 with h2 | h2 <;> exact h2 rfl
    · omega

/-- Witness for C25: our record 2001:db8:0:1::/64 is on eth0 and on eth1, both
of priority 1; the function called for eth0 ends in die. -/
theorem own_collision_fatal_witness :
    ospf_pxassign_usp_ifa ex_md5 4 ex_db_solo ex_po_dup 0 ex_usp = .error .die :=
  (own_collision_fatal ex_md5 4 ex_db_solo ex_po_dup 0 ex_usp
    ⟨"eth0", 0, 1, [⟨ex_p1, 10, 10, 1, true⟩], []⟩ 0 ⟨ex_p1, 10, 10, 1, true⟩
    rfl (by decide) (by decide) (by decide) rfl (by decide)).2.1 (by decide)

/-! ## The bits of random_prefix -/

theorem random_word (md5 : Digest) (usp : Prefix) (len rid : Nat) (ifname : String) (i : Nat)
    {k : Nat} (hk : k < 4) :
    ( random_prefix md5 usp len rid ifname i).word k =
      (((md5 ifname rid i).word k &&& u32_mkmask (min (len - 32 * k) 32))
        &&& (0xFFFFFFFF ^^^ u32_mkmask (min (usp.len - 32 * k) 32))) ||| usp.addr.word k := by
  rcases k with _ | _ | _ | _ | k
  · rfl
  · rfl
  · rfl
  · rfl
  · omega

theorem random_word_testBit (d u ml mu j : Nat) :
    ((((d &&& u32_mkmask ml) &&& (0xFFFFFFFF ^^^ u32_mkmask mu)) ||| u).testBit j) =
      ((d.testBit j && (decide (32 - ml ≤ j) && decide (j - (32 - ml) < ml))
        && (decide (j < 32) != (decide (32 - mu ≤ j) && decide (j - (32 - mu) < mu))))
        || u.testBit j) := by
  rw [Nat.testBit_or, Nat.testBit_and, Nat.testBit_and, Nat.testBit_xor, u32_mkmask_testBit,
    u32_mkmask_testBit, full_word_testBit]

/-- The statement of C24 for one bit position. -/
theorem random_bit (md5 : Digest) (usp : Prefix) (len rid : Nat) (ifname : String) (i : Nat)
    (hm : ipa_and usp.addr (ipa_mkmask usp.len) = usp.addr) (n : Nat)
    (hn : n < 128) :
    ( random_prefix md5 usp len rid ifname i).bit n =
      if n < usp.len then usp.addr.bit n
      else if n < len then (md5 ifname rid i).bit n else false := by
  have hk : n / 32 < 4 := by omega
  have hu := masked_word hm hk
  unfold ip_addr.bit
  rw [random_word md5 usp len rid ifname i hk, random_word_testBit]
  by_cases c1 : n < usp.len
  · rw [if_pos c1]
    have e1 : decide (32 - min (usp.len - 32 * (n / 32)) 32 ≤ 31 - n % 32) = true := by
      rw [decide_eq_true_eq]; omega
    have e2 : decide (31 - n % 32 - (32 - min (usp.len - 32 * (n / 32)) 32)
        < min (usp.len - 32 * (n / 32)) 32) = true := by
      rw [decide_eq_true_eq]; omega
    have e3 : decide (31 - n % 32 < 32) = true := by
      rw [decide_eq_true_eq]; omega
    rw [e1, e2, e3]
    simp
  · rw [if_neg c1]
    have hz : (usp.addr.word (n / 32)).testBit (31 - n % 32) = false :=
      masked_bit hu _ (by omega)
    have e1 : decide (32 - min (usp.len - 32 * (n / 32)) 32 ≤ 31 - n % 32) = false := by
      rw [decide_eq_false_iff_not]; omega
    have e3 : decide (31 - n % 32 < 32) = true := by
      rw [decide_eq_true_eq]; omega
    rw [hz, e1, e3]
    by_cases c2 : n < len
    · rw [if_pos c2]
      have e4 : decide (32 - min (len - 32 * (n / 32)) 32 ≤ 31 - n % 32) = true := by
        rw [decide_eq_true_eq]; omega
      have e5 : decide (31 - n % 32 - (32 - min (len - 32 * (n / 32)) 32)
          < min (len - 32 * (n / 32)) 32) = true := by
        rw [decide_eq_true_eq]; omega
      rw [e4, e5]
      simp
    · rw [if_neg c2]
      have e4 : decide (32 - min (len - 32 * (n / 32)) 32 ≤ 31 - n % 32) = false := by
        rw [decide_eq_false_iff_not]; omega
      rw [e4]
      simp

theorem random_word_masked (d u ml mu : Nat) (hml : mu ≤ ml) (h32 : ml ≤ 32)
    (hu : u &&& u32_mkmask mu = u) :
    (((d &&& u32_mkmask ml) &&& (0xFFFFFFFF ^^^ u32_mkmask mu)) ||| u) &&& u32_mkmask ml
      = (((d &&& u32_mkmask ml) &&& (0xFFFFFFFF ^^^ u32_mkmask mu)) ||| u) := by
  apply Nat.eq_of_testBit_eq
  intro j
  rw [Nat.testBit_and, random_word_testBit, u32_mkmask_testBit]
  by_cases c : 32 - ml ≤ j ∧ j - (32 - ml) < ml
  · simp [c.1, c.2]
  · have hz : u.testBit j = false := masked_bit hu j (by omega)
    rw [hz]
    by_cases c1 : 32 - ml ≤ j
    · have c2 : ¬ j - (32 - ml) < ml := fun x => c ⟨c1, x⟩
      simp [c2]
    · simp [c1]

/-- C24. random_prefix stays inside the usable prefix. For `usp` with an
address masked to `usp.len`, a length `len` with `usp.len ≤ len ≤ 128` and any
digest (so any interface name, router id and iteration number), the address
random_prefix yields has the bits of `usp` in the first `usp.len` positions,
the bits of the digest in the positions from `usp.len` to `len`, and zeros from
position `len` on; it is masked to `len`, and with the length `len` it is a
prefix contained in `usp`. -/
theorem random_prefix_bits (md5 : Digest) (usp : Prefix) (len rid : Nat) (ifname : String)
    (i : Nat) (hm : ipa_and usp.addr (ipa_mkmask usp.len) = usp.addr)
    (h1 : usp.len ≤ len) (h2 : len ≤ 128) :
    (∀ n, n < usp.len → ( random_prefix md5 usp len rid ifname i).bit n = usp.addr.bit n)
    ∧ (∀ n, usp.len ≤ n → n < len →
        ( random_prefix md5 usp len rid ifname i).bit n = (md5 ifname rid i).bit n)
    ∧ (∀ n, len ≤ n → n < 128 → ( random_prefix md5 usp len rid ifname i).bit n = false)
    ∧ ipa_and ( random_prefix md5 usp len rid ifname i) (ipa_mkmask len)
        = random_prefix md5 usp len rid ifname i
    ∧ contains usp ⟨ random_prefix md5 usp len rid ifname i, len⟩ = true := by
  refine ⟨?_, ?_, ?_, ?_, random_prefix_inside md5 usp len rid ifname i h1⟩
  · intro n hn
    rw [random_bit md5 usp len rid ifname i hm n (by omega), if_pos hn]
  · intro n hn1 hn2
    rw [random_bit md5 usp len rid ifname i hm n (by omega), if_neg (by omega), if_pos hn2]
  · intro n hn1 hn2
    rw [random_bit md5 usp len rid ifname i hm n hn2, if_neg (by omega), if_neg (by omega)]
  · have h0 := random_word_masked ((md5 ifname rid i).word 0) (usp.addr.word 0)
      (min (len - 32 * 0) 32) (min (usp.len - 32 * 0) 32) (by omega) (by omega)
      (masked_word hm (by omega))
    have h1 := random_word_masked ((md5 ifname rid i).word 1) (usp.addr.word 1)
      (min (len - 32 * 1) 32) (min (usp.len - 32 * 1) 32) (by omega) (by omega)
      (masked_word hm (by omega))
    have h2 := random_word_masked ((md5 ifname rid i).word 2) (usp.addr.word 2)
      (min (len - 32 * 2) 32) (min (usp.len - 32 * 2) 32) (by omega) (by omega)
      (masked_word hm (by omega))
    have h3 := random_word_masked ((md5 ifname rid i).word 3) (usp.addr.word 3)
      (min (len - 32 * 3) 32) (min (usp.len - 32 * 3) 32) (by omega) (by omega)
      (masked_word hm (by omega))
    simp only [ip_addr.word, Nat.mul_zero, Nat.sub_zero, Nat.mul_one] at h0 h1 h2 h3
    simp only [ random_prefix, ipa_or, ipa_and, ipa_not, ipa_mkmask]
    rw [ip_addr.mk.injEq]
    exact ⟨h0, h1, h2, h3⟩

/-- Witness for C24: the /64 drawn from 2001:db8::/60 with the digest `ex_md5`
is 2001:db8::/64. -/
theorem random_prefix_bits_witness :
    random_prefix ex_md5 ex_usp 64 10 "eth0" 0 = ⟨0x20010db8, 0, 0, 0⟩
    ∧ contains ex_usp ⟨ random_prefix ex_md5 ex_usp 64 10 "eth0" 0, 64⟩ = true :=
  ⟨by decide, (random_prefix_bits ex_md5 ex_usp 64 10 "eth0" 0 (by decide) (by decide)
    (by decide)).2.2.2.2⟩

/-! ## The router with the lower router id defers -/

theorem refresh_neighbor_fields (db : List ac_lsa) (n : ospf_neighbor) :
    (refresh_neighbor db n).rid = n.rid ∧ (refresh_neighbor db n).state = n.state
    ∧ (refresh_neighbor db n).iface_id = n.iface_id := by
  unfold refresh_neighbor
  split
  · exact refresh_fold_fields _ n
  · exact ⟨rfl, rfl, rfl⟩

theorem mem_neighbor_iasps (db : List ac_lsa) (n : ospf_neighbor) (iasp : lsa_iasp) :
    iasp ∈ neighbor_iasps db n ↔
      ∃ en ∈ db, en.rt = n.rid ∧ iasp ∈ en.iasps ∧ iasp.id = n.iface_id := by
  simp only [neighbor_iasps, List.mem_filter, List.mem_flatMap, decide_eq_true_eq]
  constructor
  · rintro ⟨⟨en, ⟨h1, h2⟩, h3⟩, h4⟩
    exact ⟨en, h1, h2, h3, h4⟩
  · rintro ⟨en, h1, h2, h3, h4⟩
    exact ⟨⟨en, ⟨h1, h2⟩, h3⟩, h4⟩

theorem peer_iasps_none (usp : Prefix) (neigh : ospf_neighbor) (l : List lsa_iasp)
    (acc : peer_acc) (hacc : acc.assignment_found = false)
    (h : ∀ iasp ∈ l, iasp.id = neigh.iface_id → ∀ a ∈ iasp.asps,
      net_in_net a.addr a.len usp.addr usp.len = false) :
    peer_iasps usp neigh l acc = acc := by
  induction l with
  | nil => rfl
  | cons x t ih =>
    have ht := ih (fun iasp hi => h iasp (List.mem_cons_of_mem _ hi))
    rw [peer_iasps]
    split
    · rename_i hid
      have hf : x.asps.find? (fun a => net_in_net a.addr a.len usp.addr usp.len) = none := by
        rw [List.find?_eq_none]
        intro a ha
        rw [h x (List.mem_cons_self _ _) hid a ha]
        simp
      rw [hf]
      simp only [hacc, Bool.false_eq_true, if_false]
      exact ht
    · exact ht

theorem peer_lsas_none (usp : Prefix) (neigh : ospf_neighbor) (l : List ac_lsa)
    (acc : peer_acc) (hacc : acc.assignment_found = false)
    (h : ∀ en ∈ l, en.rt = neigh.rid → ∀ iasp ∈ en.iasps, iasp.id = neigh.iface_id →
      ∀ a ∈ iasp.asps, net_in_net a.addr a.len usp.addr usp.len = false) :
    peer_lsas usp neigh l acc = acc := by
  induction l with
  | nil => rfl
  | cons x t ih =>
    have ht := ih (fun en hi => h en (List.mem_cons_of_mem _ hi))
    rw [peer_lsas]
    split
    · rename_i hrt
      rw [peer_iasps_none usp neigh x.iasps acc hacc (h x (List.mem_cons_self _ _) hrt)]
      simp only [hacc, Bool.false_eq_true, if_false]
      exact ht
    · exact ht

theorem peer_assignment_none (db : List ac_lsa) (usp : Prefix) (highest : Nat)
    (neighs : List ospf_neighbor)
    (h : ∀ n ∈ neighs, NEIGHBOR_INIT ≤ n.state → ∀ iasp ∈ neighbor_iasps db n,
      ∀ a ∈ iasp.asps, net_in_net a.addr a.len usp.addr usp.len = false) :
    (peer_assignment db usp highest neighs).assignment_found = false := by
  unfold peer_assignment
  have : ∀ (l : List ospf_neighbor) (acc : peer_acc), (∀ n ∈ l, n ∈ neighs) →
      acc.assignment_found = false →
      (l.foldl (fun acc neigh =>
        if neigh.pa_priority = highest ∧ neigh.rid > acc.neigh_rid ∧ NEIGHBOR_INIT ≤ neigh.state then
          peer_lsas usp neigh db acc
        else acc) acc).assignment_found = false := by
    intro l
    induction l with
    | nil => intro acc _ h; exact h
    | cons n rest ih =>
      intro acc hl hacc
      rw [List.foldl_cons]
      apply ih _ (fun m hm => hl m (List.mem_cons_of_mem _ hm))
      split
      · rename_i hc
        rw [peer_lsas_none usp n db acc hacc]
        · exact hacc
        · intro en hen hrt iasp hi hid a ha
          exact h n (hl n (List.mem_cons_self _ _)) hc.2.2 iasp
            ((mem_neighbor_iasps db n iasp).2 ⟨en, hen, hrt, hi, hid⟩) a ha
      · exact hacc
  exact this neighs _ (fun _ hn => hn) rfl

theorem assignment_find_none {rid : Nat} {ifa : ospf_iface} {usp : Prefix}
    (h : ∀ n ∈ ifa.asp_list, n.rid = rid →
      net_in_net n.px.addr n.px.len usp.addr usp.len = false) :
    assignment_find rid ifa usp = none := by
  unfold assignment_find
  simp only
  rw [if_neg]
  rw [Nat.not_lt]
  apply Nat.le_of_eq
  symm
  rw [List.findIdx_eq_length]
  intro n hn
  by_cases hr : n.rid = rid
  · rw [h n hn hr]; simp
  · simp [hr]

/-- C28. The router with the lower router id defers. If a neighbor of the
interface in state at least Init has, once refreshed by 5.3.2a, our priority
and a router id greater than ours, the interface holds no record with rid =
ours inside `usp`, and no neighbor in state at least Init advertises, in an
IASP for this link, an ASP inside `usp`, then the function returns change = 0;
the state it leaves is the old one, or the old one with the cached fields of the
neighbors of the interface refreshed: no kernel call is made and every
interface keeps its records. This holds whatever the priorities of the other
neighbors are. -/
theorem lower_rid_defers (md5 : Digest) (fuel : Nat) (db : List ac_lsa) (po : proto_ospf)
    (i : Nat) (usp : Prefix) (ifa0 : ospf_iface)
    (hifa : po.iface_list[i]? = some ifa0)
    (hn : ∃ n ∈ ifa0.neigh_list, NEIGHBOR_INIT ≤ n.state
      ∧ (refresh_neighbor db n).pa_priority = ifa0.pa_priority ∧ n.rid > po.router_id)
    (hown : ∀ n ∈ ifa0.asp_list, n.rid = po.router_id →
      net_in_net n.px.addr n.px.len usp.addr usp.len = false)
    (hpeer : ∀ n ∈ ifa0.neigh_list, NEIGHBOR_INIT ≤ n.state → ∀ iasp ∈ neighbor_iasps db n,
      ∀ a ∈ iasp.asps, net_in_net a.addr a.len usp.addr usp.len = false) :
    ∃ po1, ospf_pxassign_usp_ifa md5 fuel db po i usp = .ok (po1, false)
      ∧ (po1 = po ∨ po1 = set_iface po i (refresh_iface db ifa0))
      ∧ po1.klog = po.klog
      ∧ po1.iface_list.map (fun ifa => ifa.asp_list) = po.iface_list.map (fun ifa => ifa.asp_list) := by
  have hlist : (set_iface po i (refresh_iface db ifa0)).iface_list.map (fun ifa => ifa.asp_list)
      = po.iface_list.map (fun ifa => ifa.asp_list) := by
    apply List.ext_getElem?
    intro k
    rw [List.getElem?_map, List.getElem?_map, set_iface_getElem?]
    by_cases hk : i = k
    · subst hk
      rw [if_pos rfl, hifa, if_pos (List.getElem?_eq_some.1 hifa).1]
      rfl
    · rw [if_neg hk]
  unfold ospf_pxassign_usp_ifa
  simp only [hifa]
  split
  · exact ⟨po, rfl, Or.inl rfl, rfl, rfl⟩
  · refine ⟨set_iface po i (refresh_iface db ifa0), ?_, Or.inr rfl, rfl, hlist⟩
    have hrid : (set_iface po i (refresh_iface db ifa0)).router_id = po.router_id := rfl
    rw [hrid]
    have he : early_exit (resolve db po.router_id (refresh_iface db ifa0) usp) = true := by
      have h1 : (resolve db po.router_id (refresh_iface db ifa0) usp).have_highest_rid = false := by
        obtain ⟨n, hn1, hn2, hn3, hn4⟩ := hn
        obtain ⟨f1, f2, f3⟩ := refresh_neighbor_fields db n
        simp only [resolve, Bool.not_eq_false', List.any_eq_true, Bool.and_eq_true,
          decide_eq_true_eq]
        refine ⟨refresh_neighbor db n, ?_, ⟨?_, hn3⟩, ?_⟩
        · exact List.mem_map_of_mem _ hn1
        · rw [f2]; exact hn2
        · rw [f1]; exact hn4
      have h2 : (resolve db po.router_id (refresh_iface db ifa0) usp).assignment_found = false := by
        simp only [resolve]
        apply peer_assignment_none
        intro n hn1 hn2 iasp hi a ha
        simp only [refresh_iface, List.mem_map] at hn1
        obtain ⟨m, hm, rfl⟩ := hn1
        obtain ⟨f1, f2, f3⟩ := refresh_neighbor_fields db m
        rw [neighbor_iasps_congr db f1 f3] at hi
        rw [f2] at hn2
        exact hpeer m hm hn2 iasp hi a ha
      have h3 : (resolve db po.router_id (refresh_iface db ifa0) usp).have_assignment_resp = false := by
        have hf : assignment_find po.router_id (refresh_iface db ifa0) usp = none :=
          assignment_find_none hown
        simp only [resolve, hf, ite_self, Option.isSome_none]
      unfold early_exit
      rw [h1, h2, h3]
      simp
    rw [he]
    rfl

/-- Witness for C28: router 10 and its neighbor 20 have priority 1 on the link
and nothing is assigned; router 10 makes no change. -/
theorem lower_rid_defers_witness :
    ∃ po1, ospf_pxassign_usp_ifa ex_md5 4 ex_db_defer ex_po_defer 0 ex_usp = .ok (po1, false)
      ∧ (po1 = ex_po_defer
        ∨ po1 = set_iface ex_po_defer 0 (refresh_iface ex_db_defer ⟨"eth0", 0, 1, [], [ex_neigh]⟩))
      ∧ po1.klog = ex_po_defer.klog
      ∧ po1.iface_list.map (fun ifa => ifa.asp_list)
          = ex_po_defer.iface_list.map (fun ifa => ifa.asp_list) :=
  lower_rid_defers ex_md5 4 ex_db_defer ex_po_defer 0 ex_usp ⟨"eth0", 0, 1, [], [ex_neigh]⟩
    rfl (by decide) (by decide) (by decide)

/-! ## Step 5.3.6d: stealing a /64 -/

theorem steal_own_blocked_iff (rid oa : Nat) (steal : Prefix) (lowest i : Nat) :
    ∀ (l : List ospf_iface) (k0 : Nat),
    steal_own_blocked rid oa steal lowest i none k0 l = true ↔
      ∃ (k : Nat) (ifa2 : ospf_iface), l[k]? = some ifa2 ∧ ifa2.oa = oa ∧ ifa2.pa_priority > lowest ∧
        ∃ n ∈ ifa2.asp_list, n.rid = rid ∧ overlaps steal n.px = true
  | [], k0 => by simp [steal_own_blocked]
  | a :: t, k0 => by
    rw [steal_own_blocked, Bool.or_eq_true, steal_own_blocked_iff rid oa steal lowest i t (k0 + 1)]
    constructor
    · rintro (h | ⟨k, ifa2, hk, h⟩)
      · simp only [not_self, Bool.and_true, Bool.and_eq_true, List.any_eq_true,
          decide_eq_true_eq] at h
        obtain ⟨ho, n, hn, ⟨hr, hov⟩, hp⟩ := h
        exact ⟨0, a, List.getElem?_cons_zero, ho, hp, n, hn, hr, hov⟩
      · exact ⟨k + 1, ifa2, by rw [List.getElem?_cons_succ]; exact hk, h⟩
    · rintro ⟨k, ifa2, hk, ho, hp, n, hn, hr, hov⟩
      rcases k with _ | k
      · left
        simp only [List.getElem?_cons_zero, Option.some.injEq] at hk
        subst hk
        simp only [not_self, Bool.and_true, Bool.and_eq_true, List.any_eq_true,
          decide_eq_true_eq]
        exact ⟨ho, n, hn, ⟨hr, hov⟩, hp⟩
      · right
        simp only [List.getElem?_cons_succ] at hk
        exact ⟨k, ifa2, hk, ho, hp, n, hn, hr, hov⟩

theorem steal_contested_iff (db : List ac_lsa) (po : proto_ospf) (i : Nat) (oa : Nat)
    (steal : Prefix) (lowest : Nat) :
    (lsdb_any db po.router_id (fun iasp => decide (iasp.pa_priority > lowest))
        (fun _ _ a => overlaps steal a)
      || steal_own_blocked po.router_id oa steal lowest i none 0 po.iface_list) = true
    ↔ steal_contested db po oa steal lowest := by
  rw [Bool.or_eq_true, lsdb_any_iff, steal_own_blocked_iff]
  unfold steal_contested
  simp only [decide_eq_true_eq]

theorem try_steal_blocked (db : List ac_lsa) (i : Nat) (ifa : ospf_iface) (steal : Prefix)
    (lowest : Nat) (st : alloc_state)
    (h : steal_contested db st.po ifa.oa steal lowest) :
    try_steal db i ifa steal lowest none st = st := by
  have hb := (steal_contested_iff db st.po i ifa.oa steal lowest).2 h
  unfold try_steal
  simp only [Option.none_bind]
  rw [if_neg]
  rw [Bool.or_eq_true] at hb
  rcases hb with hb | hb
  · rw [hb]; simp
  · rw [hb]; simp

theorem try_steal_done (db : List ac_lsa) (i : Nat) (ifa : ospf_iface) (steal : Prefix)
    (lowest : Nat) (st : alloc_state)
    (h : ¬ steal_contested db st.po ifa.oa steal lowest) :
    try_steal db i ifa steal lowest none st =
      { po := configure_ifa_add_prefix steal.addr steal.len st.po.router_id st.po.router_id
          ifa.pa_priority (delete_where ifa.oa (fun n => overlaps steal n.px) st.po) i
        pxchoose_success := true
        change := true } := by
  have hb := (not_congr (steal_contested_iff db st.po i ifa.oa steal lowest)).2 h
  rw [Bool.not_eq_true, Bool.or_eq_false_iff] at hb
  unfold try_steal
  simp only [Option.none_bind]
  rw [hb.1, hb.2]
  have hv : steal_victim st.po.router_id steal none = fun n => overlaps steal n.px := by
    funext n
    simp [steal_victim]
  simp only [Bool.not_false, Bool.and_true, if_true, hv, Bool.true_or]


/-- C29. Stealing in step 5.3.6d. When the step runs (no prefix chosen so far)
with a steal candidate `u.steal` and the interface `ifa` at position `i`: the
steal is performed exactly when the candidate is not contested, that is no ASP
advertised by another router with a priority above `u.lowest_pa_priority`
overlaps it and no record of ours on an interface of the area with a priority
above `u.lowest_pa_priority` overlaps it. When contested, the state is not
touched. When performed, `change` is set; the interface holds its old records
that do not overlap the candidate followed by the record of the candidate with
rid ours, the priority of the interface and valid = 1; every other interface of
the area has lost the records that overlap the candidate and the interfaces of
other areas are untouched; so the new record is the only record of the area
that overlaps the candidate. A candidate out of find_used has length L_pref. -/
theorem steal_rule (db : List ac_lsa) (i : Nat) (ifa : ospf_iface) (u : used_acc)
    (st : alloc_state)
    (hi : st.po.iface_list[i]? = some ifa)
    (hrun : st.pxchoose_success = false) (hcand : u.found_steal = true) :
    ((step6d db i ifa u st).pxchoose_success = true
        ↔ ¬ steal_contested db st.po ifa.oa u.steal u.lowest_pa_priority)
    ∧ (steal_contested db st.po ifa.oa u.steal u.lowest_pa_priority → step6d db i ifa u st = st)
    ∧ (¬ steal_contested db st.po ifa.oa u.steal u.lowest_pa_priority →
        (step6d db i ifa u st).change = true
        ∧ (step6d db i ifa u st).po.iface_list[i]? = some { ifa with
            asp_list := ifa.asp_list.filter (fun n => !overlaps u.steal n.px) ++
              [⟨u.steal, st.po.router_id, st.po.router_id, ifa.pa_priority, true⟩] }
        ∧ (∀ (k : Nat) (ifa2 : ospf_iface), k ≠ i → st.po.iface_list[k]? = some ifa2 →
            (step6d db i ifa u st).po.iface_list[k]? = some (if ifa2.oa = ifa.oa then
              { ifa2 with asp_list := ifa2.asp_list.filter (fun n => !overlaps u.steal n.px) }
              else ifa2))
        ∧ (∀ (k : Nat) (ifa2 : ospf_iface), (step6d db i ifa u st).po.iface_list[k]? = some ifa2 →
            ifa2.oa = ifa.oa → ∀ (j : Nat) (n : prefix_node), ifa2.asp_list[j]? = some n →
            overlaps u.steal n.px = true → k = i ∧ j + 1 = ifa2.asp_list.length))
    ∧ (∀ (po0 : proto_ospf) (usp : Prefix) (self_r : Option prefix_node),
        u = find_used db po0 i ifa usp self_r → u.steal.len = LSA_AC_ASP_D_PREFIX_LENGTH) := by
  have hd : step6d db i ifa u st = try_steal db i ifa u.steal u.lowest_pa_priority none st := by
    unfold step6d
    rw [hrun, hcand]
    rfl
  have hself := delete_where_self ifa.oa (fun n => overlaps u.steal n.px) st.po i ifa hi rfl
  have hdone : ¬ steal_contested db st.po ifa.oa u.steal u.lowest_pa_priority →
      (step6d db i ifa u st).po.iface_list[i]? = some { ifa with
            asp_list := ifa.asp_list.filter (fun n => !overlaps u.steal n.px) ++
              [⟨u.steal, st.po.router_id, st.po.router_id, ifa.pa_priority, true⟩] }
      ∧ (∀ (k : Nat) (ifa2 : ospf_iface), k ≠ i → st.po.iface_list[k]? = some ifa2 →
            (step6d db i ifa u st).po.iface_list[k]? = some (if ifa2.oa = ifa.oa then
              { ifa2 with asp_list := ifa2.asp_list.filter (fun n => !overlaps u.steal n.px) }
              else ifa2)) := by
    intro hc
    rw [hd, try_steal_done db i ifa u.steal u.lowest_pa_priority st hc]
    constructor
    · show ( configure_ifa_add_prefix _ _ _ _ _ _ i).iface_list[i]? = _
      rw [add_prefix_getElem? _ _ _ _ _ _ i i _ hself, if_pos rfl]
    · intro k ifa2 hk h2
      show ( configure_ifa_add_prefix _ _ _ _ _ _ i).iface_list[k]? = _
      rw [add_prefix_getElem? _ _ _ _ _ _ i k _ hself, if_neg (fun e => hk e.symm),
        delete_where_getElem?, h2]
      rfl
  refine ⟨?_, ?_, ?_, ?_⟩
  · constructor
    · intro hp hc
      rw [hd, try_steal_blocked db i ifa u.steal u.lowest_pa_priority st hc, hrun] at hp
      cases hp
    · intro hc
      rw [hd, try_steal_done db i ifa u.steal u.lowest_pa_priority st hc]
  · intro hc
    rw [hd, try_steal_blocked db i ifa u.steal u.lowest_pa_priority st hc]
  · intro hc
    obtain ⟨h1, h2⟩ := hdone hc
    refine ⟨?_, h1, h2, ?_⟩
    · rw [hd, try_steal_done db i ifa u.steal u.lowest_pa_priority st hc]
    · intro k ifa2 hk ho j n hj hov
      by_cases hki : k = i
      · subst hki
        rw [h1] at hk
        simp only [Option.some.injEq] at hk
        subst hk
        refine ⟨rfl, ?_⟩
        simp only [List.length_append, List.length_singleton]
        simp only at hj
        by_cases hlt : j < (ifa.asp_list.filter (fun n => !overlaps u.steal n.px)).length
        · rw [List.getElem?_append_left hlt] at hj
          have hm := List.mem_iff_getElem?.2 ⟨_, hj⟩
          rw [List.mem_filter] at hm
          rw [hov] at hm
          simp at hm
        · have hlen := (List.getElem?_eq_some.1 hj).1
          simp only [List.length_append, List.length_singleton] at hlen
          omega
      · exfalso
        cases hq : st.po.iface_list[k]? with
        | none =>
          have hl1 : (step6d db i ifa u st).po.iface_list.length = st.po.iface_list.length := by
            rw [hd, try_steal_done db i ifa u.steal u.lowest_pa_priority st hc]
            show ( configure_ifa_add_prefix _ _ _ _ _ _ i).iface_list.length = _
            rw [add_prefix_eq _ _ _ _ _ _ i _ hself]
            simp [set_iface, delete_where]
          have := (List.getElem?_eq_some.1 hk).1
          rw [List.getElem?_eq_none_iff] at hq
          omega
        | some ifa3 =>
          rw [h2 k ifa3 hki hq] at hk
          simp only [Option.some.injEq] at hk
          subst hk
          by_cases ho3 : ifa3.oa = ifa.oa
          · rw [if_pos ho3] at hj
            simp only at hj
            have hm := List.mem_iff_getElem?.2 ⟨_, hj⟩
            rw [List.mem_filter] at hm
            rw [hov] at hm
            simp at hm
          · rw [if_neg ho3] at ho
            exact ho3 ho
  · intro po0 usp self_r hu
    rw [hu] at hcand
    obtain ⟨e, _, hs⟩ := (find_used_sound db po0 i ifa usp self_r).2.1 hcand
    rw [hu, hs]

/-- Witness for C29: eth0 of priority 5 steals 2001:db8:0:1::/64 from eth1 of
priority 1. -/
theorem steal_rule_witness :
    step6d ex_db_solo 0 ⟨"eth0", 0, 5, [], []⟩
        (find_used ex_db_solo ex_po_steal 0 ⟨"eth0", 0, 5, [], []⟩ ex_u64 none)
        ⟨ex_po_steal, false, false⟩ = ⟨ex_out_steal, true, true⟩
    ∧ ¬ steal_contested ex_db_solo ex_po_steal 0
        (find_used ex_db_solo ex_po_steal 0 ⟨"eth0", 0, 5, [], []⟩ ex_u64 none).steal
        (find_used ex_db_solo ex_po_steal 0 ⟨"eth0", 0, 5, [], []⟩ ex_u64 none).lowest_pa_priority :=
  ⟨by decide, (steal_rule ex_db_solo 0 ⟨"eth0", 0, 5, [], []⟩
      (find_used ex_db_solo ex_po_steal 0 ⟨"eth0", 0, 5, [], []⟩ ex_u64 none)
      ⟨ex_po_steal, false, false⟩ rfl rfl (by decide)).1.1 (by decide)⟩

/-! ## try_split with a contested candidate -/

/-- When an ASP of the LSDB contests the candidate, try_split does not
return: the scan has cleared the pointer `found_split` and reads through it. -/
theorem try_split_lsdb_contested (md5 : Digest) (fuel : Nat) (db : List ac_lsa) (i : Nat)
    (ifa : ospf_iface) (split : Prefix) (length : Nat) (st : alloc_state)
    (h : ∃ en ∈ db, en.rt ≠ st.po.router_id ∧ ∃ iasp ∈ en.iasps, ∃ a ∈ iasp.asps,
      (iasp.pa_priority > ifa.pa_priority ∧ overlaps split a = true)
      ∨ (iasp.pa_priority = ifa.pa_priority ∧ strictly_inside a split = true)) :
    try_split md5 fuel db i ifa split length st = .error .undefined_access := by
  unfold try_split
  simp only
  rw [if_pos]
  rw [lsdb_any_iff]
  obtain ⟨en, hen, hrt, iasp, hi, a, ha, hc⟩ := h
  refine ⟨en, hen, hrt, iasp, hi, ?_, a, ha, ?_⟩
  · rw [decide_eq_true_eq]
    rcases hc with hc | hc <;> omega
  · rw [Bool.or_eq_true, Bool.and_eq_true, Bool.and_eq_true, decide_eq_true_eq,
      decide_eq_true_eq]
    exact hc

/-- When no ASP of the LSDB contests the candidate and a record of ours on an
interface of the area does, try_split returns and leaves the state alone. -/
theorem try_split_own_contested (md5 : Digest) (fuel : Nat) (db : List ac_lsa) (i : Nat)
    (ifa : ospf_iface) (split : Prefix) (length : Nat) (st : alloc_state)
    (hl : ¬ ∃ en ∈ db, en.rt ≠ st.po.router_id ∧ ∃ iasp ∈ en.iasps, ∃ a ∈ iasp.asps,
      (iasp.pa_priority > ifa.pa_priority ∧ overlaps split a = true)
      ∨ (iasp.pa_priority = ifa.pa_priority ∧ strictly_inside a split = true))
    (h : ∃ (k : Nat) (ifa2 : ospf_iface), st.po.iface_list[k]? = some ifa2 ∧ ifa2.oa = ifa.oa ∧
      ∃ n ∈ ifa2.asp_list, n.rid = st.po.router_id ∧
        ((ifa2.pa_priority > ifa.pa_priority ∧ overlaps split n.px = true)
        ∨ (ifa2.pa_priority = ifa.pa_priority ∧ strictly_inside n.px split = true))) :
    try_split md5 fuel db i ifa split length st = .ok st := by
  unfold try_split
  simp only
  rw [if_neg, if_pos]
  · rw [area_any_iff]
    obtain ⟨k, ifa2, hk, ho, n, hn, hr, hc⟩ := h
    refine ⟨k, ifa2, hk, ho, n, hn, ?_⟩
    rw [Bool.and_eq_true, Bool.or_eq_true, Bool.and_eq_true, Bool.and_eq_true, decide_eq_true_eq,
      decide_eq_true_eq, decide_eq_true_eq]
    exact ⟨hr, hc⟩
  · intro hc
    apply hl
    rw [lsdb_any_iff] at hc
    obtain ⟨en, hen, hrt, iasp, hi, _, a, ha, hp⟩ := hc
    refine ⟨en, hen, hrt, iasp, hi, a, ha, ?_⟩
    rw [Bool.or_eq_true, Bool.and_eq_true, Bool.and_eq_true, decide_eq_true_eq,
      decide_eq_true_eq] at hp
    exact hp

/-- C30, evaluation at the failing input. Router 10 (eth0, priority 1, no
record, no neighbor) processes the usable prefix 2001:db8:0:1::/64, all of
which router 20 has assigned with priority 1, while router 30 advertises
2001:db8:0:1:1::/80 with priority 1. Steps b to f find nothing and leave the
state alone; step g runs with the split candidate 2001:db8:0:1::/64, which the
/80 of router 30 (equal priority, strictly inside) contests; try_split does not
return normally but reads through the pointer it has cleared, and so does the
function. -/
theorem split_contested_faults :
    (find_used ex_db_contest ex_po_solo 0 ⟨"eth0", 0, 1, [], []⟩ ex_u64 none).found_split = true
    ∧ (find_used ex_db_contest ex_po_solo 0 ⟨"eth0", 0, 1, [], []⟩ ex_u64 none).split = ex_p1
    ∧ strictly_inside ⟨⟨0x20010db8, 1, 0x00010000, 0⟩, 80⟩ ex_p1 = true
    ∧ step6f ex_md5 4 0 ⟨"eth0", 0, 1, [], []⟩ ex_u64
        (find_used ex_db_contest ex_po_solo 0 ⟨"eth0", 0, 1, [], []⟩ ex_u64 none)
        ⟨ex_po_solo, false, false⟩ = .ok ⟨ex_po_solo, false, false⟩
    ∧ try_split ex_md5 4 ex_db_contest 0 ⟨"eth0", 0, 1, [], []⟩ ex_p1
        LSA_AC_ASP_SUB_PREFIX_LENGTH ⟨ex_po_solo, false, false⟩ = .error .undefined_access
    ∧ ospf_pxassign_usp_ifa ex_md5 4 ex_db_contest ex_po_solo 0 ex_u64
        = .error .undefined_access := by
  refine ⟨by decide, by decide, by decide, by decide, by decide, by decide⟩

/-! ## find_next_tlv -/

theorem tlvs_size_cons (space : Nat → Nat) (t : ospf_lsa_ac_tlv) (l : List ospf_lsa_ac_tlv) :
    tlvs_size space (t :: l) = space t.length + tlvs_size space l := by
  simp [tlvs_size]

theorem tlvs_size_append (space : Nat → Nat) (a b : List ospf_lsa_ac_tlv) :
    tlvs_size space (a ++ b) = tlvs_size space a + tlvs_size space b := by
  simp [tlvs_size]

theorem tlv_at_boundary (space : Nat → Nat) (t : ospf_lsa_ac_tlv) (post : List ospf_lsa_ac_tlv) :
    ∀ pre : List ospf_lsa_ac_tlv, (∀ x ∈ pre, 4 ≤ space x.length) →
      tlv_at space (pre ++ t :: post) (tlvs_size space pre) = some t
  | [], _ => by simp [tlv_at, tlvs_size]
  | x :: pre, h => by
    have hx := h x (List.mem_cons_self _ _)
    rw [List.cons_append, tlv_at, tlvs_size_cons, if_neg (by omega), if_pos (by omega),
      Nat.add_sub_cancel_left]
    exact tlv_at_boundary space t post pre (fun y hy => h y (List.mem_cons_of_mem _ hy))

theorem tlv_at_end (space : Nat → Nat) :
    ∀ body : List ospf_lsa_ac_tlv, (∀ x ∈ body, 4 ≤ space x.length) →
      tlv_at space body (tlvs_size space body) = none
  | [], _ => rfl
  | x :: body, h => by
    have hx := h x (List.mem_cons_self _ _)
    rw [tlv_at, tlvs_size_cons, if_neg (by omega), if_pos (by omega), Nat.add_sub_cancel_left]
    exact tlv_at_end space body (fun y hy => h y (List.mem_cons_of_mem _ hy))

theorem bound_eq {size : Nat} (h4 : 4 ≤ size) (h32 : size < 2 ^ 32) :
    (size + 2 ^ 32 - 4) % 2 ^ 32 = size - 4 := by
  omega

/-- One turn of the loop of find_next_tlv on a TLV inside the body. -/
theorem find_next_tlv_step (space : Nat → Nat) (lsa : Nat → Option ospf_lsa_ac_tlv)
    (size type fuel offset : Nat) (t : ospf_lsa_ac_tlv) (h32 : size < 2 ^ 32)
    (hin : offset + 4 ≤ size) (hread : lsa offset = some t) :
    find_next_tlv space lsa size type (fuel + 1) offset =
      if type = 0 ∨ t.type = type then .ok (some offset, offset + space t.length)
      else find_next_tlv space lsa size type fuel (offset + space t.length) := by
  have hb := bound_eq (by omega : 4 ≤ size) h32
  have ho : offset % 2 ^ 32 = offset := Nat.mod_eq_of_lt (by omega)
  rw [find_next_tlv]
  generalize (size + 2 ^ 32 - 4) % 2 ^ 32 = b at hb
  generalize offset % 2 ^ 32 = o at ho
  subst hb ho
  simp only
  rw [if_pos (by omega), hread]

/-- The loop of find_next_tlv ends at an offset past `size - 4`. -/
theorem find_next_tlv_stop (space : Nat → Nat) (lsa : Nat → Option ospf_lsa_ac_tlv)
    (size type fuel offset : Nat) (h4 : 4 ≤ size) (h32 : size < 2 ^ 32)
    (hout : size < offset + 4) (ho32 : offset < 2 ^ 32) :
    find_next_tlv space lsa size type (fuel + 1) offset = .ok (none, offset) := by
  have hb := bound_eq h4 h32
  have ho : offset % 2 ^ 32 = offset := Nat.mod_eq_of_lt ho32
  rw [find_next_tlv]
  generalize (size + 2 ^ 32 - 4) % 2 ^ 32 = b at hb
  generalize offset % 2 ^ 32 = o at ho
  subst hb ho
  simp only
  rw [if_neg (by omega)]


theorem find_next_tlv_walk (space : Nat → Nat) (type : Nat) (htype : type ≠ 0)
    (body : List ospf_lsa_ac_tlv) (hwf : ∀ x ∈ body, 4 ≤ space x.length)
    (h32 : tlvs_size space body < 2 ^ 32) (t : ospf_lsa_ac_tlv) (ht : t.type = type)
    (post : List ospf_lsa_ac_tlv) :
    ∀ (mid pre : List ospf_lsa_ac_tlv) (fuel : Nat), body = pre ++ mid ++ t :: post →
      (∀ x ∈ mid, x.type ≠ type) → mid.length < fuel →
      find_next_tlv space (tlv_at space body) (tlvs_size space body) type fuel (tlvs_size space pre)
        = .ok (some (tlvs_size space (pre ++ mid)), tlvs_size space (pre ++ mid) + space t.length)
  | [], pre, fuel, hb, _, hf => by
    obtain ⟨f, rfl⟩ : ∃ f, fuel = f + 1 := ⟨fuel - 1, by simp at hf; omega⟩
    have hpre : ∀ x ∈ pre, 4 ≤ space x.length := fun x hx => hwf x (by rw [hb]; simp [hx])
    have ht4 : 4 ≤ space t.length := hwf t (by rw [hb]; simp)
    have hsz : tlvs_size space body = tlvs_size space pre + (space t.length + tlvs_size space post) := by
      rw [hb, List.append_nil, tlvs_size_append, tlvs_size_cons]
    have hread : tlv_at space body (tlvs_size space pre) = some t := by
      rw [hb, List.append_nil]
      exact tlv_at_boundary space t post pre hpre
    rw [find_next_tlv_step space _ _ type f _ t h32 (by omega) hread, if_pos (Or.inr ht),
      List.append_nil]
  | x :: mid, pre, fuel, hb, hm, hf => by
    obtain ⟨f, rfl⟩ : ∃ f, fuel = f + 1 := ⟨fuel - 1, by simp at hf; omega⟩
    have hpre : ∀ x ∈ pre, 4 ≤ space x.length := fun x hx => hwf x (by rw [hb]; simp [hx])
    have hx4 : 4 ≤ space x.length := hwf x (by rw [hb]; simp)
    have hsz : tlvs_size space body = tlvs_size space pre +
        (space x.length + tlvs_size space (mid ++ t :: post)) := by
      rw [hb, List.append_assoc, tlvs_size_append, List.cons_append, tlvs_size_cons]
    have hread : tlv_at space body (tlvs_size space pre) = some x := by
      rw [hb, List.append_assoc, List.cons_append]
      exact tlv_at_boundary space x _ pre hpre
    have hxt : ¬ (type = 0 ∨ x.type = type) := by
      rintro (h | h)
      · exact htype h
      · exact hm x (List.mem_cons_self _ _) h
    have hb2 : body = (pre ++ [x]) ++ mid ++ t :: post := by
      rw [hb]; simp
    have ih := find_next_tlv_walk space type htype body hwf h32 t ht post mid (pre ++ [x]) f hb2
      (fun y hy => hm y (List.mem_cons_of_mem _ hy)) (by simp at hf; omega)
    have e1 : tlvs_size space (pre ++ [x]) = tlvs_size space pre + space x.length := by
      rw [tlvs_size_append, tlvs_size_cons]; simp [tlvs_size]
    have e2 : pre ++ [x] ++ mid = pre ++ x :: mid := by simp
    rw [find_next_tlv_step space _ _ type f _ x h32 (by omega) hread, if_neg hxt, ← e1, ih, e2]

theorem find_next_tlv_exhaust (space : Nat → Nat) (type : Nat) (htype : type ≠ 0)
    (body : List ospf_lsa_ac_tlv) (hwf : ∀ x ∈ body, 4 ≤ space x.length)
    (h4 : 4 ≤ tlvs_size space body) (h32 : tlvs_size space body < 2 ^ 32) :
    ∀ (rest pre : List ospf_lsa_ac_tlv) (fuel : Nat), body = pre ++ rest →
      (∀ x ∈ rest, x.type ≠ type) → rest.length < fuel →
      find_next_tlv space (tlv_at space body) (tlvs_size space body) type fuel (tlvs_size space pre)
        = .ok (none, tlvs_size space body)
  | [], pre, fuel, hb, _, hf => by
    obtain ⟨f, rfl⟩ : ∃ f, fuel = f + 1 := ⟨fuel - 1, by simp at hf; omega⟩
    have hsz : tlvs_size space body = tlvs_size space pre := by rw [hb, List.append_nil]
    rw [← hsz]
    exact find_next_tlv_stop space _ _ type f _ h4 h32 (by omega) h32
  | x :: rest, pre, fuel, hb, hm, hf => by
    obtain ⟨f, rfl⟩ : ∃ f, fuel = f + 1 := ⟨fuel - 1, by simp at hf; omega⟩
    have hpre : ∀ x ∈ pre, 4 ≤ space x.length := fun x hx => hwf x (by rw [hb]; simp [hx])
    have hx4 : 4 ≤ space x.length := hwf x (by rw [hb]; simp)
    have hsz : tlvs_size space body = tlvs_size space pre +
        (space x.length + tlvs_size space rest) := by
      rw [hb, tlvs_size_append, tlvs_size_cons]
    have hread : tlv_at space body (tlvs_size space pre) = some x := by
      rw [hb]
      exact tlv_at_boundary space x _ pre hpre
    have hxt : ¬ (type = 0 ∨ x.type = type) := by
      rintro (h | h)
      · exact htype h
      · exact hm x (List.mem_cons_self _ _) h
    have hb2 : body = (pre ++ [x]) ++ rest := by
      rw [hb]; simp
    have ih := find_next_tlv_exhaust space type htype body hwf h4 h32 rest (pre ++ [x]) f hb2
      (fun y hy => hm y (List.mem_cons_of_mem _ hy)) (by simp at hf; omega)
    have e1 : tlvs_size space (pre ++ [x]) = tlvs_size space pre + space x.length := by
      rw [tlvs_size_append, tlvs_size_cons]; simp [tlvs_size]
    rw [find_next_tlv_step space _ _ type f _ x h32 (by omega) hread, if_neg hxt, ← e1, ih]

/-- C26. find_next_tlv finds the first match. The body is made of the
consecutive TLVs `pre ++ mid ++ t :: post`, each of which takes at least the
four bytes of its header, and `size` is the size of the body (at least 4 then,
and below 2^31 for the `int` offset). Started at the boundary after `pre` with a
type other than 0 that `t` has and no TLV of `mid` has, and with fuel for the
turns of the loop, the function returns the offset of `t`, where `t` lies, and
leaves in `offset` the boundary after `t`. Started with type 0 at the boundary
of any TLV `t` it returns that offset and leaves the boundary after `t`. -/
theorem find_next_tlv_first (space : Nat → Nat) (pre mid post : List ospf_lsa_ac_tlv)
    (t : ospf_lsa_ac_tlv) (type fuel : Nat)
    (hwf : ∀ x ∈ pre ++ mid ++ t :: post, 4 ≤ space x.length)
    (h31 : tlvs_size space (pre ++ mid ++ t :: post) < 2 ^ 31)
    (hfuel : mid.length < fuel) :
    (type ≠ 0 → t.type = type → (∀ x ∈ mid, x.type ≠ type) →
      find_next_tlv space (tlv_at space (pre ++ mid ++ t :: post))
          (tlvs_size space (pre ++ mid ++ t :: post)) type fuel (tlvs_size space pre)
        = .ok (some (tlvs_size space (pre ++ mid)), tlvs_size space (pre ++ mid ++ [t])))
    ∧ find_next_tlv space (tlv_at space (pre ++ mid ++ t :: post))
          (tlvs_size space (pre ++ mid ++ t :: post)) 0 fuel (tlvs_size space (pre ++ mid))
        = .ok (some (tlvs_size space (pre ++ mid)), tlvs_size space (pre ++ mid ++ [t]))
    ∧ tlv_at space (pre ++ mid ++ t :: post) (tlvs_size space (pre ++ mid)) = some t
    ∧ 4 ≤ tlvs_size space (pre ++ mid ++ t :: post) := by
  have h32 : tlvs_size space (pre ++ mid ++ t :: post) < 2 ^ 32 :=
    Nat.lt_trans h31 (by norm_num)
  have hpm : ∀ x ∈ pre ++ mid, 4 ≤ space x.length := fun x hx =>
    hwf x (List.mem_append_left _ hx)
  have ht4 : 4 ≤ space t.length := hwf t (by simp)
  have hread := tlv_at_boundary space t post (pre ++ mid) hpm
  have hsz : tlvs_size space (pre ++ mid ++ t :: post)
      = tlvs_size space (pre ++ mid) + (space t.length + tlvs_size space post) := by
    rw [tlvs_size_append, tlvs_size_cons]
  have hlast : tlvs_size space (pre ++ mid ++ [t]) = tlvs_size space (pre ++ mid) + space t.length := by
    rw [tlvs_size_append, tlvs_size_cons]; simp [tlvs_size]
  refine ⟨?_, ?_, hread, by omega⟩
  · intro htype ht hmid
    rw [hlast]
    exact find_next_tlv_walk space type htype _ hwf h32 t ht post mid pre fuel rfl hmid hfuel
  · obtain ⟨f, rfl⟩ : ∃ f, fuel = f + 1 := ⟨fuel - 1, by omega⟩
    rw [find_next_tlv_step space _ _ 0 f _ t h32 (by omega) hread, if_pos (Or.inl rfl), hlast]

/-- Witness for C26: in the body of three TLVs the search for type 3 from
offset 0 returns the TLV at offset 32 and leaves the offset 36. -/
theorem find_next_tlv_first_witness :
    find_next_tlv ex_space (tlv_at ex_space ex_tlvs) 36 3 3 0 = .ok (some 32, 36)
    ∧ find_next_tlv ex_space (tlv_at ex_space ex_tlvs) 36 0 3 32 = .ok (some 32, 36)
    ∧ tlv_at ex_space ex_tlvs 32 = some ⟨3, 0⟩
    ∧ 4 ≤ tlvs_size ex_space ex_tlvs :=
  have h := find_next_tlv_first ex_space [] [⟨1, 16⟩, ⟨2, 5⟩] [] ⟨3, 0⟩ 3 3
    (by decide) (by decide) (by decide)
  ⟨h.1 (by decide) rfl (by decide), h.2.1, h.2.2.1, h.2.2.2⟩

/-- What C27 asks of find_next_tlv holds for a body of well-formed TLVs that
is not empty: when none of the TLVs from the starting boundary on has the
requested type, the function returns null and leaves the offset after the last
TLV; every header it reads lies inside the body. -/
theorem find_next_tlv_none (space : Nat → Nat) (pre rest : List ospf_lsa_ac_tlv)
    (type fuel : Nat) (hwf : ∀ x ∈ pre ++ rest, 4 ≤ space x.length)
    (h4 : 4 ≤ tlvs_size space (pre ++ rest)) (h31 : tlvs_size space (pre ++ rest) < 2 ^ 31)
    (hrest : ∀ x ∈ rest, type ≠ 0 ∧ x.type ≠ type) (hfuel : rest.length < fuel) :
    find_next_tlv space (tlv_at space (pre ++ rest)) (tlvs_size space (pre ++ rest)) type fuel
        (tlvs_size space pre) = .ok (none, tlvs_size space (pre ++ rest)) := by
  have h32 : tlvs_size space (pre ++ rest) < 2 ^ 32 := Nat.lt_trans h31 (by norm_num)
  rcases rest with _ | ⟨x, rest⟩
  · obtain ⟨f, rfl⟩ : ∃ f, fuel = f + 1 := ⟨fuel - 1, by simp at hfuel; omega⟩
    rw [List.append_nil] at h4 h32 ⊢
    exact find_next_tlv_stop space _ _ type f _ h4 h32 (by omega) h32
  · have htype := (hrest x (List.mem_cons_self _ _)).1
    exact find_next_tlv_exhaust space type htype _ hwf h4 h32 (x :: rest) pre fuel rfl
      (fun y hy => (hrest y hy).2) hfuel

/-- C27, evaluation at the failing inputs. For a body of fewer than four
bytes, which holds no TLV, `bound = size - 4` wraps to a value near 2^32, the
loop is entered at offset 0 and the header read there lies outside the body,
whatever the macro LSA_AC_TLV_SPACE, the type and the fuel are; the function
does not return null. -/
theorem find_next_tlv_short_body (space : Nat → Nat) (type fuel : Nat) :
    find_next_tlv space (tlv_at space []) 0 type (fuel + 1) 0 = .error .undefined_access
    ∧ find_next_tlv space (tlv_at space []) 1 type (fuel + 1) 0 = .error .undefined_access
    ∧ find_next_tlv space (tlv_at space []) 2 type (fuel + 1) 0 = .error .undefined_access
    ∧ find_next_tlv space (tlv_at space []) 3 type (fuel + 1) 0 = .error .undefined_access
    ∧ (0 + 2 ^ 32 - 4) % 2 ^ 32 = 4294967292 :=
  ⟨rfl, rfl, rfl, rfl, rfl⟩

/-! ## The outputs of find_used -/

theorem used_step_used (prio : Nat) (acc : used_acc) (e : Prefix × Nat × Nat) :
    (used_step prio acc e).used = acc.used ++ [⟨e.1, e.2.2, 0, e.2.1, false⟩] := by
  unfold used_step
  simp only
  split <;> split <;> rfl

theorem used_fold_used (prio : Nat) (l : List (Prefix × Nat × Nat)) : ∀ acc : used_acc,
    (l.foldl (used_step prio) acc).used
      = acc.used ++ l.map (fun e => ⟨e.1, e.2.2, 0, e.2.1, false⟩) := by
  induction l with
  | nil => intro acc; simp
  | cons e rest ih =>
    intro acc
    rw [List.foldl_cons, ih, used_step_used]
    simp

theorem find_used_used (db : List ac_lsa) (po : proto_ospf) (i : Nat) (ifa : ospf_iface)
    (usp : Prefix) (self_r : Option prefix_node) :
    (find_used db po i ifa usp self_r).used
      = (lsdb_used db po.router_id usp ++ own_used po.router_id ifa.oa usp i self_r 0 po.iface_list).map
          (fun e => ⟨e.1, e.2.2, 0, e.2.1, false⟩) := by
  unfold find_used
  rw [used_fold_used]
  rfl

theorem mem_lsdb_used (db : List ac_lsa) (rid : Nat) (usp : Prefix) (e : Prefix × Nat × Nat) :
    e ∈ lsdb_used db rid usp ↔
      ∃ en ∈ db, en.rt ≠ rid ∧ ∃ iasp ∈ en.iasps, ∃ a ∈ iasp.asps,
        contains usp a = true ∧ e = (a, iasp.pa_priority, en.rt) := by
  simp only [lsdb_used, List.mem_flatMap, List.mem_filter, List.mem_map, decide_eq_true_eq,
    contains]
  constructor
  · rintro ⟨en, ⟨hen, hrt⟩, iasp, hi, a, ⟨ha, hin⟩, he⟩
    exact ⟨en, hen, hrt, iasp, hi, a, ha, hin, he.symm⟩
  · rintro ⟨en, hen, hrt, iasp, hi, a, ha, hin, he⟩
    exact ⟨en, ⟨hen, hrt⟩, iasp, hi, a, ⟨ha, hin⟩, he.symm⟩

theorem not_self_iff (self_r : Option prefix_node) (same : Bool) (n : prefix_node) :
    not_self self_r same n = true ↔ ¬ (same = true ∧ ∃ s, self_r = some s ∧ s.px = n.px) := by
  cases self_r with
  | none => simp [not_self]
  | some s =>
    have hp := prefix_eq_iff s.px n.px
    simp only [not_self, Bool.or_eq_true, Bool.not_eq_true', decide_eq_true_eq, ne_eq,
      Option.some.injEq, exists_eq_left']
    rw [Bool.and_eq_true, decide_eq_true_eq] at hp
    constructor
    · rintro h ⟨h1, h2⟩
      have := hp.2 h2
      rcases h with (h | h) | h
      · rw [this.1] at h; cases h
      · exact h this.2
      · rw [h1] at h; cases h
    · intro h
      by_cases hs : same = true
      · by_cases he : ipa_equal s.px.addr n.px.addr = true
        · by_cases hl : s.px.len = n.px.len
          · exact absurd ⟨hs, hp.1 ⟨he, hl⟩⟩ h
          · exact Or.inl (Or.inr hl)
        · left; left
          simpa using he
      · right
        simpa using hs

theorem mem_own_used (rid oa : Nat) (usp : Prefix) (i : Nat) (self_r : Option prefix_node)
    (e : Prefix × Nat × Nat) : ∀ (l : List ospf_iface) (k0 : Nat),
    e ∈ own_used rid oa usp i self_r k0 l ↔
      ∃ (k : Nat) (ifa2 : ospf_iface), l[k]? = some ifa2 ∧ ifa2.oa = oa ∧ ∃ n ∈ ifa2.asp_list,
        n.rid = rid ∧ contains usp n.px = true
        ∧ ¬ (k0 + k = i ∧ ∃ s, self_r = some s ∧ s.px = n.px)
        ∧ e = (n.px, ifa2.pa_priority, n.rid)
  | [], k0 => by simp [own_used]
  | a :: t, k0 => by
    rw [own_used, List.mem_append, mem_own_used rid oa usp i self_r e t (k0 + 1)]
    constructor
    · rintro (h | ⟨k, ifa2, hk, ho, n, hn, hr, hin, hns, he⟩)
      · split at h
        · rename_i ho
          simp only [List.mem_map, List.mem_filter, Bool.and_eq_true, decide_eq_true_eq] at h
          obtain ⟨n, ⟨hn, ⟨hr, hin⟩, hns⟩, he⟩ := h
          rw [not_self_iff, decide_eq_true_eq] at hns
          exact ⟨0, a, List.getElem?_cons_zero, ho, n, hn, hr, hin, hns, he.symm⟩
        · cases h
      · refine ⟨k + 1, ifa2, by rw [List.getElem?_cons_succ]; exact hk, ho, n, hn, hr, hin, ?_, he⟩
        rw [show k0 + (k + 1) = k0 + 1 + k by omega]
        exact hns
    · rintro ⟨k, ifa2, hk, ho, n, hn, hr, hin, hns, he⟩
      rcases k with _ | k
      · left
        simp only [List.getElem?_cons_zero, Option.some.injEq] at hk
        subst hk
        rw [if_pos ho]
        simp only [List.mem_map, List.mem_filter, Bool.and_eq_true, decide_eq_true_eq]
        refine ⟨n, ⟨hn, ⟨hr, hin⟩, ?_⟩, he.symm⟩
        rw [not_self_iff, decide_eq_true_eq]
        exact hns
      · right
        simp only [List.getElem?_cons_succ] at hk
        refine ⟨k, ifa2, hk, ho, n, hn, hr, hin, ?_, he⟩
        rw [show k0 + 1 + k = k0 + (k + 1) by omega]
        exact hns

/-- C31. Membership in the used list. For the interface `ifa` at position `i`,
the usable prefix `usp` and the optional record `self_r` left out of
consideration, the list find_used builds holds an element with prefix `p`,
router id `r` and priority `q` exactly when (a) some router other than us
advertises the ASP `p` inside `usp` in an IASP of priority `q` and `r` is that
router, or (b) `p` is the prefix of a record with rid ours inside `usp` on an
interface of the area of `ifa`, `q` is the priority of that interface and `r`
is our router id, the records on the interface at position `i` with the prefix
of `self_r` being left out. Every element lies inside `usp`, and an element
with our router id comes from a local record, never from the LSDB. -/
theorem find_used_members (db : List ac_lsa) (po : proto_ospf) (i : Nat) (ifa : ospf_iface)
    (usp : Prefix) (self_r : Option prefix_node) :
    (∀ (p : Prefix) (r q : Nat),
      (∃ m ∈ (find_used db po i ifa usp self_r).used, m.px = p ∧ m.rid = r ∧ m.pa_priority = q) ↔
        ((∃ en ∈ db, en.rt ≠ po.router_id ∧ ∃ iasp ∈ en.iasps, p ∈ iasp.asps ∧
            contains usp p = true ∧ r = en.rt ∧ q = iasp.pa_priority)
        ∨ (∃ (k : Nat) (ifa2 : ospf_iface), po.iface_list[k]? = some ifa2 ∧ ifa2.oa = ifa.oa ∧
            ∃ n ∈ ifa2.asp_list, n.rid = po.router_id ∧ contains usp n.px = true
              ∧ ¬ (k = i ∧ ∃ s, self_r = some s ∧ s.px = n.px)
              ∧ p = n.px ∧ r = po.router_id ∧ q = ifa2.pa_priority)))
    ∧ (∀ m ∈ (find_used db po i ifa usp self_r).used, contains usp m.px = true)
    ∧ (∀ m ∈ (find_used db po i ifa usp self_r).used, m.rid = po.router_id →
        ∃ (k : Nat) (ifa2 : ospf_iface), po.iface_list[k]? = some ifa2 ∧ ifa2.oa = ifa.oa ∧
          ∃ n ∈ ifa2.asp_list, n.rid = po.router_id ∧ n.px = m.px) := by
  have key : ∀ (p : Prefix) (r q : Nat),
      (∃ m ∈ (find_used db po i ifa usp self_r).used, m.px = p ∧ m.rid = r ∧ m.pa_priority = q) ↔
        ((∃ en ∈ db, en.rt ≠ po.router_id ∧ ∃ iasp ∈ en.iasps, p ∈ iasp.asps ∧
            contains usp p = true ∧ r = en.rt ∧ q = iasp.pa_priority)
        ∨ (∃ (k : Nat) (ifa2 : ospf_iface), po.iface_list[k]? = some ifa2 ∧ ifa2.oa = ifa.oa ∧
            ∃ n ∈ ifa2.asp_list, n.rid = po.router_id ∧ contains usp n.px = true
              ∧ ¬ (k = i ∧ ∃ s, self_r = some s ∧ s.px = n.px)
              ∧ p = n.px ∧ r = po.router_id ∧ q = ifa2.pa_priority)) := by
    intro p r q
    rw [find_used_used]
    constructor
    · rintro ⟨m, hm, hp, hr, hq⟩
      rw [List.mem_map] at hm
      obtain ⟨e, he, hme⟩ := hm
      subst hme
      simp only at hp hr hq
      rw [List.mem_append, mem_lsdb_used, mem_own_used] at he
      rcases he with ⟨en, hen, hrt, iasp, hi, a, ha, hin, he⟩ | ⟨k, ifa2, hk, ho, n, hn, hnr, hin, hns, he⟩
      · left
        subst he
        simp only at hp hr hq
        subst hp
        exact ⟨en, hen, hrt, iasp, hi, ha, hin, hr.symm, hq.symm⟩
      · right
        subst he
        simp only at hp hr hq
        rw [Nat.zero_add] at hns
        exact ⟨k, ifa2, hk, ho, n, hn, hnr, hin, hns, hp.symm, by rw [← hr, hnr], hq.symm⟩
    · rintro (⟨en, hen, hrt, iasp, hi, ha, hin, hr, hq⟩ | ⟨k, ifa2, hk, ho, n, hn, hnr, hin, hns, hp, hr, hq⟩)
      · refine ⟨⟨p, en.rt, 0, iasp.pa_priority, false⟩, ?_, rfl, hr.symm, hq.symm⟩
        rw [List.mem_map]
        refine ⟨(p, iasp.pa_priority, en.rt), ?_, rfl⟩
        rw [List.mem_append, mem_lsdb_used]
        exact Or.inl ⟨en, hen, hrt, iasp, hi, p, ha, hin, rfl⟩
      · refine ⟨⟨n.px, n.rid, 0, ifa2.pa_priority, false⟩, ?_, hp.symm, by rw [hr, hnr], hq.symm⟩
        rw [List.mem_map]
        refine ⟨(n.px, ifa2.pa_priority, n.rid), ?_, rfl⟩
        rw [List.mem_append, mem_own_used]
        refine Or.inr ⟨k, ifa2, hk, ho, n, hn, hnr, hin, ?_, rfl⟩
        rw [Nat.zero_add]
        exact hns
  refine ⟨key, ?_, ?_⟩
  · intro m hm
    rcases (key m.px m.rid m.pa_priority).1 ⟨m, hm, rfl, rfl, rfl⟩ with
      ⟨_, _, _, _, _, _, hin, _⟩ | ⟨_, _, _, _, n, _, _, hin, _, hp, _⟩
    · exact hin
    · rw [hp]; exact hin
  · intro m hm hr
    rcases (key m.px m.rid m.pa_priority).1 ⟨m, hm, rfl, rfl, rfl⟩ with
      ⟨en, _, hrt, _, _, _, _, hr2, _⟩ | ⟨k, ifa2, hk, ho, n, hn, hnr, _, _, hp, _⟩
    · exact absurd (hr2.symm.trans hr) hrt
    · exact ⟨k, ifa2, hk, ho, n, hn, hnr, hp.symm⟩

/-! ## The steal candidate of find_used -/

theorem used_step_fields (prio : Nat) (acc : used_acc) (e : Prefix × Nat × Nat) :
    (e.2.1 < acc.lowest_pa_priority →
      (used_step prio acc e).found_steal = true
      ∧ (used_step prio acc e).lowest_pa_priority = e.2.1
      ∧ (used_step prio acc e).steal = ⟨ipa_and e.1.addr (ipa_mkmask LSA_AC_ASP_D_PREFIX_LENGTH),
          LSA_AC_ASP_D_PREFIX_LENGTH⟩)
    ∧ (¬ e.2.1 < acc.lowest_pa_priority →
      (used_step prio acc e).found_steal = acc.found_steal
      ∧ (used_step prio acc e).lowest_pa_priority = acc.lowest_pa_priority
      ∧ (used_step prio acc e).steal = acc.steal) := by
  unfold used_step
  simp only
  constructor
  · intro h
    rw [if_pos h]
    split <;> exact ⟨rfl, rfl, rfl⟩
  · intro h
    rw [if_neg h]
    split <;> exact ⟨rfl, rfl, rfl⟩

theorem steal_inv_step (p0 : Nat) (acc : used_acc) (e : Prefix × Nat × Nat)
    (h : steal_inv p0 acc) : steal_inv p0 (used_step p0 acc e) := by
  obtain ⟨h1, h2, h3, h4⟩ := h
  have hu := used_step_used p0 acc e
  have hle : acc.lowest_pa_priority ≤ p0 := by
    cases hf : acc.found_steal with
    | false => exact Nat.le_of_eq (h3 hf)
    | true =>
      obtain ⟨x, hx, hlt⟩ := h1.1 hf
      exact Nat.le_of_lt (Nat.lt_of_le_of_lt (h2 x hx) hlt)
  by_cases hs : e.2.1 < acc.lowest_pa_priority
  · obtain ⟨f1, f2, f3⟩ := (used_step_fields p0 acc e).1 hs
    refine ⟨?_, ?_, ?_, ?_⟩
    · rw [f1, hu]
      refine ⟨fun _ => ⟨⟨e.1, e.2.2, 0, e.2.1, false⟩, by simp, ?_⟩, fun _ => rfl⟩
      exact Nat.lt_of_lt_of_le hs hle
    · intro x hx
      rw [f2]
      rw [hu, List.mem_append, List.mem_singleton] at hx
      rcases hx with hx | hx
      · exact Nat.le_of_lt (Nat.lt_of_lt_of_le hs (h2 x hx))
      · rw [hx]
    · intro hf
      rw [f1] at hf
      cases hf
    · intro _
      refine ⟨acc.used, [], ⟨e.1, e.2.2, 0, e.2.1, false⟩, hu, f2.symm, ?_, f3⟩
      intro x hx
      rw [f2]
      exact Nat.lt_of_lt_of_le hs (h2 x hx)
  · obtain ⟨f1, f2, f3⟩ := (used_step_fields p0 acc e).2 hs
    refine ⟨?_, ?_, ?_, ?_⟩
    · rw [f1, hu]
      constructor
      · intro hf
        obtain ⟨x, hx, hlt⟩ := h1.1 hf
        exact ⟨x, List.mem_append_left _ hx, hlt⟩
      · rintro ⟨x, hx, hlt⟩
        rw [List.mem_append, List.mem_singleton] at hx
        rcases hx with hx | hx
        · exact h1.2 ⟨x, hx, hlt⟩
        · cases hf : acc.found_steal with
          | true => rfl
          | false =>
            exfalso
            have := h3 hf
            rw [hx] at hlt
            simp only at hlt
            omega
    · intro x hx
      rw [f2]
      rw [hu, List.mem_append, List.mem_singleton] at hx
      rcases hx with hx | hx
      · exact h2 x hx
      · rw [hx]
        simp only
        omega
    · intro hf
      rw [f1] at hf
      rw [f2]
      exact h3 hf
    · intro hf
      rw [f1] at hf
      obtain ⟨pre, post, m, hd, hm, hpre, hst⟩ := h4 hf
      refine ⟨pre, post ++ [⟨e.1, e.2.2, 0, e.2.1, false⟩], m, ?_, ?_, ?_, ?_⟩
      · rw [hu, hd]
        simp
      · rw [f2]; exact hm
      · rw [f2]; exact hpre
      · rw [f3]; exact hst

theorem steal_inv_fold (p0 : Nat) (l : List (Prefix × Nat × Nat)) : ∀ acc : used_acc,
    steal_inv p0 acc → steal_inv p0 (l.foldl (used_step p0) acc) := by
  induction l with
  | nil => intro acc h; exact h
  | cons e rest ih =>
    intro acc h
    rw [List.foldl_cons]
    exact ih _ (steal_inv_step p0 acc e h)

/-- C32. The steal candidate. After find_used for an interface of priority
`ifa.pa_priority`: `found_steal` is set exactly when some element of the used
list has a priority below `ifa.pa_priority`; then `lowest_pa_priority` is the
least priority of the list and `steal` is the prefix of the first element of the
list that has it, its address masked to L_pref bits, with length L_pref;
otherwise `lowest_pa_priority` is `ifa.pa_priority`. -/
theorem find_used_steal (db : List ac_lsa) (po : proto_ospf) (i : Nat) (ifa : ospf_iface)
    (usp : Prefix) (self_r : Option prefix_node) :
    ((find_used db po i ifa usp self_r).found_steal = true ↔
      ∃ x ∈ (find_used db po i ifa usp self_r).used, x.pa_priority < ifa.pa_priority)
    ∧ ((find_used db po i ifa usp self_r).found_steal = true →
        (∀ x ∈ (find_used db po i ifa usp self_r).used,
          (find_used db po i ifa usp self_r).lowest_pa_priority ≤ x.pa_priority)
        ∧ ∃ (pre post : List prefix_node) (m : prefix_node),
          (find_used db po i ifa usp self_r).used = pre ++ m :: post
          ∧ m.pa_priority = (find_used db po i ifa usp self_r).lowest_pa_priority
          ∧ (∀ x ∈ pre, (find_used db po i ifa usp self_r).lowest_pa_priority < x.pa_priority)
          ∧ (find_used db po i ifa usp self_r).steal =
              ⟨ipa_and m.px.addr (ipa_mkmask LSA_AC_ASP_D_PREFIX_LENGTH),
                LSA_AC_ASP_D_PREFIX_LENGTH⟩)
    ∧ ((find_used db po i ifa usp self_r).found_steal = false →
        (find_used db po i ifa usp self_r).lowest_pa_priority = ifa.pa_priority) := by
  have h0 : steal_inv ifa.pa_priority
      ⟨[], ⟨IPA_NONE, 0⟩, false, ⟨IPA_NONE, 0⟩, false, ifa.pa_priority⟩ := by
    refine ⟨?_, ?_, ?_, ?_⟩
    · constructor
      · intro h; cases h
      · rintro ⟨x, hx, _⟩; cases hx
    · intro x hx; cases hx
    · intro _; rfl
    · intro h; cases h
  obtain ⟨h1, h2, h3, h4⟩ := steal_inv_fold ifa.pa_priority
    (lsdb_used db po.router_id usp ++ own_used po.router_id ifa.oa usp i self_r 0 po.iface_list)
    _ h0
  exact ⟨h1, fun hf => ⟨h2, h4 hf⟩, h3⟩

/-! ## The linear scan of choose_prefix at the end of the address space -/

/-- C33, evaluation at the failing input. The usable prefix is
ffff:ffff:ffff:ffff::/64, a /64 is asked for and the used list holds that /64,
so every prefix of the usable prefix is in use. The ten random candidates are
the /64 itself; the scan starts there, the candidate is inside the usable
prefix and overlaps the used element, and one unit at position 64 carries past
the top of the address space: the empty result of the specification.
choose_prefix does not return PXCHOOSE_FAILURE, for any fuel of the scan:
next_prefix reads outside the address array. -/
theorem exhaustion_not_failure :
    choose_random ex_md5 ex_last64 64 ex_used_last 10 "eth0" 0 10 = none
    ∧ random_prefix ex_md5 ex_last64 64 10 "eth0" 9 = ex_last64.addr
    ∧ scan_enter ex_last64 ex_last64 false = (ex_last64, false)
    ∧ in_use ex_last64 ex_used_last = true
    ∧ ex_used_last.find? (collides ex_last64) = some ⟨ex_last64, 20, 0, 1, false⟩
    ∧ 2 ^ 128 ≤ addr_val ex_last64.addr + 2 ^ (128 - ex_last64.len)
    ∧ choose_prefix ex_md5 4 ex_last64 64 ex_used_last 10 "eth0" = .error .undefined_access
    ∧ (∀ (fuel : Nat) (r : Prefix),
        choose_prefix ex_md5 fuel ex_last64 64 ex_used_last 10 "eth0"
          ≠ .ok (.PXCHOOSE_FAILURE, r)) := by
  refine ⟨by decide, by decide, by decide, by decide, by decide, ?_, by decide, ?_⟩
  · norm_num [addr_val, ex_last64]
  · intro fuel r
    rcases fuel with _ | fuel
    · have h : choose_prefix ex_md5 0 ex_last64 64 ex_used_last 10 "eth0"
          = .error .out_of_fuel := rfl
      rw [h]
      intro h2
      cases h2
    · have h : choose_prefix ex_md5 (fuel + 1) ex_last64 64 ex_used_last 10 "eth0"
          = .error .undefined_access := rfl
      rw [h]
      intro h2
      cases h2

/-- C34, evaluation at the failing input. The usable prefix
ffff:ffff:ffff:ffff::/64 has a masked address, the length 64 is asked for and
the used list holds one element of length 64. Whatever the fuel of the scan,
choose_prefix does not return: in the first round of the scan next_prefix
carries out of word 0 and reads outside the address array. -/
theorem choose_prefix_no_return (fuel : Nat) :
    ipa_and ex_last64.addr (ipa_mkmask ex_last64.len) = ex_last64.addr
    ∧ (∀ n ∈ ex_used_last, 1 ≤ n.px.len ∧ n.px.len ≤ 128)
    ∧ choose_prefix ex_md5 (fuel + 1) ex_last64 64 ex_used_last 10 "eth0"
        = .error .undefined_access := by
  refine ⟨by decide, by decide, ?_⟩
  rfl

/-! ## Addresses as numbers: agreement on the leading bits -/

theorem addr_val_testBit (a : ip_addr) (h : ∀ j, j < 4 → a.word j < 2 ^ 32) (p : Nat) :
    (addr_val a).testBit p =
      if p < 32 then a.a3.testBit p
      else if p < 64 then a.a2.testBit (p - 32)
      else if p < 96 then a.a1.testBit (p - 64)
      else a.a0.testBit (p - 96) := by
  have h1 : a.a1 < 2 ^ 32 := h 1 (by omega)
  have h2 : a.a2 < 2 ^ 32 := h 2 (by omega)
  have h3 : a.a3 < 2 ^ 32 := h 3 (by omega)
  unfold addr_val
  rw [Nat.mul_comm _ (2 ^ 32), Nat.testBit_mul_pow_two_add _ h3]
  by_cases c3 : p < 32
  · rw [if_pos c3, if_pos c3]
  · rw [if_neg c3, if_neg c3, Nat.mul_comm _ (2 ^ 32), Nat.testBit_mul_pow_two_add _ h2]
    by_cases c2 : p < 64
    · rw [if_pos (by omega), if_pos c2]
    · rw [if_neg (by omega), if_neg c2, Nat.mul_comm _ (2 ^ 32),
        Nat.testBit_mul_pow_two_add _ h1]
      by_cases c1 : p < 96
      · rw [if_pos (by omega), if_pos c1]
        congr 1
      · rw [if_neg (by omega), if_neg c1]
        congr 1


theorem addr_val_lt (a : ip_addr) (h : ∀ j, j < 4 → a.word j < 2 ^ 32) :
    addr_val a < 2 ^ 128 := by
  have h0 : a.a0 < 2 ^ 32 := h 0 (by omega)
  have h1 : a.a1 < 2 ^ 32 := h 1 (by omega)
  have h2 : a.a2 < 2 ^ 32 := h 2 (by omega)
  have h3 : a.a3 < 2 ^ 32 := h 3 (by omega)
  unfold addr_val
  norm_num at h0 h1 h2 h3 ⊢
  omega

/-- Agreement on the first `l` bits, bit by bit of the 128-bit value. -/
theorem agree_iff_bits (a b : ip_addr) (l : Nat) (hl : l ≤ 128)
    (ha : ∀ j, j < 4 → a.word j < 2 ^ 32) (hb : ∀ j, j < 4 → b.word j < 2 ^ 32) :
    agree a b l ↔ ∀ p, 128 - l ≤ p → p < 128 →
      (addr_val a).testBit p = (addr_val b).testBit p := by
  have key : ∀ (x y m : Nat), m ≤ 32 → ((x ^^^ y) &&& u32_mkmask m = 0 ↔
      ∀ j, 32 - m ≤ j → j < 32 → x.testBit j = y.testBit j) := by
    intro x y m hm
    rw [and_mask_zero_iff]
    constructor
    · intro h j h1 h2
      have := h j h1 (by omega)
      rw [Nat.testBit_xor] at this
      revert this
      cases x.testBit j <;> cases y.testBit j <;> simp
    · intro h j h1 h2
      rw [Nat.testBit_xor, h j h1 (by omega)]
      simp
  rw [agree_iff, key _ _ _ (Nat.min_le_right _ _), key _ _ _ (Nat.min_le_right _ _),
    key _ _ _ (Nat.min_le_right _ _), key _ _ _ (Nat.min_le_right _ _)]
  constructor
  · rintro ⟨h0, h1, h2, h3⟩ p hp1 hp2
    rw [addr_val_testBit a ha, addr_val_testBit b hb]
    by_cases c3 : p < 32
    · rw [if_pos c3, if_pos c3]
      exact h3 p (by omega) c3
    · rw [if_neg c3, if_neg c3]
      by_cases c2 : p < 64
      · rw [if_pos c2, if_pos c2]
        exact h2 (p - 32) (by omega) (by omega)
      · rw [if_neg c2, if_neg c2]
        by_cases c1 : p < 96
        · rw [if_pos c1, if_pos c1]
          exact h1 (p - 64) (by omega) (by omega)
        · rw [if_neg c1, if_neg c1]
          exact h0 (p - 96) (by omega) (by omega)
  · intro h
    refine ⟨?_, ?_, ?_, ?_⟩
    · intro j hj1 hj2
      have := h (j + 96) (by omega) (by omega)
      rw [addr_val_testBit a ha, addr_val_testBit b hb, if_neg (by omega), if_neg (by omega),
        if_neg (by omega), if_neg (by omega), if_neg (by omega), if_neg (by omega),
        Nat.add_sub_cancel] at this
      exact this
    · intro j hj1 hj2
      have := h (j + 64) (by omega) (by omega)
      rw [addr_val_testBit a ha, addr_val_testBit b hb, if_neg (by omega), if_neg (by omega),
        if_pos (by omega), if_neg (by omega), if_neg (by omega), if_pos (by omega),
        Nat.add_sub_cancel] at this
      exact this
    · intro j hj1 hj2
      have := h (j + 32) (by omega) (by omega)
      rw [addr_val_testBit a ha, addr_val_testBit b hb, if_neg (by omega), if_pos (by omega),
        if_neg (by omega), if_pos (by omega), Nat.add_sub_cancel] at this
      exact this
    · intro j hj1 hj2
      have := h j (by omega) (by omega)
      rw [addr_val_testBit a ha, addr_val_testBit b hb, if_pos (by omega), if_pos (by omega)]
        at this
      exact this

/-- Agreement on the first `l` bits is equality of the 128-bit values divided
by `2 ^ (128 - l)`. -/
theorem agree_iff_div (a b : ip_addr) (l : Nat) (hl : l ≤ 128)
    (ha : ∀ j, j < 4 → a.word j < 2 ^ 32) (hb : ∀ j, j < 4 → b.word j < 2 ^ 32) :
    agree a b l ↔ addr_val a / 2 ^ (128 - l) = addr_val b / 2 ^ (128 - l) := by
  rw [agree_iff_bits a b l hl ha hb]
  have la := addr_val_lt a ha
  have lb := addr_val_lt b hb
  constructor
  · intro h
    apply Nat.eq_of_testBit_eq
    intro j
    rw [← Nat.shiftRight_eq_div_pow, ← Nat.shiftRight_eq_div_pow, Nat.testBit_shiftRight,
      Nat.testBit_shiftRight]
    by_cases hj : 128 - l + j < 128
    · exact h _ (by omega) hj
    · rw [Nat.testBit_lt_two_pow, Nat.testBit_lt_two_pow]
      · exact Nat.lt_of_lt_of_le lb (Nat.pow_le_pow_right (by norm_num) (by omega))
      · exact Nat.lt_of_lt_of_le la (Nat.pow_le_pow_right (by norm_num) (by omega))
  · intro h p hp1 hp2
    have := congrArg (fun v => v.testBit (p - (128 - l))) h
    simp only [← Nat.shiftRight_eq_div_pow, Nat.testBit_shiftRight] at this
    rw [show 128 - l + (p - (128 - l)) = p by omega] at this
    exact this

/-! ## next_prefix keeps the candidate masked -/

theorem get_fault (a : ip_addr) (k : Nat) (f : Fault) (h : a.get k = .error f) :
    f = .undefined_access := by
  rcases k with _ | _ | _ | _ | k
  · cases h
  · cases h
  · cases h
  · cases h
  · simp only [ip_addr.get, Except.error.injEq] at h
    exact h.symm

theorem bind_error {α β : Type} (e : Fault) (f : α → Except Fault β) :
    ((Except.error e : Except Fault α) >>= f) = .error e := rfl

theorem carry_a_fault : ∀ (k : Nat) (a : ip_addr) (f : Fault), carry_a a k = .error f →
    f = .undefined_access := by
  intro k
  induction k with
  | zero => intro a f h; simp [carry_a] at h; exact h.symm
  | succ k ih =>
    intro a f h
    rw [carry_a] at h
    cases hg : a.get k with
    | error e =>
      rw [hg, bind_error] at h
      simp only [Except.error.injEq] at h
      rw [← h]
      exact get_fault a k e hg
    | ok w =>
      rw [hg, ok_bind] at h
      dsimp only at h
      split at h
      · cases h
      · exact ih _ f h

theorem carry_b_fault (b : ip_addr) (blen : Nat) : ∀ (k : Nat) (a : ip_addr) (f : Fault),
    carry_b a b blen k = .error f → f = .undefined_access := by
  intro k
  induction k with
  | zero => intro a f h; simp [carry_b] at h; exact h.symm
  | succ k ih =>
    intro a f h
    rw [carry_b] at h
    cases hg : b.get k with
    | error e =>
      rw [hg, bind_error] at h
      simp only [Except.error.injEq] at h
      rw [← h]
      exact get_fault b k e hg
    | ok w =>
      rw [hg, ok_bind] at h
      dsimp only at h
      split at h
      · cases h
      · exact ih _ f h


theorem next_prefix_fault (pxa pxb : Prefix) (f : Fault)
    (h : next_prefix pxa pxb = .error f) : f = .undefined_access := by
  unfold next_prefix at h
  cases hw : next_prefix_addr pxa pxb with
  | ok a => rw [hw] at h; cases h
  | error e =>
    rw [hw] at h
    simp only [Except.error.injEq] at h
    rw [← h]
    unfold next_prefix_addr at hw
    split at hw
    · generalize word_index pxa.len = i at hw
      generalize word_unit pxa.len = u at hw
      dsimp only at hw
      cases hg : pxa.addr.get i with
      | error e2 =>
        rw [hg, bind_error] at hw
        simp only [Except.error.injEq] at hw
        rw [← hw]
        exact get_fault _ i e2 hg
      | ok w =>
        rw [hg, ok_bind] at hw
        split at hw
        · cases hw
        · exact carry_a_fault _ _ e hw
    · generalize word_index pxb.len = i at hw
      generalize word_unit pxb.len = u at hw
      dsimp only at hw
      cases hg : pxb.addr.get i with
      | error e2 =>
        rw [hg, bind_error] at hw
        simp only [Except.error.injEq] at hw
        rw [← hw]
        exact get_fault _ i e2 hg
      | ok w =>
        rw [hg, ok_bind] at hw
        split at hw
        · cases hw
        · exact carry_b_fault _ _ _ _ e hw

theorem carry_a_bound : ∀ (k : Nat) (a r : ip_addr), k ≤ 4 →
    (∀ j, j < 4 → a.word j < 2 ^ 32) → carry_a a k = .ok r → ∀ j, j < 4 → r.word j < 2 ^ 32 := by
  intro k
  induction k with
  | zero => intro a r _ _ h; simp [carry_a] at h
  | succ k ih =>
    intro a r hk ha h j hj
    rw [carry_a, get_word a (by omega : k < 4)] at h
    rw [ok_bind] at h
    dsimp only at h
    split at h
    · rename_i hadd
      simp only [Except.ok.injEq] at h
      have hlt2 : a.word k + 1 < 2 ^ 32 := Nat.lt_trans hadd (by norm_num)
      rw [← h, word_set a (by omega : k < 4)]
      split
      · rw [Nat.mod_eq_of_lt hlt2]; exact hlt2
      · exact ha j hj
    · apply ih _ r (by omega) _ h j hj
      intro j2 hj2
      rw [word_set a (by omega : k < 4)]
      split
      · exact Nat.two_pow_pos 32
      · exact ha j2 hj2

theorem carry_b_shape (b : ip_addr) (blen : Nat) : ∀ (k : Nat) (a r : ip_addr), k ≤ 4 →
    carry_b a b blen k = .ok r → ∃ x, r = ipa_and x (ipa_mkmask blen) := by
  intro k
  induction k with
  | zero => intro a r _ h; simp [carry_b] at h
  | succ k ih =>
    intro a r hk h
    rw [carry_b, get_word b (by omega : k < 4)] at h
    rw [ok_bind] at h
    dsimp only at h
    split at h
    · simp only [Except.ok.injEq] at h
      exact ⟨_, h.symm⟩
    · exact ih _ r (by omega) h

theorem masked_of_words {a : ip_addr} {l : Nat}
    (h : ∀ j, j < 4 → a.word j &&& u32_mkmask (min (l - 32 * j) 32) = a.word j) :
    ipa_and a (ipa_mkmask l) = a := by
  have h0 := h 0 (by omega)
  have h1 := h 1 (by omega)
  have h2 := h 2 (by omega)
  have h3 := h 3 (by omega)
  simp only [ip_addr.word, Nat.mul_zero, Nat.sub_zero, Nat.mul_one] at h0 h1 h2 h3
  cases a
  simp only [ipa_and, ipa_mkmask, ip_addr.mk.injEq]
  exact ⟨h0, h1, h2, h3⟩

theorem mask_mask (x m1 m2 : Nat) (h : m1 ≤ m2) (h2 : m2 ≤ 32) :
    (x &&& u32_mkmask m1) &&& u32_mkmask m2 = x &&& u32_mkmask m1 := by
  apply Nat.eq_of_testBit_eq
  intro j
  rw [Nat.testBit_and, Nat.testBit_and, u32_mkmask_testBit, u32_mkmask_testBit]
  by_cases c : 32 - m1 ≤ j ∧ j - (32 - m1) < m1
  · have e1 : decide (32 - m2 ≤ j) = true := by rw [decide_eq_true_eq]; omega
    have e2 : decide (j - (32 - m2) < m2) = true := by rw [decide_eq_true_eq]; omega
    rw [e1, e2]
    simp
  · by_cases c1 : 32 - m1 ≤ j
    · have c2 : ¬ j - (32 - m1) < m1 := fun x => c ⟨c1, x⟩
      simp [c2]
    · simp [c1]

theorem and_mask_masked (x : ip_addr) (lb l : Nat) (h : lb ≤ l) :
    ipa_and (ipa_and x (ipa_mkmask lb)) (ipa_mkmask l) = ipa_and x (ipa_mkmask lb) := by
  apply masked_of_words
  intro j hj
  rw [and_mask_word _ _ hj]
  exact mask_mask _ _ _ (by omega) (Nat.min_le_right _ _)

theorem masked_mono {a : ip_addr} {l1 l2 : Nat} (h : l1 ≤ l2)
    (hm : ipa_and a (ipa_mkmask l1) = a) : ipa_and a (ipa_mkmask l2) = a := by
  rw [← hm]
  exact and_mask_masked a l1 l2 h

/-- The address next_prefix leaves is masked to the length of `pxa`. -/
theorem next_prefix_masked {pxa pxb : Prefix} {r : ip_addr}
    (h1 : 1 ≤ pxa.len) (h2 : pxa.len ≤ 128) (hb1 : 1 ≤ pxb.len) (hb2 : pxb.len ≤ 128)
    (hm : ipa_and pxa.addr (ipa_mkmask pxa.len) = pxa.addr)
    (h : next_prefix_addr pxa pxb = .ok r) : ipa_and r (ipa_mkmask pxa.len) = r := by
  by_cases hlt : pxa.len < pxb.len
  · obtain ⟨hi, hlo, hhi, hu⟩ := word_index_unit h1 h2
    have hws := masked_words_lt hm
    have hw := masked_word hm hi
    have hall : ∀ j, j < 4 → pxa.addr.word j &&& u32_mkmask (min (pxa.len - 32 * j) 32)
        = pxa.addr.word j := fun j hj => masked_word hm hj
    unfold next_prefix_addr at h
    rw [if_pos hlt] at h
    generalize word_index pxa.len = i at h hi hlo hhi hu hw
    generalize word_unit pxa.len = u at h hu
    dsimp only at h
    obtain ⟨e1, e2, hm32, hpos, hle⟩ := unit_bounds hlo hhi
    rw [e2] at hw
    rw [e1] at hu
    rw [get_word _ hi] at h
    rw [ok_bind] at h
    apply masked_of_words
    intro j hj
    split at h
    · rename_i hadd
      simp only [Except.ok.injEq] at h
      have hlt2 : pxa.addr.word i + u < 2 ^ 32 := Nat.lt_trans hadd (by norm_num)
      rw [← h, word_set _ hi]
      split
      · rename_i hji
        rw [hji, e2, Nat.mod_eq_of_lt hlt2]
        rw [hu] at hlt2 ⊢
        exact masked_of_low hlt2 (fun j2 hj2 => add_unit_low hw j2 hj2)
      · exact hall j hj
    · by_cases hji : i ≤ j
      · rw [carry_a_words _ _ r (by omega) h j hji, word_set _ hi]
        split
        · exact Nat.zero_and _
        · exact hall j hj
      · have hb := carry_a_bound _ _ r (by omega : i ≤ 4) (by
          intro j2 hj2
          rw [word_set _ hi]
          split
          · exact Nat.two_pow_pos 32
          · exact hws j2 hj2) h j hj
        rw [(by omega : min (pxa.len - 32 * j) 32 = 32)]
        exact and_full hb
  · have hi := (word_index_unit hb1 hb2).1
    have hshape : ∃ x, r = ipa_and x (ipa_mkmask pxb.len) := by
      unfold next_prefix_addr at h
      rw [if_neg hlt] at h
      generalize word_index pxb.len = i at h hi
      generalize word_unit pxb.len = u at h
      dsimp only at h
      rw [get_word _ hi] at h
      rw [ok_bind] at h
      split at h
      · simp only [Except.ok.injEq] at h
        exact ⟨_, h.symm⟩
      · exact carry_b_shape _ _ _ _ r (by omega) h
    obtain ⟨x, hx⟩ := hshape
    rw [hx]
    exact and_mask_masked x pxb.len pxa.len (by omega)

/-! ## The linear scan of choose_prefix is bounded -/

theorem collides_agree {c : Prefix} {n : prefix_node} (h : collides c n = true) :
    agree c.addr n.px.addr (min c.len n.px.len) := by
  simp only [collides, Bool.or_eq_true, net_in_net_iff] at h
  rcases h with ⟨h1, h2⟩ | ⟨h1, h2⟩
  · rw [Nat.min_eq_right h1]; exact h2
  · rw [Nat.min_eq_left h1]; exact agree_symm h2

theorem past_not_collides {L : Nat} {x : ip_addr} {n : prefix_node} (hL : L ≤ 128)
    (hx : ∀ j, j < 4 → x.word j < 2 ^ 32) (hn : ∀ j, j < 4 → n.px.addr.word j < 2 ^ 32)
    (h : past L x n = true) : collides ⟨x, L⟩ n = false := by
  rw [Bool.eq_false_iff]
  intro hc
  have ha := collides_agree hc
  rw [agree_iff_div _ _ _ (by simp only; omega) hx hn] at ha
  simp only [past, decide_eq_true_eq] at h
  simp only at ha
  omega

theorem past_mono {L : Nat} {x y : ip_addr} {n : prefix_node}
    (hxy : addr_val x ≤ addr_val y) (h : past L x n = true) : past L y n = true := by
  simp only [past, decide_eq_true_eq] at h ⊢
  exact Nat.lt_of_lt_of_le h (Nat.div_le_div_right hxy)

theorem live_le_length (L : Nat) (used : List prefix_node) (x : ip_addr) :
    live L used x ≤ used.length :=
  List.length_filter_le _ _

theorem live_le {L : Nat} {x y : ip_addr} (hxy : addr_val x ≤ addr_val y) :
    ∀ used : List prefix_node, live L used y ≤ live L used x := by
  intro used
  induction used with
  | nil =>
    unfold live
    rw [List.filter_nil, List.filter_nil]
  | cons m t ih =>
    unfold live at ih ⊢
    rw [List.filter_cons, List.filter_cons]
    cases hx : past L x m with
    | true =>
      rw [past_mono hxy hx]
      simp only [Bool.not_true, Bool.false_eq_true, if_false]
      exact ih
    | false =>
      cases hy : past L y m with
      | true =>
        simp only [Bool.not_true, Bool.false_eq_true, if_false, Bool.not_false, if_true,
          List.length_cons]
        omega
      | false =>
        simp only [Bool.not_false, if_true, List.length_cons]
        omega

theorem live_lt {L : Nat} {x y : ip_addr} {n : prefix_node} (hxy : addr_val x ≤ addr_val y)
    (hx : past L x n = false) (hy : past L y n = true) :
    ∀ used : List prefix_node, n ∈ used → live L used y < live L used x := by
  intro used
  induction used with
  | nil => intro h; cases h
  | cons m t ih =>
    intro hmem
    have hle := live_le (L := L) hxy t
    unfold live at ih hle ⊢
    rw [List.filter_cons, List.filter_cons]
    rcases List.mem_cons.1 hmem with he | ht
    · subst he
      rw [hx, hy]
      simp only [Bool.not_true, Bool.false_eq_true, if_false, Bool.not_false, if_true,
        List.length_cons]
      omega
    · have := ih ht
      cases hxm : past L x m with
      | true =>
        rw [past_mono hxy hxm]
        simp only [Bool.not_true, Bool.false_eq_true, if_false]
        exact this
      | false =>
        cases hym : past L y m with
        | true =>
          simp only [Bool.not_true, Bool.false_eq_true, if_false, Bool.not_false, if_true,
            List.length_cons]
          omega
        | false =>
          simp only [Bool.not_false, if_true, List.length_cons]
          omega

theorem ipa_less_val {a b : ip_addr} (ha : ∀ j, j < 4 → a.word j < 2 ^ 32)
    (h : ipa_less a b = true) : addr_val a < addr_val b := by
  simp only [ipa_less, Bool.or_eq_true, Bool.and_eq_true, decide_eq_true_eq] at h
  rcases h with h | ⟨e0, h | ⟨e1, h | ⟨e2, h⟩⟩⟩
  · exact val_lt_of_word (by omega : 0 < 4) (fun j hj => by omega) h ha
  · refine val_lt_of_word (by omega : 1 < 4) ?_ h ha
    intro j hj
    have : j = 0 := by omega
    subst this
    exact e0.symm
  · refine val_lt_of_word (by omega : 2 < 4) ?_ h ha
    intro j hj
    rcases j with _ | _ | j
    · exact e0.symm
    · exact e1.symm
    · omega
  · refine val_lt_of_word (by omega : 3 < 4) ?_ h ha
    intro j hj
    rcases j with _ | _ | _ | j
    · exact e0.symm
    · exact e1.symm
    · exact e2.symm
    · omega

/-- A candidate between the start of the usable prefix and an address inside
it is inside it. -/
theorem between_inside {u x s : ip_addr} {ul : Nat} (hul : ul ≤ 128)
    (hu : ∀ j, j < 4 → u.word j < 2 ^ 32) (hx : ∀ j, j < 4 → x.word j < 2 ^ 32)
    (hs : ∀ j, j < 4 → s.word j < 2 ^ 32) (hsu : agree s u ul)
    (h1 : addr_val u ≤ addr_val x) (h2 : addr_val x ≤ addr_val s) : agree x u ul := by
  rw [agree_iff_div _ _ _ hul hs hu] at hsu
  rw [agree_iff_div _ _ _ hul hx hu]
  have a1 := Nat.div_le_div_right (c := 2 ^ (128 - ul)) h1
  have a2 := Nat.div_le_div_right (c := 2 ^ (128 - ul)) h2
  omega

/-- One advance of the scan: the candidate keeps its length, stays masked,
grows, and lies past the used element it overlapped. -/
theorem advance_past {c c1 : Prefix} {n : prefix_node}
    (hc1 : 1 ≤ c.len) (hc2 : c.len ≤ 128) (hcm : ipa_and c.addr (ipa_mkmask c.len) = c.addr)
    (hn1 : 1 ≤ n.px.len) (hn2 : n.px.len ≤ 128)
    (hnm : ipa_and n.px.addr (ipa_mkmask n.px.len) = n.px.addr)
    (hcol : collides c n = true) (h : next_prefix c n.px = .ok c1) :
    c1.len = c.len ∧ ipa_and c1.addr (ipa_mkmask c1.len) = c1.addr
    ∧ addr_val c.addr < addr_val c1.addr ∧ past c.len c1.addr n = true := by
  have hlen := next_prefix_len h
  unfold next_prefix at h
  cases hw : next_prefix_addr c n.px with
  | error e => rw [hw] at h; cases h
  | ok a =>
    rw [hw] at h
    simp only [Except.ok.injEq] at h
    subst h
    have hmask := next_prefix_masked hc1 hc2 hn1 hn2 hcm hw
    have hag := collides_agree hcol
    have hcw := masked_words_lt hcm
    have hnw := masked_words_lt hnm
    have haw := masked_words_lt hmask
    simp only [collides, Bool.or_eq_true, net_in_net_iff] at hcol
    have hinc : ∃ k, k < 4 ∧ (∀ j, j < k → a.word j = c.addr.word j)
        ∧ c.addr.word k < a.word k := by
      by_cases hlt : c.len < n.px.len
      · exact next_covering_incr hlt hc1 hc2 hcm hw
      · apply next_covered_incr hlt hn1 hn2 hcm hnm _ hw
        rcases hcol with x | x
        · exact x.2
        · have hl : c.len = n.px.len := by have := x.1; omega
          rw [← hl]
          exact agree_symm x.2
    obtain ⟨k, hk, he, hl⟩ := hinc
    have hval := val_lt_of_word hk he hl hcw
    have hdiff : ¬ agree a n.px.addr (min c.len n.px.len) := by
      by_cases hlt : c.len < n.px.len
      · rw [Nat.min_eq_left (by omega)]
        have hd := next_covering_differs hlt hc1 hc2 hcm hw
        rw [Nat.min_eq_left (by omega)] at hag
        intro hx
        exact hd (agree_trans hx (agree_symm hag))
      · rw [Nat.min_eq_right (by omega)]
        exact next_covered_differs hlt hn1 hn2 hnm hw
    refine ⟨rfl, hmask, hval, ?_⟩
    rw [agree_iff_div _ _ _ (by omega) haw hnw] at hdiff
    rw [agree_iff_div _ _ _ (by omega) hcw hnw] at hag
    have a1 := Nat.div_le_div_right (c := 2 ^ (128 - min c.len n.px.len)) (Nat.le_of_lt hval)
    simp only [past, decide_eq_true_eq]
    omega

theorem in_use_find {px : Prefix} {used : List prefix_node} (h : in_use px used = true) :
    ∃ n, used.find? (collides px) = some n ∧ n ∈ used ∧ collides px n = true := by
  cases hf : used.find? (collides px) with
  | none =>
    rw [List.find?_eq_none] at hf
    simp only [in_use, List.any_eq_true] at h
    obtain ⟨n, hn, hc⟩ := h
    exact absurd hc (hf n hn)
  | some n =>
    exact ⟨n, rfl, List.mem_of_find?_eq_some hf, by simpa using List.find?_some hf⟩

theorem scan_round_stop (pxu : Prefix) (used : List prefix_node) (start : Prefix) (fuel : Nat)
    (px : Prefix) (looped : Bool) (hc : (!looped || ipa_less px.addr start.addr) = false) :
    choose_scan pxu used start (fuel + 1) px looped = .ok (.PXCHOOSE_FAILURE, px) := by
  rw [choose_scan, hc]
  rfl

theorem scan_round_free (pxu : Prefix) (used : List prefix_node) (start : Prefix) (fuel : Nat)
    (px : Prefix) (looped : Bool) (hc : (!looped || ipa_less px.addr start.addr) = true)
    (hu : in_use (scan_enter pxu px looped).1 used = false) :
    choose_scan pxu used start (fuel + 1) px looped
      = .ok (.PXCHOOSE_SUCCESS, (scan_enter pxu px looped).1) := by
  rw [choose_scan, hc]
  simp only [if_true, hu, Bool.not_false]

theorem scan_round_advance (pxu : Prefix) (used : List prefix_node) (start : Prefix) (fuel : Nat)
    (px px1 : Prefix) (looped : Bool) (n : prefix_node)
    (hc : (!looped || ipa_less px.addr start.addr) = true)
    (hu : in_use (scan_enter pxu px looped).1 used = true)
    (hf : used.find? (collides (scan_enter pxu px looped).1) = some n)
    (hn : next_prefix (scan_enter pxu px looped).1 n.px = .ok px1) :
    choose_scan pxu used start (fuel + 1) px looped
      = choose_scan pxu used start fuel px1 (scan_enter pxu px looped).2 := by
  rw [choose_scan, hc]
  simp only [if_true, hu, Bool.not_true, Bool.false_eq_true, if_false]
  unfold scan_advance
  rw [hf]
  simp only [hn]

theorem scan_round_fault (pxu : Prefix) (used : List prefix_node) (start : Prefix) (fuel : Nat)
    (px : Prefix) (looped : Bool) (n : prefix_node) (f : Fault)
    (hc : (!looped || ipa_less px.addr start.addr) = true)
    (hu : in_use (scan_enter pxu px looped).1 used = true)
    (hf : used.find? (collides (scan_enter pxu px looped).1) = some n)
    (hn : next_prefix (scan_enter pxu px looped).1 n.px = .error f) :
    choose_scan pxu used start (fuel + 1) px looped = .error f := by
  rw [choose_scan, hc]
  simp only [if_true, hu, Bool.not_true, Bool.false_eq_true, if_false]
  unfold scan_advance
  rw [hf]
  simp only [hn]

/-- The scan after the candidate has been reset to the start of the usable
prefix: it ends within one round per used element the candidate has not
passed, plus two. -/
theorem scan_bounded_looped (pxu : Prefix) (used : List prefix_node) (start : Prefix) (L : Nat)
    (hu1 : pxu.len ≤ L) (hL : L ≤ 128) (hL1 : 1 ≤ L)
    (hum : ipa_and pxu.addr (ipa_mkmask pxu.len) = pxu.addr)
    (hsw : ∀ j, j < 4 → start.addr.word j < 2 ^ 32)
    (hsu : agree start.addr pxu.addr pxu.len)
    (hused : ∀ n ∈ used, 1 ≤ n.px.len ∧ n.px.len ≤ 128
      ∧ ipa_and n.px.addr (ipa_mkmask n.px.len) = n.px.addr) :
    ∀ (fuel : Nat) (px : Prefix), px.len = L → ipa_and px.addr (ipa_mkmask px.len) = px.addr →
      addr_val pxu.addr ≤ addr_val px.addr → live L used px.addr + 2 ≤ fuel →
      choose_scan pxu used start fuel px true ≠ .error .out_of_fuel := by
  intro fuel
  induction fuel with
  | zero => intro px _ _ _ hf; omega
  | succ fuel ih =>
    intro px hlen hpm hge hfuel
    cases hc : (!true || ipa_less px.addr start.addr) with
    | false =>
      rw [scan_round_stop _ _ _ _ _ _ hc]
      intro h; cases h
    | true =>
      have hless : ipa_less px.addr start.addr = true := by simpa using hc
      have hpw := masked_words_lt hpm
      have huw := masked_words_lt hum
      have hval := ipa_less_val hpw hless
      have hinside : net_in_net px.addr px.len pxu.addr pxu.len = true := by
        rw [net_in_net_iff]
        exact ⟨by omega, between_inside (by omega) huw hpw hsw hsu hge (Nat.le_of_lt hval)⟩
      have he : scan_enter pxu px true = (px, true) := by
        unfold scan_enter
        rw [hinside]
        rfl
      cases hu : in_use (scan_enter pxu px true).1 used with
      | false =>
        rw [scan_round_free _ _ _ _ _ _ hc hu]
        intro h; cases h
      | true =>
        obtain ⟨n, hf, hmem, hcol⟩ := in_use_find hu
        obtain ⟨hn1, hn2, hnm⟩ := hused n hmem
        cases hn : next_prefix (scan_enter pxu px true).1 n.px with
        | error f =>
          rw [scan_round_fault _ _ _ _ _ _ _ _ hc hu hf hn]
          intro h
          simp only [Except.error.injEq] at h
          have := next_prefix_fault _ _ f hn
          rw [h] at this
          cases this
        | ok px1 =>
          rw [scan_round_advance _ _ _ _ _ _ _ _ hc hu hf hn]
          rw [he] at hn hcol ⊢
          simp only at hn hcol ⊢
          obtain ⟨a1, a2, a3, a4⟩ := advance_past (by omega) (by omega) hpm hn1 hn2 hnm hcol hn
          rw [hlen] at a4
          have hnot : past L px.addr n = false := by
            cases hp : past L px.addr n with
            | false => rfl
            | true =>
              have := past_not_collides hL hpw (masked_words_lt hnm) hp
              rw [← hlen] at this
              rw [this] at hcol
              cases hcol
          have hlt := live_lt (Nat.le_of_lt a3) hnot a4 used hmem
          exact ih px1 (by rw [a1, hlen]) a2 (by omega) (by omega)


/-- The scan before the candidate has been reset: it ends within one round
per used element the candidate has not passed, one round per used element after
the reset, plus three. -/
theorem scan_bounded_fresh (pxu : Prefix) (used : List prefix_node) (start : Prefix) (L : Nat)
    (hu1 : pxu.len ≤ L) (hL : L ≤ 128) (hL1 : 1 ≤ L)
    (hum : ipa_and pxu.addr (ipa_mkmask pxu.len) = pxu.addr)
    (hsw : ∀ j, j < 4 → start.addr.word j < 2 ^ 32)
    (hsu : agree start.addr pxu.addr pxu.len)
    (hused : ∀ n ∈ used, 1 ≤ n.px.len ∧ n.px.len ≤ 128
      ∧ ipa_and n.px.addr (ipa_mkmask n.px.len) = n.px.addr) :
    ∀ (fuel : Nat) (px : Prefix), px.len = L → ipa_and px.addr (ipa_mkmask px.len) = px.addr →
      live L used px.addr + used.length + 3 ≤ fuel →
      choose_scan pxu used start fuel px false ≠ .error .out_of_fuel := by
  intro fuel
  induction fuel with
  | zero => intro px _ _ hf; omega
  | succ fuel ih =>
    intro px hlen hpm hfuel
    have hc : (!false || ipa_less px.addr start.addr) = true := rfl
    have hpw := masked_words_lt hpm
    cases hu : in_use (scan_enter pxu px false).1 used with
    | false =>
      rw [scan_round_free _ _ _ _ _ _ hc hu]
      intro h; cases h
    | true =>
      obtain ⟨n, hf, hmem, hcol⟩ := in_use_find hu
      obtain ⟨hn1, hn2, hnm⟩ := hused n hmem
      cases hn : next_prefix (scan_enter pxu px false).1 n.px with
      | error f =>
        rw [scan_round_fault _ _ _ _ _ _ _ _ hc hu hf hn]
        intro h
        simp only [Except.error.injEq] at h
        have := next_prefix_fault _ _ f hn
        rw [h] at this
        cases this
      | ok px1 =>
        rw [scan_round_advance _ _ _ _ _ _ _ _ hc hu hf hn]
        cases hinside : net_in_net px.addr px.len pxu.addr pxu.len with
        | true =>
          have he : scan_enter pxu px false = (px, false) := by
            unfold scan_enter
            rw [hinside]
            rfl
          rw [he] at hn hcol ⊢
          simp only at hn hcol ⊢
          obtain ⟨a1, a2, a3, a4⟩ := advance_past (by omega) (by omega) hpm hn1 hn2 hnm hcol hn
          rw [hlen] at a4
          have hnot : past L px.addr n = false := by
            cases hp : past L px.addr n with
            | false => rfl
            | true =>
              have := past_not_collides hL hpw (masked_words_lt hnm) hp
              rw [← hlen] at this
              rw [this] at hcol
              cases hcol
          have hlt := live_lt (Nat.le_of_lt a3) hnot a4 used hmem
          exact ih px1 (by rw [a1, hlen]) a2 (by omega)
        | false =>
          have he : scan_enter pxu px false = ({ px with addr := pxu.addr }, true) := by
            unfold scan_enter
            rw [hinside]
            rfl
          rw [he] at hn hcol ⊢
          simp only at hn hcol ⊢
          have hcm : ipa_and pxu.addr (ipa_mkmask px.len) = pxu.addr :=
            masked_mono (by omega) hum
          obtain ⟨a1, a2, a3, a4⟩ := @advance_past { px with addr := pxu.addr } px1 n
            (by simp only; omega) (by simp only; omega) hcm hn1 hn2 hnm hcol hn
          simp only at a1 a3
          have hl := live_le_length L used px1.addr
          exact scan_bounded_looped pxu used start L hu1 hL hL1 hum hsw hsu hused fuel px1
            (by rw [a1, hlen]) a2 (Nat.le_of_lt a3) (by omega)

theorem random_prefix_masked (md5 : Digest) (usp : Prefix) (len rid : Nat) (ifname : String)
    (i : Nat) (hm : ipa_and usp.addr (ipa_mkmask usp.len) = usp.addr) (h1 : usp.len ≤ len) :
    ipa_and ( random_prefix md5 usp len rid ifname i) (ipa_mkmask len)
      = random_prefix md5 usp len rid ifname i := by
  apply masked_of_words
  intro j hj
  rw [random_word md5 usp len rid ifname i hj]
  exact random_word_masked _ _ _ _ (by omega) (Nat.min_le_right _ _) (masked_word hm hj)

/-- The linear scan of choose_prefix is bounded. For a usable prefix with a
masked address, a length `len` with `1 ≤ len`, `pxu.len ≤ len ≤ 128`, and a
used list whose elements have lengths in 1..128 and masked addresses, the fuel
`2 * used.length + 3` is never used up: choose_prefix returns, or it ends in
the read outside the address array of next_prefix. -/
theorem choose_prefix_bounded (md5 : Digest) (pxu : Prefix) (len : Nat)
    (used : List prefix_node) (rid : Nat) (ifname : String) (fuel : Nat)
    (hu1 : pxu.len ≤ len) (hL : len ≤ 128) (hL1 : 1 ≤ len)
    (hum : ipa_and pxu.addr (ipa_mkmask pxu.len) = pxu.addr)
    (hused : ∀ n ∈ used, 1 ≤ n.px.len ∧ n.px.len ≤ 128
      ∧ ipa_and n.px.addr (ipa_mkmask n.px.len) = n.px.addr)
    (hfuel : 2 * used.length + 3 ≤ fuel) :
    choose_prefix md5 fuel pxu len used rid ifname ≠ .error .out_of_fuel := by
  unfold choose_prefix
  cases hr : choose_random md5 pxu len used rid ifname 0 10 with
  | some px =>
    simp only
    intro h; cases h
  | none =>
    simp only
    have hm := random_prefix_masked md5 pxu len rid ifname 9 hum hu1
    have hin := random_prefix_inside md5 pxu len rid ifname 9 hu1
    rw [net_in_net_iff] at hin
    have hl := live_le_length len used ( random_prefix md5 pxu len rid ifname 9)
    exact scan_bounded_fresh pxu used ⟨ random_prefix md5 pxu len rid ifname 9, len⟩ len hu1 hL hL1
      hum (masked_words_lt hm) hin.2 hused fuel ⟨ random_prefix md5 pxu len rid ifname 9, len⟩
      rfl hm (by
        show live len used ( random_prefix md5 pxu len rid ifname 9) + used.length + 3 ≤ fuel
        omega)

end Pxassign
